import Mathlib

/-!
# Extended ACL of neofs-sdk-go: the policy table and its decision procedure

Shallow embedding of `container/acl/extended.go`, followed by the object type of
`object/object.go` with `object/lock.go`, `object/split.go`, `object/tombstone.go`,
`object/storage_group.go` and `object/search.go`, and by the bearer token as the spec
describes it.

* Go slices are lists, Go `[]byte` is `List Nat`, Go `uint32` enumerations are `Nat`
  (no arithmetic is done on them, only comparisons with constants).
* A Go `error` result is `Option Error` (`none` is the `nil` error).
* A Go panic is `Except.error msg`; a normal return is `Except.ok`.
* The messages of `neofs-api-go/v2` (`acl.Table`, `acl.Record`, `acl.Target`,
  `acl.HeaderFilter`) are plain structures whose getters are the field projections.
-/

namespace Eacl

/-! ## Protocol enumerations (`neofs-api-go/v2/acl`) -/

/-- Protocol constant `acl.ActionAllow`. -/
def ActionAllow : Nat := 1
/-- Protocol constant `acl.ActionDeny`. -/
def ActionDeny : Nat := 2

/-- Protocol constant `acl.MatchTypeStringEqual`. -/
def MatchTypeStringEqual : Nat := 1
/-- Protocol constant `acl.MatchTypeStringNotEqual`. -/
def MatchTypeStringNotEqual : Nat := 2

/-- Protocol constant `acl.HeaderTypeRequest`. -/
def HeaderTypeRequest : Nat := 1
/-- Protocol constant `acl.HeaderTypeObject`. -/
def HeaderTypeObject : Nat := 2
/-- Protocol constant `acl.HeaderTypeService`. -/
def HeaderTypeService : Nat := 3

/-- Protocol constant `acl.RoleUser`. -/
def RoleUser : Nat := 1
/-- Protocol constant `acl.RoleSystem`. -/
def RoleSystem : Nat := 2
/-- Protocol constant `acl.RoleOthers` (not to be confused with the SDK role
`RoleOthers`). -/
def V2RoleOthers : Nat := 3

/-! ## SDK enumerations -/

/-- SDK requester role (`type Role`, an unsigned integer enumeration). -/
abbrev Role := Nat
/-- SDK operation (`type Op`, an unsigned integer enumeration). -/
abbrev Op := Nat

/-- Modelled from the spec: the declaration of the `Role` constants is not among the
sources. The spec lists the roles as Owner, Container, InnerRing, Others; the code
brackets them with `roleZero` and `roleLast` and the tests use `RoleOwner + 1` as
another supported role. -/
def roleZero : Role := 0
/-- Container owner; see `roleZero`. -/
def RoleOwner : Role := 1
/-- Nodes of the container; see `roleZero`. -/
def RoleContainer : Role := 2
/-- Inner Ring nodes; see `roleZero`. -/
def RoleInnerRing : Role := 3
/-- Everybody else; see `roleZero`. -/
def RoleOthers : Role := 4
/-- Upper bracket of the supported roles; see `roleZero`. -/
def roleLast : Role := 5

/-- Modelled from the spec: the declaration of the `Op` constants is not among the
sources; `OpObjectGet` is the first verb the spec lists and the tests use
`OpObjectGet + 1` as another operation. -/
def OpObjectGet : Op := 1

/-- The two conversion helpers `castOp` and `castRole` that `extended.go` calls are not
among the sources. They are taken as parameters: every function below that calls one of
them receives them in a `Casts`. -/
structure Casts where
  /-- Conversion of an SDK operation to the protocol operation (`castOp`). -/
  castOp : Op → Nat
  /-- Conversion of an SDK requester role to the protocol role (`castRole`). -/
  castRole : Role → Nat

/-! ## Messages -/

/-- The `refs.Version` message. -/
structure Version where
  major : Nat
  minor : Nat
deriving DecidableEq, Repr

/-- The `refs.ContainerID` message: the raw bytes of the identifier. -/
structure ContainerID where
  value : List Nat
deriving DecidableEq, Repr

/-- The `acl.HeaderFilter` message. -/
structure HeaderFilter where
  hdrType : Nat
  matchType : Nat
  key : String
  value : String
deriving DecidableEq, Repr

/-- The `acl.Target` message. -/
structure Target where
  role : Nat
  keys : List (List Nat)
deriving DecidableEq, Repr

/-- The `acl.Record` message. -/
structure Record where
  op : Nat
  action : Nat
  filters : List HeaderFilter
  targets : List Target
deriving DecidableEq, Repr

/-- The `acl.Table` message. -/
structure Table where
  version : Option Version
  cid : Option ContainerID
  records : List Record
deriving DecidableEq, Repr

/-! ## SDK types -/

/-- Go type: `type Extended struct { m acl.Table }`. -/
structure Extended where
  m : Table
deriving DecidableEq, Repr

/-- Go type: `type Rule struct { m acl.Record }`. -/
structure Rule where
  m : Record
deriving DecidableEq, Repr

/-- Go type: `type Filter struct { m acl.HeaderFilter }`. -/
structure Filter where
  m : HeaderFilter
deriving DecidableEq, Repr

/-- Go type: `type RuleTarget struct { role Role; keys [][]byte }`. -/
structure RuleTarget where
  role : Role
  keys : List (List Nat)
deriving DecidableEq, Repr

/-- Go type: `type Header struct { key, val string }`. -/
structure Header where
  key : String
  val : String
deriving DecidableEq, Repr

/-- Go type: `type RequestMetadata struct { requestHeaders, objectHeaders []Header }`. -/
structure RequestMetadata where
  requestHeaders : List Header
  objectHeaders : List Header
deriving DecidableEq, Repr

/-- Modelled from the spec: `neofscrypto.PublicKey` and `neofscrypto.SerializePublicKey`
are not among the sources. A public key is represented by the bytes it serializes to,
which is all `extended.go` ever uses of it. A `nil` key is `none : Option PublicKey`. -/
structure PublicKey where
  bin : List Nat
deriving DecidableEq, Repr

/-- Serialized form of a key; see `PublicKey`. -/
def SerializePublicKey (k : PublicKey) : List Nat := k.bin

/-- Modelled from the spec: `version.Current` is not among the sources; `NewExtended`
only stores it, no operation of the table inspects its numbers. -/
def versionCurrent : Version := ⟨2, 13⟩

/-- Values of the Go `error` that `CheckAccess` returns. The two sentinel errors are
`ErrAccessDenied` and `ErrRuleNotFound`; the three others are the `fmt.Errorf` values,
kept as their arguments instead of the formatted text. None of them wraps a sentinel. -/
inductive Error where
  | ErrAccessDenied
  | ErrRuleNotFound
  | unsupportedHeaderType (hdrType rule filter : Nat)
  | unsupportedMatcher (matchType rule filter : Nat)
  | unsupportedAction (rule action : Nat)
deriving DecidableEq, Repr

/-! ## Table construction -/

/-- Go `NewExtended`. -/
def NewExtended (rule : Rule) : Extended :=
  ⟨⟨some versionCurrent, none, [rule.m]⟩⟩

/-- Go `(*Extended).AddRule`. -/
def Extended.AddRule (x : Extended) (rule : Rule) : Extended :=
  ⟨{ x.m with records := x.m.records ++ [rule.m] }⟩

/-- Go `(*Extended).SetFirstRule`. -/
def Extended.SetFirstRule (x : Extended) (rule : Rule) : Extended :=
  ⟨{ x.m with records := [rule.m] ++ x.m.records }⟩

/-! ## CheckAccess -/

/-- The loop `for k := range ks` of `targetsLoop`: is some key of the target equal to the
serialized sender key. -/
def keysLoop (bKey : List Nat) : List (List Nat) → Bool
  | [] => false
  | k :: ks => if k = bKey then true else keysLoop bKey ks

/-- The loop `targetsLoop` of `CheckAccess`: the final value of `subjectMatches`.
`role` is `castRole(senderRole)`. -/
def targetsLoop (bKey : List Nat) (role : Nat) : List Target → Bool
  | [] => false
  | t :: ts =>
    if t.keys.length = 0 then
      if t.role = role then true else targetsLoop bKey role ts
    else
      if keysLoop bKey t.keys then true else targetsLoop bKey role ts

/-- The loop `for k := range hs` of `filterLoop`: `true` when `headersMatched` is
incremented. `matcher` receives the rule header value first. -/
def headersLoop (matcher : String → String → Bool) (ruleHeaderKey ruleHeaderValue : String) :
    List Header → Bool
  | [] => false
  | h :: hs =>
    if h.key ≠ ruleHeaderKey then headersLoop matcher ruleHeaderKey ruleHeaderValue hs
    else if matcher ruleHeaderValue h.val then true
    else headersLoop matcher ruleHeaderKey ruleHeaderValue hs

/-- The loop `filterLoop` of `CheckAccess` for rule `i`, entered at filter `j` with the
current value of `headersMatched`. Returns the final `headersMatched`, or the error the
function returns from inside the loop. -/
def filterLoop (i : Nat) (md : RequestMetadata) :
    Nat → List HeaderFilter → Nat → Except Error Nat
  | _, [], headersMatched => .ok headersMatched
  | j, f :: fs, headersMatched =>
    if f.hdrType = HeaderTypeService then .ok headersMatched
    else if f.hdrType = HeaderTypeRequest ∨ f.hdrType = HeaderTypeObject then
      let hs := if f.hdrType = HeaderTypeRequest then md.requestHeaders else md.objectHeaders
      if f.matchType = MatchTypeStringEqual then
        filterLoop i md (j + 1) fs
          (if headersLoop (fun ruleHeader requestHeader => ruleHeader = requestHeader)
              f.key f.value hs then headersMatched + 1 else headersMatched)
      else if f.matchType = MatchTypeStringNotEqual then
        filterLoop i md (j + 1) fs
          (if headersLoop (fun ruleHeader requestHeader => ruleHeader ≠ requestHeader)
              f.key f.value hs then headersMatched + 1 else headersMatched)
      else .error (.unsupportedMatcher f.matchType i j)
    else .error (.unsupportedHeaderType f.hdrType i j)

/-- The loop `for i := range rs` of `CheckAccess`, entered at rule `i`, followed by the
final `return ErrRuleNotFound`. `opV2` is `castOp(op)`, `roleV2` is
`castRole(senderRole)`. -/
def rulesLoop (bKey : List Nat) (roleV2 opV2 : Nat) (md : RequestMetadata) :
    Nat → List Record → Option Error
  | _, [] => some .ErrRuleNotFound
  | i, r :: rs =>
    if r.op ≠ opV2 then rulesLoop bKey roleV2 opV2 md (i + 1) rs
    else if targetsLoop bKey roleV2 r.targets = false then
      rulesLoop bKey roleV2 opV2 md (i + 1) rs
    else
      match filterLoop i md 0 r.filters 0 with
      | .error e => some e
      | .ok headersMatched =>
        if headersMatched ≥ r.filters.length then
          if r.action = ActionAllow then none
          else if r.action = ActionDeny then some .ErrAccessDenied
          else some (.unsupportedAction i r.action)
        else rulesLoop bKey roleV2 opV2 md (i + 1) rs

/-- Go `Extended.CheckAccess`. The result is `Except.error` when the call panics, otherwise
`Except.ok` of the returned Go error (`none` for `nil`, that is, access allowed). -/
def Extended.CheckAccess (c : Casts) (x : Extended) (senderKey : Option PublicKey)
    (senderRole : Role) (op : Op) (md : RequestMetadata) : Except String (Option Error) :=
  match senderKey with
  | none => .error "missing sender key"
  | some key =>
    .ok (rulesLoop (SerializePublicKey key) (c.castRole senderRole) (c.castOp op) md
      0 x.m.records)

/-! ## Rule construction -/

/-- Go `checkTarget`: it panics on a target with neither a role nor keys. -/
def checkTarget (t : RuleTarget) : Except String Unit :=
  if t.role = 0 ∧ t.keys.length = 0 then .error "uninitialized rule target" else .ok ()

/-- The inner loop `for j := range mts` of `AddTargetSubjects`: appends `keys` to the key
list of the first target without a role; `none` when there is no such target. -/
def appendKeys (keys : List (List Nat)) : List Target → Option (List Target)
  | [] => none
  | t :: mts =>
    if t.role = 0 then some ({ t with keys := t.keys ++ keys } :: mts)
    else (appendKeys keys mts).map (fun mts2 => t :: mts2)

/-- The role switch of `AddTargetSubjects`: the protocol role stored for an SDK role,
`none` for the `default` branch, which panics. -/
def roleSwitch (role : Role) : Option Nat :=
  if role = RoleOwner then some RoleUser
  else if role = RoleContainer ∨ role = RoleInnerRing then some RoleSystem
  else if role = RoleOthers then some V2RoleOthers
  else none

/-- Go `(*Rule).AddTargetSubjects`. -/
def Rule.AddTargetSubjects (x : Rule) : List RuleTarget → Except String Rule
  | [] => .ok x
  | t :: ts =>
    match checkTarget t with
    | .error e => .error e
    | .ok () =>
      if t.role > 0 then
        match roleSwitch t.role with
        | none => .error "unsupported role"
        | some r2 =>
          Rule.AddTargetSubjects ⟨{ x.m with targets := x.m.targets ++ [⟨r2, []⟩] }⟩ ts
      else
        match appendKeys t.keys x.m.targets with
        | some mts => Rule.AddTargetSubjects ⟨{ x.m with targets := mts }⟩ ts
        | none =>
          Rule.AddTargetSubjects ⟨{ x.m with targets := x.m.targets ++ [⟨0, t.keys⟩] }⟩ ts

/-- Go `newRule`. The rule starts as the zero `acl.Record`. -/
def newRule (c : Casts) (action : Nat) (target : RuleTarget) (op : Op) : Except String Rule :=
  match checkTarget target with
  | .error e => .error e
  | .ok () =>
    if op = 0 then .error "uninitialized operation"
    else Rule.AddTargetSubjects ⟨⟨c.castOp op, action, [], []⟩⟩ [target]

/-- Go `Allow`. -/
def Allow (c : Casts) (op : Op) (target : RuleTarget) : Except String Rule :=
  newRule c ActionAllow target op

/-- Go `Deny`. -/
def Deny (c : Casts) (op : Op) (target : RuleTarget) : Except String Rule :=
  newRule c ActionDeny target op

/-- The loop of `SubjectsWithKeys` that serializes the keys, panicking on a `nil` one. -/
def serializeKeys : List (Option PublicKey) → Except String (List (List Nat))
  | [] => .ok []
  | none :: _ => .error "nil key in list"
  | some k :: ks =>
    match serializeKeys ks with
    | .error e => .error e
    | .ok bKeys => .ok (SerializePublicKey k :: bKeys)

/-- Go `SubjectsWithKeys`. -/
def SubjectsWithKeys (keys : List (Option PublicKey)) : Except String RuleTarget :=
  if keys.length = 0 then .error "missing key list"
  else
    match serializeKeys keys with
    | .error e => .error e
    | .ok bKeys => .ok ⟨0, bKeys⟩

/-- Go `SubjectsWithRole`. -/
def SubjectsWithRole (role : Role) : Except String RuleTarget :=
  if role ≤ roleZero ∨ role ≥ roleLast then .error "unsupported role"
  else .ok ⟨role, []⟩

/-- Go `NewHeader`. -/
def NewHeader (key value : String) : Header := ⟨key, value⟩

/-- Go type: `type Matcher = func(*Filter)`; a `nil` matcher is `none : Option Matcher`. -/
abbrev Matcher := Filter → Filter

/-- Go `MatchEquals`. -/
def MatchEquals : Matcher := fun f => ⟨{ f.m with matchType := MatchTypeStringEqual }⟩

/-- Go `MatchNotEquals`. -/
def MatchNotEquals : Matcher := fun f => ⟨{ f.m with matchType := MatchTypeStringNotEqual }⟩

/-- Go `newFilter`. -/
def newFilter (typ : Nat) (m : Option Matcher) (h : Header) : Except String Filter :=
  match m with
  | none => .error "nil matcher"
  | some m => .ok (m ⟨⟨typ, 0, h.key, h.val⟩⟩)

/-- Go `MatchRequestHeader`. -/
def MatchRequestHeader (m : Option Matcher) (h : Header) : Except String Filter :=
  newFilter HeaderTypeRequest m h

/-- Go `MatchObjectHeader`. -/
def MatchObjectHeader (m : Option Matcher) (h : Header) : Except String Filter :=
  newFilter HeaderTypeObject m h

/-- The loop of `FilterBy`: copies the messages, panicking on a zero `Filter`. -/
def filterMessages : List Filter → Except String (List HeaderFilter)
  | [] => .ok []
  | f :: fs =>
    if f = ⟨⟨0, 0, "", ""⟩⟩ then .error "uninitialized filter"
    else
      match filterMessages fs with
      | .error e => .error e
      | .ok mfs => .ok (f.m :: mfs)

/-- Go `(*Rule).FilterBy`. -/
def Rule.FilterBy (x : Rule) (fs : List Filter) : Except String Rule :=
  match filterMessages fs with
  | .error e => .error e
  | .ok mfs => .ok ⟨{ x.m with filters := mfs }⟩

/-- The zero value `Filter{}`. -/
def zeroFilter : Filter := ⟨⟨0, 0, "", ""⟩⟩

/-- The body of `FilterBy` with the receiver made explicit: the loop entered at filter
`i` with the messages copied so far, followed by `x.m.SetFilters(mfs)`. The result is the
receiver after the call and the panic message, if the call panics. -/
def filterByLoop (x : Rule) : Nat → List Filter → List HeaderFilter → Rule × Option String
  | _, [], mfs => (⟨{ x.m with filters := mfs }⟩, none)
  | i, f :: fs, mfs =>
    if f = ⟨⟨0, 0, "", ""⟩⟩ then (x, some "uninitialized filter")
    else filterByLoop x (i + 1) fs (mfs ++ [f.m])

/-- Go `(*Rule).FilterBy` as a state change: the receiver after the call and the panic
message, if the call panics. -/
def Rule.FilterByState (x : Rule) (fs : List Filter) : Rule × Option String :=
  filterByLoop x 0 fs []

/-- Protocol constant `acl.FilterObjectID`, the reserved header name of the object
identifier. -/
def FilterObjectID : String := "$Object:objectID"

/-- Go `ObjectIDHeader`. The type `oid.ID` and its method `EncodeToString` are not among
the sources: identifiers are values of a type `ID` and `EncodeToString` is a parameter. -/
def ObjectIDHeader {ID : Type} (EncodeToString : ID → String) (id : ID) : Header :=
  NewHeader FilterObjectID (EncodeToString id)

/-- Go `ByObjectID`. -/
def ByObjectID {ID : Type} (EncodeToString : ID → String) (id : ID) : Except String Filter :=
  MatchObjectHeader (some MatchEquals) (ObjectIDHeader EncodeToString id)

/-- Go `ExcludeObjectID`. -/
def ExcludeObjectID {ID : Type} (EncodeToString : ID → String) (id : ID) :
    Except String Filter :=
  MatchObjectHeader (some MatchNotEquals) (ObjectIDHeader EncodeToString id)

/-- The check of `TestByObjectID`: `CheckAccess` for a requester of role `role` on the
single-rule table of `Allow(op, SubjectsWithRole(role))` filtered by the filter `mk id`,
for a request whose object headers are `[ObjectIDHeader(id2)]`. -/
def checkObjectID {ID : Type} (EncodeToString : ID → String)
    (mk : (ID → String) → ID → Except String Filter) (c : Casts) (role : Role) (op : Op)
    (key : PublicKey) (reqs : List Header) (id id2 : ID) : Except String (Option Error) := do
  let t ← SubjectsWithRole role
  let r ← Allow c op t
  let f ← mk EncodeToString id
  let r2 ← r.FilterBy [f]
  (NewExtended r2).CheckAccess c (some key) role op ⟨reqs, [ObjectIDHeader EncodeToString id2]⟩

/-- A sequence of `AddTargetSubjects` calls on the same rule, one call per list of
targets. -/
def Rule.addTargetSubjectsCalls (x : Rule) : List (List RuleTarget) → Except String Rule
  | [] => .ok x
  | ts :: calls =>
    match x.AddTargetSubjects ts with
    | .error e => .error e
    | .ok y => y.addTargetSubjectsCalls calls

/-! ## Decoding (`readFromV2`, `verifyRule`) -/

/-- Values of the Go `error` that `verifyRule` returns, kept as the arguments of the
`fmt.Errorf` calls. -/
inductive VerifyError where
  | missingTargets
  | emptyTarget (target : Nat)
  | roleWithKeys (role target : Nat)
  | emptyKey (key target : Nat)
  | missingFilterKey (filter : Nat)
  | missingFilterValue (filter : Nat)
deriving DecidableEq, Repr

/-- Values of the Go `error` that `readFromV2` returns. -/
inductive DecodeError where
  | missingVersion
  | invalidContainerID
  | missingRules
  | invalidRule (rule : Nat)
deriving DecidableEq, Repr

/-- The loop `for j := range ks` of `verifyRule` for target `i`, entered at key `j`. -/
def verifyKeys (i : Nat) : Nat → List (List Nat) → Option VerifyError
  | _, [] => none
  | j, k :: ks => if k.length = 0 then some (.emptyKey j i) else verifyKeys i (j + 1) ks

/-- The loop `for i := range ts` of `verifyRule`, entered at target `i`. -/
def verifyTargets (checkFieldPresence : Bool) : Nat → List Target → Option VerifyError
  | _, [] => none
  | i, t :: ts =>
    if checkFieldPresence = true ∧ t.role = 0 ∧ t.keys.length = 0 then some (.emptyTarget i)
    else if t.role ≠ 0 ∧ t.keys.length > 0 then some (.roleWithKeys t.role i)
    else
      match verifyKeys i 0 t.keys with
      | some e => some e
      | none => verifyTargets checkFieldPresence (i + 1) ts

/-- The loop `for i := range fs` of `verifyRule`, entered at filter `i`. -/
def verifyFilters (checkFieldPresence : Bool) : Nat → List HeaderFilter → Option VerifyError
  | _, [] => none
  | i, f :: fs =>
    if checkFieldPresence = true ∧ f.key = "" then some (.missingFilterKey i)
    else if checkFieldPresence = true ∧ f.value = "" then some (.missingFilterValue i)
    else verifyFilters checkFieldPresence (i + 1) fs

/-- Go `verifyRule`. -/
def verifyRule (m : Record) (checkFieldPresence : Bool) : Option VerifyError :=
  if checkFieldPresence = true ∧ m.targets.length = 0 then some .missingTargets
  else
    match verifyTargets checkFieldPresence 0 m.targets with
    | some e => some e
    | none => verifyFilters checkFieldPresence 0 m.filters

/-- The loop `for i := range rs` of `readFromV2`, entered at rule `i`. -/
def verifyRules (checkFieldPresence : Bool) : Nat → List Record → Option DecodeError
  | _, [] => none
  | i, r :: rs =>
    match verifyRule r checkFieldPresence with
    | some _ => some (.invalidRule i)
    | none => verifyRules checkFieldPresence (i + 1) rs

/-- The block `if mCnr := m.GetContainerID(); mCnr != nil` of `readFromV2`: `true` when
it returns the error "invalid container ID". The format check of the container
identifier, `cid.ID.ReadFromV2`, is not among the sources: `validCID` tells for which
identifier messages it returns no error. -/
def containerIDFails (validCID : ContainerID → Bool) : Option ContainerID → Bool
  | some mCnr => !validCID mCnr
  | none => false

/-- Go `(*Extended).readFromV2`. The result is the receiver after the call and the
returned error. -/
def Extended.readFromV2 (validCID : ContainerID → Bool) (x : Extended) (m : Table)
    (checkFieldPresence : Bool) : Extended × Option DecodeError :=
  if checkFieldPresence = true ∧ m.version = none then (x, some .missingVersion)
  else if containerIDFails validCID m.cid = true then (x, some .invalidContainerID)
  else if checkFieldPresence = true ∧ m.records.length = 0 then (x, some .missingRules)
  else
    match verifyRules checkFieldPresence 0 m.records with
    | some e => (x, some e)
    | none => (⟨m⟩, none)

/-- Go `(*Extended).ReadFromV2`. -/
def Extended.ReadFromV2 (validCID : ContainerID → Bool) (x : Extended) (m : Table) :
    Extended × Option DecodeError :=
  x.readFromV2 validCID m true

/-- Go `Extended.WriteToV2`: the message written. -/
def Extended.WriteToV2 (x : Extended) : Table := x.m

/-- Values of the Go `error` that `Unmarshal` and `UnmarshalJSON` return: the error of
the protocol codec, or the error of `readFromV2`. -/
inductive UnmarshalError where
  | codec
  | table (e : DecodeError)
deriving DecidableEq, Repr

/-- Go `(*Extended).Unmarshal`. The binary codec of the protocol messages is an external
collaborator: `decode` is `acl.Table.Unmarshal`, `none` when it returns an error. -/
def Extended.Unmarshal (decode : List Nat → Option Table) (validCID : ContainerID → Bool)
    (x : Extended) (data : List Nat) : Extended × Option UnmarshalError :=
  match decode data with
  | none => (x, some .codec)
  | some m => ((x.readFromV2 validCID m false).1, (x.readFromV2 validCID m false).2.map .table)

/-- Go `(*Extended).UnmarshalJSON`; `decodeJSON` is `acl.Table.UnmarshalJSON`. -/
def Extended.UnmarshalJSON (decodeJSON : List Nat → Option Table)
    (validCID : ContainerID → Bool) (x : Extended) (data : List Nat) :
    Extended × Option UnmarshalError :=
  match decodeJSON data with
  | none => (x, some .codec)
  | some m => ((x.readFromV2 validCID m false).1, (x.readFromV2 validCID m false).2.map .table)

/-! ## Reference semantics: what the spec says a rule is and when it applies -/

/-- Spec: a role target (no keys) matches iff its role is the requester role as
converted; a key target matches iff the serialized requester key is among its keys. -/
def Target.Matches (bKey : List Nat) (roleV2 : Nat) (t : Target) : Prop :=
  (t.keys = [] ∧ t.role = roleV2) ∨ bKey ∈ t.keys

/-- Spec: a rule matches the subject iff any of its targets matches. -/
def Record.SubjectMatches (bKey : List Nat) (roleV2 : Nat) (r : Record) : Prop :=
  ∃ t ∈ r.targets, Target.Matches bKey roleV2 t

/-- Spec: the header list a filter of the given scope is looked up in. Only the Request
and Object scopes have one. -/
def scopeHeaders (md : RequestMetadata) (hdrType : Nat) : Option (List Header) :=
  if hdrType = HeaderTypeRequest then some md.requestHeaders
  else if hdrType = HeaderTypeObject then some md.objectHeaders
  else none

/-- Spec: a filter is satisfied iff its scope is Request or Object and the header list of
that scope has a header with the filter key whose value is identical to the filter value
(matcher Equal) resp. differs from it (matcher NotEqual). -/
def HeaderFilter.Satisfied (md : RequestMetadata) (f : HeaderFilter) : Prop :=
  ∃ hs, scopeHeaders md f.hdrType = some hs ∧
    ((f.matchType = MatchTypeStringEqual ∧ ∃ h ∈ hs, h.key = f.key ∧ h.val = f.value) ∨
     (f.matchType = MatchTypeStringNotEqual ∧ ∃ h ∈ hs, h.key = f.key ∧ h.val ≠ f.value))

/-- Spec: a filter the decision procedure can evaluate: Request or Object scope, Equal or
NotEqual matcher. -/
def HeaderFilter.Supported (f : HeaderFilter) : Prop :=
  (f.hdrType = HeaderTypeRequest ∨ f.hdrType = HeaderTypeObject) ∧
  (f.matchType = MatchTypeStringEqual ∨ f.matchType = MatchTypeStringNotEqual)

/-- Spec: a rule with a supported action and only supported filters. -/
def Record.WellFormed (r : Record) : Prop :=
  (r.action = ActionAllow ∨ r.action = ActionDeny) ∧ ∀ f ∈ r.filters, f.Supported

/-- Spec: a rule applies to a request iff its operation is the requested one, some target
matches the requester and all its filters are satisfied. -/
def Record.Applies (bKey : List Nat) (roleV2 opV2 : Nat) (md : RequestMetadata)
    (r : Record) : Prop :=
  r.op = opV2 ∧ r.SubjectMatches bKey roleV2 ∧ ∀ f ∈ r.filters, f.Satisfied md

/-- The Go error a decided rule returns: `nil` for Allow, `ErrAccessDenied` for Deny. -/
def verdict (action : Nat) : Option Error :=
  if action = ActionAllow then none else some .ErrAccessDenied

/-- Replaces the rule index quoted by an evaluation error. -/
def Error.withRule (n : Nat) : Error → Error
  | .ErrAccessDenied => .ErrAccessDenied
  | .ErrRuleNotFound => .ErrRuleNotFound
  | .unsupportedHeaderType t _ j => .unsupportedHeaderType t n j
  | .unsupportedMatcher m _ j => .unsupportedMatcher m n j
  | .unsupportedAction _ a => .unsupportedAction n a

/-- An evaluation error: an error that is neither of the two sentinel errors. -/
def Error.IsEvaluationError (e : Error) : Prop :=
  e ≠ .ErrAccessDenied ∧ e ≠ .ErrRuleNotFound

/-- Modelled from the spec: a possible pair of the conversion helpers, used to
instantiate statements at concrete inputs. Operations keep their number; roles are
projected as `AddTargetSubjects` projects a target role. -/
def protocolCasts : Casts where
  castOp := fun op => op
  castRole := fun role => (roleSwitch role).getD 0

/-- The conversion helper `castRole` converts every supported role to the protocol role
that `AddTargetSubjects` stores for it. -/
def Casts.ProjectsRoles (c : Casts) : Prop :=
  ∀ role r2, roleSwitch role = some r2 → c.castRole role = r2

/-- The action switch of `CheckAccess` for rule `i`. -/
def actionSwitch (i action : Nat) : Option Error :=
  if action = ActionAllow then none
  else if action = ActionDeny then some .ErrAccessDenied
  else some (.unsupportedAction i action)

/-- The table cut down to its first `i` rules: scanning it tells what the scan of the
whole table has done when it reaches rule `i`. -/
def Extended.firstRules (x : Extended) (i : Nat) : Extended :=
  ⟨{ x.m with records := x.m.records.take i }⟩

/-- Spec: a filter the decision procedure refuses: its scope is none of Request, Object,
Service, or its scope is Request or Object and its matcher is neither Equal nor
NotEqual. -/
def HeaderFilter.Unsupported (f : HeaderFilter) : Prop :=
  (f.hdrType ≠ HeaderTypeRequest ∧ f.hdrType ≠ HeaderTypeObject ∧
    f.hdrType ≠ HeaderTypeService) ∨
  ((f.hdrType = HeaderTypeRequest ∨ f.hdrType = HeaderTypeObject) ∧
    f.matchType ≠ MatchTypeStringEqual ∧ f.matchType ≠ MatchTypeStringNotEqual)

/-! ## Reference semantics of decoding -/

/-- Spec: the format conditions on a target that hold in both decoding modes: not both a
role and keys, and no empty public key. -/
def Target.FormatValid (t : Target) : Prop :=
  ¬ (t.role ≠ 0 ∧ t.keys ≠ []) ∧ ∀ k ∈ t.keys, k ≠ []

/-- Spec: a target of a protocol-complete rule: a non-zero role or a non-empty key list,
but not both, and no empty public key. -/
def Target.StrictValid (t : Target) : Prop :=
  (t.role ≠ 0 ∨ t.keys ≠ []) ∧ t.FormatValid

/-- Spec: a protocol-complete rule: at least one target, every target valid, every filter
with a non-empty key and a non-empty value. -/
def Record.StrictValid (r : Record) : Prop :=
  r.targets ≠ [] ∧ (∀ t ∈ r.targets, t.StrictValid) ∧
  ∀ f ∈ r.filters, f.key ≠ "" ∧ f.value ≠ ""

/-- Spec: the container identifier of the message is absent or well-formed. -/
def Table.ContainerOk (validCID : ContainerID → Bool) (m : Table) : Prop :=
  ∀ mCnr, m.cid = some mCnr → validCID mCnr = true

/-- Spec: a protocol-complete table message: version present, container identifier
absent or well-formed, at least one rule, every rule protocol-complete. -/
def Table.StrictValid (validCID : ContainerID → Bool) (m : Table) : Prop :=
  m.version ≠ none ∧ m.ContainerOk validCID ∧ m.records ≠ [] ∧
  ∀ r ∈ m.records, r.StrictValid

/-- Spec: a table message that passes the format checks done in both modes. -/
def Table.FormatValid (validCID : ContainerID → Bool) (m : Table) : Prop :=
  m.ContainerOk validCID ∧ ∀ r ∈ m.records, ∀ t ∈ r.targets, t.FormatValid

/-- Two filters that differ at most in matcher and scope. -/
def HeaderFilter.SameFields (f g : HeaderFilter) : Prop :=
  f.key = g.key ∧ f.value = g.value

/-- Two rules that differ at most in action, operation and the matchers and scopes of
their filters. -/
def Record.SameFields (r q : Record) : Prop :=
  r.targets = q.targets ∧ List.Forall₂ HeaderFilter.SameFields r.filters q.filters

/-- Two table messages that differ at most in the actions and operations of their rules
and in the matchers and scopes of their filters. -/
def Table.SameFields (m n : Table) : Prop :=
  m.version = n.version ∧ m.cid = n.cid ∧ List.Forall₂ Record.SameFields m.records n.records

/-! ## Reference semantics of rule construction -/

/-- A target returned by one of the two public constructors `SubjectsWithRole` and
`SubjectsWithKeys`. -/
def RuleTarget.FromConstructors (t : RuleTarget) : Prop :=
  (∃ role, SubjectsWithRole role = .ok t) ∨ (∃ keys, SubjectsWithKeys keys = .ok t)

/-- A rule built through the public constructors: returned by `Allow` or `Deny`, or
obtained from such a rule by `AddTargetSubjects` and `FilterBy` calls that return. -/
inductive Rule.Built (c : Casts) : Rule → Prop where
  | allow (op : Op) (t : RuleTarget) (r : Rule) : Allow c op t = .ok r → Rule.Built c r
  | deny (op : Op) (t : RuleTarget) (r : Rule) : Deny c op t = .ok r → Rule.Built c r
  | addTargets (x : Rule) (ts : List RuleTarget) (y : Rule) :
      Rule.Built c x → x.AddTargetSubjects ts = .ok y → Rule.Built c y
  | filterBy (x : Rule) (fs : List Filter) (y : Rule) :
      Rule.Built c x → x.FilterBy fs = .ok y → Rule.Built c y

/-- The entries of a target list are role entries (a role, no keys) or key-only entries (no
role, some keys). -/
def TargetsValid (ts : List Target) : Prop :=
  ∀ t ∈ ts, (t.role ≠ 0 ∧ t.keys = []) ∨ (t.role = 0 ∧ t.keys ≠ [])

/-- The coalescing invariant of a target list to which the key lists `K` (concatenated)
have been added: role entries have no keys, a key-only entry holds exactly `K`, there is
at most one key-only entry, and there is one as soon as `K` is not empty. -/
def TargetsInv (ts : List Target) (K : List (List Nat)) : Prop :=
  (∀ t ∈ ts, (t.role ≠ 0 ∧ t.keys = []) ∨ (t.role = 0 ∧ t.keys = K ∧ K ≠ [])) ∧
  (ts.filter (fun t => decide (t.role = 0))).length ≤ 1 ∧
  (K ≠ [] → ∃ t ∈ ts, t.role = 0)

/-- Spec reading of "the requester matches the target": same role for a role target,
serialized key in the list for a key target. -/
def RuleTarget.SameSubject (bKey : List Nat) (role : Role) (t : RuleTarget) : Prop :=
  (t.role ≠ 0 ∧ t.role = role) ∨ bKey ∈ t.keys

/-- What the code does with an added target: a target with a role covers the requesters
whose converted role is the protocol role stored for the target's role; a target without
role covers the requesters whose serialized key is in its list. -/
def RuleTarget.Covers (bKey : List Nat) (roleV2 : Nat) (t : RuleTarget) : Prop :=
  (t.role ≠ 0 ∧ roleSwitch t.role = some roleV2) ∨ (t.role = 0 ∧ bKey ∈ t.keys)

/-- The entry `t` after the keys `ks` have been appended to it if it is key-only. -/
def addKeysToKeyOnly (ks : List (List Nat)) (t : Target) : Target :=
  if t.role = 0 then { t with keys := t.keys ++ ks } else t

/-- The value of `subjectMatches` in `CheckAccess` for the requester `(key, role)` on the
rule `Allow(Get, SubjectsWithRole(first))`, before and after
`AddTargetSubjects(SubjectsWithRole(added))`. -/
def subjectBeforeAfter (c : Casts) (first added : Role) (key : PublicKey) (role : Role) :
    Except String (Bool × Bool) := do
  let t ← SubjectsWithRole first
  let x ← Allow c OpObjectGet t
  let t2 ← SubjectsWithRole added
  let y ← x.AddTargetSubjects [t2]
  pure (targetsLoop (SerializePublicKey key) (c.castRole role) x.m.targets,
    targetsLoop (SerializePublicKey key) (c.castRole role) y.m.targets)

/-- The protocol roles that `AddTargetSubjects` stores for the targets with a role of a
list of added targets, in order. -/
def storedRoles (ts : List RuleTarget) : List Nat :=
  ts.filterMap (fun t => if t.role = 0 then none else roleSwitch t.role)

/-- The roles of the role entries of a target list, in order. -/
def roleEntries (ts : List Target) : List Nat :=
  (ts.filter (fun t => decide (t.role ≠ 0))).map (fun t => t.role)

/-! ## Concrete inputs -/

/-- A requester key. -/
def keyA : PublicKey := ⟨[2, 11, 7]⟩

/-- Another requester key. -/
def keyB : PublicKey := ⟨[3, 5]⟩

/-- Metadata without headers. -/
def noMeta : RequestMetadata := ⟨[], []⟩

/-- The table `[Deny(Get, Owner), Allow(Get, Owner)]` of the test "additional rules". -/
def denyThenAllow : Extended :=
  ⟨⟨some versionCurrent, none,
    [⟨OpObjectGet, ActionDeny, [], [⟨RoleUser, []⟩]⟩,
     ⟨OpObjectGet, ActionAllow, [], [⟨RoleUser, []⟩]⟩]⟩⟩

/-- A decoded table whose only rule has an unsupported action, a filter of unsupported
scope and a filter with an unsupported matcher. -/
def malformedTable : Extended :=
  ⟨⟨none, none,
    [⟨OpObjectGet, 0, [⟨0, MatchTypeStringEqual, "key", "value"⟩,
      ⟨HeaderTypeRequest, 0, "key", "value"⟩], [⟨V2RoleOthers, []⟩]⟩]⟩⟩

/-- The rule of the spec property P2: `Deny(Get, Owner)` with a Request-scoped Equal
filter and an Object-scoped NotEqual filter. -/
def twoFilterRule : Rule :=
  ⟨⟨OpObjectGet, ActionDeny,
    [⟨HeaderTypeRequest, MatchTypeStringEqual, "req_key", "req_val"⟩,
     ⟨HeaderTypeObject, MatchTypeStringNotEqual, "obj_key", "obj_val"⟩],
    [⟨RoleUser, []⟩]⟩⟩

/-- The rule of the test "header filters": `Deny(Get, Owner)` with an Object-scoped
NotEqual filter. -/
def oneFilterRule : Rule :=
  ⟨⟨OpObjectGet, ActionDeny,
    [⟨HeaderTypeObject, MatchTypeStringNotEqual, "obj_key", "obj_val"⟩],
    [⟨RoleUser, []⟩]⟩⟩

/-- Metadata that satisfies both filters of `twoFilterRule`. -/
def matchingMeta : RequestMetadata :=
  ⟨[⟨"req_key", "req_val"⟩], [⟨"obj_key", "obj_val_other"⟩]⟩

/-- A decoded table: a rule for other requesters, then a rule for the owner whose action
is unsupported. -/
def badActionTable : Extended :=
  ⟨⟨some versionCurrent, none,
    [⟨OpObjectGet, ActionAllow, [], [⟨V2RoleOthers, []⟩]⟩,
     ⟨OpObjectGet, 0, [], [⟨RoleUser, []⟩]⟩]⟩⟩

/-- A decoded table whose rule has a supported filter followed by a filter with an
unsupported matcher. -/
def badMatcherTable : Extended :=
  ⟨⟨some versionCurrent, none,
    [⟨OpObjectGet, ActionAllow,
      [⟨HeaderTypeRequest, MatchTypeStringEqual, "key", "value"⟩,
       ⟨HeaderTypeObject, 0, "key", "value"⟩],
      [⟨RoleUser, []⟩]⟩]⟩⟩

/-- The zero value of `Extended` (`var e Extended`). -/
def zeroExtended : Extended := ⟨⟨none, none, []⟩⟩

/-- A decoded message with a target that carries both a role and a key. -/
def roleWithKeysTable : Table :=
  ⟨some versionCurrent, none, [⟨OpObjectGet, ActionAllow, [], [⟨RoleUser, [[2, 11, 7]]⟩]⟩]⟩

/-- A decoded message with a key target one of whose keys is empty. -/
def emptyKeyTable : Table :=
  ⟨some versionCurrent, none, [⟨OpObjectGet, ActionAllow, [], [⟨0, [[2, 11, 7], []]⟩]⟩]⟩

/-- The message of `NewExtended(Allow(Get, Owner))`. -/
def allowOwnerTable : Table :=
  ⟨some versionCurrent, none, [⟨OpObjectGet, ActionAllow, [], [⟨RoleUser, []⟩]⟩]⟩

/-- The message of the test "unsupported/action": `allowOwnerTable` with the action of
its rule set to 0. -/
def unsupportedActionTable : Table :=
  ⟨some versionCurrent, none, [⟨OpObjectGet, 0, [], [⟨RoleUser, []⟩]⟩]⟩

/-- A protocol-complete message whose rule has an unsupported action and a filter with an
unrecognized scope and an unrecognized matcher. -/
def unsupportedEnumsTable : Table :=
  ⟨some versionCurrent, none,
    [⟨OpObjectGet, 0, [⟨0, 0, "key", "value"⟩], [⟨RoleUser, []⟩]⟩]⟩

/-- A rule with a satisfied Request-scoped filter followed by a Service-scoped filter. -/
def serviceFilterRule : Rule :=
  ⟨⟨OpObjectGet, ActionAllow,
    [⟨HeaderTypeRequest, MatchTypeStringEqual, "key", "value"⟩,
     ⟨HeaderTypeService, MatchTypeStringEqual, "key", "value"⟩],
    [⟨RoleUser, []⟩]⟩⟩

/-- Metadata with the request header `key = value`. -/
def keyValueMeta : RequestMetadata := ⟨[⟨"key", "value"⟩], []⟩

/-- The target `SubjectsWithRole(RoleOwner)`. -/
def ownerTarget : RuleTarget := ⟨RoleOwner, []⟩

/-- The target `SubjectsWithRole(RoleContainer)`. -/
def containerTarget : RuleTarget := ⟨RoleContainer, []⟩

/-- The target `SubjectsWithKeys([keyA])`. -/
def keyATarget : RuleTarget := ⟨0, [[2, 11, 7]]⟩

/-- The target `SubjectsWithKeys([keyB])`. -/
def keyBTarget : RuleTarget := ⟨0, [[3, 5]]⟩

/-! ## Absent headers -/

/-- Spec: the metadata list of the filter's scope contains no header with the filter
key. -/
def HeaderFilter.HeaderAbsent (md : RequestMetadata) (f : HeaderFilter) : Prop :=
  ∀ hs, scopeHeaders md f.hdrType = some hs → ∀ h ∈ hs, h.key ≠ f.key

/-- A decoded rule for the owner with an object-ID exclusion filter followed by a filter
of unrecognized scope. -/
def absentHeaderRule : Rule :=
  ⟨⟨OpObjectGet, ActionAllow,
    [⟨HeaderTypeObject, MatchTypeStringNotEqual, FilterObjectID, "id"⟩,
     ⟨0, MatchTypeStringEqual, "key", "value"⟩],
    [⟨RoleUser, []⟩]⟩⟩

/-- The rule `Allow(Get, Owner)` filtered by an object-ID exclusion filter. -/
def excludeIDRule : Rule :=
  ⟨⟨OpObjectGet, ActionAllow,
    [⟨HeaderTypeObject, MatchTypeStringNotEqual, FilterObjectID, "id"⟩],
    [⟨RoleUser, []⟩]⟩⟩

/-! ## CheckAccess with visit counters

The loops of `CheckAccess` once more, each returning next to its result the number of
loop iterations it has run. -/

/-- Numbers of loop iterations of one `CheckAccess` call: iterations of the loop over the
rules, of the loops over the targets, over the keys of a target, over the filters and
over the headers of the metadata list of a filter. -/
structure Visits where
  rules : Nat
  targets : Nat
  keys : Nat
  filters : Nat
  headers : Nat
deriving DecidableEq, Repr

/-- The loop `for k := range ks` with the number of its iterations. -/
def keysLoopCounted (bKey : List Nat) : List (List Nat) → Bool × Nat
  | [] => (false, 0)
  | k :: ks =>
    if k = bKey then (true, 1)
    else ((keysLoopCounted bKey ks).1, (keysLoopCounted bKey ks).2 + 1)

/-- The loop `targetsLoop` with the number of its iterations and of the iterations of the
key loops it has run. -/
def targetsLoopCounted (bKey : List Nat) (role : Nat) : List Target → Bool × Nat × Nat
  | [] => (false, 0, 0)
  | t :: ts =>
    if t.keys.length = 0 then
      if t.role = role then (true, 1, 0)
      else
        ((targetsLoopCounted bKey role ts).1, (targetsLoopCounted bKey role ts).2.1 + 1,
          (targetsLoopCounted bKey role ts).2.2)
    else
      if (keysLoopCounted bKey t.keys).1 then (true, 1, (keysLoopCounted bKey t.keys).2)
      else
        ((targetsLoopCounted bKey role ts).1, (targetsLoopCounted bKey role ts).2.1 + 1,
          (targetsLoopCounted bKey role ts).2.2 + (keysLoopCounted bKey t.keys).2)

/-- The loop `for k := range hs` with the number of its iterations. -/
def headersLoopCounted (matcher : String → String → Bool)
    (ruleHeaderKey ruleHeaderValue : String) : List Header → Bool × Nat
  | [] => (false, 0)
  | h :: hs =>
    if h.key ≠ ruleHeaderKey then
      ((headersLoopCounted matcher ruleHeaderKey ruleHeaderValue hs).1,
        (headersLoopCounted matcher ruleHeaderKey ruleHeaderValue hs).2 + 1)
    else if matcher ruleHeaderValue h.val then (true, 1)
    else
      ((headersLoopCounted matcher ruleHeaderKey ruleHeaderValue hs).1,
        (headersLoopCounted matcher ruleHeaderKey ruleHeaderValue hs).2 + 1)

/-- The loop `filterLoop` with the number of its iterations and of the iterations of the
header loops it has run. -/
def filterLoopCounted (i : Nat) (md : RequestMetadata) :
    Nat → List HeaderFilter → Nat → Except Error Nat × Nat × Nat
  | _, [], headersMatched => (.ok headersMatched, 0, 0)
  | j, f :: fs, headersMatched =>
    if f.hdrType = HeaderTypeService then (.ok headersMatched, 1, 0)
    else if f.hdrType = HeaderTypeRequest ∨ f.hdrType = HeaderTypeObject then
      let hs := if f.hdrType = HeaderTypeRequest then md.requestHeaders else md.objectHeaders
      if f.matchType = MatchTypeStringEqual then
        let h := headersLoopCounted (fun ruleHeader requestHeader => ruleHeader = requestHeader)
          f.key f.value hs
        let r := filterLoopCounted i md (j + 1) fs
          (if h.1 then headersMatched + 1 else headersMatched)
        (r.1, r.2.1 + 1, r.2.2 + h.2)
      else if f.matchType = MatchTypeStringNotEqual then
        let h := headersLoopCounted (fun ruleHeader requestHeader => ruleHeader ≠ requestHeader)
          f.key f.value hs
        let r := filterLoopCounted i md (j + 1) fs
          (if h.1 then headersMatched + 1 else headersMatched)
        (r.1, r.2.1 + 1, r.2.2 + h.2)
      else (.error (.unsupportedMatcher f.matchType i j), 1, 0)
    else (.error (.unsupportedHeaderType f.hdrType i j), 1, 0)

/-- One more iteration of the loop over the rules, which has run the given numbers of
target, key, filter and header iterations. -/
def Visits.step (v : Visits) (targets keys filters headers : Nat) : Visits :=
  ⟨v.rules + 1, v.targets + targets, v.keys + keys, v.filters + filters,
    v.headers + headers⟩

/-- The loop `for i := range rs` of `CheckAccess` with the numbers of iterations of all
its loops. -/
def rulesLoopCounted (bKey : List Nat) (roleV2 opV2 : Nat) (md : RequestMetadata) :
    Nat → List Record → Option Error × Visits
  | _, [] => (some .ErrRuleNotFound, ⟨0, 0, 0, 0, 0⟩)
  | i, r :: rs =>
    if r.op ≠ opV2 then
      ((rulesLoopCounted bKey roleV2 opV2 md (i + 1) rs).1,
        (rulesLoopCounted bKey roleV2 opV2 md (i + 1) rs).2.step 0 0 0 0)
    else
      let t := targetsLoopCounted bKey roleV2 r.targets
      if t.1 = false then
        ((rulesLoopCounted bKey roleV2 opV2 md (i + 1) rs).1,
          (rulesLoopCounted bKey roleV2 opV2 md (i + 1) rs).2.step t.2.1 t.2.2 0 0)
      else
        let f := filterLoopCounted i md 0 r.filters 0
        match f.1 with
        | .error e => (some e, ⟨1, t.2.1, t.2.2, f.2.1, f.2.2⟩)
        | .ok headersMatched =>
          if headersMatched ≥ r.filters.length then
            (if r.action = ActionAllow then none
              else if r.action = ActionDeny then some .ErrAccessDenied
              else some (.unsupportedAction i r.action),
             ⟨1, t.2.1, t.2.2, f.2.1, f.2.2⟩)
          else
            ((rulesLoopCounted bKey roleV2 opV2 md (i + 1) rs).1,
              (rulesLoopCounted bKey roleV2 opV2 md (i + 1) rs).2.step t.2.1 t.2.2 f.2.1 f.2.2)

/-- The number of keys of the targets of a rule. -/
def Record.keyCount (r : Record) : Nat :=
  (r.targets.map (fun t => t.keys.length)).sum

/-- The number of headers the filters of a rule can be compared with: for every filter,
the length of the metadata list of its scope. -/
def Record.headerCount (md : RequestMetadata) (r : Record) : Nat :=
  (r.filters.map (fun f => ((scopeHeaders md f.hdrType).getD []).length)).sum

/-- The size of a table for a request: the numbers of its rules, targets, keys and
filters, and of the headers its filters can be compared with. -/
def Extended.size (x : Extended) (md : RequestMetadata) : Visits :=
  ⟨x.m.records.length,
   (x.m.records.map (fun r => r.targets.length)).sum,
   (x.m.records.map Record.keyCount).sum,
   (x.m.records.map (fun r => r.filters.length)).sum,
   (x.m.records.map (Record.headerCount md)).sum⟩

/-! ## Container restriction and encoding -/

/-- The type `cid.ID` of container identifiers and its methods `WriteToV2` and
`ReadFromV2` are not among the sources: identifiers are values of a type `CID`, `zero` is
the zero value `var cnr cid.ID`, `write` is the message `WriteToV2` fills and `read` is
`ReadFromV2`, `none` when it returns an error. -/
structure CIDCodec (CID : Type) where
  zero : CID
  write : CID → ContainerID
  read : ContainerID → Option CID

/-- The format check of `readFromV2` on a container identifier message:
`cnr.ReadFromV2(*mCnr)` returns no error. -/
def CIDCodec.valid {CID : Type} (k : CIDCodec CID) (m : ContainerID) : Bool :=
  (k.read m).isSome

/-- The codec converts back what it has written. -/
def CIDCodec.RoundTrips {CID : Type} (k : CIDCodec CID) : Prop :=
  ∀ cnr, k.read (k.write cnr) = some cnr

/-- Go `Extended.Container`. The result is `Except.error` when the call panics. -/
def Extended.Container {CID : Type} (k : CIDCodec CID) (x : Extended) :
    Except String (CID × Bool) :=
  match x.m.cid with
  | none => .ok (k.zero, false)
  | some mCnr =>
    match k.read mCnr with
    | none => .error "unexpected decoding error"
    | some cnr => .ok (cnr, true)

/-- Go `(*Extended).RestrictToContainer`. -/
def Extended.RestrictToContainer {CID : Type} (k : CIDCodec CID) (x : Extended) (cnr : CID) :
    Extended :=
  ⟨{ x.m with cid := some (k.write cnr) }⟩

/-- Go `Extended.Marshal`. The binary codec of the protocol messages is an external
collaborator: `encode` is `acl.Table.StableMarshal(nil)`. -/
def Extended.Marshal (encode : Table → List Nat) (x : Extended) : List Nat :=
  encode x.WriteToV2

/-- Go `Extended.MarshalJSON`; `encodeJSON` is `acl.Table.MarshalJSON`, `none` when it
returns an error. -/
def Extended.MarshalJSON (encodeJSON : Table → Option (List Nat)) (x : Extended) :
    Option (List Nat) :=
  encodeJSON x.WriteToV2

/-! ## Reference semantics of table construction -/

/-- A target returned by `SubjectsWithRole`, or by `SubjectsWithKeys` on keys none of
which serializes to the empty byte string. -/
def RuleTarget.Public (t : RuleTarget) : Prop :=
  t.FromConstructors ∧ ∀ k ∈ t.keys, k ≠ []

/-- A filter returned by `MatchRequestHeader` or `MatchObjectHeader` for one of the two
matchers `MatchEquals`, `MatchNotEquals` and a header with non-empty key and value. -/
def Filter.Public (f : Filter) : Prop :=
  ∃ (m : Matcher) (h : Header), (m = MatchEquals ∨ m = MatchNotEquals) ∧
    h.key ≠ "" ∧ h.val ≠ "" ∧
    (MatchRequestHeader (some m) h = .ok f ∨ MatchObjectHeader (some m) h = .ok f)

/-- A rule built through the public API: returned by `Allow` or `Deny`, or obtained from
such a rule by `AddTargetSubjects` and `FilterBy` calls, with public targets and
filters. -/
inductive Rule.PublicBuilt (c : Casts) : Rule → Prop where
  | allow (op : Op) (t : RuleTarget) (r : Rule) :
      t.Public → Allow c op t = .ok r → Rule.PublicBuilt c r
  | deny (op : Op) (t : RuleTarget) (r : Rule) :
      t.Public → Deny c op t = .ok r → Rule.PublicBuilt c r
  | addTargets (x : Rule) (ts : List RuleTarget) (y : Rule) :
      Rule.PublicBuilt c x → (∀ t ∈ ts, t.Public) → x.AddTargetSubjects ts = .ok y →
      Rule.PublicBuilt c y
  | filterBy (x : Rule) (fs : List Filter) (y : Rule) :
      Rule.PublicBuilt c x → (∀ f ∈ fs, f.Public) → x.FilterBy fs = .ok y →
      Rule.PublicBuilt c y

/-- A table built through the public API: `NewExtended(rule)` followed by any sequence
of `AddRule`, `SetFirstRule` and `RestrictToContainer`, every rule built through the
public API. -/
inductive Extended.PublicBuilt {CID : Type} (c : Casts) (k : CIDCodec CID) :
    Extended → Prop where
  | new (r : Rule) : Rule.PublicBuilt c r → Extended.PublicBuilt c k (NewExtended r)
  | addRule (x : Extended) (r : Rule) :
      Extended.PublicBuilt c k x → Rule.PublicBuilt c r →
      Extended.PublicBuilt c k (x.AddRule r)
  | setFirstRule (x : Extended) (r : Rule) :
      Extended.PublicBuilt c k x → Rule.PublicBuilt c r →
      Extended.PublicBuilt c k (x.SetFirstRule r)
  | restrict (x : Extended) (cnr : CID) :
      Extended.PublicBuilt c k x → Extended.PublicBuilt c k (x.RestrictToContainer k cnr)

/-! ## Sample codecs

Codecs that convert back what they have written, used to instantiate statements at
concrete inputs. -/

/-- A container identifier codec: identifiers are the byte strings of length 32, and an
identifier message is well-formed when it holds 32 bytes. -/
def sampleCIDCodec : CIDCodec { l : List Nat // l.length = 32 } where
  zero := ⟨List.replicate 32 0, by simp⟩
  write := fun cnr => ⟨cnr.1⟩
  read := fun m => if h : m.value.length = 32 then some ⟨m.value, h⟩ else none

/-- A container identifier. -/
def cnrA : { l : List Nat // l.length = 32 } := ⟨List.replicate 32 7, by simp⟩

/-- Another container identifier. -/
def cnrB : { l : List Nat // l.length = 32 } := ⟨List.replicate 32 9, by simp⟩

/-- The code points of a string. -/
def stringCode (s : String) : List Nat := s.toList.map Char.toNat

/-- The string with the given code points. -/
def stringOfCode (l : List Nat) : String := String.mk (l.map Char.ofNat)

/-- The fields of a filter message. -/
def HeaderFilter.code (f : HeaderFilter) : Nat × Nat × List Nat × List Nat :=
  (f.hdrType, f.matchType, stringCode f.key, stringCode f.value)

/-- The filter message with the given fields. -/
def HeaderFilter.ofCode (p : Nat × Nat × List Nat × List Nat) : HeaderFilter :=
  ⟨p.1, p.2.1, stringOfCode p.2.2.1, stringOfCode p.2.2.2⟩

/-- The fields of a rule message. -/
def Record.code (r : Record) :
    Nat × Nat × List (Nat × Nat × List Nat × List Nat) × List (Nat × List (List Nat)) :=
  (r.op, r.action, r.filters.map HeaderFilter.code, r.targets.map (fun t => (t.role, t.keys)))

/-- The rule message with the given fields. -/
def Record.ofCode
    (p : Nat × Nat × List (Nat × Nat × List Nat × List Nat) × List (Nat × List (List Nat))) :
    Record :=
  ⟨p.1, p.2.1, p.2.2.1.map HeaderFilter.ofCode, p.2.2.2.map (fun t => ⟨t.1, t.2⟩)⟩

/-- The fields of a table message. -/
def Table.code (m : Table) :
    Option (Nat × Nat) × Option (List Nat) ×
      List (Nat × Nat × List (Nat × Nat × List Nat × List Nat) × List (Nat × List (List Nat))) :=
  (m.version.map (fun v => (v.major, v.minor)), m.cid.map (fun i => i.value),
    m.records.map Record.code)

/-- The table message with the given fields. -/
def Table.ofCode
    (p : Option (Nat × Nat) × Option (List Nat) ×
      List (Nat × Nat × List (Nat × Nat × List Nat × List Nat) × List (Nat × List (List Nat)))) :
    Table :=
  ⟨p.1.map (fun v => ⟨v.1, v.2⟩), p.2.1.map (fun i => ⟨i⟩), p.2.2.map Record.ofCode⟩

/-- A binary codec of table messages, writing side: the fields of the message numbered
as one natural number, written in base 256. -/
def sampleEncode (m : Table) : List Nat :=
  Nat.digits 256 (Encodable.encode m.code)

/-- A binary codec of table messages, reading side. -/
def sampleDecode (data : List Nat) : Option Table :=
  (Encodable.decode (Nat.ofDigits 256 data)).map Table.ofCode

/-- The rule of the test generator `ExtendedACL`: `Allow(Get, Owner)` with the added
targets `SubjectsWithRole(RoleContainer)` and `SubjectsWithKeys([keyA, keyB])`, filtered
by an object header and a request header. -/
def generatedRule : Rule :=
  ⟨⟨OpObjectGet, ActionAllow,
    [⟨HeaderTypeObject, MatchTypeStringEqual, "obj_key", "obj_value"⟩,
     ⟨HeaderTypeRequest, MatchTypeStringNotEqual, "req_key", "req_value"⟩],
    [⟨RoleUser, []⟩, ⟨RoleSystem, []⟩, ⟨0, [[2, 11, 7], [3, 5]]⟩]⟩⟩

/-- The table of the test generator `ExtendedACL`: `NewExtended(generatedRule)`
restricted to the container `cnrA`, with the added rule `Deny(op 2, Others)`. -/
def generatedTable : Extended :=
  ⟨⟨some versionCurrent, some ⟨List.replicate 32 7⟩,
    [generatedRule.m, ⟨2, ActionDeny, [], [⟨V2RoleOthers, []⟩]⟩]⟩⟩

/-! ## Delegated authorization token (`bearer.Token`)

The file `bearer.go` is not among the sources: the token is modelled from the spec and
from the calls of `bearer_test.go`. -/

/-- Modelled from the spec: the token `(lifetime: (iat, nbf, exp), delegateUser: optional
UserID, policyTable: optional Policy Table)`. The container restriction of a token is the
one of its policy table (`TestToken_AssertContainer` restricts the table and stores it
with `SetExtendedACL`). The signature plays no part in the predicates modelled here.
User identifiers are values of a type `User`. -/
structure Token (User : Type) where
  iat : Nat
  nbf : Nat
  exp : Nat
  delegateUser : Option User
  policyTable : Option Extended

/-- Modelled from the spec: the default token `var val bearer.Token`. -/
def Token.zero {User : Type} : Token User := ⟨0, 0, 0, none, none⟩

/-- Modelled from the spec: the setter `SetIat`. -/
def Token.SetIat {User : Type} (t : Token User) (iat : Nat) : Token User :=
  { t with iat := iat }

/-- Modelled from the spec: the setter `SetNbf`. -/
def Token.SetNbf {User : Type} (t : Token User) (nbf : Nat) : Token User :=
  { t with nbf := nbf }

/-- Modelled from the spec: the setter `SetExp`. -/
def Token.SetExp {User : Type} (t : Token User) (exp : Nat) : Token User :=
  { t with exp := exp }

/-- Modelled from the spec: the setter `ForUser`, which restricts the token to a
delegate user. -/
def Token.ForUser {User : Type} (t : Token User) (u : User) : Token User :=
  { t with delegateUser := some u }

/-- Modelled from the spec: the setter `SetExtendedACL`, which stores a copy of the
policy table. -/
def Token.SetExtendedACL {User : Type} (t : Token User) (x : Extended) : Token User :=
  { t with policyTable := some x }

/-- Modelled from the spec: `InvalidAt(e) = (exp == 0) OR (e < nbf) OR (e > exp) OR
(e < iat)`. -/
def Token.InvalidAt {User : Type} (t : Token User) (e : Nat) : Bool :=
  decide (t.exp = 0) || decide (e < t.nbf) || decide (e > t.exp) || decide (e < t.iat)

/-- Modelled from the spec: `AssertContainer(id)` is true if the token has no container
restriction, or the restriction equals `id`. The restriction is read from the policy
table with `Extended.Container`, which panics on a malformed identifier message. -/
def Token.AssertContainer {User CID : Type} [DecidableEq CID] (k : CIDCodec CID)
    (t : Token User) (id : CID) : Except String Bool :=
  match t.policyTable with
  | none => .ok true
  | some x =>
    match x.Container k with
    | .error e => .error e
    | .ok (cnr, isSet) => .ok (!isSet || decide (cnr = id))

/-- Modelled from the spec: `AssertUser(id)` is true if the token has no delegate-user
restriction, or the restriction equals `id`. -/
def Token.AssertUser {User : Type} [DecidableEq User] (t : Token User) (u : User) : Bool :=
  match t.delegateUser with
  | none => true
  | some u0 => decide (u0 = u)

/-! ## Object messages (`neofs-api-go/v2/object`, `refs`) -/

/-- The `refs.ObjectID` message. -/
structure ObjectIDMsg where
  value : List Nat
deriving DecidableEq, Repr

/-- The `refs.OwnerID` message. -/
structure OwnerIDMsg where
  value : List Nat
deriving DecidableEq, Repr

/-- The `refs.Signature` message. -/
structure SignatureMsg where
  key : List Nat
  sign : List Nat
  scheme : Nat
deriving DecidableEq, Repr

/-- The `refs.Checksum` message. -/
structure ChecksumMsg where
  typ : Nat
  sum : List Nat
deriving DecidableEq, Repr

/-- The `session.Token` message as its binary form: `object.go` never inspects its
fields. -/
structure SessionTokenMsg where
  raw : List Nat
deriving DecidableEq, Repr

/-- The `object.Attribute` message. -/
structure ObjectAttribute where
  key : String
  value : String
deriving DecidableEq, Repr

/-- The fields of the `object.Header` message other than the split header. -/
structure HeaderFields where
  version : Option Version
  cid : Option ContainerID
  ownerID : Option OwnerIDMsg
  creatEpoch : Nat
  payloadLen : Nat
  payloadHash : Option ChecksumMsg
  typ : Nat
  homoHash : Option ChecksumMsg
  sessionToken : Option SessionTokenMsg
  attr : List ObjectAttribute
deriving DecidableEq, Repr

/-- The fields of the `object.SplitHeader` message other than the parent header. -/
structure SplitFields where
  par : Option ObjectIDMsg
  prev : Option ObjectIDMsg
  parSig : Option SignatureMsg
  children : List ObjectIDMsg
  splitID : List Nat
deriving DecidableEq, Repr

/-- The `object.Header` message: without split header, with a split header that has no
parent header, or with a split header that carries the parent header. -/
inductive ObjectHeader where
  | plain (f : HeaderFields)
  | split (f : HeaderFields) (s : SplitFields)
  | splitParent (f : HeaderFields) (s : SplitFields) (parHdr : ObjectHeader)
deriving DecidableEq, Repr

/-- The `object.Object` message. -/
structure ObjectMsg where
  objectID : Option ObjectIDMsg
  header : Option ObjectHeader
  signature : Option SignatureMsg
  payload : List Nat
deriving DecidableEq, Repr

/-- Protocol constant `object.TypeRegular`. -/
def TypeRegular : Nat := 0

/-- Protocol constant `object.TypeTombstone`. -/
def TypeTombstone : Nat := 1

/-- Protocol constant `object.TypeStorageGroup`. -/
def TypeStorageGroup : Nat := 2

/-- Protocol constant `object.TypeLock`. -/
def TypeLock : Nat := 3

/-- Protocol constant `refs.TillichZemor`. -/
def TillichZemor : Nat := 1

/-- Protocol constant `object.SysAttributeExpEpoch`. -/
def SysAttributeExpEpoch : String := "__NEOFS__EXPIRATION_EPOCH"

/-- Protocol constant `object.SysAttributeTickEpoch`. -/
def SysAttributeTickEpoch : String := "__NEOFS__TICK_EPOCH"

/-- Protocol constant `object.SysAttributeTickTopic`. -/
def SysAttributeTickTopic : String := "__NEOFS__TICK_TOPIC"

/-- Go constant `attributeTimestamp`. -/
def attributeTimestamp : String := "Timestamp"

/-- The zero `object.Header` message. -/
def zeroHeaderFields : HeaderFields := ⟨none, none, none, 0, 0, none, 0, none, none, []⟩

/-- The fields of a header message other than the split header (the getters `GetVersion`
to `GetAttributes`). -/
def ObjectHeader.fields : ObjectHeader → HeaderFields
  | .plain f => f
  | .split f _ => f
  | .splitParent f _ _ => f

/-- The header message with its fields other than the split header replaced (the setters
`SetVersion` to `SetAttributes`). -/
def ObjectHeader.setFields (g : HeaderFields → HeaderFields) : ObjectHeader → ObjectHeader
  | .plain f => .plain (g f)
  | .split f s => .split (g f) s
  | .splitParent f s p => .splitParent (g f) s p

/-- The setter `SetSplit` of the header message, for a split header with the given
fields and parent header. -/
def ObjectHeader.SetSplit (h : ObjectHeader) (s : SplitFields) :
    Option ObjectHeader → ObjectHeader
  | none => .split h.fields s
  | some p => .splitParent h.fields s p

/-! ## Objects (`object.go`) -/

/-- The type `oid.ID` of object identifiers and its methods `WriteToV2` and `ReadFromV2`
are not among the sources: identifiers are values of a type `ID`, `zero` is the zero
value, `write` is the message `WriteToV2` fills and `read` is `ReadFromV2`, `none` when
it returns an error. -/
structure OIDCodec (ID : Type) where
  zero : ID
  write : ID → ObjectIDMsg
  read : ObjectIDMsg → Option ID

/-- The type `neofscrypto.Signature` and its methods `WriteToV2` and `ReadFromV2` are not
among the sources: signatures are values of a type `Sig`; the fields are as in
`OIDCodec`. -/
structure SigCodec (Sig : Type) where
  zero : Sig
  write : Sig → SignatureMsg
  read : SignatureMsg → Option Sig

/-- The object identifier codec converts back what it has written. -/
def OIDCodec.RoundTrips {ID : Type} (k : OIDCodec ID) : Prop :=
  ∀ id, k.read (k.write id) = some id

/-- The signature codec converts back what it has written. -/
def SigCodec.RoundTrips {Sig : Type} (k : SigCodec Sig) : Prop :=
  ∀ s, k.read (k.write s) = some s

/-- The collaborators of `readFromV2` that are not among the sources: the codecs of
object identifiers and signatures, for each other header field whether its `ReadFromV2`
returns no error on a message (`version.Version`, `cid.ID`, `user.ID`,
`checksum.Checksum`, `session.Object`), and whether `strconv.ParseUint(val, 10, 64)`
resp. `strconv.ParseInt(val, 10, 64)` returns no error. -/
structure ObjectEnv (ID Sig : Type) where
  oid : OIDCodec ID
  sig : SigCodec Sig
  validVersion : Version → Bool
  validCID : ContainerID → Bool
  validOwner : OwnerIDMsg → Bool
  validChecksum : ChecksumMsg → Bool
  validSession : SessionTokenMsg → Bool
  parseUint : String → Bool
  parseInt : String → Bool

/-- Go type: `type Object struct { id oid.ID; hdr object.Header; sig
neofscrypto.Signature; payload []byte }`. -/
structure Object (ID Sig : Type) where
  id : ID
  hdr : ObjectHeader
  sig : Sig
  payload : List Nat

/-- The zero value `var obj Object`. -/
def Object.zero {ID Sig : Type} (env : ObjectEnv ID Sig) : Object ID Sig :=
  ⟨env.oid.zero, .plain zeroHeaderFields, env.sig.zero, []⟩

/-- Values of the Go `error` that `readFromV2` returns, without the formatted text of the
wrapped errors of the collaborators. -/
inductive ObjectError where
  | invalidID
  | invalidVersion
  | invalidContainer
  | missingContainer
  | invalidOwner
  | missingOwner
  | invalidPayloadChecksum
  | unsupportedType (typ : Nat)
  | invalidHomomorphicChecksum
  | invalidSession
  | emptyAttributeKey
  | duplicatedAttribute (key : String)
  | emptyAttributeValue (key : String)
  | invalidAttributeValue (key value : String)
  | topicWithoutEpoch
  | invalidPrevious
  | invalidChild
  | duplicatedChild
  | invalidRoot (e : ObjectError)
  | missingHeader
  | invalidSignature
deriving DecidableEq, Repr

/-- The block `if m != nil { err = ...ReadFromV2(*m); if err != nil { return ... } }` of
`readFromV2` for an optional field. -/
def checkOptional {α : Type} (valid : α → Bool) (invalid : ObjectError) :
    Option α → Except ObjectError Unit
  | some m => if valid m then .ok () else .error invalid
  | none => .ok ()

/-- The same block with the branch `else if checkFieldPresence { return ... }` of a
required field. -/
def checkRequired {α : Type} (valid : α → Bool) (invalid missing : ObjectError)
    (checkFieldPresence : Bool) : Option α → Except ObjectError Unit
  | some m => if valid m then .ok () else .error invalid
  | none => if checkFieldPresence then .error missing else .ok ()

/-- The loop `for i := range attrs` of `readFromV2`, entered with the keys seen so far
(`mAttr`) and the current `withTickEpoch` and `withTickTopic`; returns their final
values. -/
def attributesLoop {ID Sig : Type} (env : ObjectEnv ID Sig) :
    List ObjectAttribute → List String → Bool → Bool → Except ObjectError (Bool × Bool)
  | [], _, withTickEpoch, withTickTopic => .ok (withTickEpoch, withTickTopic)
  | a :: attrs, mAttr, withTickEpoch, withTickTopic =>
    if a.key = "" then .error .emptyAttributeKey
    else if a.key ∈ mAttr then .error (.duplicatedAttribute a.key)
    else if a.value = "" then .error (.emptyAttributeValue a.key)
    else if a.key = SysAttributeExpEpoch then
      if env.parseUint a.value then
        attributesLoop env attrs (a.key :: mAttr) withTickEpoch withTickTopic
      else .error (.invalidAttributeValue a.key a.value)
    else if a.key = SysAttributeTickEpoch then
      if env.parseUint a.value then
        attributesLoop env attrs (a.key :: mAttr) true withTickTopic
      else .error (.invalidAttributeValue a.key a.value)
    else if a.key = SysAttributeTickTopic then
      attributesLoop env attrs (a.key :: mAttr) withTickEpoch true
    else if a.key = attributeTimestamp then
      if env.parseInt a.value then
        attributesLoop env attrs (a.key :: mAttr) withTickEpoch withTickTopic
      else .error (.invalidAttributeValue a.key a.value)
    else attributesLoop env attrs (a.key :: mAttr) withTickEpoch withTickTopic

/-- The loop `for i := range children` of `readFromV2`, entered with the children seen so
far (`mChildren`). -/
def childrenLoop {ID : Type} [DecidableEq ID] (k : OIDCodec ID) :
    List ObjectIDMsg → List ID → Except ObjectError Unit
  | [], _ => .ok ()
  | c :: children, mChildren =>
    match k.read c with
    | none => .error .invalidChild
    | some child =>
      if child ∈ mChildren then .error .duplicatedChild
      else childrenLoop k children (child :: mChildren)

/-- The part of `readFromV2` on the header fields from the version to the attributes. -/
def checkFields {ID Sig : Type} (env : ObjectEnv ID Sig) (checkFieldPresence : Bool)
    (f : HeaderFields) : Except ObjectError Unit := do
  checkOptional env.validVersion .invalidVersion f.version
  checkRequired env.validCID .invalidContainer .missingContainer checkFieldPresence f.cid
  checkRequired env.validOwner .invalidOwner .missingOwner checkFieldPresence f.ownerID
  checkOptional env.validChecksum .invalidPayloadChecksum f.payloadHash
  if ¬ (f.typ = TypeRegular ∨ f.typ = TypeTombstone ∨ f.typ = TypeStorageGroup ∨
      f.typ = TypeLock) then
    throw (.unsupportedType f.typ)
  checkOptional env.validChecksum .invalidHomomorphicChecksum f.homoHash
  checkOptional env.validSession .invalidSession f.sessionToken
  let flags ← attributesLoop env f.attr [] false false
  if flags.2 = true ∧ flags.1 = false then
    throw .topicWithoutEpoch

/-- The part of `readFromV2` on the previous object and the children of the split
header. -/
def checkSplit {ID Sig : Type} [DecidableEq ID] (env : ObjectEnv ID Sig) (s : SplitFields) :
    Except ObjectError Unit := do
  checkOptional (fun m => (env.oid.read m).isSome) .invalidPrevious s.prev
  childrenLoop env.oid s.children []

/-- The error of `readFromV2` on the header `hdr != nil`. On a split header the function
calls `new(Object).ReadFromV2(mRoot)` on the message made of the parent identifier,
parent header and parent signature: the identifier is read, the parent header is
checked with `checkFieldPresence` set (a missing parent header is the error "missing
header"), the signature is read. -/
def checkHeader {ID Sig : Type} [DecidableEq ID] (env : ObjectEnv ID Sig)
    (checkFieldPresence : Bool) : ObjectHeader → Except ObjectError Unit
  | .plain f => checkFields env checkFieldPresence f
  | .split f s => do
    checkFields env checkFieldPresence f
    checkSplit env s
    match checkOptional (fun m => (env.oid.read m).isSome) .invalidID s.par with
    | .error e => throw (.invalidRoot e)
    | .ok () => throw (.invalidRoot .missingHeader)
  | .splitParent f s parHdr => do
    checkFields env checkFieldPresence f
    checkSplit env s
    match checkOptional (fun m => (env.oid.read m).isSome) .invalidID s.par with
    | .error e => throw (.invalidRoot e)
    | .ok () =>
      match checkHeader env true parHdr with
      | .error e => throw (.invalidRoot e)
      | .ok () =>
        match checkOptional (fun m => (env.sig.read m).isSome) .invalidSignature s.parSig with
        | .error e => throw (.invalidRoot e)
        | .ok () => pure ()

/-- Go `(*Object).readFromV2`. The result is `Except.error` when the call panics (the
statement `x.hdr = *hdr` on a message without header), otherwise the receiver after the
call and the returned error. The identifier and the signature are read into the
receiver in place, before the later checks; a read that returns an error is taken to
leave the field as it was. -/
def Object.readFromV2 {ID Sig : Type} [DecidableEq ID] (env : ObjectEnv ID Sig)
    (x : Object ID Sig) (m : ObjectMsg) (checkFieldPresence : Bool) :
    Except String (Object ID Sig × Option ObjectError) :=
  match m.objectID.map env.oid.read with
  | some none => .ok (x, some .invalidID)
  | rID =>
    let x1 : Object ID Sig := match rID with
      | some (some id) => { x with id := id }
      | _ => x
    match (match m.header with
        | some hdr => checkHeader env checkFieldPresence hdr
        | none => if checkFieldPresence then .error .missingHeader else .ok ()) with
    | .error e => .ok (x1, some e)
    | .ok () =>
      match m.signature.map env.sig.read with
      | some none => .ok (x1, some .invalidSignature)
      | rSig =>
        let x2 : Object ID Sig := match rSig with
          | some (some s) => { x1 with sig := s }
          | _ => x1
        match m.header with
        | none => .error "invalid memory address or nil pointer dereference"
        | some hdr => .ok ({ x2 with hdr := hdr, payload := m.payload }, none)

/-- Go `(*Object).ReadFromV2`. -/
def Object.ReadFromV2 {ID Sig : Type} [DecidableEq ID] (env : ObjectEnv ID Sig)
    (x : Object ID Sig) (m : ObjectMsg) : Except String (Object ID Sig × Option ObjectError) :=
  x.readFromV2 env m true

/-- Go `Object.WriteToV2`: the message written. -/
def Object.WriteToV2 {ID Sig : Type} (env : ObjectEnv ID Sig) (x : Object ID Sig) :
    ObjectMsg :=
  ⟨some (env.oid.write x.id), some x.hdr, some (env.sig.write x.sig), x.payload⟩

/-- Go `(*Object).Init`. -/
def Object.Init {ID Sig : Type} (x : Object ID Sig) : Object ID Sig :=
  { x with hdr := x.hdr.setFields (fun f => { f with version := some versionCurrent }) }

/-- Go `(*Object).SetContainer`. The type `cid.ID` is represented here by the message its
`WriteToV2` writes, which is all `object.go` stores of it. -/
def Object.SetContainer {ID Sig : Type} (x : Object ID Sig) (cnr : ContainerID) :
    Object ID Sig :=
  { x with hdr := x.hdr.setFields (fun f => { f with cid := some cnr }) }

/-- Go `(*Object).SetOwner`. The type `user.ID` is represented by the message its
`WriteToV2` writes. -/
def Object.SetOwner {ID Sig : Type} (x : Object ID Sig) (owner : OwnerIDMsg) :
    Object ID Sig :=
  { x with hdr := x.hdr.setFields (fun f => { f with ownerID := some owner }) }

/-- Go `(*Object).SetPayloadSize`. -/
def Object.SetPayloadSize {ID Sig : Type} (x : Object ID Sig) (sz : Nat) : Object ID Sig :=
  { x with hdr := x.hdr.setFields (fun f => { f with payloadLen := sz }) }

/-- Go `Object.PayloadSize`. -/
def Object.PayloadSize {ID Sig : Type} (x : Object ID Sig) : Nat := x.hdr.fields.payloadLen

/-- Go `(*Object).SetCreationEpoch`. -/
def Object.SetCreationEpoch {ID Sig : Type} (x : Object ID Sig) (epoch : Nat) :
    Object ID Sig :=
  { x with hdr := x.hdr.setFields (fun f => { f with creatEpoch := epoch }) }

/-- Go `(*Object).MakeSession`. The type `session.Object` is represented by the message
its `WriteToV2` writes. -/
def Object.MakeSession {ID Sig : Type} (x : Object ID Sig) (obj : SessionTokenMsg) :
    Object ID Sig :=
  { x with hdr := x.hdr.setFields (fun f => { f with sessionToken := some obj }) }

/-- Go `(*Object).SetPayloadChecksum`; `typ` is `cs.typ` and `sum` is `cs.Sum(nil)`. -/
def Object.SetPayloadChecksum {ID Sig : Type} (x : Object ID Sig) (typ : Nat)
    (sum : List Nat) : Object ID Sig :=
  { x with hdr := x.hdr.setFields (fun f => { f with payloadHash := some ⟨typ, sum⟩ }) }

/-- Go `(*Object).SetPayloadHomomorphicChecksum`; `sum` is `cs.Sum(nil)`. The function
calls `x.hdr.SetPayloadHash`. -/
def Object.SetPayloadHomomorphicChecksum {ID Sig : Type} (x : Object ID Sig)
    (sum : List Nat) : Object ID Sig :=
  { x with hdr := x.hdr.setFields (fun f => { f with payloadHash := some ⟨TillichZemor, sum⟩ }) }

/-- Go `(*Object).SetType`; `t` is the field `m` of the `Type` value. -/
def Object.SetType {ID Sig : Type} (x : Object ID Sig) (t : Nat) : Object ID Sig :=
  { x with hdr := x.hdr.setFields (fun f => { f with typ := t }) }

/-- Go `(*Object).SetPayload`. -/
def Object.SetPayload {ID Sig : Type} (x : Object ID Sig) (payload : List Nat) :
    Object ID Sig :=
  { x with payload := payload }

/-- The loop of `SetAttribute` over the existing attributes: the list with the value of
the first attribute with the key replaced, `none` when no attribute has the key. -/
def overwriteAttribute (key value : String) : List ObjectAttribute → Option (List ObjectAttribute)
  | [] => none
  | a :: attrs =>
    if a.key = key then some (⟨a.key, value⟩ :: attrs)
    else (overwriteAttribute key value attrs).map (fun attrs2 => a :: attrs2)

/-- Go `(*Object).SetAttribute`. -/
def Object.SetAttribute {ID Sig : Type} (x : Object ID Sig) (key value : String) :
    Except String (Object ID Sig) :=
  if key = "" then .error "empty attribute key"
  else if value = "" then .error "empty attribute value"
  else
    match overwriteAttribute key value x.hdr.fields.attr with
    | some attrs => .ok { x with hdr := x.hdr.setFields (fun f => { f with attr := attrs }) }
    | none =>
      .ok { x with hdr :=
        x.hdr.setFields (fun f => { f with attr := f.attr ++ [⟨key, value⟩] }) }

/-- The loop of `Attribute`. -/
def attributeLoop (key : String) : List ObjectAttribute → String
  | [] => ""
  | a :: attrs => if a.key = key then a.value else attributeLoop key attrs

/-- Go `Object.Attribute`. -/
def Object.Attribute {ID Sig : Type} (x : Object ID Sig) (key : String) : String :=
  attributeLoop key x.hdr.fields.attr

/-! ## Lock objects (`lock.go`) -/

/-- The `object.Lock` message. -/
structure LockMsg where
  members : List ObjectIDMsg
deriving DecidableEq, Repr

/-- Go type: `type Lock struct { members []oid.ID }`. -/
structure Lock (ID : Type) where
  members : List ID
deriving DecidableEq, Repr

/-- Go `(*Lock).AppendMember`. -/
def Lock.AppendMember {ID : Type} (x : Lock ID) (member : ID) : Lock ID :=
  ⟨x.members ++ [member]⟩

/-- Go `Lock.Members`. -/
def Lock.Members {ID : Type} (x : Lock ID) : List ID := x.members

/-- Values of the Go `error` that `Lock.Unmarshal` returns. -/
inductive LockError where
  | decodeBinary
  | missingMembers
  | invalidMember
  | duplicatedMember
deriving DecidableEq, Repr

/-- Go `Lock.Marshal`. The binary codec of the protocol messages is an external
collaborator: `encode` is `object.Lock.StableMarshal(nil)`. -/
def Lock.Marshal {ID : Type} (k : OIDCodec ID) (encode : LockMsg → List Nat) (x : Lock ID) :
    List Nat :=
  encode ⟨x.members.map k.write⟩

/-- The calls of the function passed to `m.IterateMembers` in `Lock.Unmarshal`, one per
member of the message, entered with the identifiers seen so far (`mMembers`): the final
value of `err`. Once `err` is set the later calls do nothing. The function never touches
`x.members`. -/
def lockMembersLoop {ID : Type} [DecidableEq ID] (k : OIDCodec ID) :
    List ObjectIDMsg → List ID → Option LockError
  | [], _ => none
  | idV2 :: rest, mMembers =>
    match k.read idV2 with
    | none => some .invalidMember
    | some id =>
      if id ∈ mMembers then some .duplicatedMember
      else lockMembersLoop k rest (id :: mMembers)

/-- Go `(*Lock).Unmarshal`: the receiver after the call and the returned error; `decode`
is `object.Lock.Unmarshal`, `none` when it returns an error. The statement
`x.members = make([]oid.ID, 0, num)` makes the member list empty, and nothing is appended
to it afterwards. -/
def Lock.Unmarshal {ID : Type} [DecidableEq ID] (k : OIDCodec ID)
    (decode : List Nat → Option LockMsg) (x : Lock ID) (data : List Nat) :
    Lock ID × Option LockError :=
  match decode data with
  | none => (x, some .decodeBinary)
  | some m =>
    if m.members.length = 0 then (x, some .missingMembers)
    else (⟨[]⟩, lockMembersLoop k m.members [])

/-- Go `(*Object).WriteLock`. -/
def Object.WriteLock {ID Sig : Type} (env : ObjectEnv ID Sig) (encode : LockMsg → List Nat)
    (x : Object ID Sig) (l : Lock ID) : Except String (Object ID Sig) :=
  if l.Members.length = 0 then .error "missing members"
  else
    .ok { x with
      hdr := x.hdr.setFields (fun f =>
        { f with typ := TypeLock, payloadLen := (l.Marshal env.oid encode).length })
      payload := l.Marshal env.oid encode }

/-- Go `Object.IsLock`. -/
def Object.IsLock {ID Sig : Type} (x : Object ID Sig) : Bool :=
  decide (x.hdr.fields.typ = TypeLock)

/-- Go `Object.ReadLock`: the lock after the call and the returned error. -/
def Object.ReadLock {ID Sig : Type} [DecidableEq ID] (env : ObjectEnv ID Sig)
    (decode : List Nat → Option LockMsg) (x : Object ID Sig) (l : Lock ID) :
    Lock ID × Option LockError :=
  l.Unmarshal env.oid decode x.payload

/-! ## Sample object codecs -/

/-- An object identifier codec: identifiers are the byte strings of length 32, and an
identifier message is well-formed when it holds 32 bytes. -/
def sampleOIDCodec : OIDCodec { l : List Nat // l.length = 32 } where
  zero := ⟨List.replicate 32 0, by simp⟩
  write := fun id => ⟨id.1⟩
  read := fun m => if h : m.value.length = 32 then some ⟨m.value, h⟩ else none

/-- A signature codec: a signature is its message. -/
def sampleSigCodec : SigCodec SignatureMsg where
  zero := ⟨[], [], 0⟩
  write := fun s => s
  read := fun m => some m

/-- Collaborators for concrete inputs: container identifiers of 32 bytes, user
identifiers of 25 bytes, every version, checksum and session accepted, numbers written
in decimal digits (with an optional sign for `ParseInt`). -/
def sampleEnv : ObjectEnv { l : List Nat // l.length = 32 } SignatureMsg where
  oid := sampleOIDCodec
  sig := sampleSigCodec
  validVersion := fun _ => true
  validCID := fun m => decide (m.value.length = 32)
  validOwner := fun m => decide (m.value.length = 25)
  validChecksum := fun _ => true
  validSession := fun _ => true
  parseUint := fun s => !s.toList.isEmpty && s.toList.all Char.isDigit
  parseInt := fun s =>
    match s.toList with
    | [] => false
    | c :: cs =>
      if c = '-' ∨ c = '+' then !cs.isEmpty && cs.all Char.isDigit
      else (c :: cs).all Char.isDigit

/-- A binary codec of lock messages, writing side: the member identifiers numbered as
one natural number, written in base 256. -/
def sampleLockEncode (m : LockMsg) : List Nat :=
  Nat.digits 256 (Encodable.encode (m.members.map (fun i => i.value)))

/-- A binary codec of lock messages, reading side. -/
def sampleLockDecode (data : List Nat) : Option LockMsg :=
  (Encodable.decode (Nat.ofDigits 256 data)).map
    (fun (l : List (List Nat)) => ⟨l.map (fun v => ⟨v⟩)⟩)

/-- An object identifier. -/
def oidA : { l : List Nat // l.length = 32 } := ⟨List.replicate 32 1, by simp⟩

/-- Another object identifier. -/
def oidB : { l : List Nat // l.length = 32 } := ⟨List.replicate 32 2, by simp⟩

/-! ## Split trees (`split.go`) -/

/-- Go type: `type SplitTree struct { fin bool; id uuid.UUID; root *Object; children
[]oid.ID }`. The identifier is kept as the bytes `MarshalBinary` returns; for a
`uuid.UUID` it returns no error. -/
structure SplitTree (ID Sig : Type) where
  fin : Bool
  id : List Nat
  root : Option (Object ID Sig)
  children : List ID

/-- Go `(*Object).WriteSplitTree`. -/
def Object.WriteSplitTree {ID Sig : Type} (env : ObjectEnv ID Sig) (x : Object ID Sig)
    (s : SplitTree ID Sig) : Object ID Sig :=
  let hdrSplit : SplitFields :=
    { par := s.root.map (fun root => env.oid.write root.id)
      prev := if s.fin then none else s.children.getLast?.map env.oid.write
      parSig := s.root.map (fun root => env.sig.write root.sig)
      children := if s.fin then s.children.map env.oid.write else []
      splitID := s.id }
  { x with hdr := x.hdr.SetSplit hdrSplit (s.root.map (fun root => root.hdr)) }

/-! ## Reference semantics of object decoding -/

/-- What `SetAttribute` maintains on the attribute list: no empty key, no empty value, no
key twice. -/
def AttributesWellFormed (attrs : List ObjectAttribute) : Prop :=
  (∀ a ∈ attrs, a.key ≠ "" ∧ a.value ≠ "") ∧ (attrs.map (fun a => a.key)).Nodup

/-- The checks of `readFromV2` on attribute values: the values of the keys
`__NEOFS__EXPIRATION_EPOCH` and `__NEOFS__TICK_EPOCH` parse as unsigned numbers, the
value of `Timestamp` parses as a number, and there is no `__NEOFS__TICK_TOPIC` attribute
without a `__NEOFS__TICK_EPOCH` attribute. -/
def AttributesAccepted {ID Sig : Type} (env : ObjectEnv ID Sig)
    (attrs : List ObjectAttribute) : Prop :=
  (∀ a ∈ attrs,
    (a.key = SysAttributeExpEpoch → env.parseUint a.value = true) ∧
    (a.key = SysAttributeTickEpoch → env.parseUint a.value = true) ∧
    (a.key = attributeTimestamp → env.parseInt a.value = true)) ∧
  ((∃ a ∈ attrs, a.key = SysAttributeTickTopic) →
    ∃ a ∈ attrs, a.key = SysAttributeTickEpoch)

/-- Every field that is present is accepted by its decoder, the object type is one of the
four protocol types, and the attributes are well-formed. -/
def HeaderFields.PresentValid {ID Sig : Type} (env : ObjectEnv ID Sig) (f : HeaderFields) :
    Prop :=
  (∀ v, f.version = some v → env.validVersion v = true) ∧
  (∀ c, f.cid = some c → env.validCID c = true) ∧
  (∀ o, f.ownerID = some o → env.validOwner o = true) ∧
  (∀ c, f.payloadHash = some c → env.validChecksum c = true) ∧
  (f.typ = TypeRegular ∨ f.typ = TypeTombstone ∨ f.typ = TypeStorageGroup ∨
    f.typ = TypeLock) ∧
  (∀ c, f.homoHash = some c → env.validChecksum c = true) ∧
  (∀ s, f.sessionToken = some s → env.validSession s = true) ∧
  AttributesWellFormed f.attr

/-- The identifiers and the signature of a split header are well-formed and its children
are pairwise distinct. -/
def SplitFields.Valid {ID Sig : Type} (env : ObjectEnv ID Sig) (s : SplitFields) : Prop :=
  (∀ m, s.par = some m → (env.oid.read m).isSome = true) ∧
  (∀ m, s.prev = some m → (env.oid.read m).isSome = true) ∧
  (∀ m, s.parSig = some m → (env.sig.read m).isSome = true) ∧
  ∃ ids : List ID, ids.Nodup ∧ s.children = ids.map env.oid.write

/-- The header, and the parent headers it carries, have valid present fields and valid
split headers. -/
def ObjectHeader.FieldsValid {ID Sig : Type} (env : ObjectEnv ID Sig) : ObjectHeader → Prop
  | .plain f => f.PresentValid env
  | .split f s => f.PresentValid env ∧ s.Valid env
  | .splitParent f s p => f.PresentValid env ∧ s.Valid env ∧ p.FieldsValid env

/-- The header has container and owner set and attributes that pass the checks of the
decoder, and so has the parent header of its split header, which is present whenever
there is a split header. -/
def ObjectHeader.Complete {ID Sig : Type} (env : ObjectEnv ID Sig) : ObjectHeader → Prop
  | .plain f => f.cid ≠ none ∧ f.ownerID ≠ none ∧ AttributesAccepted env f.attr
  | .split _ _ => False
  | .splitParent f _ p =>
    (f.cid ≠ none ∧ f.ownerID ≠ none ∧ AttributesAccepted env f.attr) ∧ p.Complete env

/-- An object changed only through the public setters, starting from the zero object.
The setters of fields whose decoders are not among the sources are given values those
decoders accept; `withID` and `withSignature` stand for `FinishStructure` and `Sign`,
which store an identifier resp. a signature; a finished split tree has pairwise
distinct children, and its root, if any, is such an object as well. -/
inductive Object.Built {ID Sig : Type} (env : ObjectEnv ID Sig) : Object ID Sig → Prop where
  | zero : Object.Built env (Object.zero env)
  | init (x : Object ID Sig) :
      Object.Built env x → env.validVersion versionCurrent = true → Object.Built env x.Init
  | setContainer (x : Object ID Sig) (cnr : ContainerID) :
      Object.Built env x → env.validCID cnr = true → Object.Built env (x.SetContainer cnr)
  | setOwner (x : Object ID Sig) (owner : OwnerIDMsg) :
      Object.Built env x → env.validOwner owner = true → Object.Built env (x.SetOwner owner)
  | setPayloadSize (x : Object ID Sig) (sz : Nat) :
      Object.Built env x → Object.Built env (x.SetPayloadSize sz)
  | setCreationEpoch (x : Object ID Sig) (epoch : Nat) :
      Object.Built env x → Object.Built env (x.SetCreationEpoch epoch)
  | makeSession (x : Object ID Sig) (obj : SessionTokenMsg) :
      Object.Built env x → env.validSession obj = true → Object.Built env (x.MakeSession obj)
  | setPayloadChecksum (x : Object ID Sig) (typ : Nat) (sum : List Nat) :
      Object.Built env x → env.validChecksum ⟨typ, sum⟩ = true →
      Object.Built env (x.SetPayloadChecksum typ sum)
  | setPayloadHomomorphicChecksum (x : Object ID Sig) (sum : List Nat) :
      Object.Built env x → env.validChecksum ⟨TillichZemor, sum⟩ = true →
      Object.Built env (x.SetPayloadHomomorphicChecksum sum)
  | setType (x : Object ID Sig) (t : Nat) :
      Object.Built env x →
      (t = TypeRegular ∨ t = TypeTombstone ∨ t = TypeStorageGroup ∨ t = TypeLock) →
      Object.Built env (x.SetType t)
  | setPayload (x : Object ID Sig) (payload : List Nat) :
      Object.Built env x → Object.Built env (x.SetPayload payload)
  | setAttribute (x : Object ID Sig) (key value : String) (y : Object ID Sig) :
      Object.Built env x → x.SetAttribute key value = .ok y → Object.Built env y
  | writeLock (x : Object ID Sig) (encode : LockMsg → List Nat) (l : Lock ID)
      (y : Object ID Sig) :
      Object.Built env x → x.WriteLock env encode l = .ok y → Object.Built env y
  | writeSplitTree (x : Object ID Sig) (s : SplitTree ID Sig) :
      Object.Built env x → (∀ root, s.root = some root → Object.Built env root) →
      (s.fin = true → s.children.Nodup) → Object.Built env (x.WriteSplitTree env s)
  | withID (x : Object ID Sig) (id : ID) :
      Object.Built env x → Object.Built env { x with id := id }
  | withSignature (x : Object ID Sig) (sig : Sig) :
      Object.Built env x → Object.Built env { x with sig := sig }

/-! ## Concrete objects -/

/-- A container identifier message. -/
def cnrMsg : ContainerID := ⟨List.replicate 32 7⟩

/-- A user identifier message. -/
def ownerMsg : OwnerIDMsg := ⟨List.replicate 25 5⟩

/-- The header fields after `Init`, `SetContainer` and `SetOwner` on the zero object. -/
def createdFields : HeaderFields :=
  { zeroHeaderFields with
    version := some versionCurrent, cid := some cnrMsg, ownerID := some ownerMsg }

/-- The object `InitCreation` makes of the zero object, with the notification topic set
by `SetAttribute` and no notification epoch. -/
def topicObject : Object { l : List Nat // l.length = 32 } SignatureMsg :=
  ⟨sampleOIDCodec.zero,
    .plain { createdFields with attr := [⟨SysAttributeTickTopic, "events"⟩] },
    sampleSigCodec.zero, []⟩

/-- The object `InitCreation` makes of the zero object, with the payload size and a file
name set. -/
def namedObject : Object { l : List Nat // l.length = 32 } SignatureMsg :=
  ⟨sampleOIDCodec.zero,
    .plain { createdFields with payloadLen := 5, attr := [⟨"FileName", "a.txt"⟩] },
    sampleSigCodec.zero, []⟩

/-- The last part of a split object: `namedObject` with the split tree of the root
`namedObject`, not finished, with the previous part `oidA`. -/
def lastPartObject : Object { l : List Nat // l.length = 32 } SignatureMsg :=
  namedObject.WriteSplitTree sampleEnv ⟨false, [1, 2, 3], some namedObject, [oidA]⟩

/-! ## Tables with rules removed -/

/-- The result of `CheckAccess` with the rule index quoted by an evaluation error
erased. -/
def eraseRule (d : Option Error) : Option Error := d.map (Error.withRule 0)

/-- The table with every rule deleted whose operation differs from the requested
operation as converted. -/
def Extended.onlyOperation (c : Casts) (x : Extended) (op : Op) : Extended :=
  ⟨{ x.m with records := x.m.records.filter (fun r => decide (r.op = c.castOp op)) }⟩

/-- The rule has at least one Service-scoped filter. -/
def Record.HasServiceFilter (r : Record) : Prop :=
  ∃ f ∈ r.filters, f.hdrType = HeaderTypeService

/-- The rule has no Service-scoped filter. -/
def Record.noServiceFilter (r : Record) : Bool :=
  !r.filters.any (fun f => decide (f.hdrType = HeaderTypeService))

/-- The table with every rule deleted that has a Service-scoped filter. -/
def Extended.withoutServiceRules (x : Extended) : Extended :=
  ⟨{ x.m with records := x.m.records.filter Record.noServiceFilter }⟩

/-- One of the three results of `CheckAccess` that are not evaluation errors: `nil`,
`ErrAccessDenied`, `ErrRuleNotFound`. -/
def IsDecision (d : Option Error) : Prop :=
  d = none ∨ d = some .ErrAccessDenied ∨ d = some .ErrRuleNotFound

/-- A table with the rule `serviceFilterRule` in front of `Deny(Get, Owner)`. -/
def serviceThenDeny : Extended :=
  ⟨⟨some versionCurrent, none,
    [serviceFilterRule.m, ⟨OpObjectGet, ActionDeny, [], [⟨RoleUser, []⟩]⟩]⟩⟩

/-- A decoded rule for the owner with an unsupported action, an object-ID exclusion
filter and a filter of unrecognized scope. -/
def badActionFilterRule : Rule :=
  ⟨⟨OpObjectGet, 0,
    [⟨HeaderTypeObject, MatchTypeStringNotEqual, FilterObjectID, "id"⟩,
     ⟨0, MatchTypeStringEqual, "key", "value"⟩],
    [⟨RoleUser, []⟩]⟩⟩

/-- A decoded rule for the owner with an unsupported action and an object-ID exclusion
filter. -/
def badActionRule : Rule :=
  ⟨⟨OpObjectGet, 0,
    [⟨HeaderTypeObject, MatchTypeStringNotEqual, FilterObjectID, "id"⟩],
    [⟨RoleUser, []⟩]⟩⟩

/-! ## Tombstones (`tombstone.go`) -/

/-- The `tombstone.Tombstone` message. -/
structure TombstoneMsg where
  expEpoch : Nat
  splitID : List Nat
  members : List ObjectIDMsg
deriving DecidableEq, Repr

/-- Go type: `type Tombstone struct { members []oid.ID }`. -/
structure Tombstone (ID : Type) where
  members : List ID
deriving DecidableEq, Repr

/-- Go `(*Tombstone).AppendMember`. -/
def Tombstone.AppendMember {ID : Type} (x : Tombstone ID) (member : ID) : Tombstone ID :=
  ⟨x.members ++ [member]⟩

/-- Go `Tombstone.Members`. -/
def Tombstone.Members {ID : Type} (x : Tombstone ID) : List ID := x.members

/-- Values of the Go `error` that `Tombstone.Unmarshal` returns. -/
inductive TombstoneError where
  | decodeBinary
  | missingMembers
  | invalidMember
  | duplicatedMember
deriving DecidableEq, Repr

/-- Go `Tombstone.Marshal`; `encode` is `tombstone.Tombstone.StableMarshal(nil)`. -/
def Tombstone.Marshal {ID : Type} (k : OIDCodec ID) (encode : TombstoneMsg → List Nat)
    (x : Tombstone ID) : List Nat :=
  encode ⟨0, [], x.members.map k.write⟩

/-- The loop `for i := range members` of `Tombstone.Unmarshal`, entered with the
identifiers seen so far (`mMembers`): the elements of `x.members` from the current index
on after the loop, and the error returned from inside the loop. The elements start as
zero identifiers; a read that returns an error is taken to leave the element as it
was. -/
def tombstoneMembersLoop {ID : Type} [DecidableEq ID] (k : OIDCodec ID) :
    List ObjectIDMsg → List ID → List ID × Option TombstoneError
  | [], _ => ([], none)
  | m :: members, mMembers =>
    match k.read m with
    | none => (k.zero :: members.map (fun _ => k.zero), some .invalidMember)
    | some id =>
      if id ∈ mMembers then (id :: members.map (fun _ => k.zero), some .duplicatedMember)
      else
        ((id :: (tombstoneMembersLoop k members (id :: mMembers)).1),
          (tombstoneMembersLoop k members (id :: mMembers)).2)

/-- Go `(*Tombstone).Unmarshal`: the receiver after the call and the returned error;
`decode` is `tombstone.Tombstone.Unmarshal`, `none` when it returns an error. -/
def Tombstone.Unmarshal {ID : Type} [DecidableEq ID] (k : OIDCodec ID)
    (decode : List Nat → Option TombstoneMsg) (x : Tombstone ID) (data : List Nat) :
    Tombstone ID × Option TombstoneError :=
  match decode data with
  | none => (x, some .decodeBinary)
  | some m =>
    if m.members.length = 0 then (x, some .missingMembers)
    else (⟨(tombstoneMembersLoop k m.members []).1⟩, (tombstoneMembersLoop k m.members []).2)

/-- Go `(*Object).WriteTombstone`. -/
def Object.WriteTombstone {ID Sig : Type} (env : ObjectEnv ID Sig)
    (encode : TombstoneMsg → List Nat) (x : Object ID Sig) (t : Tombstone ID) :
    Except String (Object ID Sig) :=
  if t.Members.length = 0 then .error "missing members"
  else
    .ok { x with
      hdr := x.hdr.setFields (fun f =>
        { f with typ := TypeTombstone, payloadLen := (t.Marshal env.oid encode).length })
      payload := t.Marshal env.oid encode }

/-- Go `Object.IsTombstone`. -/
def Object.IsTombstone {ID Sig : Type} (x : Object ID Sig) : Bool :=
  decide (x.hdr.fields.typ = TypeTombstone)

/-- Go `Object.ReadTombstone`: the tombstone after the call and the returned error. -/
def Object.ReadTombstone {ID Sig : Type} [DecidableEq ID] (env : ObjectEnv ID Sig)
    (decode : List Nat → Option TombstoneMsg) (x : Object ID Sig) (t : Tombstone ID) :
    Tombstone ID × Option TombstoneError :=
  t.Unmarshal env.oid decode x.payload

/-! ## Storage groups (`storage_group.go`) -/

/-- The `storagegroup.StorageGroup` message. -/
structure StorageGroupMsg where
  validationDataSize : Nat
  validationHash : Option ChecksumMsg
  expirationEpoch : Nat
  members : List ObjectIDMsg
deriving DecidableEq, Repr

/-- Go type: `type StorageGroup struct { size uint64; hash []byte; members []oid.ID }`. -/
structure StorageGroup (ID : Type) where
  size : Nat
  hash : List Nat
  members : List ID
deriving DecidableEq, Repr

/-- Go `(*StorageGroup).AppendMember`. -/
def StorageGroup.AppendMember {ID : Type} (x : StorageGroup ID) (member : ID) :
    StorageGroup ID :=
  { x with members := x.members ++ [member] }

/-- Go `StorageGroup.Members`. -/
def StorageGroup.Members {ID : Type} (x : StorageGroup ID) : List ID := x.members

/-- Go `StorageGroup.Marshal`; `encode` is `storagegroup.StorageGroup.StableMarshal(nil)`. -/
def StorageGroup.Marshal {ID : Type} (k : OIDCodec ID) (encode : StorageGroupMsg → List Nat)
    (x : StorageGroup ID) : List Nat :=
  encode ⟨x.size, some ⟨TillichZemor, x.hash⟩, 0, x.members.map k.write⟩

/-- Go `(*Object).WriteStorageGroup`. The function calls
`x.hdr.SetObjectType(v2object.TypeTombstone)`. -/
def Object.WriteStorageGroup {ID Sig : Type} (env : ObjectEnv ID Sig)
    (encode : StorageGroupMsg → List Nat) (x : Object ID Sig) (sg : StorageGroup ID) :
    Except String (Object ID Sig) :=
  if sg.Members.length = 0 then .error "missing members"
  else
    .ok { x with
      hdr := x.hdr.setFields (fun f =>
        { f with typ := TypeTombstone, payloadLen := (sg.Marshal env.oid encode).length })
      payload := sg.Marshal env.oid encode }

/-- Go `Object.IsStorageGroup`. -/
def Object.IsStorageGroup {ID Sig : Type} (x : Object ID Sig) : Bool :=
  decide (x.hdr.fields.typ = TypeStorageGroup)

/-! ## Split information (`split.go`) -/

/-- The `object.SplitInfo` message. -/
structure SplitInfoMsg where
  splitID : List Nat
  lastPart : Option ObjectIDMsg
  link : Option ObjectIDMsg
deriving DecidableEq, Repr

/-- Go type: `type SplitInfo struct { m object.SplitInfo }`. -/
structure SplitInfo where
  m : SplitInfoMsg
deriving DecidableEq, Repr

/-- Go `SplitInfo.LastChild`. The result is `Except.error` when the call panics. -/
def SplitInfo.LastChild {ID : Type} (k : OIDCodec ID) (x : SplitInfo) : Except String ID :=
  match x.m.lastPart with
  | none => .ok k.zero
  | some m =>
    match k.read m with
    | none => .error "unexpected error in last split child resolving"
    | some res => .ok res

/-- Go `(*SplitInfo).SetLastChild`. -/
def SplitInfo.SetLastChild {ID : Type} (k : OIDCodec ID) (x : SplitInfo) (last : ID) :
    SplitInfo :=
  ⟨{ x.m with lastPart := some (k.write last) }⟩

/-- Go `SplitInfo.Linker`. The result is `Except.error` when the call panics. After
`err := res.ReadFromV2(*m)` the function panics whether or not `err` is `nil`. -/
def SplitInfo.Linker {ID : Type} (k : OIDCodec ID) (x : SplitInfo) : Except String ID :=
  match x.m.link with
  | none => .ok k.zero
  | some m =>
    match k.read m with
    | none => .error "unexpected error in linker resolving"
    | some _ => .error "unexpected error in linker resolving: <nil>"

/-- Go `(*SplitInfo).SetLinker`. -/
def SplitInfo.SetLinker {ID : Type} (k : OIDCodec ID) (x : SplitInfo) (linker : ID) :
    SplitInfo :=
  ⟨{ x.m with link := some (k.write linker) }⟩

/-! ## Search filters (`search.go`) -/

/-- Go constant `filterUnspecified`. -/
def filterUnspecified : Nat := 0

/-- Go constant `filterStringEquals`. -/
def filterStringEquals : Nat := 1

/-- Go constant `filterStringNotEquals`. -/
def filterStringNotEquals : Nat := 2

/-- Go constant `filterNotPresent`. -/
def filterNotPresent : Nat := 3

/-- Go constant `filterPrefixEquals`. -/
def filterPrefixEquals : Nat := 4

/-- Go type `Filter` of `search.go`: `type Filter struct { idState filterState; id
string; ownerState filterState; owner string; typ object.Type }`. -/
structure SearchFilter where
  idState : Nat
  id : String
  ownerState : Nat
  owner : String
  typ : Nat
deriving DecidableEq, Repr

/-- The zero value `var f Filter`. -/
def SearchFilter.zero : SearchFilter := ⟨0, "", 0, "", 0⟩

/-- Go `(*Filter).ByID`; `EncodeToString` of `oid.ID` is a parameter. -/
def SearchFilter.ByID {ID : Type} (EncodeToString : ID → String) (x : SearchFilter) (id : ID) :
    SearchFilter :=
  { x with idState := filterStringEquals, id := EncodeToString id }

/-- Go `Filter.CustomID`. -/
def SearchFilter.CustomID (x : SearchFilter) : Bool := decide (x.idState ≠ filterUnspecified)

/-- The body shared by the switches of `AssertID` and `AssertOwner`: the result for the
state `state`, the stored string `stored` and the encoded identifier `encoded`. -/
def assertSwitch (state : Nat) (stored encoded : String) : Except String Bool :=
  if state = filterUnspecified then .ok true
  else if state = filterStringEquals then .ok (decide (stored = encoded))
  else if state = filterStringNotEquals then .ok (decide (stored ≠ encoded))
  else if state = filterNotPresent then .ok false
  else if state = filterPrefixEquals then .ok (stored.toList.isPrefixOf encoded.toList)
  else .error "unsupported enum value"

/-- Go `Filter.AssertID`: `switch x.idState` over `x.id`. -/
def SearchFilter.AssertID {ID : Type} (EncodeToString : ID → String) (x : SearchFilter)
    (id : ID) : Except String Bool :=
  assertSwitch x.idState x.id (EncodeToString id)

/-- Go `(*Filter).ByOwner`; `EncodeToString` of `user.ID` is a parameter. -/
def SearchFilter.ByOwner {User : Type} (EncodeToString : User → String) (x : SearchFilter)
    (id : User) : SearchFilter :=
  { x with ownerState := filterStringEquals, owner := EncodeToString id }

/-- Go `Filter.CustomOwner`. -/
def SearchFilter.CustomOwner (x : SearchFilter) : Bool :=
  decide (x.ownerState ≠ filterUnspecified)

/-- Go `Filter.AssertOwner`: `switch x.idState` over `x.owner`. -/
def SearchFilter.AssertOwner {User : Type} (EncodeToString : User → String)
    (x : SearchFilter) (id : User) : Except String Bool :=
  assertSwitch x.idState x.owner (EncodeToString id)

/-! ## Object decoding from bytes -/

/-- Values of the Go `error` that `Object.Unmarshal` returns: the error of the protocol
codec, or the error of `readFromV2`. -/
inductive ObjectUnmarshalError where
  | codec
  | object (e : ObjectError)
deriving DecidableEq, Repr

/-- Go `(*Object).Unmarshal`; `decode` is `object.Object.Unmarshal`, `none` when it
returns an error. The result is `Except.error` when the call panics. -/
def Object.Unmarshal {ID Sig : Type} [DecidableEq ID] (env : ObjectEnv ID Sig)
    (decode : List Nat → Option ObjectMsg) (x : Object ID Sig) (data : List Nat) :
    Except String (Object ID Sig × Option ObjectUnmarshalError) :=
  match decode data with
  | none => .ok (x, some .codec)
  | some m =>
    match x.readFromV2 env m false with
    | .error msg => .error msg
    | .ok (y, e) => .ok (y, e.map .object)

/-! ## More sample codecs -/

/-- A binary codec of storage group messages, writing side. -/
def sampleStorageGroupEncode (m : StorageGroupMsg) : List Nat :=
  Nat.digits 256 (Encodable.encode
    (m.validationDataSize, m.validationHash.map (fun h => (h.typ, h.sum)), m.expirationEpoch,
      m.members.map (fun i => i.value)))

/-- The reading side of a binary codec restricted to the object messages that hold at
most an identifier: the bytes are those of the identifier, no byte for none. -/
def sampleObjectDecode (data : List Nat) : Option ObjectMsg :=
  some ⟨if data = [] then none else some ⟨data⟩, none, none, []⟩

end Eacl

/-! # Theorems -/

namespace Eacl

/-! ## Loops against their reference semantics -/

theorem keysLoop_iff (bKey : List Nat) (ks : List (List Nat)) :
    keysLoop bKey ks = true ↔ bKey ∈ ks := by
  induction ks with
  | nil => simp [keysLoop]
  | cons k ks ih =>
    unfold keysLoop
    by_cases h : k = bKey
    · simp [h]
    · have h2 : ¬ bKey = k := fun e => h e.symm
      simp [h, h2, ih]

theorem targetsLoop_iff (bKey : List Nat) (role : Nat) (ts : List Target) :
    targetsLoop bKey role ts = true ↔ ∃ t ∈ ts, Target.Matches bKey role t := by
  induction ts with
  | nil => simp [targetsLoop]
  | cons t ts ih =>
    unfold targetsLoop
    by_cases hk : t.keys.length = 0
    · have hnil : t.keys = [] := List.length_eq_zero.mp hk
      by_cases hr : t.role = role
      · simp [hk, hr, Target.Matches, hnil]
      · simp [hk, hr, ih, Target.Matches, hnil]
    · have hnil : t.keys ≠ [] := fun e => hk (by simp [e])
      by_cases hl : keysLoop bKey t.keys = true
      · have hm := (keysLoop_iff bKey t.keys).mp hl
        simp [hk, hl, Target.Matches, hm]
      · have hm : bKey ∉ t.keys := fun e => hl ((keysLoop_iff bKey t.keys).mpr e)
        simp [hk, hl, ih, Target.Matches, hm, hnil]

theorem headersLoop_iff (matcher : String → String → Bool) (k v : String) (hs : List Header) :
    headersLoop matcher k v hs = true ↔ ∃ h ∈ hs, h.key = k ∧ matcher v h.val = true := by
  induction hs with
  | nil => simp [headersLoop]
  | cons h hs ih =>
    unfold headersLoop
    by_cases hk : h.key = k
    · by_cases hm : matcher v h.val = true
      · simp [hk, hm]
      · simp [hk, hm, ih]
    · simp [hk, ih]

theorem headersLoop_equal (k v : String) (hs : List Header) :
    headersLoop (fun ruleHeader requestHeader => decide (ruleHeader = requestHeader)) k v hs
      = true ↔ ∃ h ∈ hs, h.key = k ∧ h.val = v := by
  rw [headersLoop_iff]
  constructor
  · rintro ⟨h, hh, hk, hv⟩
    exact ⟨h, hh, hk, (of_decide_eq_true hv).symm⟩
  · rintro ⟨h, hh, hk, hv⟩
    exact ⟨h, hh, hk, decide_eq_true hv.symm⟩

theorem headersLoop_notEqual (k v : String) (hs : List Header) :
    headersLoop (fun ruleHeader requestHeader => decide (ruleHeader ≠ requestHeader)) k v hs
      = true ↔ ∃ h ∈ hs, h.key = k ∧ h.val ≠ v := by
  rw [headersLoop_iff]
  constructor
  · rintro ⟨h, hh, hk, hv⟩
    exact ⟨h, hh, hk, fun e => (of_decide_eq_true hv) e.symm⟩
  · rintro ⟨h, hh, hk, hv⟩
    exact ⟨h, hh, hk, decide_eq_true (fun e => hv e.symm)⟩

/-- The value of `hs` the header type switch of `filterLoop` selects. -/
theorem scopeHeaders_supported {md : RequestMetadata} {t : Nat}
    (h : t = HeaderTypeRequest ∨ t = HeaderTypeObject) :
    scopeHeaders md t =
      some (if t = HeaderTypeRequest then md.requestHeaders else md.objectHeaders) := by
  unfold scopeHeaders
  rcases h with h | h
  · simp [h]
  · simp [h, HeaderTypeObject, HeaderTypeRequest]

theorem scopeHeaders_isSome {md : RequestMetadata} {t : Nat} {hs : List Header}
    (h : scopeHeaders md t = some hs) : t = HeaderTypeRequest ∨ t = HeaderTypeObject := by
  unfold scopeHeaders at h
  by_cases h1 : t = HeaderTypeRequest
  · exact Or.inl h1
  · by_cases h2 : t = HeaderTypeObject
    · exact Or.inr h2
    · simp [h1, h2] at h

theorem satisfied_supported {md : RequestMetadata} {f : HeaderFilter}
    (h : f.Satisfied md) : f.Supported := by
  obtain ⟨hs, hsc, hm⟩ := h
  refine ⟨scopeHeaders_isSome hsc, ?_⟩
  rcases hm with ⟨hm, _⟩ | ⟨hm, _⟩
  · exact Or.inl hm
  · exact Or.inr hm

theorem supported_ne_service {t : Nat} (h : t = HeaderTypeRequest ∨ t = HeaderTypeObject) :
    t ≠ HeaderTypeService := by
  rcases h with h | h <;> subst h <;> decide

/-- One turn of `filterLoop` on a filter with the Equal matcher. -/
theorem filterLoop_cons_equal (i : Nat) (md : RequestMetadata) (j : Nat) (f : HeaderFilter)
    (fs : List HeaderFilter) (n : Nat)
    (ht : f.hdrType = HeaderTypeRequest ∨ f.hdrType = HeaderTypeObject)
    (hm : f.matchType = MatchTypeStringEqual) :
    filterLoop i md j (f :: fs) n = filterLoop i md (j + 1) fs
      (if headersLoop (fun ruleHeader requestHeader => decide (ruleHeader = requestHeader))
          f.key f.value
          (if f.hdrType = HeaderTypeRequest then md.requestHeaders else md.objectHeaders)
       then n + 1 else n) := by
  rw [filterLoop, if_neg (supported_ne_service ht), if_pos ht]
  simp only [if_pos hm]

/-- One turn of `filterLoop` on a filter with the NotEqual matcher. -/
theorem filterLoop_cons_notEqual (i : Nat) (md : RequestMetadata) (j : Nat)
    (f : HeaderFilter) (fs : List HeaderFilter) (n : Nat)
    (ht : f.hdrType = HeaderTypeRequest ∨ f.hdrType = HeaderTypeObject)
    (hm : f.matchType = MatchTypeStringNotEqual) :
    filterLoop i md j (f :: fs) n = filterLoop i md (j + 1) fs
      (if headersLoop (fun ruleHeader requestHeader => decide (ruleHeader ≠ requestHeader))
          f.key f.value
          (if f.hdrType = HeaderTypeRequest then md.requestHeaders else md.objectHeaders)
       then n + 1 else n) := by
  have hne : f.matchType ≠ MatchTypeStringEqual := by rw [hm]; decide
  rw [filterLoop, if_neg (supported_ne_service ht), if_pos ht]
  simp only [if_neg hne, if_pos hm]

/-- A satisfied filter increments `headersMatched`. -/
theorem filterLoop_cons_sat (i : Nat) (md : RequestMetadata) (j : Nat) (f : HeaderFilter)
    (fs : List HeaderFilter) (n : Nat) (h : f.Satisfied md) :
    filterLoop i md j (f :: fs) n = filterLoop i md (j + 1) fs (n + 1) := by
  obtain ⟨hs, hsc, hm⟩ := h
  have ht := scopeHeaders_isSome hsc
  rw [scopeHeaders_supported ht, Option.some.injEq] at hsc
  subst hsc
  rcases hm with ⟨hm, hex⟩ | ⟨hm, hex⟩
  · rw [filterLoop_cons_equal i md j f fs n ht hm, if_pos ((headersLoop_equal _ _ _).mpr hex)]
  · rw [filterLoop_cons_notEqual i md j f fs n ht hm,
      if_pos ((headersLoop_notEqual _ _ _).mpr hex)]

/-- A supported filter that is not satisfied leaves `headersMatched` as it is. -/
theorem filterLoop_cons_unsat (i : Nat) (md : RequestMetadata) (j : Nat) (f : HeaderFilter)
    (fs : List HeaderFilter) (n : Nat) (hsup : f.Supported) (h : ¬ f.Satisfied md) :
    filterLoop i md j (f :: fs) n = filterLoop i md (j + 1) fs n := by
  obtain ⟨ht, hm⟩ := hsup
  rcases hm with hm | hm
  · rw [filterLoop_cons_equal i md j f fs n ht hm, if_neg]
    intro hl
    exact h ⟨_, scopeHeaders_supported ht, Or.inl ⟨hm, (headersLoop_equal _ _ _).mp hl⟩⟩
  · rw [filterLoop_cons_notEqual i md j f fs n ht hm, if_neg]
    intro hl
    exact h ⟨_, scopeHeaders_supported ht, Or.inr ⟨hm, (headersLoop_notEqual _ _ _).mp hl⟩⟩

/-- The filter pass never counts more filters than it has examined. -/
theorem filterLoop_bounds (i : Nat) (md : RequestMetadata) (fs : List HeaderFilter) :
    ∀ (j n m : Nat), filterLoop i md j fs n = .ok m → n ≤ m ∧ m ≤ n + fs.length := by
  induction fs with
  | nil =>
    intro j n m h
    simp only [filterLoop, Except.ok.injEq] at h
    subst h
    simp
  | cons f fs ih =>
    intro j n m h
    by_cases hsvc : f.hdrType = HeaderTypeService
    · rw [filterLoop, if_pos hsvc, Except.ok.injEq] at h
      subst h
      simp
    · by_cases ht : f.hdrType = HeaderTypeRequest ∨ f.hdrType = HeaderTypeObject
      · by_cases hm : f.matchType = MatchTypeStringEqual
        · rw [filterLoop_cons_equal i md j f fs n ht hm] at h
          have := ih _ _ _ h
          simp only [List.length_cons]
          split_ifs at this <;> omega
        · by_cases hm2 : f.matchType = MatchTypeStringNotEqual
          · rw [filterLoop_cons_notEqual i md j f fs n ht hm2] at h
            have := ih _ _ _ h
            simp only [List.length_cons]
            split_ifs at this <;> omega
          · rw [filterLoop, if_neg hsvc, if_pos ht] at h
            simp only [if_neg hm, if_neg hm2] at h
            cases h
      · rw [filterLoop, if_neg hsvc, if_neg ht] at h
        cases h

/-- On supported filters the filter pass returns a count, and the count is the number of
filters iff every filter is satisfied. -/
theorem filterLoop_supported (i : Nat) (md : RequestMetadata) (fs : List HeaderFilter)
    (hsup : ∀ f ∈ fs, f.Supported) :
    ∀ (j n : Nat), ∃ m, filterLoop i md j fs n = .ok m ∧ n ≤ m ∧ m ≤ n + fs.length ∧
      (m = n + fs.length ↔ ∀ f ∈ fs, f.Satisfied md) := by
  induction fs with
  | nil =>
    intro j n
    exact ⟨n, by simp [filterLoop]⟩
  | cons f fs ih =>
    intro j n
    have hsup2 : ∀ g ∈ fs, g.Supported := fun g hg => hsup g (List.mem_cons_of_mem _ hg)
    by_cases hsat : f.Satisfied md
    · obtain ⟨m, hm, h1, h2, h3⟩ := ih hsup2 (j + 1) (n + 1)
      refine ⟨m, ?_, by omega, by simp only [List.length_cons]; omega, ?_⟩
      · rw [filterLoop_cons_sat i md j f fs n hsat, hm]
      · simp only [List.length_cons, List.mem_cons, forall_eq_or_imp]
        constructor
        · intro e
          exact ⟨hsat, h3.mp (by omega)⟩
        · rintro ⟨_, hall⟩
          have := h3.mpr hall
          omega
    · obtain ⟨m, hm, h1, h2, h3⟩ := ih hsup2 (j + 1) n
      refine ⟨m, ?_, by omega, by simp only [List.length_cons]; omega, ?_⟩
      · rw [filterLoop_cons_unsat i md j f fs n (hsup f (List.mem_cons_self _ _)) hsat, hm]
      · simp only [List.length_cons, List.mem_cons, forall_eq_or_imp]
        constructor
        · intro e
          omega
        · rintro ⟨hs, _⟩
          exact absurd hs hsat

/-- When every filter is satisfied the filter pass counts all of them. -/
theorem filterLoop_all_sat (i : Nat) (md : RequestMetadata) (fs : List HeaderFilter)
    (hsat : ∀ f ∈ fs, f.Satisfied md) (j n : Nat) :
    filterLoop i md j fs n = .ok (n + fs.length) := by
  obtain ⟨m, hm, _, _, h3⟩ :=
    filterLoop_supported i md fs (fun f hf => satisfied_supported (hsat f hf)) j n
  rw [hm, h3.mpr hsat]

theorem rulesLoop_nil (bKey : List Nat) (roleV2 opV2 : Nat) (md : RequestMetadata) (i : Nat) :
    rulesLoop bKey roleV2 opV2 md i [] = some .ErrRuleNotFound := by
  rw [rulesLoop]

theorem subjectMatches_iff (bKey : List Nat) (roleV2 : Nat) (r : Record) :
    targetsLoop bKey roleV2 r.targets = true ↔ r.SubjectMatches bKey roleV2 :=
  targetsLoop_iff bKey roleV2 r.targets

/-- A rule for another operation is skipped. -/
theorem rulesLoop_cons_other_op (bKey : List Nat) (roleV2 opV2 : Nat) (md : RequestMetadata)
    (i : Nat) (r : Record) (rs : List Record) (h : r.op ≠ opV2) :
    rulesLoop bKey roleV2 opV2 md i (r :: rs) = rulesLoop bKey roleV2 opV2 md (i + 1) rs := by
  rw [rulesLoop, if_pos h]

/-- A rule none of whose targets matches is skipped. -/
theorem rulesLoop_cons_other_subject (bKey : List Nat) (roleV2 opV2 : Nat)
    (md : RequestMetadata) (i : Nat) (r : Record) (rs : List Record)
    (h : ¬ r.SubjectMatches bKey roleV2) :
    rulesLoop bKey roleV2 opV2 md i (r :: rs) = rulesLoop bKey roleV2 opV2 md (i + 1) rs := by
  have ht : targetsLoop bKey roleV2 r.targets = false := by
    cases hb : targetsLoop bKey roleV2 r.targets
    · rfl
    · exact absurd ((subjectMatches_iff bKey roleV2 r).mp hb) h
  rw [rulesLoop]
  by_cases hop : r.op ≠ opV2
  · rw [if_pos hop]
  · rw [if_neg hop, if_pos ht]

/-- A rule of the requested operation with a matching target: the scan continues with the
filter pass. -/
theorem rulesLoop_cons_filters (bKey : List Nat) (roleV2 opV2 : Nat) (md : RequestMetadata)
    (i : Nat) (r : Record) (rs : List Record) (hop : r.op = opV2)
    (hsub : r.SubjectMatches bKey roleV2) :
    rulesLoop bKey roleV2 opV2 md i (r :: rs) =
      match filterLoop i md 0 r.filters 0 with
      | .error e => some e
      | .ok headersMatched =>
        if headersMatched ≥ r.filters.length then actionSwitch i r.action
        else rulesLoop bKey roleV2 opV2 md (i + 1) rs := by
  have ht : ¬ targetsLoop bKey roleV2 r.targets = false := by
    rw [(subjectMatches_iff bKey roleV2 r).mpr hsub]
    simp
  rw [rulesLoop, if_neg (not_not.mpr hop), if_neg ht]
  rfl

/-- A rule that applies decides. -/
theorem rulesLoop_cons_applies (bKey : List Nat) (roleV2 opV2 : Nat) (md : RequestMetadata)
    (i : Nat) (r : Record) (rs : List Record) (h : r.Applies bKey roleV2 opV2 md) :
    rulesLoop bKey roleV2 opV2 md i (r :: rs) = actionSwitch i r.action := by
  obtain ⟨hop, hsub, hsat⟩ := h
  rw [rulesLoop_cons_filters bKey roleV2 opV2 md i r rs hop hsub,
    filterLoop_all_sat i md r.filters hsat 0 0]
  simp

/-- A rule with supported filters that does not apply is skipped. -/
theorem rulesLoop_cons_not_applies (bKey : List Nat) (roleV2 opV2 : Nat)
    (md : RequestMetadata) (i : Nat) (r : Record) (rs : List Record)
    (hsup : ∀ f ∈ r.filters, f.Supported) (h : ¬ r.Applies bKey roleV2 opV2 md) :
    rulesLoop bKey roleV2 opV2 md i (r :: rs) = rulesLoop bKey roleV2 opV2 md (i + 1) rs := by
  by_cases hop : r.op = opV2
  · by_cases hsub : r.SubjectMatches bKey roleV2
    · obtain ⟨m, hm, _, h2, h3⟩ := filterLoop_supported i md r.filters hsup 0 0
      have hlt : ¬ m ≥ r.filters.length := by
        intro hge
        exact h ⟨hop, hsub, h3.mp (by omega)⟩
      rw [rulesLoop_cons_filters bKey roleV2 opV2 md i r rs hop hsub, hm]
      simp only [if_neg hlt]
    · exact rulesLoop_cons_other_subject bKey roleV2 opV2 md i r rs hsub
  · exact rulesLoop_cons_other_op bKey roleV2 opV2 md i r rs hop

theorem actionSwitch_wellFormed (i : Nat) (r : Record) (h : r.WellFormed) :
    actionSwitch i r.action = verdict r.action := by
  unfold actionSwitch verdict
  rcases h.1 with ha | ha
  · simp [ha]
  · simp [ha, ActionDeny, ActionAllow]

theorem verdict_ne_notFound (a : Nat) : verdict a ≠ some .ErrRuleNotFound := by
  unfold verdict
  split_ifs <;> simp

/-- The scan returns the verdict of the first rule that applies. -/
theorem rulesLoop_first (bKey : List Nat) (roleV2 opV2 : Nat) (md : RequestMetadata)
    (rs : List Record) (hwf : ∀ r ∈ rs, r.WellFormed) :
    ∀ (i0 k : Nat) (r : Record), rs[k]? = some r → r.Applies bKey roleV2 opV2 md →
      (∀ j, j < k → ∀ q, rs[j]? = some q → ¬ q.Applies bKey roleV2 opV2 md) →
      rulesLoop bKey roleV2 opV2 md i0 rs = verdict r.action := by
  induction rs with
  | nil => intro i0 k r hk; simp at hk
  | cons q rs ih =>
    intro i0 k r hk happ hfirst
    cases k with
    | zero =>
      simp only [List.getElem?_cons_zero, Option.some.injEq] at hk
      subst hk
      rw [rulesLoop_cons_applies bKey roleV2 opV2 md i0 q rs happ,
        actionSwitch_wellFormed i0 q (hwf q (List.mem_cons_self _ _))]
    | succ k =>
      simp only [List.getElem?_cons_succ] at hk
      have hq : ¬ q.Applies bKey roleV2 opV2 md := hfirst 0 (Nat.succ_pos k) q (by simp)
      rw [rulesLoop_cons_not_applies bKey roleV2 opV2 md i0 q rs
        (hwf q (List.mem_cons_self _ _)).2 hq]
      exact ih (fun r hr => hwf r (List.mem_cons_of_mem _ hr)) (i0 + 1) k r hk happ
        (fun j hj p hp => hfirst (j + 1) (by omega) p (by simpa using hp))

/-- The scan finds no rule iff no rule applies. -/
theorem rulesLoop_notFound_iff (bKey : List Nat) (roleV2 opV2 : Nat) (md : RequestMetadata)
    (rs : List Record) (hwf : ∀ r ∈ rs, r.WellFormed) :
    ∀ (i0 : Nat), rulesLoop bKey roleV2 opV2 md i0 rs = some .ErrRuleNotFound ↔
      ∀ r ∈ rs, ¬ r.Applies bKey roleV2 opV2 md := by
  induction rs with
  | nil => intro i0; simp [rulesLoop_nil]
  | cons q rs ih =>
    intro i0
    have hwf2 : ∀ r ∈ rs, r.WellFormed := fun r hr => hwf r (List.mem_cons_of_mem _ hr)
    by_cases hq : q.Applies bKey roleV2 opV2 md
    · rw [rulesLoop_cons_applies bKey roleV2 opV2 md i0 q rs hq,
        actionSwitch_wellFormed i0 q (hwf q (List.mem_cons_self _ _))]
      constructor
      · intro h
        exact absurd h (verdict_ne_notFound _)
      · intro h
        exact absurd hq (h q (List.mem_cons_self _ _))
    · rw [rulesLoop_cons_not_applies bKey roleV2 opV2 md i0 q rs
        (hwf q (List.mem_cons_self _ _)).2 hq, ih hwf2 (i0 + 1)]
      simp only [List.mem_cons, forall_eq_or_imp]
      exact ⟨fun h => ⟨hq, h⟩, fun h => h.2⟩

/-- C1. First match wins: on a table whose rules all carry a supported action and only
Request- or Object-scoped filters with Equal/NotEqual matchers, and for a present
requester key, `CheckAccess` returns the action of the lowest-index rule that applies
(operation equal to the requested one, some target matching the requester, all filters
satisfied): `nil` when that action is Allow, `ErrAccessDenied` when it is Deny. It returns
`ErrRuleNotFound` iff no rule applies. -/
theorem C1_first_match_wins (c : Casts) (x : Extended) (key : PublicKey) (role : Role)
    (op : Op) (md : RequestMetadata) (hwf : ∀ r ∈ x.m.records, r.WellFormed) :
    (∀ (k : Nat) (r : Record), x.m.records[k]? = some r →
        r.Applies (SerializePublicKey key) (c.castRole role) (c.castOp op) md →
        (∀ j, j < k → ∀ q, x.m.records[j]? = some q →
          ¬ q.Applies (SerializePublicKey key) (c.castRole role) (c.castOp op) md) →
        (r.action = ActionAllow → x.CheckAccess c (some key) role op md = .ok none) ∧
        (r.action = ActionDeny →
          x.CheckAccess c (some key) role op md = .ok (some .ErrAccessDenied))) ∧
    (x.CheckAccess c (some key) role op md = .ok (some .ErrRuleNotFound) ↔
      ∀ r ∈ x.m.records,
        ¬ r.Applies (SerializePublicKey key) (c.castRole role) (c.castOp op) md) := by
  refine ⟨?_, ?_⟩
  · intro k r hk happ hfirst
    have h := rulesLoop_first (SerializePublicKey key) (c.castRole role) (c.castOp op) md
      x.m.records hwf 0 k r hk happ hfirst
    refine ⟨fun ha => ?_, fun ha => ?_⟩
    · simp [Extended.CheckAccess, h, verdict, ha]
    · simp [Extended.CheckAccess, h, verdict, ha, ActionDeny, ActionAllow]
  · rw [← rulesLoop_notFound_iff (SerializePublicKey key) (c.castRole role) (c.castOp op) md
      x.m.records hwf 0]
    simp [Extended.CheckAccess]

theorem C1_first_match_wins_witness :
    (∀ r ∈ denyThenAllow.m.records, r.WellFormed) ∧
    denyThenAllow.CheckAccess protocolCasts (some keyA) RoleOwner OpObjectGet noMeta
      = .ok (some .ErrAccessDenied) := by
  have hwf : ∀ r ∈ denyThenAllow.m.records, r.WellFormed := by
    intro r hr
    simp only [denyThenAllow, List.mem_cons, List.mem_singleton, List.not_mem_nil,
      or_false] at hr
    rcases hr with e | e <;> subst e
    · exact ⟨Or.inr rfl, by intro f hf; simp at hf⟩
    · exact ⟨Or.inl rfl, by intro f hf; simp at hf⟩
  refine ⟨hwf, ?_⟩
  refine ((C1_first_match_wins protocolCasts denyThenAllow keyA RoleOwner OpObjectGet noMeta
    hwf).1 0 ⟨OpObjectGet, ActionDeny, [], [⟨RoleUser, []⟩]⟩ rfl ?_ ?_).2 rfl
  · refine ⟨rfl, ⟨⟨RoleUser, []⟩, by simp, Or.inl ⟨rfl, rfl⟩⟩, ?_⟩
    intro f hf
    simp at hf
  · intro j hj
    exact absurd hj (Nat.not_lt_zero j)

theorem nat_between_zero_five (n : Nat) (h1 : 0 < n) (h2 : n < 5) :
    n = 1 ∨ n = 2 ∨ n = 3 ∨ n = 4 := by
  omega

theorem supported_role_cases {role : Role} (h : roleZero < role ∧ role < roleLast) :
    role = RoleOwner ∨ role = RoleContainer ∨ role = RoleInnerRing ∨ role = RoleOthers :=
  nat_between_zero_five role h.1 h.2

theorem roleSwitch_supported {role : Role} (h : roleZero < role ∧ role < roleLast) :
    ∃ r2, roleSwitch role = some r2 := by
  rcases supported_role_cases h with e | e | e | e <;> subst e
  · exact ⟨RoleUser, by decide⟩
  · exact ⟨RoleSystem, by decide⟩
  · exact ⟨RoleSystem, by decide⟩
  · exact ⟨V2RoleOthers, by decide⟩

theorem SubjectsWithRole_supported {role : Role} (h : roleZero < role ∧ role < roleLast) :
    SubjectsWithRole role = .ok ⟨role, []⟩ := by
  rcases supported_role_cases h with e | e | e | e <;> subst e <;> rfl

/-- The rule `newRule` builds for a role target. -/
theorem newRule_role (c : Casts) (action : Nat) {role : Role} {r2 : Nat} (op : Op)
    (h : roleZero < role ∧ role < roleLast) (hr : roleSwitch role = some r2) (hop : op ≠ 0) :
    newRule c action ⟨role, []⟩ op = .ok ⟨⟨c.castOp op, action, [], [⟨r2, []⟩]⟩⟩ := by
  have hpos : (role : Nat) > 0 := h.1
  have hne : (role : Nat) ≠ 0 := Nat.pos_iff_ne_zero.mp hpos
  simp [newRule, checkTarget, hne, hop, Rule.AddTargetSubjects, hpos, hr]

/-- A filterless rule of the requested operation whose only target is the requester's
converted role decides at once, whatever follows it. -/
theorem rulesLoop_role_rule (bKey : List Nat) (roleV2 opV2 : Nat) (md : RequestMetadata)
    (i action : Nat) (rs : List Record) :
    rulesLoop bKey roleV2 opV2 md i (⟨opV2, action, [], [⟨roleV2, []⟩]⟩ :: rs) =
      actionSwitch i action := by
  apply rulesLoop_cons_applies
  refine ⟨rfl, ⟨⟨roleV2, []⟩, by simp, Or.inl ⟨rfl, rfl⟩⟩, ?_⟩
  intro f hf
  simp at hf

theorem protocolCasts_projectsRoles : protocolCasts.ProjectsRoles := by
  intro role r2 h
  simp [protocolCasts, h]

/-- C2. Prepend overrides everything: for every table (malformed rules included), every
supported role and non-zero operation, once the filterless rule
`Allow(op, SubjectsWithRole(role))` resp. `Deny(op, SubjectsWithRole(role))` is set as
first rule, `CheckAccess(key, role, op, meta)` returns that rule's action for every
present key and every metadata. The absent helper `castRole` is assumed to convert a
supported role to the protocol role that `AddTargetSubjects` stores for it. -/
theorem C2_prepend_overrides (c : Casts) (hc : c.ProjectsRoles) (T : Extended) (role : Role)
    (op : Op) (hrole : roleZero < role ∧ role < roleLast) (hop : op ≠ 0) (key : PublicKey)
    (md : RequestMetadata) :
    (do
      let t ← SubjectsWithRole role
      let r ← Allow c op t
      (T.SetFirstRule r).CheckAccess c (some key) role op md) = .ok none ∧
    (do
      let t ← SubjectsWithRole role
      let r ← Deny c op t
      (T.SetFirstRule r).CheckAccess c (some key) role op md)
        = .ok (some .ErrAccessDenied) := by
  obtain ⟨r2, hr2⟩ := roleSwitch_supported hrole
  have hcast : c.castRole role = r2 := hc role r2 hr2
  rw [SubjectsWithRole_supported hrole]
  refine ⟨?_, ?_⟩
  · simp only [Allow, bind, Except.bind, newRule_role c ActionAllow op hrole hr2 hop]
    simp only [Extended.CheckAccess, Extended.SetFirstRule, List.singleton_append, hcast,
      rulesLoop_role_rule]
    rfl
  · simp only [Deny, bind, Except.bind, newRule_role c ActionDeny op hrole hr2 hop]
    simp only [Extended.CheckAccess, Extended.SetFirstRule, List.singleton_append, hcast,
      rulesLoop_role_rule]
    rfl

theorem C2_prepend_overrides_witness :
    protocolCasts.ProjectsRoles ∧ (roleZero < RoleOthers ∧ RoleOthers < roleLast) ∧
    OpObjectGet ≠ 0 ∧
    (do
      let t ← SubjectsWithRole RoleOthers
      let r ← Allow protocolCasts OpObjectGet t
      (malformedTable.SetFirstRule r).CheckAccess protocolCasts (some keyA) RoleOthers
        OpObjectGet noMeta) = .ok none :=
  ⟨protocolCasts_projectsRoles, by decide, by decide,
    (C2_prepend_overrides protocolCasts protocolCasts_projectsRoles malformedTable RoleOthers
      OpObjectGet (by decide) (by decide) keyA noMeta).1⟩

/-- C10. Absent requester key: whatever the table (the empty one included), role,
operation and metadata, `CheckAccess` with an absent key panics with "missing sender
key" before any rule is examined, so it returns no decision at all. -/
theorem C10_absent_key (c : Casts) (x : Extended) (role : Role) (op : Op)
    (md : RequestMetadata) :
    x.CheckAccess c none role op md = .error "missing sender key" ∧
    ∀ d : Option Error, x.CheckAccess c none role op md ≠ .ok d := by
  refine ⟨rfl, ?_⟩
  intro d h
  simp [Extended.CheckAccess] at h

/-- A Service-scoped filter ends the filter pass. -/
theorem filterLoop_cons_service (i : Nat) (md : RequestMetadata) (j : Nat) (f : HeaderFilter)
    (fs : List HeaderFilter) (n : Nat) (hsvc : f.hdrType = HeaderTypeService) :
    filterLoop i md j (f :: fs) n = .ok n := by
  rw [filterLoop, if_pos hsvc]

/-- A filter of unrecognized scope fails the evaluation. -/
theorem filterLoop_cons_badType (i : Nat) (md : RequestMetadata) (j : Nat) (f : HeaderFilter)
    (fs : List HeaderFilter) (n : Nat) (hsvc : f.hdrType ≠ HeaderTypeService)
    (ht : ¬ (f.hdrType = HeaderTypeRequest ∨ f.hdrType = HeaderTypeObject)) :
    filterLoop i md j (f :: fs) n = .error (.unsupportedHeaderType f.hdrType i j) := by
  rw [filterLoop, if_neg hsvc, if_neg ht]

/-- A Request- or Object-scoped filter with an unrecognized matcher fails the
evaluation. -/
theorem filterLoop_cons_badMatcher (i : Nat) (md : RequestMetadata) (j : Nat)
    (f : HeaderFilter) (fs : List HeaderFilter) (n : Nat)
    (ht : f.hdrType = HeaderTypeRequest ∨ f.hdrType = HeaderTypeObject)
    (hm1 : f.matchType ≠ MatchTypeStringEqual) (hm2 : f.matchType ≠ MatchTypeStringNotEqual) :
    filterLoop i md j (f :: fs) n = .error (.unsupportedMatcher f.matchType i j) := by
  rw [filterLoop, if_neg (supported_ne_service ht), if_pos ht]
  simp only [if_neg hm1, if_neg hm2]

/-- An error returned from inside the filter pass is an evaluation error naming the rule
the pass belongs to. -/
theorem filterLoop_error (i : Nat) (md : RequestMetadata) (fs : List HeaderFilter) :
    ∀ (j n : Nat) (e : Error), filterLoop i md j fs n = .error e →
      e.IsEvaluationError ∧ e.withRule i = e := by
  induction fs with
  | nil =>
    intro j n e h
    rw [filterLoop] at h
    cases h
  | cons f fs ih =>
    intro j n e h
    by_cases hsvc : f.hdrType = HeaderTypeService
    · rw [filterLoop_cons_service i md j f fs n hsvc] at h
      cases h
    · by_cases ht : f.hdrType = HeaderTypeRequest ∨ f.hdrType = HeaderTypeObject
      · by_cases hm1 : f.matchType = MatchTypeStringEqual
        · rw [filterLoop_cons_equal i md j f fs n ht hm1] at h
          exact ih _ _ _ h
        · by_cases hm2 : f.matchType = MatchTypeStringNotEqual
          · rw [filterLoop_cons_notEqual i md j f fs n ht hm2] at h
            exact ih _ _ _ h
          · rw [filterLoop_cons_badMatcher i md j f fs n ht hm1 hm2] at h
            cases h
            exact ⟨⟨by simp, by simp⟩, rfl⟩
      · rw [filterLoop_cons_badType i md j f fs n hsvc ht] at h
        cases h
        exact ⟨⟨by simp, by simp⟩, rfl⟩

/-- The rule index only shows in the errors of the filter pass. -/
theorem filterLoop_reindex (i k : Nat) (md : RequestMetadata) (fs : List HeaderFilter) :
    ∀ (j n : Nat), filterLoop k md j fs n =
      (filterLoop i md j fs n).mapError (Error.withRule k) := by
  induction fs with
  | nil =>
    intro j n
    simp [filterLoop, Except.mapError]
  | cons f fs ih =>
    intro j n
    by_cases hsvc : f.hdrType = HeaderTypeService
    · rw [filterLoop_cons_service i md j f fs n hsvc, filterLoop_cons_service k md j f fs n hsvc]
      rfl
    · by_cases ht : f.hdrType = HeaderTypeRequest ∨ f.hdrType = HeaderTypeObject
      · by_cases hm1 : f.matchType = MatchTypeStringEqual
        · rw [filterLoop_cons_equal i md j f fs n ht hm1,
            filterLoop_cons_equal k md j f fs n ht hm1]
          exact ih _ _
        · by_cases hm2 : f.matchType = MatchTypeStringNotEqual
          · rw [filterLoop_cons_notEqual i md j f fs n ht hm2,
              filterLoop_cons_notEqual k md j f fs n ht hm2]
            exact ih _ _
          · rw [filterLoop_cons_badMatcher i md j f fs n ht hm1 hm2,
              filterLoop_cons_badMatcher k md j f fs n ht hm1 hm2]
            rfl
      · rw [filterLoop_cons_badType i md j f fs n hsvc ht,
          filterLoop_cons_badType k md j f fs n hsvc ht]
        rfl

theorem actionSwitch_ne_notFound (i a : Nat) : actionSwitch i a ≠ some .ErrRuleNotFound := by
  unfold actionSwitch
  split_ifs <;> simp

theorem actionSwitch_reindex (i k a : Nat) :
    actionSwitch k a = (actionSwitch i a).map (Error.withRule k) := by
  unfold actionSwitch
  split_ifs <;> rfl

/-- Scanning a table followed by more rules: the scan of the table decides unless it
finds no rule, and then the scan goes on with the rules that follow. -/
theorem rulesLoop_append (bKey : List Nat) (roleV2 opV2 : Nat) (md : RequestMetadata)
    (rs rs2 : List Record) :
    ∀ (i0 : Nat), rulesLoop bKey roleV2 opV2 md i0 (rs ++ rs2) =
      if rulesLoop bKey roleV2 opV2 md i0 rs = some .ErrRuleNotFound then
        rulesLoop bKey roleV2 opV2 md (i0 + rs.length) rs2
      else rulesLoop bKey roleV2 opV2 md i0 rs := by
  induction rs with
  | nil =>
    intro i0
    simp [rulesLoop_nil]
  | cons q rs ih =>
    intro i0
    have hidx : i0 + (q :: rs).length = i0 + 1 + rs.length := by
      simp only [List.length_cons]
      omega
    rw [hidx, List.cons_append]
    by_cases hop : q.op = opV2
    · by_cases hsub : q.SubjectMatches bKey roleV2
      · rw [rulesLoop_cons_filters bKey roleV2 opV2 md i0 q rs hop hsub,
          rulesLoop_cons_filters bKey roleV2 opV2 md i0 q (rs ++ rs2) hop hsub]
        cases hf : filterLoop i0 md 0 q.filters 0 with
        | error e =>
          have hne : e ≠ .ErrRuleNotFound := (filterLoop_error i0 md q.filters 0 0 e hf).1.2
          simp [hne]
        | ok m =>
          by_cases hge : m ≥ q.filters.length
          · simp only [if_pos hge, if_neg (actionSwitch_ne_notFound i0 q.action)]
          · simp only [if_neg hge]
            exact ih (i0 + 1)
      · rw [rulesLoop_cons_other_subject bKey roleV2 opV2 md i0 q rs hsub,
          rulesLoop_cons_other_subject bKey roleV2 opV2 md i0 q (rs ++ rs2) hsub]
        exact ih (i0 + 1)
    · rw [rulesLoop_cons_other_op bKey roleV2 opV2 md i0 q rs hop,
        rulesLoop_cons_other_op bKey roleV2 opV2 md i0 q (rs ++ rs2) hop]
      exact ih (i0 + 1)

/-- Evaluating a single rule at position `k` instead of position `i` only changes the rule
index quoted by an evaluation error. -/
theorem rulesLoop_single_reindex (bKey : List Nat) (roleV2 opV2 : Nat) (md : RequestMetadata)
    (r : Record) (i k : Nat) :
    rulesLoop bKey roleV2 opV2 md k [r] =
      (rulesLoop bKey roleV2 opV2 md i [r]).map (Error.withRule k) := by
  by_cases hop : r.op = opV2
  · by_cases hsub : r.SubjectMatches bKey roleV2
    · rw [rulesLoop_cons_filters bKey roleV2 opV2 md k r [] hop hsub,
        rulesLoop_cons_filters bKey roleV2 opV2 md i r [] hop hsub,
        filterLoop_reindex i k md r.filters 0 0]
      cases hf : filterLoop i md 0 r.filters 0 with
      | error e => simp [Except.mapError]
      | ok m =>
        by_cases hge : m ≥ r.filters.length
        · simp only [Except.mapError, if_pos hge]
          exact actionSwitch_reindex i k r.action
        · simp only [Except.mapError, if_neg hge, rulesLoop_nil]
          rfl
    · rw [rulesLoop_cons_other_subject bKey roleV2 opV2 md k r [] hsub,
        rulesLoop_cons_other_subject bKey roleV2 opV2 md i r [] hsub, rulesLoop_nil,
        rulesLoop_nil]
      rfl
  · rw [rulesLoop_cons_other_op bKey roleV2 opV2 md k r [] hop,
      rulesLoop_cons_other_op bKey roleV2 opV2 md i r [] hop, rulesLoop_nil, rulesLoop_nil]
    rfl

/-- C3. Append never overrides an earlier verdict: for every table `T`, rule `r` and
request (requester key present or absent), whenever `CheckAccess` on `T` is anything but
`ErrRuleNotFound` (Allow, Deny, an evaluation error), `CheckAccess` on `T` after
`AddRule(r)` returns the same; when `CheckAccess` on `T` is `ErrRuleNotFound`, the result
after `AddRule(r)` is the result of evaluating the single-rule table `NewExtended(r)`, an
evaluation error quoting the position of `r` in `T` as rule index. -/
theorem C3_append_never_overrides (c : Casts) (T : Extended) (r : Rule)
    (senderKey : Option PublicKey) (role : Role) (op : Op) (md : RequestMetadata) :
    (T.CheckAccess c senderKey role op md ≠ .ok (some .ErrRuleNotFound) →
      (T.AddRule r).CheckAccess c senderKey role op md
        = T.CheckAccess c senderKey role op md) ∧
    (T.CheckAccess c senderKey role op md = .ok (some .ErrRuleNotFound) →
      (T.AddRule r).CheckAccess c senderKey role op md
        = ((NewExtended r).CheckAccess c senderKey role op md).map
            (Option.map (Error.withRule T.m.records.length))) := by
  cases senderKey with
  | none =>
    refine ⟨fun _ => rfl, fun h => ?_⟩
    simp [Extended.CheckAccess] at h
  | some key =>
    simp only [Extended.CheckAccess, Extended.AddRule, NewExtended, Except.map, ne_eq,
      Except.ok.injEq]
    rw [rulesLoop_append]
    refine ⟨fun h => ?_, fun h => ?_⟩
    · rw [if_neg h]
    · rw [if_pos h, Nat.zero_add]
      exact rulesLoop_single_reindex _ _ _ _ _ 0 _

/-- The outcome of the single-rule table for a rule with supported filters. -/
theorem single_rule_outcome (c : Casts) (r : Rule) (key : PublicKey) (role : Role) (op : Op)
    (md : RequestMetadata) (hwf : r.m.WellFormed) :
    (r.m.Applies (SerializePublicKey key) (c.castRole role) (c.castOp op) md →
      (NewExtended r).CheckAccess c (some key) role op md = .ok (verdict r.m.action)) ∧
    (¬ r.m.Applies (SerializePublicKey key) (c.castRole role) (c.castOp op) md →
      (NewExtended r).CheckAccess c (some key) role op md = .ok (some .ErrRuleNotFound)) := by
  refine ⟨fun h => ?_, fun h => ?_⟩
  · simp only [Extended.CheckAccess, NewExtended]
    rw [rulesLoop_cons_applies _ _ _ _ _ _ _ h, actionSwitch_wellFormed 0 r.m hwf]
  · simp only [Extended.CheckAccess, NewExtended]
    rw [rulesLoop_cons_not_applies _ _ _ _ _ _ _ hwf.2 h, rulesLoop_nil]

/-- A rule with supported filters that matches operation and subject decides in the
single-rule table iff all its filters are satisfied. -/
theorem single_rule_action_iff (c : Casts) (r : Rule) (key : PublicKey) (role : Role)
    (op : Op) (md : RequestMetadata) (hop : r.m.op = c.castOp op)
    (hsub : r.m.SubjectMatches (SerializePublicKey key) (c.castRole role))
    (hwf : r.m.WellFormed) :
    (NewExtended r).CheckAccess c (some key) role op md = .ok (verdict r.m.action) ↔
      ∀ f ∈ r.m.filters, f.Satisfied md := by
  have hout := single_rule_outcome c r key role op md hwf
  refine ⟨fun h => ?_, fun h => hout.1 ⟨hop, hsub, h⟩⟩
  by_contra hns
  rw [hout.2 (fun happ => hns happ.2.2), Except.ok.injEq] at h
  exact verdict_ne_notFound _ h.symm

/-- C4. Filter AND semantics: for a rule that matches operation and subject, has a
supported action and only Request- or Object-scoped filters with Equal/NotEqual
matchers, the single-rule table returns the rule's action iff every filter of the rule is
satisfied; a rule without filters returns its action for every metadata; as soon as one
filter is not satisfied the outcome is `ErrRuleNotFound`. -/
theorem C4_filter_and_semantics (c : Casts) (r : Rule) (key : PublicKey) (role : Role)
    (op : Op) (md : RequestMetadata) (hop : r.m.op = c.castOp op)
    (hsub : r.m.SubjectMatches (SerializePublicKey key) (c.castRole role))
    (hwf : r.m.WellFormed) :
    ((NewExtended r).CheckAccess c (some key) role op md = .ok (verdict r.m.action) ↔
      ∀ f ∈ r.m.filters, f.Satisfied md) ∧
    (r.m.filters = [] →
      (NewExtended r).CheckAccess c (some key) role op md = .ok (verdict r.m.action)) ∧
    ((∃ f ∈ r.m.filters, ¬ f.Satisfied md) →
      (NewExtended r).CheckAccess c (some key) role op md = .ok (some .ErrRuleNotFound)) := by
  have hout := single_rule_outcome c r key role op md hwf
  have hno : ¬ (∀ f ∈ r.m.filters, f.Satisfied md) →
      (NewExtended r).CheckAccess c (some key) role op md = .ok (some .ErrRuleNotFound) :=
    fun h => hout.2 (fun happ => h happ.2.2)
  refine ⟨single_rule_action_iff c r key role op md hop hsub hwf, fun h => ?_, fun h => ?_⟩
  · refine hout.1 ⟨hop, hsub, ?_⟩
    intro f hf
    rw [h] at hf
    simp at hf
  · obtain ⟨f, hf, hns⟩ := h
    exact hno (fun hall => hns (hall f hf))

theorem ownerTarget_matches (bKey : List Nat) (r : Record) (h : r.targets = [⟨RoleUser, []⟩]) :
    r.SubjectMatches bKey (protocolCasts.castRole RoleOwner) :=
  ⟨⟨RoleUser, []⟩, by rw [h]; simp, Or.inl ⟨rfl, rfl⟩⟩

theorem C4_filter_and_semantics_witness :
    twoFilterRule.m.op = protocolCasts.castOp OpObjectGet ∧
    twoFilterRule.m.SubjectMatches (SerializePublicKey keyA)
      (protocolCasts.castRole RoleOwner) ∧
    twoFilterRule.m.WellFormed ∧
    (NewExtended twoFilterRule).CheckAccess protocolCasts (some keyA) RoleOwner OpObjectGet
      matchingMeta = .ok (some .ErrAccessDenied) := by
  have hsub := ownerTarget_matches (SerializePublicKey keyA) twoFilterRule.m rfl
  have hwf : twoFilterRule.m.WellFormed := by
    refine ⟨Or.inr rfl, ?_⟩
    intro f hf
    simp only [twoFilterRule, List.mem_cons, List.mem_singleton, List.not_mem_nil,
      or_false] at hf
    rcases hf with e | e <;> subst e
    · exact ⟨Or.inl rfl, Or.inl rfl⟩
    · exact ⟨Or.inr rfl, Or.inr rfl⟩
  refine ⟨rfl, hsub, hwf, ?_⟩
  refine (C4_filter_and_semantics protocolCasts twoFilterRule keyA RoleOwner OpObjectGet
    matchingMeta rfl hsub hwf).1.mpr ?_
  intro f hf
  simp only [twoFilterRule, List.mem_cons, List.mem_singleton, List.not_mem_nil,
    or_false] at hf
  rcases hf with e | e <;> subst e
  · exact ⟨_, rfl, Or.inl ⟨rfl, ⟨"req_key", "req_val"⟩, by simp [matchingMeta], rfl, rfl⟩⟩
  · exact ⟨_, rfl, Or.inr ⟨rfl, ⟨"obj_key", "obj_val_other"⟩, by simp [matchingMeta], rfl,
      by decide⟩⟩

/-- What it means for a Request-scoped filter to be satisfied. -/
theorem satisfied_request (md : RequestMetadata) (f : HeaderFilter)
    (ht : f.hdrType = HeaderTypeRequest) :
    f.Satisfied md ↔
      (f.matchType = MatchTypeStringEqual ∧
        ∃ h ∈ md.requestHeaders, h.key = f.key ∧ h.val = f.value) ∨
      (f.matchType = MatchTypeStringNotEqual ∧
        ∃ h ∈ md.requestHeaders, h.key = f.key ∧ h.val ≠ f.value) := by
  unfold HeaderFilter.Satisfied
  rw [scopeHeaders_supported (Or.inl ht), if_pos ht]
  constructor
  · rintro ⟨hs, hsc, h⟩
    rw [Option.some.injEq] at hsc
    subst hsc
    exact h
  · intro h
    exact ⟨_, rfl, h⟩

/-- What it means for an Object-scoped filter to be satisfied. -/
theorem satisfied_object (md : RequestMetadata) (f : HeaderFilter)
    (ht : f.hdrType = HeaderTypeObject) :
    f.Satisfied md ↔
      (f.matchType = MatchTypeStringEqual ∧
        ∃ h ∈ md.objectHeaders, h.key = f.key ∧ h.val = f.value) ∨
      (f.matchType = MatchTypeStringNotEqual ∧
        ∃ h ∈ md.objectHeaders, h.key = f.key ∧ h.val ≠ f.value) := by
  have hne : f.hdrType ≠ HeaderTypeRequest := by rw [ht]; decide
  unfold HeaderFilter.Satisfied
  rw [scopeHeaders_supported (Or.inr ht), if_neg hne]
  constructor
  · rintro ⟨hs, hsc, h⟩
    rw [Option.some.injEq] at hsc
    subst hsc
    exact h
  · intro h
    exact ⟨_, rfl, h⟩

/-- The filter pass reads only the header list of each filter's scope. -/
theorem filterLoop_congr (i : Nat) (md md2 : RequestMetadata) (fs : List HeaderFilter)
    (hreq : (∃ f ∈ fs, f.hdrType = HeaderTypeRequest) →
      md.requestHeaders = md2.requestHeaders)
    (hobj : (∃ f ∈ fs, f.hdrType = HeaderTypeObject) →
      md.objectHeaders = md2.objectHeaders) :
    ∀ (j n : Nat), filterLoop i md j fs n = filterLoop i md2 j fs n := by
  induction fs with
  | nil =>
    intro j n
    rw [filterLoop, filterLoop]
  | cons f fs ih =>
    intro j n
    have ih2 := ih (fun ⟨g, hg, hgt⟩ => hreq ⟨g, List.mem_cons_of_mem _ hg, hgt⟩)
      (fun ⟨g, hg, hgt⟩ => hobj ⟨g, List.mem_cons_of_mem _ hg, hgt⟩)
    have hhs : (if f.hdrType = HeaderTypeRequest then md.requestHeaders
        else md.objectHeaders) = (if f.hdrType = HeaderTypeRequest then md2.requestHeaders
        else md2.objectHeaders) ∨
        ¬ (f.hdrType = HeaderTypeRequest ∨ f.hdrType = HeaderTypeObject) := by
      by_cases h1 : f.hdrType = HeaderTypeRequest
      · left
        rw [if_pos h1, if_pos h1]
        exact hreq ⟨f, List.mem_cons_self _ _, h1⟩
      · by_cases h2 : f.hdrType = HeaderTypeObject
        · left
          rw [if_neg h1, if_neg h1]
          exact hobj ⟨f, List.mem_cons_self _ _, h2⟩
        · right
          exact fun h => h.elim h1 h2
    by_cases hsvc : f.hdrType = HeaderTypeService
    · rw [filterLoop_cons_service i md j f fs n hsvc,
        filterLoop_cons_service i md2 j f fs n hsvc]
    · by_cases ht : f.hdrType = HeaderTypeRequest ∨ f.hdrType = HeaderTypeObject
      · have hhs2 := hhs.resolve_right (not_not.mpr ht)
        by_cases hm1 : f.matchType = MatchTypeStringEqual
        · rw [filterLoop_cons_equal i md j f fs n ht hm1,
            filterLoop_cons_equal i md2 j f fs n ht hm1, hhs2]
          exact ih2 _ _
        · by_cases hm2 : f.matchType = MatchTypeStringNotEqual
          · rw [filterLoop_cons_notEqual i md j f fs n ht hm2,
              filterLoop_cons_notEqual i md2 j f fs n ht hm2, hhs2]
            exact ih2 _ _
          · rw [filterLoop_cons_badMatcher i md j f fs n ht hm1 hm2,
              filterLoop_cons_badMatcher i md2 j f fs n ht hm1 hm2]
      · rw [filterLoop_cons_badType i md j f fs n hsvc ht,
          filterLoop_cons_badType i md2 j f fs n hsvc ht]

/-- The scan of a single rule reads only the header lists its filters are scoped to. -/
theorem rulesLoop_single_congr (bKey : List Nat) (roleV2 opV2 : Nat)
    (md md2 : RequestMetadata) (r : Record) (i : Nat)
    (hreq : (∃ f ∈ r.filters, f.hdrType = HeaderTypeRequest) →
      md.requestHeaders = md2.requestHeaders)
    (hobj : (∃ f ∈ r.filters, f.hdrType = HeaderTypeObject) →
      md.objectHeaders = md2.objectHeaders) :
    rulesLoop bKey roleV2 opV2 md i [r] = rulesLoop bKey roleV2 opV2 md2 i [r] := by
  by_cases hop : r.op = opV2
  · by_cases hsub : r.SubjectMatches bKey roleV2
    · rw [rulesLoop_cons_filters bKey roleV2 opV2 md i r [] hop hsub,
        rulesLoop_cons_filters bKey roleV2 opV2 md2 i r [] hop hsub,
        filterLoop_congr i md md2 r.filters hreq hobj 0 0, rulesLoop_nil, rulesLoop_nil]
    · rw [rulesLoop_cons_other_subject bKey roleV2 opV2 md i r [] hsub,
        rulesLoop_cons_other_subject bKey roleV2 opV2 md2 i r [] hsub, rulesLoop_nil,
        rulesLoop_nil]
  · rw [rulesLoop_cons_other_op bKey roleV2 opV2 md i r [] hop,
      rulesLoop_cons_other_op bKey roleV2 opV2 md2 i r [] hop, rulesLoop_nil, rulesLoop_nil]

/-- C5. Matcher and scope definition: take a rule that matches operation and subject, has
a supported action and a single filter `(k, v, matcher)`. If the filter is Request-scoped,
the rule's action is returned iff some request header has key `k` and value identical to
`v` (Equal) resp. some request header has key `k` and a value different from `v`
(NotEqual), and replacing the object headers never changes the outcome. If the filter is
Object-scoped the same holds with the object headers, and replacing the request headers
never changes the outcome. -/
theorem C5_matcher_and_scope (c : Casts) (r : Rule) (f : HeaderFilter) (key : PublicKey)
    (role : Role) (op : Op) (md : RequestMetadata) (hop : r.m.op = c.castOp op)
    (hsub : r.m.SubjectMatches (SerializePublicKey key) (c.castRole role))
    (hact : r.m.action = ActionAllow ∨ r.m.action = ActionDeny) (hfs : r.m.filters = [f]) :
    (f.hdrType = HeaderTypeRequest →
      (f.matchType = MatchTypeStringEqual →
        ((NewExtended r).CheckAccess c (some key) role op md = .ok (verdict r.m.action) ↔
          ∃ h ∈ md.requestHeaders, h.key = f.key ∧ h.val = f.value)) ∧
      (f.matchType = MatchTypeStringNotEqual →
        ((NewExtended r).CheckAccess c (some key) role op md = .ok (verdict r.m.action) ↔
          ∃ h ∈ md.requestHeaders, h.key = f.key ∧ h.val ≠ f.value)) ∧
      (∀ objs : List Header,
        (NewExtended r).CheckAccess c (some key) role op ⟨md.requestHeaders, objs⟩ =
          (NewExtended r).CheckAccess c (some key) role op md)) ∧
    (f.hdrType = HeaderTypeObject →
      (f.matchType = MatchTypeStringEqual →
        ((NewExtended r).CheckAccess c (some key) role op md = .ok (verdict r.m.action) ↔
          ∃ h ∈ md.objectHeaders, h.key = f.key ∧ h.val = f.value)) ∧
      (f.matchType = MatchTypeStringNotEqual →
        ((NewExtended r).CheckAccess c (some key) role op md = .ok (verdict r.m.action) ↔
          ∃ h ∈ md.objectHeaders, h.key = f.key ∧ h.val ≠ f.value)) ∧
      (∀ reqs : List Header,
        (NewExtended r).CheckAccess c (some key) role op ⟨reqs, md.objectHeaders⟩ =
          (NewExtended r).CheckAccess c (some key) role op md)) := by
  have hEq_ne : MatchTypeStringEqual ≠ MatchTypeStringNotEqual := by decide
  have hRO : HeaderTypeRequest ≠ HeaderTypeObject := by decide
  have key_iff : ∀ (hsup : f.Supported),
      ((NewExtended r).CheckAccess c (some key) role op md = .ok (verdict r.m.action) ↔
        f.Satisfied md) := by
    intro hsup
    have hwf : r.m.WellFormed := ⟨hact, by rw [hfs]; simpa using hsup⟩
    rw [single_rule_action_iff c r key role op md hop hsub hwf, hfs]
    simp
  refine ⟨fun ht => ⟨fun hm => ?_, fun hm => ?_, fun objs => ?_⟩,
    fun ht => ⟨fun hm => ?_, fun hm => ?_, fun reqs => ?_⟩⟩
  · rw [key_iff ⟨Or.inl ht, Or.inl hm⟩, satisfied_request md f ht]
    simp [hm, hEq_ne]
  · rw [key_iff ⟨Or.inl ht, Or.inr hm⟩, satisfied_request md f ht]
    simp [hm, hEq_ne.symm]
  · simp only [Extended.CheckAccess, NewExtended, Except.ok.injEq]
    apply rulesLoop_single_congr
    · intro _; rfl
    · rintro ⟨g, hg, hgt⟩
      rw [hfs, List.mem_singleton] at hg
      subst hg
      exact absurd (ht.symm.trans hgt) hRO
  · rw [key_iff ⟨Or.inr ht, Or.inl hm⟩, satisfied_object md f ht]
    simp [hm, hEq_ne]
  · rw [key_iff ⟨Or.inr ht, Or.inr hm⟩, satisfied_object md f ht]
    simp [hm, hEq_ne.symm]
  · simp only [Extended.CheckAccess, NewExtended, Except.ok.injEq]
    apply rulesLoop_single_congr
    · rintro ⟨g, hg, hgt⟩
      rw [hfs, List.mem_singleton] at hg
      subst hg
      exact absurd (hgt.symm.trans ht) hRO
    · intro _; rfl

theorem C5_matcher_and_scope_witness :
    oneFilterRule.m.op = protocolCasts.castOp OpObjectGet ∧
    oneFilterRule.m.SubjectMatches (SerializePublicKey keyA)
      (protocolCasts.castRole RoleOwner) ∧
    (oneFilterRule.m.action = ActionAllow ∨ oneFilterRule.m.action = ActionDeny) ∧
    oneFilterRule.m.filters
      = [⟨HeaderTypeObject, MatchTypeStringNotEqual, "obj_key", "obj_val"⟩] ∧
    (NewExtended oneFilterRule).CheckAccess protocolCasts (some keyA) RoleOwner OpObjectGet
      matchingMeta = .ok (some .ErrAccessDenied) := by
  have hsub := ownerTarget_matches (SerializePublicKey keyA) oneFilterRule.m rfl
  refine ⟨rfl, hsub, Or.inr rfl, rfl, ?_⟩
  exact ((C5_matcher_and_scope protocolCasts oneFilterRule
    ⟨HeaderTypeObject, MatchTypeStringNotEqual, "obj_key", "obj_val"⟩ keyA RoleOwner
    OpObjectGet matchingMeta rfl hsub (Or.inr rfl) rfl).2 rfl).2.1 rfl |>.mpr
    ⟨⟨"obj_key", "obj_val_other"⟩, by simp [matchingMeta], rfl, by decide⟩

/-- The verdict of the single-rule table made of a filterless rule with one role
target. -/
theorem check_role_rule (c : Casts) (op : Op) (action v : Nat) (key : PublicKey)
    (role : Role) (md : RequestMetadata) :
    (NewExtended ⟨⟨c.castOp op, action, [], [⟨v, []⟩]⟩⟩).CheckAccess c (some key) role op md =
      .ok (if v = c.castRole role then actionSwitch 0 action else some .ErrRuleNotFound) := by
  simp only [Extended.CheckAccess, NewExtended]
  by_cases h : v = c.castRole role
  · rw [if_pos h, h, rulesLoop_role_rule]
  · rw [if_neg h, rulesLoop_cons_other_subject, rulesLoop_nil]
    rintro ⟨t, ht, hm⟩
    simp only [List.mem_singleton] at ht
    subst ht
    rcases hm with ⟨_, hr⟩ | hk
    · exact h hr
    · simp at hk

/-- The single-rule table of `Allow(op, SubjectsWithRole(r))` resp.
`Deny(op, SubjectsWithRole(r))` checked for a requester of role `r2`. -/
theorem check_newRule_role (c : Casts) (action : Nat) (r r2 : Role) (v : Nat) (op : Op)
    (hr : roleZero < r ∧ r < roleLast) (hv : roleSwitch r = some v) (hop : op ≠ 0)
    (key : PublicKey) (md : RequestMetadata) :
    (do
      let t ← SubjectsWithRole r
      let rule ← newRule c action t op
      (NewExtended rule).CheckAccess c (some key) r2 op md) =
      .ok (if v = c.castRole r2 then actionSwitch 0 action else some .ErrRuleNotFound) := by
  rw [SubjectsWithRole_supported hr]
  simp only [bind, Except.bind, newRule_role c action op hr hv hop]
  exact check_role_rule c op action v key r2 md

/-- Two supported roles are stored as the same protocol role iff they are equal or are
Container and InnerRing. -/
theorem roleSwitch_eq_iff {r r2 : Role} (hr : roleZero < r ∧ r < roleLast)
    (hr2 : roleZero < r2 ∧ r2 < roleLast) :
    roleSwitch r = roleSwitch r2 ↔
      (r2 = r ∨ (r = RoleContainer ∧ r2 = RoleInnerRing) ∨
        (r = RoleInnerRing ∧ r2 = RoleContainer)) := by
  rcases supported_role_cases hr with e | e | e | e <;>
  rcases supported_role_cases hr2 with e2 | e2 | e2 | e2 <;>
  subst e <;> subst e2 <;> decide

/-- C6 (as stated) fails: `Allow(Get, SubjectsWithRole(RoleContainer))` and
`Allow(Get, SubjectsWithRole(RoleInnerRing))` are the same rule, so whatever the helper
`castRole` returns, a requester of role InnerRing cannot get `ErrRuleNotFound` from the
first (as the claim says for a role different from the target's) and Allow from the
second (as the claim says for the target's role). With `castRole` converting roles as
`AddTargetSubjects` does, it is the first that differs: the Container rule allows the
InnerRing requester. -/
theorem C6_counterexample :
    (¬ ∃ c : Casts,
      (do
        let t ← SubjectsWithRole RoleContainer
        let rule ← Allow c OpObjectGet t
        (NewExtended rule).CheckAccess c (some keyA) RoleInnerRing OpObjectGet noMeta)
        = .ok (some .ErrRuleNotFound) ∧
      (do
        let t ← SubjectsWithRole RoleInnerRing
        let rule ← Allow c OpObjectGet t
        (NewExtended rule).CheckAccess c (some keyA) RoleInnerRing OpObjectGet noMeta)
        = .ok none) ∧
    (do
      let t ← SubjectsWithRole RoleContainer
      let rule ← Allow protocolCasts OpObjectGet t
      (NewExtended rule).CheckAccess protocolCasts (some keyA) RoleInnerRing OpObjectGet
        noMeta) = .ok none := by
  refine ⟨?_, rfl⟩
  rintro ⟨c, h1, h2⟩
  have e : (do
        let t ← SubjectsWithRole RoleContainer
        let rule ← Allow c OpObjectGet t
        (NewExtended rule).CheckAccess c (some keyA) RoleInnerRing OpObjectGet noMeta)
      = (do
        let t ← SubjectsWithRole RoleInnerRing
        let rule ← Allow c OpObjectGet t
        (NewExtended rule).CheckAccess c (some keyA) RoleInnerRing OpObjectGet noMeta) := rfl
  rw [h1, h2] at e
  cases e

/-- C6 (amended). Role targets match the protocol role of the named role: for supported
roles `r`, `r2`, a non-zero operation, a present key and any metadata, `CheckAccess` on
`NewExtended(Allow(op, SubjectsWithRole(r)))` for a requester of role `r2` and operation
`op` returns Allow iff `r2 = r` or `r`, `r2` are Container and InnerRing (both stored as,
and converted to, the protocol role System), and `ErrRuleNotFound` otherwise. The absent
helper `castRole` is assumed to convert a supported role to the protocol role that
`AddTargetSubjects` stores for it. -/
theorem C6_role_targets (c : Casts) (hc : c.ProjectsRoles) (r r2 : Role) (op : Op)
    (hr : roleZero < r ∧ r < roleLast) (hr2 : roleZero < r2 ∧ r2 < roleLast) (hop : op ≠ 0)
    (key : PublicKey) (md : RequestMetadata) :
    ((r2 = r ∨ (r = RoleContainer ∧ r2 = RoleInnerRing) ∨
        (r = RoleInnerRing ∧ r2 = RoleContainer)) →
      (do
        let t ← SubjectsWithRole r
        let rule ← Allow c op t
        (NewExtended rule).CheckAccess c (some key) r2 op md) = .ok none) ∧
    (¬ (r2 = r ∨ (r = RoleContainer ∧ r2 = RoleInnerRing) ∨
        (r = RoleInnerRing ∧ r2 = RoleContainer)) →
      (do
        let t ← SubjectsWithRole r
        let rule ← Allow c op t
        (NewExtended rule).CheckAccess c (some key) r2 op md)
        = .ok (some .ErrRuleNotFound)) := by
  obtain ⟨v, hv⟩ := roleSwitch_supported hr
  obtain ⟨v2, hv2⟩ := roleSwitch_supported hr2
  have hcast : c.castRole r2 = v2 := hc r2 v2 hv2
  have hiff := roleSwitch_eq_iff hr hr2
  rw [hv, hv2, Option.some.injEq] at hiff
  have hres := check_newRule_role c ActionAllow r r2 v op hr hv hop key md
  rw [hcast] at hres
  refine ⟨fun h => ?_, fun h => ?_⟩
  · rw [if_pos (hiff.mpr h)] at hres
    exact hres
  · rw [if_neg (fun e => h (hiff.mp e))] at hres
    exact hres

theorem C6_role_targets_witness :
    protocolCasts.ProjectsRoles ∧ (roleZero < RoleContainer ∧ RoleContainer < roleLast) ∧
    (roleZero < RoleInnerRing ∧ RoleInnerRing < roleLast) ∧ OpObjectGet ≠ 0 ∧
    (do
      let t ← SubjectsWithRole RoleContainer
      let rule ← Allow protocolCasts OpObjectGet t
      (NewExtended rule).CheckAccess protocolCasts (some keyA) RoleInnerRing OpObjectGet
        noMeta) = .ok none :=
  ⟨protocolCasts_projectsRoles, by decide, by decide, by decide,
    (C6_role_targets protocolCasts protocolCasts_projectsRoles RoleContainer RoleInnerRing
      OpObjectGet (by decide) (by decide) (by decide) keyA noMeta).1
      (Or.inr (Or.inl ⟨rfl, rfl⟩))⟩

theorem serializeKeys_present (ks : List PublicKey) :
    serializeKeys (ks.map some) = .ok (ks.map SerializePublicKey) := by
  induction ks with
  | nil => rfl
  | cons k ks ih => simp only [List.map_cons, serializeKeys, ih]

theorem SubjectsWithKeys_present (ks : List PublicKey) (hks : ks ≠ []) :
    SubjectsWithKeys (ks.map some) = .ok ⟨0, ks.map SerializePublicKey⟩ := by
  have hlen : ¬ (ks.map some).length = 0 := by
    rw [List.length_map]
    exact fun h => hks (List.length_eq_zero.mp h)
  unfold SubjectsWithKeys
  rw [if_neg hlen, serializeKeys_present]

/-- The rule `newRule` builds for a key target. -/
theorem newRule_keys (c : Casts) (action : Nat) (op : Op) (bKeys : List (List Nat))
    (hks : bKeys ≠ []) (hop : op ≠ 0) :
    newRule c action ⟨0, bKeys⟩ op = .ok ⟨⟨c.castOp op, action, [], [⟨0, bKeys⟩]⟩⟩ := by
  have hlen : ¬ bKeys.length = 0 := fun h => hks (List.length_eq_zero.mp h)
  simp [newRule, checkTarget, hlen, hop, Rule.AddTargetSubjects, appendKeys]

/-- The verdict of the single-rule table made of a filterless rule with one key target. -/
theorem check_keys_rule (c : Casts) (op : Op) (action : Nat) (bKeys : List (List Nat))
    (hks : bKeys ≠ []) (key : PublicKey) (role : Role) (md : RequestMetadata) :
    (NewExtended ⟨⟨c.castOp op, action, [], [⟨0, bKeys⟩]⟩⟩).CheckAccess c (some key) role op
      md = .ok (if SerializePublicKey key ∈ bKeys then actionSwitch 0 action
        else some .ErrRuleNotFound) := by
  simp only [Extended.CheckAccess, NewExtended]
  by_cases h : SerializePublicKey key ∈ bKeys
  · rw [if_pos h]
    congr 1
    apply rulesLoop_cons_applies
    refine ⟨rfl, ⟨⟨0, bKeys⟩, by simp, Or.inr h⟩, ?_⟩
    intro f hf
    simp at hf
  · rw [if_neg h, rulesLoop_cons_other_subject, rulesLoop_nil]
    rintro ⟨t, ht, hm⟩
    simp only [List.mem_singleton] at ht
    subst ht
    rcases hm with ⟨hnil, _⟩ | hk
    · exact hks hnil
    · exact h hk

/-- The single-rule table of a rule built by `newRule` for `SubjectsWithKeys(ks)`. -/
theorem check_newRule_keys (c : Casts) (action : Nat) (ks : List PublicKey) (hks : ks ≠ [])
    (op : Op) (hop : op ≠ 0) (key : PublicKey) (role : Role) (md : RequestMetadata) :
    (do
      let t ← SubjectsWithKeys (ks.map some)
      let rule ← newRule c action t op
      (NewExtended rule).CheckAccess c (some key) role op md) =
      .ok (if ∃ k ∈ ks, SerializePublicKey k = SerializePublicKey key
        then actionSwitch 0 action else some .ErrRuleNotFound) := by
  have hb : ks.map SerializePublicKey ≠ [] := by
    intro h
    exact hks (List.map_eq_nil_iff.mp h)
  rw [SubjectsWithKeys_present ks hks]
  simp only [bind, Except.bind, newRule_keys c action op _ hb hop]
  rw [check_keys_rule c op action _ hb key role md]
  simp only [List.mem_map]

/-- C7. Key targets match by membership, regardless of role: for a non-empty key list
`ks`, a non-zero operation `op` and the filterless rule `Allow(op, SubjectsWithKeys(ks))`
resp. `Deny(op, SubjectsWithKeys(ks))`, `CheckAccess` on the single-rule table with
operation `op` returns the rule's action iff the requester's serialized key equals the
serialization of some key of `ks`, and `ErrRuleNotFound` iff it does not; the result is
the same for every requester role. -/
theorem C7_key_targets (c : Casts) (ks : List PublicKey) (hks : ks ≠ []) (op : Op)
    (hop : op ≠ 0) (key : PublicKey) (role : Role) (md : RequestMetadata) :
    (((do
        let t ← SubjectsWithKeys (ks.map some)
        let rule ← Allow c op t
        (NewExtended rule).CheckAccess c (some key) role op md) = .ok none ↔
      ∃ k ∈ ks, SerializePublicKey k = SerializePublicKey key) ∧
     ((do
        let t ← SubjectsWithKeys (ks.map some)
        let rule ← Allow c op t
        (NewExtended rule).CheckAccess c (some key) role op md)
        = .ok (some .ErrRuleNotFound) ↔
      ¬ ∃ k ∈ ks, SerializePublicKey k = SerializePublicKey key)) ∧
    (((do
        let t ← SubjectsWithKeys (ks.map some)
        let rule ← Deny c op t
        (NewExtended rule).CheckAccess c (some key) role op md)
        = .ok (some .ErrAccessDenied) ↔
      ∃ k ∈ ks, SerializePublicKey k = SerializePublicKey key) ∧
     ((do
        let t ← SubjectsWithKeys (ks.map some)
        let rule ← Deny c op t
        (NewExtended rule).CheckAccess c (some key) role op md)
        = .ok (some .ErrRuleNotFound) ↔
      ¬ ∃ k ∈ ks, SerializePublicKey k = SerializePublicKey key)) ∧
    (∀ role2 : Role,
      (do
        let t ← SubjectsWithKeys (ks.map some)
        let rule ← Allow c op t
        (NewExtended rule).CheckAccess c (some key) role2 op md) =
      (do
        let t ← SubjectsWithKeys (ks.map some)
        let rule ← Allow c op t
        (NewExtended rule).CheckAccess c (some key) role op md) ∧
      (do
        let t ← SubjectsWithKeys (ks.map some)
        let rule ← Deny c op t
        (NewExtended rule).CheckAccess c (some key) role2 op md) =
      (do
        let t ← SubjectsWithKeys (ks.map some)
        let rule ← Deny c op t
        (NewExtended rule).CheckAccess c (some key) role op md)) := by
  have hA := fun ro => check_newRule_keys c ActionAllow ks hks op hop key ro md
  have hD := fun ro => check_newRule_keys c ActionDeny ks hks op hop key ro md
  simp only [Allow, Deny]
  refine ⟨?_, ?_, fun role2 => ⟨by rw [hA, hA], by rw [hD, hD]⟩⟩
  · rw [hA]
    by_cases h : ∃ k ∈ ks, SerializePublicKey k = SerializePublicKey key
    · simp [h, actionSwitch]
    · simp [h]
  · rw [hD]
    by_cases h : ∃ k ∈ ks, SerializePublicKey k = SerializePublicKey key
    · simp [h, actionSwitch, ActionDeny, ActionAllow]
    · simp [h]

theorem C7_key_targets_witness :
    [keyA, keyB] ≠ [] ∧ OpObjectGet ≠ 0 ∧
    (do
      let t ← SubjectsWithKeys ([keyA, keyB].map some)
      let rule ← Deny protocolCasts OpObjectGet t
      (NewExtended rule).CheckAccess protocolCasts (some keyB) RoleOthers OpObjectGet noMeta)
      = .ok (some .ErrAccessDenied) :=
  ⟨by simp, by decide,
    (C7_key_targets protocolCasts [keyA, keyB] (by simp) OpObjectGet (by decide) keyB
      RoleOthers noMeta).2.1.1.mpr ⟨keyB, by simp, rfl⟩⟩

theorem list_split_at {α : Type} (l : List α) (i : Nat) (a : α) (h : l[i]? = some a) :
    l = l.take i ++ a :: l.drop (i + 1) ∧ (l.take i).length = i := by
  obtain ⟨hlt, hget⟩ := List.getElem?_eq_some.mp h
  refine ⟨?_, ?_⟩
  · rw [← hget, ← List.drop_eq_getElem_cons hlt, List.take_append_drop]
  · rw [List.length_take]
    omega

/-- When the scan of the first `i` rules finds no rule, the scan of the table goes on at
rule `i`. -/
theorem rulesLoop_reach (bKey : List Nat) (roleV2 opV2 : Nat) (md : RequestMetadata)
    (rs : List Record) (i : Nat) (r : Record) (hi : rs[i]? = some r)
    (hreach : rulesLoop bKey roleV2 opV2 md 0 (rs.take i) = some .ErrRuleNotFound) :
    rulesLoop bKey roleV2 opV2 md 0 rs =
      rulesLoop bKey roleV2 opV2 md i (r :: rs.drop (i + 1)) := by
  obtain ⟨hsplit, hlen⟩ := list_split_at rs i r hi
  conv_lhs => rw [hsplit]
  rw [rulesLoop_append, if_pos hreach, hlen, Nat.zero_add]

/-- C8. Unsupported action is fatal: if the scan reaches rule `i` (the scan of the first
`i` rules neither decided nor failed), rule `i` matches the operation, the subject and
all of its filters, and its action is neither Allow nor Deny, then `CheckAccess` returns
the error "rule #i matches, but action is not supported", which is neither
`ErrAccessDenied` nor `ErrRuleNotFound`. -/
theorem C8_unsupported_action_fatal (c : Casts) (x : Extended) (key : PublicKey)
    (role : Role) (op : Op) (md : RequestMetadata) (i : Nat) (r : Record)
    (hi : x.m.records[i]? = some r)
    (hreach : (x.firstRules i).CheckAccess c (some key) role op md
      = .ok (some .ErrRuleNotFound))
    (happ : r.Applies (SerializePublicKey key) (c.castRole role) (c.castOp op) md)
    (hact : r.action ≠ ActionAllow ∧ r.action ≠ ActionDeny) :
    x.CheckAccess c (some key) role op md = .ok (some (.unsupportedAction i r.action)) ∧
    (Error.unsupportedAction i r.action).IsEvaluationError := by
  simp only [Extended.CheckAccess, Extended.firstRules, Except.ok.injEq] at hreach
  refine ⟨?_, by simp, by simp⟩
  simp only [Extended.CheckAccess]
  rw [rulesLoop_reach _ _ _ _ _ i r hi hreach, rulesLoop_cons_applies _ _ _ _ _ _ _ happ]
  simp [actionSwitch, hact.1, hact.2]

theorem C8_unsupported_action_fatal_witness :
    badActionTable.m.records[1]? = some ⟨OpObjectGet, 0, [], [⟨RoleUser, []⟩]⟩ ∧
    (badActionTable.firstRules 1).CheckAccess protocolCasts (some keyA) RoleOwner
      OpObjectGet noMeta = .ok (some .ErrRuleNotFound) ∧
    badActionTable.CheckAccess protocolCasts (some keyA) RoleOwner OpObjectGet noMeta
      = .ok (some (.unsupportedAction 1 0)) :=
  ⟨rfl, rfl,
    (C8_unsupported_action_fatal protocolCasts badActionTable keyA RoleOwner OpObjectGet
      noMeta 1 ⟨OpObjectGet, 0, [], [⟨RoleUser, []⟩]⟩ rfl rfl
      ⟨rfl, ⟨⟨RoleUser, []⟩, by simp, Or.inl ⟨rfl, rfl⟩⟩, by intro f hf; simp at hf⟩
      ⟨by decide, by decide⟩).1⟩

/-- Supported filters at the head of the filter list are passed without an error. -/
theorem filterLoop_skip_supported (i : Nat) (md : RequestMetadata) (pre rest : List HeaderFilter)
    (hsup : ∀ g ∈ pre, g.Supported) :
    ∀ (j0 n : Nat), ∃ n2, filterLoop i md j0 (pre ++ rest) n =
      filterLoop i md (j0 + pre.length) rest n2 := by
  induction pre with
  | nil =>
    intro j0 n
    exact ⟨n, by simp⟩
  | cons g pre ih =>
    intro j0 n
    have hidx : j0 + (g :: pre).length = j0 + 1 + pre.length := by
      simp only [List.length_cons]
      omega
    have hg := hsup g (List.mem_cons_self _ _)
    have ih2 := ih (fun q hq => hsup q (List.mem_cons_of_mem _ hq)) (j0 + 1)
    rw [hidx, List.cons_append]
    rcases hg.2 with hm | hm
    · rw [filterLoop_cons_equal i md j0 g (pre ++ rest) n hg.1 hm]
      exact ih2 _
    · rw [filterLoop_cons_notEqual i md j0 g (pre ++ rest) n hg.1 hm]
      exact ih2 _

/-- A filter that is neither refused nor Service-scoped is supported. -/
theorem supported_of_not_unsupported (g : HeaderFilter) (h1 : ¬ g.Unsupported)
    (h2 : g.hdrType ≠ HeaderTypeService) : g.Supported := by
  unfold HeaderFilter.Unsupported at h1
  unfold HeaderFilter.Supported
  by_cases ht : g.hdrType = HeaderTypeRequest ∨ g.hdrType = HeaderTypeObject
  · refine ⟨ht, ?_⟩
    by_contra hm
    exact h1 (Or.inr ⟨ht, fun e => hm (Or.inl e), fun e => hm (Or.inr e)⟩)
  · exact absurd (Or.inl ⟨fun e => ht (Or.inl e), fun e => ht (Or.inr e), h2⟩) h1

/-- The filter pass on a refused filter. -/
theorem filterLoop_cons_unsupported (i : Nat) (md : RequestMetadata) (j : Nat)
    (f : HeaderFilter) (fs : List HeaderFilter) (n : Nat) (h : f.Unsupported) :
    ∃ e, filterLoop i md j (f :: fs) n = .error e ∧
      (e = .unsupportedHeaderType f.hdrType i j ∨ e = .unsupportedMatcher f.matchType i j) := by
  rcases h with ⟨h1, h2, h3⟩ | ⟨ht, hm1, hm2⟩
  · exact ⟨_, filterLoop_cons_badType i md j f fs n h3 (fun e => e.elim h1 h2), Or.inl rfl⟩
  · exact ⟨_, filterLoop_cons_badMatcher i md j f fs n ht hm1 hm2, Or.inr rfl⟩

/-- C9. Unsupported filter scope or matcher is fatal: if the scan reaches rule `i` (the
scan of the first `i` rules neither decided nor failed), rule `i` matches operation and
subject, and `j` is the first filter of rule `i` that has an unrecognized scope or has
Request/Object scope with an unrecognized matcher, with no Service-scoped filter before
`j`, then `CheckAccess` returns an evaluation error (neither `ErrAccessDenied` nor
`ErrRuleNotFound`) that quotes rule `i` and filter `j`: "unsupported header type" or
"unsupported matcher". Nothing is assumed about the filters before `j` being
satisfied. -/
theorem C9_unsupported_filter_fatal (c : Casts) (x : Extended) (key : PublicKey)
    (role : Role) (op : Op) (md : RequestMetadata) (i : Nat) (r : Record) (j : Nat)
    (f : HeaderFilter) (hi : x.m.records[i]? = some r)
    (hreach : (x.firstRules i).CheckAccess c (some key) role op md
      = .ok (some .ErrRuleNotFound))
    (hop : r.op = c.castOp op)
    (hsub : r.SubjectMatches (SerializePublicKey key) (c.castRole role))
    (hj : r.filters[j]? = some f) (hbad : f.Unsupported)
    (hfirst : ∀ k, k < j → ∀ g, r.filters[k]? = some g →
      ¬ g.Unsupported ∧ g.hdrType ≠ HeaderTypeService) :
    ∃ e, x.CheckAccess c (some key) role op md = .ok (some e) ∧ e.IsEvaluationError ∧
      (e = .unsupportedHeaderType f.hdrType i j ∨ e = .unsupportedMatcher f.matchType i j) := by
  simp only [Extended.CheckAccess, Extended.firstRules, Except.ok.injEq] at hreach
  obtain ⟨hsplit, hlen⟩ := list_split_at r.filters j f hj
  have hpre : ∀ g ∈ r.filters.take j, g.Supported := by
    intro g hg
    obtain ⟨k, hk, hgk⟩ := List.getElem_of_mem hg
    rw [List.length_take] at hk
    have hk2 : k < j := by omega
    have hgk2 : r.filters[k]? = some g := by
      rw [← hgk, List.getElem_take, List.getElem?_eq_getElem]
    exact supported_of_not_unsupported g (hfirst k hk2 g hgk2).1 (hfirst k hk2 g hgk2).2
  obtain ⟨n2, hskip⟩ := filterLoop_skip_supported i md (r.filters.take j)
    (f :: r.filters.drop (j + 1)) hpre 0 0
  rw [← hsplit, hlen, Nat.zero_add] at hskip
  obtain ⟨e, he, hkind⟩ := filterLoop_cons_unsupported i md j f (r.filters.drop (j + 1)) n2 hbad
  refine ⟨e, ?_, (filterLoop_error i md _ _ _ e he).1, hkind⟩
  simp only [Extended.CheckAccess]
  rw [rulesLoop_reach _ _ _ _ _ i r hi hreach,
    rulesLoop_cons_filters _ _ _ _ _ _ _ hop hsub, hskip, he]

theorem C9_unsupported_filter_fatal_witness :
    ∃ e, badMatcherTable.CheckAccess protocolCasts (some keyA) RoleOwner OpObjectGet noMeta
        = .ok (some e) ∧ e.IsEvaluationError ∧
      (e = .unsupportedHeaderType HeaderTypeObject 0 1 ∨ e = .unsupportedMatcher 0 0 1) :=
  C9_unsupported_filter_fatal protocolCasts badMatcherTable keyA
    RoleOwner OpObjectGet noMeta 0
    ⟨OpObjectGet, ActionAllow,
      [⟨HeaderTypeRequest, MatchTypeStringEqual, "key", "value"⟩,
       ⟨HeaderTypeObject, 0, "key", "value"⟩],
      [⟨RoleUser, []⟩]⟩ 1 ⟨HeaderTypeObject, 0, "key", "value"⟩ rfl rfl rfl
    ⟨⟨RoleUser, []⟩, by simp, Or.inl ⟨rfl, rfl⟩⟩ rfl
    (Or.inr ⟨Or.inr rfl, by decide, by decide⟩)
    (by
      intro k hk g hg
      have hk0 : k = 0 := by omega
      subst hk0
      simp only [List.getElem?_cons_zero, Option.some.injEq] at hg
      subst hg
      refine ⟨?_, by decide⟩
      rintro (⟨h1, _⟩ | ⟨_, h2, _⟩)
      · exact h1 rfl
      · exact h2 rfl)

/-! ## Decoding against its reference semantics -/

theorem verifyKeys_none_iff (i : Nat) (ks : List (List Nat)) :
    ∀ j, verifyKeys i j ks = none ↔ ∀ k ∈ ks, k ≠ [] := by
  induction ks with
  | nil => intro j; simp [verifyKeys]
  | cons k ks ih =>
    intro j
    rw [verifyKeys]
    by_cases hk : k.length = 0
    · have hnil : k = [] := List.length_eq_zero.mp hk
      simp [hk, hnil]
    · have hnil : k ≠ [] := fun e => hk (by simp [e])
      rw [if_neg hk, ih (j + 1)]
      simp [hnil]

theorem verifyTargets_none_iff (check : Bool) (ts : List Target) :
    ∀ i, verifyTargets check i ts = none ↔
      ∀ t ∈ ts, (check = true → (t.role ≠ 0 ∨ t.keys ≠ [])) ∧ t.FormatValid := by
  induction ts with
  | nil => intro i; simp [verifyTargets]
  | cons t ts ih =>
    intro i
    rw [verifyTargets]
    have hlen0 : t.keys.length = 0 ↔ t.keys = [] := List.length_eq_zero
    have hlenpos : t.keys.length > 0 ↔ t.keys ≠ [] := List.length_pos
    simp only [List.mem_cons, forall_eq_or_imp, Target.FormatValid]
    by_cases h1 : check = true ∧ t.role = 0 ∧ t.keys.length = 0
    · rw [if_pos h1]
      obtain ⟨hc, hr, hk⟩ := h1
      simp [hc, hr, hlen0.mp hk]
    · rw [if_neg h1]
      by_cases h2 : t.role ≠ 0 ∧ t.keys.length > 0
      · rw [if_pos h2]
        have h2b : t.role ≠ 0 ∧ t.keys ≠ [] := ⟨h2.1, hlenpos.mp h2.2⟩
        simp [h2b]
      · rw [if_neg h2]
        have h2b : ¬ (t.role ≠ 0 ∧ t.keys ≠ []) := fun h => h2 ⟨h.1, hlenpos.mpr h.2⟩
        have h1b : check = true → (t.role ≠ 0 ∨ t.keys ≠ []) := by
          intro hc
          by_contra hno
          push_neg at hno
          exact h1 ⟨hc, hno.1, hlen0.mpr hno.2⟩
        cases hv : verifyKeys i 0 t.keys with
        | some e =>
          have hne : ¬ ∀ k ∈ t.keys, k ≠ [] := by
            rw [← verifyKeys_none_iff i t.keys 0, hv]
            simp
          simp only [reduceCtorEq, false_iff]
          intro h
          exact hne h.1.2.2
        | none =>
          have hall := (verifyKeys_none_iff i t.keys 0).mp hv
          simp only [ih (i + 1), Target.FormatValid]
          exact ⟨fun h => ⟨⟨h1b, h2b, hall⟩, h⟩, fun h => h.2⟩

theorem verifyFilters_none_iff (check : Bool) (fs : List HeaderFilter) :
    ∀ i, verifyFilters check i fs = none ↔
      (check = true → ∀ f ∈ fs, f.key ≠ "" ∧ f.value ≠ "") := by
  induction fs with
  | nil => intro i; simp [verifyFilters]
  | cons f fs ih =>
    intro i
    rw [verifyFilters]
    cases check with
    | false => simp [ih (i + 1)]
    | true =>
      by_cases hk : f.key = ""
      · simp [hk]
      · by_cases hv : f.value = ""
        · simp [hk, hv]
        · have := ih (i + 1)
          simp only [true_implies] at this
          simp [hk, hv, this]

theorem verifyRule_none_iff (check : Bool) (r : Record) :
    verifyRule r check = none ↔
      (check = true → r.targets ≠ []) ∧
      (∀ t ∈ r.targets, (check = true → (t.role ≠ 0 ∨ t.keys ≠ [])) ∧ t.FormatValid) ∧
      (check = true → ∀ f ∈ r.filters, f.key ≠ "" ∧ f.value ≠ "") := by
  unfold verifyRule
  have hlen0 : r.targets.length = 0 ↔ r.targets = [] := List.length_eq_zero
  by_cases h1 : check = true ∧ r.targets.length = 0
  · rw [if_pos h1]
    simp only [reduceCtorEq, false_iff]
    intro h
    exact h.1 h1.1 (hlen0.mp h1.2)
  · rw [if_neg h1]
    have h1b : check = true → r.targets ≠ [] := fun hc e => h1 ⟨hc, hlen0.mpr e⟩
    cases hv : verifyTargets check 0 r.targets with
    | some e =>
      have hne := (verifyTargets_none_iff check r.targets 0).not.mp (by rw [hv]; simp)
      simp only [reduceCtorEq, false_iff]
      intro h
      exact hne h.2.1
    | none =>
      have hall := (verifyTargets_none_iff check r.targets 0).mp hv
      simp only [verifyFilters_none_iff]
      exact ⟨fun h => ⟨h1b, hall, h⟩, fun h => h.2.2⟩

theorem verifyRule_strict_iff (r : Record) :
    verifyRule r true = none ↔ r.StrictValid := by
  rw [verifyRule_none_iff]
  simp only [true_implies, Record.StrictValid, Target.StrictValid]

theorem verifyRule_lenient_iff (r : Record) :
    verifyRule r false = none ↔ ∀ t ∈ r.targets, t.FormatValid := by
  rw [verifyRule_none_iff]
  simp

theorem verifyRules_none_iff (check : Bool) (rs : List Record) :
    ∀ i, verifyRules check i rs = none ↔ ∀ r ∈ rs, verifyRule r check = none := by
  induction rs with
  | nil => intro i; simp [verifyRules]
  | cons r rs ih =>
    intro i
    rw [verifyRules]
    cases hv : verifyRule r check with
    | some e => simp [hv]
    | none => simp [hv, ih (i + 1)]

theorem containerIDFails_iff (validCID : ContainerID → Bool) (m : Table) :
    containerIDFails validCID m.cid = false ↔ m.ContainerOk validCID := by
  unfold Table.ContainerOk
  cases m.cid with
  | none => simp [containerIDFails]
  | some c => simp [containerIDFails]

/-- What `readFromV2` returns: the message is stored iff no check fails, and the receiver
is left as it was otherwise. -/
theorem readFromV2_spec (validCID : ContainerID → Bool) (x : Extended) (m : Table)
    (check : Bool) :
    ((x.readFromV2 validCID m check).2 = none ↔
      (check = true → m.version ≠ none) ∧ m.ContainerOk validCID ∧
      (check = true → m.records ≠ []) ∧ ∀ r ∈ m.records, verifyRule r check = none) ∧
    ((x.readFromV2 validCID m check).2 = none → (x.readFromV2 validCID m check).1 = ⟨m⟩) ∧
    ((x.readFromV2 validCID m check).2 ≠ none → (x.readFromV2 validCID m check).1 = x) := by
  unfold Extended.readFromV2
  have hlen0 : m.records.length = 0 ↔ m.records = [] := List.length_eq_zero
  by_cases h1 : check = true ∧ m.version = none
  · rw [if_pos h1]
    refine ⟨?_, by simp, by simp⟩
    simp only [reduceCtorEq, false_iff]
    intro h
    exact h.1 h1.1 h1.2
  · rw [if_neg h1]
    have h1b : check = true → m.version ≠ none := fun hc e => h1 ⟨hc, e⟩
    by_cases h2 : containerIDFails validCID m.cid = true
    · rw [if_pos h2]
      refine ⟨?_, by simp, by simp⟩
      simp only [reduceCtorEq, false_iff]
      intro h
      have := (containerIDFails_iff validCID m).mpr h.2.1
      rw [this] at h2
      cases h2
    · rw [if_neg h2]
      have h2b : m.ContainerOk validCID :=
        (containerIDFails_iff validCID m).mp (by simpa using h2)
      by_cases h3 : check = true ∧ m.records.length = 0
      · rw [if_pos h3]
        refine ⟨?_, by simp, by simp⟩
        simp only [reduceCtorEq, false_iff]
        intro h
        exact h.2.2.1 h3.1 (hlen0.mp h3.2)
      · rw [if_neg h3]
        have h3b : check = true → m.records ≠ [] := fun hc e => h3 ⟨hc, hlen0.mpr e⟩
        cases hv : verifyRules check 0 m.records with
        | some e =>
          have hne := (verifyRules_none_iff check m.records 0).not.mp (by rw [hv]; simp)
          refine ⟨?_, by simp, by simp⟩
          simp only [reduceCtorEq, false_iff]
          intro h
          exact hne h.2.2.2
        | none =>
          have hall := (verifyRules_none_iff check m.records 0).mp hv
          exact ⟨⟨fun _ => ⟨h1b, h2b, h3b, hall⟩, fun _ => rfl⟩, fun _ => rfl, by simp⟩

/-- Strict decoding accepts exactly the protocol-complete messages. -/
theorem readFromV2_strict_iff (validCID : ContainerID → Bool) (x : Extended) (m : Table) :
    (x.readFromV2 validCID m true).2 = none ↔ m.StrictValid validCID := by
  rw [(readFromV2_spec validCID x m true).1]
  simp only [true_implies, Table.StrictValid, verifyRule_strict_iff]

/-- Lenient decoding accepts exactly the messages that pass the format checks. -/
theorem readFromV2_lenient_iff (validCID : ContainerID → Bool) (x : Extended) (m : Table) :
    (x.readFromV2 validCID m false).2 = none ↔ m.FormatValid validCID := by
  rw [(readFromV2_spec validCID x m false).1]
  simp [Table.FormatValid, verifyRule_lenient_iff]

theorem filters_sameFields {fs gs : List HeaderFilter}
    (h : List.Forall₂ HeaderFilter.SameFields fs gs)
    (hf : ∀ f ∈ fs, f.key ≠ "" ∧ f.value ≠ "") : ∀ g ∈ gs, g.key ≠ "" ∧ g.value ≠ "" := by
  induction h with
  | nil => intro g hg; simp at hg
  | cons hab _ ih =>
    intro g hg
    rcases List.mem_cons.mp hg with e | hg2
    · subst e
      have := hf _ (List.mem_cons_self _ _)
      rw [← hab.1, ← hab.2]
      exact this
    · exact ih (fun f hfm => hf f (List.mem_cons_of_mem _ hfm)) g hg2

theorem records_sameFields {rs qs : List Record}
    (h : List.Forall₂ Record.SameFields rs qs) (hr : ∀ r ∈ rs, r.StrictValid) :
    ∀ q ∈ qs, q.StrictValid := by
  induction h with
  | nil => intro q hq; simp at hq
  | cons hab _ ih =>
    intro q hq
    rcases List.mem_cons.mp hq with e | hq2
    · subst e
      obtain ⟨h1, h2, h3⟩ := hr _ (List.mem_cons_self _ _)
      refine ⟨?_, ?_, filters_sameFields hab.2 h3⟩
      · rw [← hab.1]; exact h1
      · rw [← hab.1]; exact h2
    · exact ih (fun r hrm => hr r (List.mem_cons_of_mem _ hrm)) q hq2

/-- Protocol completeness does not look at actions, operations, matchers and scopes. -/
theorem strictValid_sameFields (validCID : ContainerID → Bool) {m n : Table}
    (h : m.SameFields n) (hm : m.StrictValid validCID) : n.StrictValid validCID := by
  obtain ⟨hv, hc, hrs⟩ := h
  obtain ⟨h1, h2, h3, h4⟩ := hm
  refine ⟨?_, ?_, ?_, records_sameFields hrs h4⟩
  · rw [← hv]; exact h1
  · intro mCnr hcid
    exact h2 mCnr (by rw [hc]; exact hcid)
  · intro e
    rw [e] at hrs
    exact h3 (List.forall₂_nil_right_iff.mp hrs)

theorem filters_sameFields_symm {fs gs : List HeaderFilter}
    (h : List.Forall₂ HeaderFilter.SameFields fs gs) :
    List.Forall₂ HeaderFilter.SameFields gs fs := by
  induction h with
  | nil => exact List.Forall₂.nil
  | cons hab _ ih => exact List.Forall₂.cons ⟨hab.1.symm, hab.2.symm⟩ ih

theorem records_sameFields_symm {rs qs : List Record}
    (h : List.Forall₂ Record.SameFields rs qs) : List.Forall₂ Record.SameFields qs rs := by
  induction h with
  | nil => exact List.Forall₂.nil
  | cons hab _ ih => exact List.Forall₂.cons ⟨hab.1.symm, filters_sameFields_symm hab.2⟩ ih

theorem sameFields_symm {m n : Table} (h : m.SameFields n) : n.SameFields m :=
  ⟨h.1.symm, h.2.1.symm, records_sameFields_symm h.2.2⟩

/-- C11. Strict validation, exact characterisation: `ReadFromV2` accepts a table message
(and stores it as it is) iff the version is present, the container ID is absent or
well-formed, there is at least one rule, every rule has at least one target, every target
has a non-zero role or a non-empty key list but not both, no listed public key is empty,
and every filter has a non-empty key and a non-empty value. Acceptance is the same for
two messages that differ only in actions, operations, matchers and filter scopes. -/
theorem C11_strict_validation (validCID : ContainerID → Bool) (x : Extended) (m : Table) :
    ((x.ReadFromV2 validCID m).2 = none ↔
      m.version ≠ none ∧ (∀ mCnr, m.cid = some mCnr → validCID mCnr = true) ∧
      m.records ≠ [] ∧
      ∀ r ∈ m.records,
        r.targets ≠ [] ∧
        (∀ t ∈ r.targets, (t.role ≠ 0 ∨ t.keys ≠ []) ∧ ¬ (t.role ≠ 0 ∧ t.keys ≠ []) ∧
          ∀ k ∈ t.keys, k ≠ []) ∧
        ∀ f ∈ r.filters, f.key ≠ "" ∧ f.value ≠ "") ∧
    ((x.ReadFromV2 validCID m).2 = none → (x.ReadFromV2 validCID m).1 = ⟨m⟩) ∧
    (∀ n : Table, m.SameFields n →
      ((x.ReadFromV2 validCID m).2 = none ↔ (x.ReadFromV2 validCID n).2 = none)) := by
  refine ⟨readFromV2_strict_iff validCID x m, (readFromV2_spec validCID x m true).2.1, ?_⟩
  intro n h
  unfold Extended.ReadFromV2
  rw [readFromV2_strict_iff, readFromV2_strict_iff]
  exact ⟨strictValid_sameFields validCID h,
    strictValid_sameFields validCID (sameFields_symm h)⟩

/-- C12 (as stated) fails: lenient decoding (`readFromV2` with `checkFieldPresence =
false`) rejects a decoded message without container ID whose target carries both a role
and a key, and one whose key target lists an empty key. -/
theorem C12_counterexample :
    roleWithKeysTable.cid = none ∧
    (zeroExtended.readFromV2 (fun _ => true) roleWithKeysTable false).2
      = some (.invalidRule 0) ∧
    emptyKeyTable.cid = none ∧
    (zeroExtended.readFromV2 (fun _ => true) emptyKeyTable false).2
      = some (.invalidRule 0) := by
  refine ⟨rfl, ?_, rfl, ?_⟩ <;> decide

/-- C12 (amended). Lenient mode skips the presence checks, not the format checks: on the
`Unmarshal` / `UnmarshalJSON` path (`readFromV2` with `checkFieldPresence = false`) a
decoded table is accepted iff its container ID is absent or well-formed, no target
carries both a non-zero role and a non-empty key list, and no listed public key is empty,
whatever its version, rule count, targets without role and keys, and filter keys and
values. An accepted message is stored as it is. -/
theorem C12_lenient_validation (validCID : ContainerID → Bool) (x : Extended) (m : Table) :
    ((x.readFromV2 validCID m false).2 = none ↔
      (∀ mCnr, m.cid = some mCnr → validCID mCnr = true) ∧
      ∀ r ∈ m.records, ∀ t ∈ r.targets,
        ¬ (t.role ≠ 0 ∧ t.keys ≠ []) ∧ ∀ k ∈ t.keys, k ≠ []) ∧
    ((x.readFromV2 validCID m false).2 = none → (x.readFromV2 validCID m false).1 = ⟨m⟩) ∧
    (∀ (decode : List Nat → Option Table) (data : List Nat), decode data = some m →
      x.Unmarshal decode validCID data =
        ((x.readFromV2 validCID m false).1, (x.readFromV2 validCID m false).2.map .table) ∧
      x.UnmarshalJSON decode validCID data =
        ((x.readFromV2 validCID m false).1,
          (x.readFromV2 validCID m false).2.map .table)) := by
  refine ⟨readFromV2_lenient_iff validCID x m, (readFromV2_spec validCID x m false).2.1, ?_⟩
  intro decode data h
  simp only [Extended.Unmarshal, Extended.UnmarshalJSON, h, and_self]

/-- C13 (as stated) fails: `ReadFromV2` accepts, and stores unchanged, the message of the
test "unsupported/action" whose rule has action 0, and a message whose rule has action 0
and a filter with scope 0 and matcher 0. -/
theorem C13_counterexample :
    zeroExtended.ReadFromV2 (fun _ => true) unsupportedActionTable
      = (⟨unsupportedActionTable⟩, none) ∧
    zeroExtended.ReadFromV2 (fun _ => true) unsupportedEnumsTable
      = (⟨unsupportedEnumsTable⟩, none) := by
  constructor <;> decide

/-- C13 (amended). Strict decoding does not look at enum values: when `ReadFromV2`
accepts a table message it also accepts, and stores unchanged, every message that differs
from it only in the actions and operations of its rules and in the matchers and scopes of
its filters, unsupported values included. -/
theorem C13_enums_not_checked (validCID : ContainerID → Bool) (x : Extended) (m n : Table)
    (hm : (x.ReadFromV2 validCID m).2 = none) (h : m.SameFields n) :
    x.ReadFromV2 validCID n = (⟨n⟩, none) := by
  unfold Extended.ReadFromV2 at *
  have hn : (x.readFromV2 validCID n true).2 = none :=
    (readFromV2_strict_iff validCID x n).mpr
      (strictValid_sameFields validCID h ((readFromV2_strict_iff validCID x m).mp hm))
  exact Prod.ext ((readFromV2_spec validCID x n true).2.1 hn) hn

theorem C13_enums_not_checked_witness :
    (zeroExtended.ReadFromV2 (fun _ => true) allowOwnerTable).2 = none ∧
    allowOwnerTable.SameFields unsupportedActionTable ∧
    zeroExtended.ReadFromV2 (fun _ => true) unsupportedActionTable
      = (⟨unsupportedActionTable⟩, none) := by
  have h1 : (zeroExtended.ReadFromV2 (fun _ => true) allowOwnerTable).2 = none := by decide
  have h2 : allowOwnerTable.SameFields unsupportedActionTable :=
    ⟨rfl, rfl, List.Forall₂.cons ⟨rfl, List.Forall₂.nil⟩ List.Forall₂.nil⟩
  exact ⟨h1, h2, C13_enums_not_checked (fun _ => true) zeroExtended allowOwnerTable
    unsupportedActionTable h1 h2⟩

/-- Satisfied filters at the head of the filter list are all counted. -/
theorem filterLoop_sat_prefix (i : Nat) (md : RequestMetadata) (pre rest : List HeaderFilter)
    (hsat : ∀ g ∈ pre, g.Satisfied md) :
    ∀ (j0 n : Nat), filterLoop i md j0 (pre ++ rest) n =
      filterLoop i md (j0 + pre.length) rest (n + pre.length) := by
  induction pre with
  | nil =>
    intro j0 n
    simp
  | cons g pre ih =>
    intro j0 n
    have e1 : j0 + (g :: pre).length = j0 + 1 + pre.length := by
      simp only [List.length_cons]
      omega
    have e2 : n + (g :: pre).length = n + 1 + pre.length := by
      simp only [List.length_cons]
      omega
    rw [e1, e2, List.cons_append,
      filterLoop_cons_sat i md j0 g (pre ++ rest) n (hsat g (List.mem_cons_self _ _))]
    exact ih (fun q hq => hsat q (List.mem_cons_of_mem _ hq)) (j0 + 1) (n + 1)

/-- The filter pass of a rule whose filter `j` is Service-scoped and whose filters before
`j` are all satisfied ends at `j` with `j` filters counted. -/
theorem filterLoop_service_at (i : Nat) (md : RequestMetadata) (fs : List HeaderFilter)
    (j : Nat) (f : HeaderFilter) (hj : fs[j]? = some f) (hsvc : f.hdrType = HeaderTypeService)
    (hbefore : ∀ k, k < j → ∀ g, fs[k]? = some g → g.Satisfied md) :
    filterLoop i md 0 fs 0 = .ok j ∧ j < fs.length := by
  obtain ⟨hsplit, hlen⟩ := list_split_at fs j f hj
  have hpre : ∀ g ∈ fs.take j, g.Satisfied md := by
    intro g hg
    obtain ⟨k, hk, hgk⟩ := List.getElem_of_mem hg
    rw [List.length_take] at hk
    have hk2 : k < j := by omega
    have hgk2 : fs[k]? = some g := by
      rw [← hgk, List.getElem_take, List.getElem?_eq_getElem]
    exact hbefore k hk2 g hgk2
  have h := filterLoop_sat_prefix i md (fs.take j) (f :: fs.drop (j + 1)) hpre 0 0
  rw [← hsplit, hlen, Nat.zero_add, filterLoop_cons_service _ _ _ _ _ _ hsvc] at h
  exact ⟨h, (List.getElem?_eq_some.mp hj).1⟩

/-- C14 (as stated) fails: `serviceFilterRule` matches operation and subject of the
request, its filter 1 is Service-scoped and its filter 0 is satisfied, yet `CheckAccess`
on the single-rule table returns `ErrRuleNotFound`, not the rule's action Allow. -/
theorem C14_counterexample :
    serviceFilterRule.m.action = ActionAllow ∧
    serviceFilterRule.m.op = protocolCasts.castOp OpObjectGet ∧
    serviceFilterRule.m.SubjectMatches (SerializePublicKey keyA)
      (protocolCasts.castRole RoleOwner) ∧
    serviceFilterRule.m.filters[1]?
      = some ⟨HeaderTypeService, MatchTypeStringEqual, "key", "value"⟩ ∧
    (∀ g, serviceFilterRule.m.filters[0]? = some g → g.Satisfied keyValueMeta) ∧
    (NewExtended serviceFilterRule).CheckAccess protocolCasts (some keyA) RoleOwner
      OpObjectGet keyValueMeta = .ok (some .ErrRuleNotFound) := by
  refine ⟨rfl, rfl, ⟨⟨RoleUser, []⟩, by simp [serviceFilterRule], Or.inl ⟨rfl, rfl⟩⟩, rfl,
    ?_, rfl⟩
  intro g hg
  simp only [serviceFilterRule, List.getElem?_cons_zero, Option.some.injEq] at hg
  subst hg
  exact ⟨_, rfl, Or.inl ⟨rfl, ⟨"key", "value"⟩, by simp [keyValueMeta], rfl, rfl⟩⟩

/-- C14 (amended). Service-scoped short-circuit: for a rule that matches operation and
subject and whose filter list has a Service-scoped filter at position `j`, with every
filter before `j` satisfied, the filter pass stops at `j` with `j` filters counted (the
filters after `j` are not examined) and the rule does not match, because `j` is less than
the number of filters the rule declares: the scan goes on with the next rule, and
`CheckAccess` on the single-rule table returns `ErrRuleNotFound`. -/
theorem C14_service_filter_stops (c : Casts) (r : Rule) (key : PublicKey) (role : Role)
    (op : Op) (md : RequestMetadata) (j : Nat) (f : HeaderFilter)
    (hop : r.m.op = c.castOp op)
    (hsub : r.m.SubjectMatches (SerializePublicKey key) (c.castRole role))
    (hj : r.m.filters[j]? = some f) (hsvc : f.hdrType = HeaderTypeService)
    (hbefore : ∀ k, k < j → ∀ g, r.m.filters[k]? = some g → g.Satisfied md) :
    (∀ i, filterLoop i md 0 r.m.filters 0 = .ok j) ∧ j < r.m.filters.length ∧
    (∀ (i : Nat) (rest : List Record),
      rulesLoop (SerializePublicKey key) (c.castRole role) (c.castOp op) md i (r.m :: rest) =
        rulesLoop (SerializePublicKey key) (c.castRole role) (c.castOp op) md (i + 1) rest) ∧
    (NewExtended r).CheckAccess c (some key) role op md = .ok (some .ErrRuleNotFound) := by
  have hloop := fun i => filterLoop_service_at i md r.m.filters j f hj hsvc hbefore
  have hskip : ∀ (i : Nat) (rest : List Record),
      rulesLoop (SerializePublicKey key) (c.castRole role) (c.castOp op) md i (r.m :: rest) =
        rulesLoop (SerializePublicKey key) (c.castRole role) (c.castOp op) md (i + 1)
          rest := by
    intro i rest
    have hlt : ¬ j ≥ r.m.filters.length := Nat.not_le.mpr (hloop i).2
    rw [rulesLoop_cons_filters _ _ _ _ _ _ _ hop hsub, (hloop i).1]
    simp only [if_neg hlt]
  refine ⟨fun i => (hloop i).1, (hloop 0).2, hskip, ?_⟩
  simp only [Extended.CheckAccess, NewExtended]
  rw [hskip 0 [], rulesLoop_nil]

theorem C14_service_filter_stops_witness :
    (NewExtended serviceFilterRule).CheckAccess protocolCasts (some keyA) RoleOwner
      OpObjectGet keyValueMeta = .ok (some .ErrRuleNotFound) :=
  (C14_service_filter_stops protocolCasts serviceFilterRule keyA RoleOwner OpObjectGet
    keyValueMeta 1 ⟨HeaderTypeService, MatchTypeStringEqual, "key", "value"⟩ rfl
    ⟨⟨RoleUser, []⟩, by simp [serviceFilterRule], Or.inl ⟨rfl, rfl⟩⟩ rfl rfl
    (by
      intro k hk g hg
      have hk0 : k = 0 := by omega
      subst hk0
      simp only [serviceFilterRule, List.getElem?_cons_zero, Option.some.injEq] at hg
      subst hg
      exact ⟨_, rfl, Or.inl ⟨rfl, ⟨"key", "value"⟩, by simp [keyValueMeta], rfl,
        rfl⟩⟩)).2.2.2

/-! ## Rule construction -/

/-- One turn of `AddTargetSubjects` on a target with a supported role. -/
theorem AddTargetSubjects_cons_role (x : Rule) (t : RuleTarget) (ts : List RuleTarget)
    (r2 : Nat) (hpos : t.role ≠ 0) (hr : roleSwitch t.role = some r2) :
    x.AddTargetSubjects (t :: ts) =
      Rule.AddTargetSubjects ⟨{ x.m with targets := x.m.targets ++ [⟨r2, []⟩] }⟩ ts := by
  have hgt : t.role > 0 := Nat.pos_of_ne_zero hpos
  rw [Rule.AddTargetSubjects]
  simp [checkTarget, hpos, hgt, hr]

/-- One turn of `AddTargetSubjects` on a target without role, when the rule has a
key-only entry. -/
theorem AddTargetSubjects_cons_keys_some (x : Rule) (t : RuleTarget) (ts : List RuleTarget)
    (mts : List Target) (hrole : t.role = 0) (hk : t.keys ≠ [])
    (ha : appendKeys t.keys x.m.targets = some mts) :
    x.AddTargetSubjects (t :: ts) = Rule.AddTargetSubjects ⟨{ x.m with targets := mts }⟩ ts := by
  have hlen : ¬ t.keys.length = 0 := fun h => hk (List.length_eq_zero.mp h)
  rw [Rule.AddTargetSubjects]
  simp [checkTarget, hrole, hlen, ha]

/-- One turn of `AddTargetSubjects` on a target without role, when the rule has no
key-only entry. -/
theorem AddTargetSubjects_cons_keys_none (x : Rule) (t : RuleTarget) (ts : List RuleTarget)
    (hrole : t.role = 0) (hk : t.keys ≠ []) (ha : appendKeys t.keys x.m.targets = none) :
    x.AddTargetSubjects (t :: ts) =
      Rule.AddTargetSubjects ⟨{ x.m with targets := x.m.targets ++ [⟨0, t.keys⟩] }⟩ ts := by
  have hlen : ¬ t.keys.length = 0 := fun h => hk (List.length_eq_zero.mp h)
  rw [Rule.AddTargetSubjects]
  simp [checkTarget, hrole, hlen, ha]

/-- A sequence of calls adds the targets of all calls in order. -/
theorem AddTargetSubjects_append (ts1 ts2 : List RuleTarget) :
    ∀ x : Rule, x.AddTargetSubjects (ts1 ++ ts2) =
      (match x.AddTargetSubjects ts1 with
       | .error e => .error e
       | .ok y => y.AddTargetSubjects ts2) := by
  induction ts1 with
  | nil =>
    intro x
    simp [Rule.AddTargetSubjects]
  | cons t ts1 ih =>
    intro x
    rw [List.cons_append, Rule.AddTargetSubjects, Rule.AddTargetSubjects]
    cases checkTarget t with
    | error e => rfl
    | ok u =>
      simp only
      split_ifs with h1
      · cases roleSwitch t.role with
        | none => rfl
        | some r2 => exact ih _
      · cases appendKeys t.keys x.m.targets with
        | none => exact ih _
        | some mts => exact ih _

theorem addTargetSubjectsCalls_eq (calls : List (List RuleTarget)) :
    ∀ x : Rule, x.addTargetSubjectsCalls calls = x.AddTargetSubjects calls.flatten := by
  induction calls with
  | nil =>
    intro x
    simp [Rule.addTargetSubjectsCalls, Rule.AddTargetSubjects]
  | cons ts calls ih =>
    intro x
    rw [Rule.addTargetSubjectsCalls, List.flatten_cons, AddTargetSubjects_append]
    cases x.AddTargetSubjects ts with
    | error e => rfl
    | ok y => exact ih y

/-- What the two public constructors return. -/
theorem fromConstructors_cases {t : RuleTarget} (h : t.FromConstructors) :
    (t.role ≠ 0 ∧ (∃ r2, roleSwitch t.role = some r2) ∧ t.keys = []) ∨
    (t.role = 0 ∧ t.keys ≠ []) := by
  rcases h with ⟨role, hr⟩ | ⟨keys, hk⟩
  · left
    unfold SubjectsWithRole at hr
    split_ifs at hr with hc
    cases hr
    have hsup : roleZero < role ∧ role < roleLast := by
      constructor
      · exact Nat.lt_of_not_le (fun h => hc (Or.inl h))
      · exact Nat.lt_of_not_le (fun h => hc (Or.inr h))
    exact ⟨Nat.pos_iff_ne_zero.mp hsup.1, roleSwitch_supported hsup, rfl⟩
  · right
    unfold SubjectsWithKeys at hk
    split_ifs at hk with hc
    cases hs : serializeKeys keys with
    | error e => rw [hs] at hk; cases hk
    | ok bKeys =>
      rw [hs] at hk
      cases hk
      refine ⟨rfl, ?_⟩
      intro hnil
      change bKeys = [] at hnil
      subst hnil
      cases keys with
      | nil => exact hc rfl
      | cons k ks =>
        cases k with
        | none => simp [serializeKeys] at hs
        | some k =>
          rw [serializeKeys] at hs
          cases hs2 : serializeKeys ks with
          | error e => rw [hs2] at hs; cases hs
          | ok b => rw [hs2] at hs; cases hs

theorem appendKeys_none_iff (ks : List (List Nat)) (ts : List Target) :
    appendKeys ks ts = none ↔ ∀ t ∈ ts, t.role ≠ 0 := by
  induction ts with
  | nil => simp [appendKeys]
  | cons t ts ih =>
    rw [appendKeys]
    by_cases h : t.role = 0
    · simp [h]
    · simp [h, ih]

theorem map_addKeys_of_no_keyOnly (ks : List (List Nat)) (ts : List Target)
    (h : ∀ t ∈ ts, t.role ≠ 0) : ts.map (addKeysToKeyOnly ks) = ts := by
  induction ts with
  | nil => rfl
  | cons t ts ih =>
    rw [List.map_cons, ih (fun q hq => h q (List.mem_cons_of_mem _ hq))]
    simp [addKeysToKeyOnly, h t (List.mem_cons_self _ _)]

theorem filter_keyOnly_nil_iff (ts : List Target) :
    ts.filter (fun t => decide (t.role = 0)) = [] ↔ ∀ t ∈ ts, t.role ≠ 0 := by
  simp [List.filter_eq_nil_iff]

/-- With at most one key-only entry, `appendKeys` extends every key-only entry. -/
theorem appendKeys_eq_map (ks : List (List Nat)) (ts : List Target)
    (hone : (ts.filter (fun t => decide (t.role = 0))).length ≤ 1)
    (hex : ∃ t ∈ ts, t.role = 0) :
    appendKeys ks ts = some (ts.map (addKeysToKeyOnly ks)) := by
  induction ts with
  | nil =>
    obtain ⟨t, ht, _⟩ := hex
    simp at ht
  | cons t ts ih =>
    rw [appendKeys]
    by_cases h : t.role = 0
    · rw [if_pos h]
      have hrest : ∀ q ∈ ts, q.role ≠ 0 := by
        rw [← filter_keyOnly_nil_iff]
        rw [List.filter_cons_of_pos (by simpa using h), List.length_cons] at hone
        exact List.length_eq_zero.mp (by omega)
      rw [List.map_cons, map_addKeys_of_no_keyOnly ks ts hrest]
      simp [addKeysToKeyOnly, h]
    · rw [if_neg h]
      have hone2 : (ts.filter (fun t => decide (t.role = 0))).length ≤ 1 := by
        rw [List.filter_cons_of_neg (by simpa using h)] at hone
        exact hone
      have hex2 : ∃ q ∈ ts, q.role = 0 := by
        obtain ⟨q, hq, hq0⟩ := hex
        rcases List.mem_cons.mp hq with e | hq2
        · subst e
          exact absurd hq0 h
        · exact ⟨q, hq2, hq0⟩
      rw [ih hone2 hex2, List.map_cons]
      simp [addKeysToKeyOnly, h]

theorem filter_keyOnly_map_addKeys (ks : List (List Nat)) (ts : List Target) :
    ((ts.map (addKeysToKeyOnly ks)).filter (fun t => decide (t.role = 0))).length =
      (ts.filter (fun t => decide (t.role = 0))).length := by
  induction ts with
  | nil => rfl
  | cons t ts ih =>
    rw [List.map_cons]
    by_cases h : t.role = 0
    · have h2 : (addKeysToKeyOnly ks t).role = 0 := by simp [addKeysToKeyOnly, h]
      rw [List.filter_cons_of_pos (by simpa using h2), List.filter_cons_of_pos (by simpa using h),
        List.length_cons, List.length_cons, ih]
    · have h2 : ¬ (addKeysToKeyOnly ks t).role = 0 := by simp [addKeysToKeyOnly, h]
      rw [List.filter_cons_of_neg (by simpa using h2), List.filter_cons_of_neg (by simpa using h),
        ih]

/-- Adding a role entry keeps the coalescing invariant. -/
theorem targetsInv_add_role (ts : List Target) (K : List (List Nat)) (r2 : Nat)
    (hr2 : r2 ≠ 0) (h : TargetsInv ts K) : TargetsInv (ts ++ [⟨r2, []⟩]) K := by
  obtain ⟨h1, h2, h3⟩ := h
  refine ⟨?_, ?_, ?_⟩
  · intro t ht
    rcases List.mem_append.mp ht with ht | ht
    · exact h1 t ht
    · rw [List.mem_singleton] at ht
      subst ht
      exact Or.inl ⟨hr2, rfl⟩
  · rw [List.filter_append, List.length_append]
    simp [hr2, h2]
  · intro hK
    obtain ⟨t, ht, ht0⟩ := h3 hK
    exact ⟨t, List.mem_append_left _ ht, ht0⟩

/-- Adding the keys of a key target keeps the coalescing invariant, with the keys appended
to those added so far. -/
theorem targetsInv_add_keys (ts : List Target) (K ks : List (List Nat)) (hks : ks ≠ [])
    (h : TargetsInv ts K) :
    ∃ mts, (match appendKeys ks ts with
        | some mts => mts
        | none => ts ++ [⟨0, ks⟩]) = mts ∧ TargetsInv mts (K ++ ks) := by
  obtain ⟨h1, h2, h3⟩ := h
  have hKks : K ++ ks ≠ [] := by simp [hks]
  by_cases hK : K = []
  · have hno : ∀ t ∈ ts, t.role ≠ 0 := by
      intro t ht
      rcases h1 t ht with ⟨hr, _⟩ | ⟨_, _, hne⟩
      · exact hr
      · exact absurd hK hne
    rw [(appendKeys_none_iff ks ts).mpr hno]
    refine ⟨_, rfl, ?_, ?_, ?_⟩
    · intro t ht
      rcases List.mem_append.mp ht with ht | ht
      · rcases h1 t ht with hrole | ⟨_, _, hne⟩
        · exact Or.inl hrole
        · exact absurd hK hne
      · rw [List.mem_singleton] at ht
        subst ht
        refine Or.inr ⟨rfl, ?_, hKks⟩
        simp [hK]
    · rw [List.filter_append, (filter_keyOnly_nil_iff ts).mpr hno]
      simp
    · intro _
      exact ⟨⟨0, ks⟩, by simp, rfl⟩
  · have hex := h3 hK
    rw [appendKeys_eq_map ks ts h2 hex]
    refine ⟨_, rfl, ?_, ?_, ?_⟩
    · intro t ht
      obtain ⟨q, hq, hqt⟩ := List.mem_map.mp ht
      subst hqt
      rcases h1 q hq with ⟨hr, hk⟩ | ⟨hr, hk, _⟩
      · left
        simp [addKeysToKeyOnly, hr, hk]
      · right
        simp [addKeysToKeyOnly, hr, hk, hks]
    · rw [filter_keyOnly_map_addKeys]
      exact h2
    · intro _
      obtain ⟨q, hq, hq0⟩ := hex
      exact ⟨addKeysToKeyOnly ks q, List.mem_map.mpr ⟨q, hq, rfl⟩, by
        simp [addKeysToKeyOnly, hq0]⟩

theorem roleSwitch_ne_zero {role : Role} {r2 : Nat} (h : roleSwitch role = some r2) :
    r2 ≠ 0 := by
  unfold roleSwitch at h
  split_ifs at h <;> cases h <;> decide

/-- Go `AddTargetSubjects` with targets from the public constructors returns, and keeps the
coalescing invariant with all added key lists concatenated in order. -/
theorem AddTargetSubjects_inv (ts : List RuleTarget) (hts : ∀ t ∈ ts, t.FromConstructors) :
    ∀ (x : Rule) (K : List (List Nat)), TargetsInv x.m.targets K →
      ∃ y, x.AddTargetSubjects ts = .ok y ∧ y.m.op = x.m.op ∧ y.m.action = x.m.action ∧
        y.m.filters = x.m.filters ∧
        TargetsInv y.m.targets (K ++ (ts.map (fun t => t.keys)).flatten) := by
  induction ts with
  | nil =>
    intro x K h
    exact ⟨x, by rw [Rule.AddTargetSubjects], rfl, rfl, rfl, by simpa using h⟩
  | cons t ts ih =>
    intro x K h
    have ih2 := ih (fun q hq => hts q (List.mem_cons_of_mem _ hq))
    rcases fromConstructors_cases (hts t (List.mem_cons_self _ _)) with
      ⟨hr, ⟨r2, hr2⟩, hk⟩ | ⟨hr, hk⟩
    · rw [AddTargetSubjects_cons_role x t ts r2 hr hr2]
      obtain ⟨y, hy, h1, h2, h3, h4⟩ := ih2 ⟨{ x.m with targets := x.m.targets ++ [⟨r2, []⟩] }⟩
        K (targetsInv_add_role x.m.targets K r2 (roleSwitch_ne_zero hr2) h)
      refine ⟨y, hy, h1, h2, h3, ?_⟩
      simpa [hk] using h4
    · obtain ⟨mts, hmts, hinv⟩ := targetsInv_add_keys x.m.targets K t.keys hk h
      have hstep : x.AddTargetSubjects (t :: ts) =
          Rule.AddTargetSubjects ⟨{ x.m with targets := mts }⟩ ts := by
        cases ha : appendKeys t.keys x.m.targets with
        | none =>
          rw [ha] at hmts
          rw [AddTargetSubjects_cons_keys_none x t ts hr hk ha, ← hmts]
        | some m2 =>
          rw [ha] at hmts
          rw [AddTargetSubjects_cons_keys_some x t ts m2 hr hk ha, ← hmts]
      rw [hstep]
      obtain ⟨y, hy, h1, h2, h3, h4⟩ := ih2 ⟨{ x.m with targets := mts }⟩ (K ++ t.keys) hinv
      refine ⟨y, hy, h1, h2, h3, ?_⟩
      simpa [List.append_assoc] using h4

theorem find?_eq_find?_reverse {α : Type} (p : α → Bool) (l : List α)
    (h : (l.filter p).length ≤ 1) : l.find? p = l.reverse.find? p := by
  rw [← List.filter_head?, ← List.filter_head?, List.filter_reverse, List.head?_reverse]
  match hf : l.filter p, h with
  | [], _ => rfl
  | [a], _ => rfl
  | a :: b :: rest, h => simp at h

/-- The rule `newRule` builds for a target from the public constructors is the zero rule
with operation and action set, to which the target is added. -/
theorem newRule_eq (c : Casts) (action : Nat) (t : RuleTarget) (op : Op) (hop : op ≠ 0)
    (ht : ¬ (t.role = 0 ∧ t.keys = [])) :
    newRule c action t op = Rule.AddTargetSubjects ⟨⟨c.castOp op, action, [], []⟩⟩ [t] := by
  have hc : checkTarget t = .ok () := by
    unfold checkTarget
    rw [if_neg]
    intro h
    exact ht ⟨h.1, List.length_eq_zero.mp h.2⟩
  unfold newRule
  rw [hc]
  simp only [if_neg hop]

theorem roleEntries_cons_of_role (t : Target) (ts : List Target) (h : t.role ≠ 0) :
    roleEntries (t :: ts) = t.role :: roleEntries ts := by
  simp [roleEntries, List.filter_cons, h]

theorem roleEntries_cons_of_keys (t : Target) (ts : List Target) (h : t.role = 0) :
    roleEntries (t :: ts) = roleEntries ts := by
  simp [roleEntries, List.filter_cons, h]

theorem storedRoles_append (ts1 ts2 : List RuleTarget) :
    storedRoles (ts1 ++ ts2) = storedRoles ts1 ++ storedRoles ts2 := by
  simp [storedRoles, List.filterMap_append]

/-- Go `appendKeys` leaves the role entries as they are. -/
theorem appendKeys_roleEntries (ks : List (List Nat)) :
    ∀ (ts mts : List Target), appendKeys ks ts = some mts → roleEntries mts = roleEntries ts := by
  intro ts
  induction ts with
  | nil => intro mts h; simp [appendKeys] at h
  | cons t ts ih =>
    intro mts h
    rw [appendKeys] at h
    by_cases h0 : t.role = 0
    · rw [if_pos h0] at h
      cases h
      rw [roleEntries_cons_of_keys _ _ h0, roleEntries_cons_of_keys _ _ (by exact h0)]
    · rw [if_neg h0] at h
      cases ha : appendKeys ks ts with
      | none => rw [ha] at h; cases h
      | some mts2 =>
        rw [ha] at h
        cases h
        rw [roleEntries_cons_of_role _ _ h0, roleEntries_cons_of_role _ _ h0, ih mts2 ha]

theorem roleEntries_append_role (ts : List Target) (r2 : Nat) (h : r2 ≠ 0) :
    roleEntries (ts ++ [⟨r2, []⟩]) = roleEntries ts ++ [r2] := by
  simp [roleEntries, List.filter_append, List.filter_cons, h]

theorem roleEntries_append_keys (ts : List Target) (ks : List (List Nat)) :
    roleEntries (ts ++ [⟨0, ks⟩]) = roleEntries ts := by
  simp [roleEntries, List.filter_append, List.filter_cons]

/-- The role entries after `AddTargetSubjects` are those before it followed by the
protocol roles of the added targets with a role, in order. -/
theorem AddTargetSubjects_roleEntries (ts : List RuleTarget) :
    ∀ (x y : Rule), x.AddTargetSubjects ts = .ok y →
      roleEntries y.m.targets = roleEntries x.m.targets ++ storedRoles ts := by
  induction ts with
  | nil =>
    intro x y h
    rw [Rule.AddTargetSubjects, Except.ok.injEq] at h
    subst h
    simp [storedRoles]
  | cons t ts ih =>
    intro x y h
    by_cases h0 : t.role = 0
    · have hst : storedRoles (t :: ts) = storedRoles ts := by
        simp [storedRoles, List.filterMap_cons, h0]
      by_cases hk : t.keys = []
      · rw [Rule.AddTargetSubjects] at h
        simp [checkTarget, h0, hk] at h
      · cases ha : appendKeys t.keys x.m.targets with
        | none =>
          rw [AddTargetSubjects_cons_keys_none x t ts h0 hk ha] at h
          rw [ih _ y h, hst]
          simp only [roleEntries_append_keys]
        | some mts =>
          rw [AddTargetSubjects_cons_keys_some x t ts mts h0 hk ha] at h
          rw [ih _ y h, hst]
          simp only [appendKeys_roleEntries t.keys x.m.targets mts ha]
    · cases hs : roleSwitch t.role with
      | none =>
        have hgt : t.role > 0 := Nat.pos_of_ne_zero h0
        rw [Rule.AddTargetSubjects] at h
        simp [checkTarget, h0, hgt, hs] at h
      | some r2 =>
        have hst : storedRoles (t :: ts) = r2 :: storedRoles ts := by
          simp [storedRoles, List.filterMap_cons, h0, hs]
        rw [AddTargetSubjects_cons_role x t ts r2 h0 hs] at h
        rw [ih _ y h, hst]
        simp only [roleEntries_append_role _ r2 (roleSwitch_ne_zero hs), List.append_assoc,
          List.singleton_append]

/-- C15. Key-target coalescing invariant: a rule built by `Allow` or `Deny` (non-zero
operation) followed by any sequence of `AddTargetSubjects` calls, all targets coming from
`SubjectsWithRole` / `SubjectsWithKeys`, is built without a fault, and its target list has
at most one key-only entry (an entry without role), every key-only entry holds a
non-empty key list that is the concatenation, in call order, of all key lists added, and
no entry carries both a role and keys; hence the first and the last role-less target
coincide. The added keys are stored: as soon as some key has been added there is a
key-only entry, and it holds that concatenation. The role entries of the list are, in
call order, the protocol roles of the targets with a role. -/
theorem C15_key_target_coalescing (c : Casts)
    (mk : Casts → Op → RuleTarget → Except String Rule) (hmk : mk = Allow ∨ mk = Deny)
    (op : Op) (hop : op ≠ 0) (t0 : RuleTarget) (calls : List (List RuleTarget))
    (ht0 : t0.FromConstructors) (hcalls : ∀ ts ∈ calls, ∀ t ∈ ts, t.FromConstructors) :
    ∃ r,
      (do
        let x ← mk c op t0
        x.addTargetSubjectsCalls calls) = .ok r ∧
      (r.m.targets.filter (fun t => decide (t.role = 0))).length ≤ 1 ∧
      (∀ t ∈ r.m.targets, t.role = 0 →
        t.keys ≠ [] ∧
        t.keys = ((t0 :: calls.flatten).map (fun t => t.keys)).flatten) ∧
      (∀ t ∈ r.m.targets, ¬ (t.role ≠ 0 ∧ t.keys ≠ [])) ∧
      r.m.targets.find? (fun t => decide (t.role = 0)) =
        r.m.targets.reverse.find? (fun t => decide (t.role = 0)) ∧
      (((t0 :: calls.flatten).map (fun t => t.keys)).flatten ≠ [] →
        ∃ t ∈ r.m.targets, t.role = 0 ∧
          t.keys = ((t0 :: calls.flatten).map (fun t => t.keys)).flatten) ∧
      roleEntries r.m.targets = storedRoles (t0 :: calls.flatten) ∧
      r.m.targets ≠ [] := by
  have hmk2 : ∃ action, mk c op t0 = newRule c action t0 op := by
    rcases hmk with e | e <;> subst e
    · exact ⟨ActionAllow, rfl⟩
    · exact ⟨ActionDeny, rfl⟩
  obtain ⟨action, hact⟩ := hmk2
  have hinit : ¬ (t0.role = 0 ∧ t0.keys = []) := by
    rcases fromConstructors_cases ht0 with ⟨hr, _, _⟩ | ⟨_, hk⟩
    · exact fun h => hr h.1
    · exact fun h => hk h.2
  have hzero : TargetsInv ([] : List Target) [] := ⟨by simp, by simp, by simp⟩
  obtain ⟨x, hx, _, _, _, hxinv⟩ := AddTargetSubjects_inv [t0] (by simpa using ht0)
    ⟨⟨c.castOp op, action, [], []⟩⟩ [] hzero
  have hflat : ∀ t ∈ calls.flatten, t.FromConstructors := by
    intro t ht
    obtain ⟨ts, hts, htts⟩ := List.mem_flatten.mp ht
    exact hcalls ts hts t htts
  obtain ⟨r, hr, _, _, _, hrinv⟩ := AddTargetSubjects_inv calls.flatten hflat x _ hxinv
  have hK : ([] ++ ([t0].map (fun t => t.keys)).flatten) ++
      (calls.flatten.map (fun t => t.keys)).flatten =
      ((t0 :: calls.flatten).map (fun t => t.keys)).flatten := by
    simp
  rw [hK] at hrinv
  obtain ⟨h1, h2, h3⟩ := hrinv
  have hroles : roleEntries r.m.targets = storedRoles (t0 :: calls.flatten) := by
    rw [AddTargetSubjects_roleEntries calls.flatten x r hr,
      AddTargetSubjects_roleEntries [t0] _ x hx]
    show ([] : List Nat) ++ storedRoles [t0] ++ storedRoles calls.flatten = _
    rw [List.nil_append, ← storedRoles_append, List.singleton_append]
  have hnonempty : r.m.targets ≠ [] := by
    intro hnil
    rcases fromConstructors_cases ht0 with ⟨hr0, ⟨r2, hr2⟩, _⟩ | ⟨_, hk⟩
    · have : storedRoles (t0 :: calls.flatten) = r2 :: storedRoles calls.flatten := by
        simp [storedRoles, List.filterMap_cons, hr0, hr2]
      rw [hnil, this] at hroles
      simp [roleEntries] at hroles
    · have hKne : ((t0 :: calls.flatten).map (fun t => t.keys)).flatten ≠ [] := by
        simp only [List.map_cons, List.flatten_cons]
        intro h
        exact hk (List.append_eq_nil.mp h).1
      obtain ⟨t, ht, _⟩ := h3 hKne
      rw [hnil] at ht
      simp at ht
  refine ⟨r, ?_, h2, ?_, ?_, find?_eq_find?_reverse _ _ h2, ?_, hroles, hnonempty⟩
  · rw [hact, newRule_eq c action t0 op hop hinit, hx]
    simp only [bind, Except.bind]
    rw [addTargetSubjectsCalls_eq, hr]
  · intro t ht hrole
    rcases h1 t ht with ⟨hne, _⟩ | ⟨_, hk, hKne⟩
    · exact absurd hrole hne
    · exact ⟨by rw [hk]; exact hKne, hk⟩
  · intro t ht hboth
    rcases h1 t ht with ⟨_, hk⟩ | ⟨hr0, _, _⟩
    · exact hboth.2 hk
    · exact hboth.1 hr0
  · intro hKne
    obtain ⟨t, ht, hrole⟩ := h3 hKne
    rcases h1 t ht with ⟨hne, _⟩ | ⟨_, hk, _⟩
    · exact absurd hrole hne
    · exact ⟨t, ht, hrole, hk⟩

theorem ownerTarget_fromConstructors : ownerTarget.FromConstructors :=
  Or.inl ⟨RoleOwner, rfl⟩

theorem containerTarget_fromConstructors : containerTarget.FromConstructors :=
  Or.inl ⟨RoleContainer, rfl⟩

theorem keyATarget_fromConstructors : keyATarget.FromConstructors :=
  Or.inr ⟨[some keyA], rfl⟩

theorem keyBTarget_fromConstructors : keyBTarget.FromConstructors :=
  Or.inr ⟨[some keyB], rfl⟩

/-- C15 (witness): `Allow(Get, Owner)` followed by the calls
`AddTargetSubjects(keys [keyA])` and `AddTargetSubjects(Container, keys [keyB])` is the
rule with the targets owner, keys `[keyA, keyB]`, system; the theorem applies to it. -/
theorem C15_key_target_coalescing_witness :
    (do
      let x ← Allow protocolCasts OpObjectGet ownerTarget
      x.addTargetSubjectsCalls [[keyATarget], [containerTarget, keyBTarget]]) =
      .ok ⟨⟨OpObjectGet, ActionAllow, [],
        [⟨RoleUser, []⟩, ⟨0, [[2, 11, 7], [3, 5]]⟩, ⟨RoleSystem, []⟩]⟩⟩ ∧
    ∃ r,
      (do
        let x ← Allow protocolCasts OpObjectGet ownerTarget
        x.addTargetSubjectsCalls [[keyATarget], [containerTarget, keyBTarget]]) = .ok r ∧
      (r.m.targets.filter (fun t => decide (t.role = 0))).length ≤ 1 ∧
      (∀ t ∈ r.m.targets, t.role = 0 →
        t.keys ≠ [] ∧
        t.keys = ((ownerTarget :: [[keyATarget], [containerTarget, keyBTarget]].flatten).map
          (fun t => t.keys)).flatten) ∧
      (∀ t ∈ r.m.targets, ¬ (t.role ≠ 0 ∧ t.keys ≠ [])) ∧
      r.m.targets.find? (fun t => decide (t.role = 0)) =
        r.m.targets.reverse.find? (fun t => decide (t.role = 0)) ∧
      (((ownerTarget :: [[keyATarget], [containerTarget, keyBTarget]].flatten).map
          (fun t => t.keys)).flatten ≠ [] →
        ∃ t ∈ r.m.targets, t.role = 0 ∧
          t.keys = ((ownerTarget :: [[keyATarget], [containerTarget, keyBTarget]].flatten).map
            (fun t => t.keys)).flatten) ∧
      roleEntries r.m.targets =
        storedRoles (ownerTarget :: [[keyATarget], [containerTarget, keyBTarget]].flatten) ∧
      r.m.targets ≠ [] :=
  ⟨rfl, C15_key_target_coalescing protocolCasts Allow (Or.inl rfl) OpObjectGet (by decide)
    ownerTarget [[keyATarget], [containerTarget, keyBTarget]] ownerTarget_fromConstructors
    (by
      intro ts hts t ht
      simp only [List.mem_cons, List.mem_singleton, List.not_mem_nil, or_false] at hts
      rcases hts with e | e <;> subst e
      · simp only [List.mem_singleton] at ht
        subst ht
        exact keyATarget_fromConstructors
      · simp only [List.mem_cons, List.mem_singleton, List.not_mem_nil, or_false] at ht
        rcases ht with e | e <;> subst e
        · exact containerTarget_fromConstructors
        · exact keyBTarget_fromConstructors)⟩

/-- A target with neither role nor keys makes `AddTargetSubjects` panic. -/
theorem AddTargetSubjects_cons_uninit (x : Rule) (t : RuleTarget) (ts : List RuleTarget)
    (hr : t.role = 0) (hk : t.keys = []) :
    x.AddTargetSubjects (t :: ts) = .error "uninitialized rule target" := by
  rw [Rule.AddTargetSubjects]
  simp [checkTarget, hr, hk]

/-- A target with an unsupported role makes `AddTargetSubjects` panic. -/
theorem AddTargetSubjects_cons_unsupported (x : Rule) (t : RuleTarget) (ts : List RuleTarget)
    (hr : t.role ≠ 0) (hs : roleSwitch t.role = none) :
    x.AddTargetSubjects (t :: ts) = .error "unsupported role" := by
  have hgt : t.role > 0 := Nat.pos_of_ne_zero hr
  rw [Rule.AddTargetSubjects]
  simp [checkTarget, hr, hgt, hs]

/-- Appending keys to the first key-only entry adds exactly the requesters with one of
these keys. -/
theorem appendKeys_matches (bKey : List Nat) (roleV2 : Nat) (ks : List (List Nat))
    (ts : List Target) :
    ∀ mts, TargetsValid ts → appendKeys ks ts = some mts →
      TargetsValid mts ∧
      ((∃ t ∈ mts, Target.Matches bKey roleV2 t) ↔
        (∃ t ∈ ts, Target.Matches bKey roleV2 t) ∨ bKey ∈ ks) := by
  induction ts with
  | nil =>
    intro mts _ h
    simp [appendKeys] at h
  | cons t ts ih =>
    intro mts hv h
    have hvt := hv t (List.mem_cons_self _ _)
    have hvts : TargetsValid ts := fun q hq => hv q (List.mem_cons_of_mem _ hq)
    rw [appendKeys] at h
    by_cases h0 : t.role = 0
    · rw [if_pos h0, Option.some.injEq] at h
      subst h
      have hk : t.keys ≠ [] := by
        rcases hvt with ⟨hr, _⟩ | ⟨_, hk⟩
        · exact absurd h0 hr
        · exact hk
      refine ⟨?_, ?_⟩
      · intro q hq
        rcases List.mem_cons.mp hq with e | hq2
        · subst e
          exact Or.inr ⟨h0, by simp [hk]⟩
        · exact hvts q hq2
      · have hnew : Target.Matches bKey roleV2 { t with keys := t.keys ++ ks } ↔
            bKey ∈ t.keys ∨ bKey ∈ ks := by
          simp [Target.Matches, hk]
        have hold : Target.Matches bKey roleV2 t ↔ bKey ∈ t.keys := by
          simp [Target.Matches, hk]
        rw [List.exists_mem_cons_iff, List.exists_mem_cons_iff, hnew, hold]
        generalize (∃ x ∈ ts, Target.Matches bKey roleV2 x) = P
        tauto
    · rw [if_neg h0] at h
      cases ha : appendKeys ks ts with
      | none => rw [ha] at h; cases h
      | some m2 =>
        rw [ha, Option.map_some', Option.some.injEq] at h
        subst h
        obtain ⟨hv2, hiff⟩ := ih m2 hvts ha
        refine ⟨?_, ?_⟩
        · intro q hq
          rcases List.mem_cons.mp hq with e | hq2
          · subst e
            exact hvt
          · exact hv2 q hq2
        · rw [List.exists_mem_cons_iff, List.exists_mem_cons_iff, hiff]
          generalize (∃ x ∈ ts, Target.Matches bKey roleV2 x) = P
          tauto

/-- Go `AddTargetSubjects` on a rule with valid entries: the entries stay valid, operation,
action and filters are kept, and the requesters matching the subject afterwards are those
that matched before and those covered by an added target. -/
theorem AddTargetSubjects_subject (bKey : List Nat) (roleV2 : Nat) (ts : List RuleTarget) :
    ∀ (x y : Rule), TargetsValid x.m.targets → x.AddTargetSubjects ts = .ok y →
      TargetsValid y.m.targets ∧ y.m.op = x.m.op ∧ y.m.action = x.m.action ∧
      y.m.filters = x.m.filters ∧
      (y.m.SubjectMatches bKey roleV2 ↔
        x.m.SubjectMatches bKey roleV2 ∨ ∃ t ∈ ts, t.Covers bKey roleV2) := by
  induction ts with
  | nil =>
    intro x y hv h
    rw [Rule.AddTargetSubjects, Except.ok.injEq] at h
    subst h
    exact ⟨hv, rfl, rfl, rfl, by simp⟩
  | cons t ts ih =>
    intro x y hv h
    by_cases h0 : t.role = 0
    · by_cases hk : t.keys = []
      · rw [AddTargetSubjects_cons_uninit x t ts h0 hk] at h
        cases h
      · have hcov : t.Covers bKey roleV2 ↔ bKey ∈ t.keys := by
          simp [RuleTarget.Covers, h0]
        cases ha : appendKeys t.keys x.m.targets with
        | none =>
          rw [AddTargetSubjects_cons_keys_none x t ts h0 hk ha] at h
          have hv2 : TargetsValid (x.m.targets ++ [⟨0, t.keys⟩]) := by
            intro q hq
            rcases List.mem_append.mp hq with hq | hq
            · exact hv q hq
            · rw [List.mem_singleton] at hq
              subst hq
              exact Or.inr ⟨rfl, hk⟩
          obtain ⟨h1, h2, h3, h4, h5⟩ := ih _ y hv2 h
          refine ⟨h1, h2, h3, h4, ?_⟩
          rw [h5]
          simp only [Record.SubjectMatches, List.mem_append, List.mem_singleton,
            List.exists_mem_cons_iff, hcov, Target.Matches]
          constructor
          · rintro (⟨q, hq | hq, hm⟩ | hr)
            · exact Or.inl ⟨q, hq, hm⟩
            · subst hq
              rcases hm with ⟨hnil, _⟩ | hm
              · exact absurd hnil hk
              · exact Or.inr (Or.inl hm)
            · exact Or.inr (Or.inr hr)
          · rintro (⟨q, hq, hm⟩ | hm | hr)
            · exact Or.inl ⟨q, Or.inl hq, hm⟩
            · exact Or.inl ⟨⟨0, t.keys⟩, Or.inr rfl, Or.inr hm⟩
            · exact Or.inr hr
        | some mts =>
          rw [AddTargetSubjects_cons_keys_some x t ts mts h0 hk ha] at h
          obtain ⟨hv2, hiff⟩ := appendKeys_matches bKey roleV2 t.keys x.m.targets mts hv ha
          obtain ⟨h1, h2, h3, h4, h5⟩ := ih _ y hv2 h
          have h5b : y.m.SubjectMatches bKey roleV2 ↔
              (∃ q ∈ mts, Target.Matches bKey roleV2 q) ∨
                ∃ q ∈ ts, q.Covers bKey roleV2 := h5
          refine ⟨h1, h2, h3, h4, ?_⟩
          rw [h5b, hiff, List.exists_mem_cons_iff, hcov]
          unfold Record.SubjectMatches
          generalize (∃ q ∈ x.m.targets, Target.Matches bKey roleV2 q) = P
          generalize (∃ q ∈ ts, RuleTarget.Covers bKey roleV2 q) = Q
          tauto
    · cases hs : roleSwitch t.role with
      | none =>
        rw [AddTargetSubjects_cons_unsupported x t ts h0 hs] at h
        cases h
      | some r2 =>
        rw [AddTargetSubjects_cons_role x t ts r2 h0 hs] at h
        have hcov : t.Covers bKey roleV2 ↔ r2 = roleV2 := by
          simp [RuleTarget.Covers, h0, hs]
        have hv2 : TargetsValid (x.m.targets ++ [⟨r2, []⟩]) := by
          intro q hq
          rcases List.mem_append.mp hq with hq | hq
          · exact hv q hq
          · rw [List.mem_singleton] at hq
            subst hq
            exact Or.inl ⟨roleSwitch_ne_zero hs, rfl⟩
        obtain ⟨h1, h2, h3, h4, h5⟩ := ih _ y hv2 h
        refine ⟨h1, h2, h3, h4, ?_⟩
        rw [h5]
        simp only [Record.SubjectMatches, List.mem_append, List.mem_singleton,
          List.exists_mem_cons_iff, hcov, Target.Matches]
        constructor
        · rintro (⟨q, hq | hq, hm⟩ | hr)
          · exact Or.inl ⟨q, hq, hm⟩
          · subst hq
            rcases hm with ⟨_, hm⟩ | hm
            · exact Or.inr (Or.inl hm)
            · simp at hm
          · exact Or.inr (Or.inr hr)
        · rintro (⟨q, hq, hm⟩ | hm | hr)
          · exact Or.inl ⟨q, Or.inl hq, hm⟩
          · exact Or.inl ⟨⟨r2, []⟩, Or.inr rfl, Or.inl ⟨rfl, hm⟩⟩
          · exact Or.inr hr

/-- The rule returned by `newRule` has valid target entries. -/
theorem newRule_targetsValid (c : Casts) (action : Nat) (t : RuleTarget) (op : Op) (r : Rule)
    (h : newRule c action t op = .ok r) : TargetsValid r.m.targets := by
  unfold newRule at h
  cases hc : checkTarget t with
  | error e => rw [hc] at h; cases h
  | ok u =>
    rw [hc] at h
    simp only at h
    split_ifs at h with hop
    exact (AddTargetSubjects_subject [] 0 [t] _ r (by intro q hq; simp at hq) h).1

/-- A rule built through the public constructors has valid target entries. -/
theorem built_targetsValid (c : Casts) (x : Rule) (h : Rule.Built c x) :
    TargetsValid x.m.targets := by
  induction h with
  | allow op t r hr => exact newRule_targetsValid c ActionAllow t op r hr
  | deny op t r hr => exact newRule_targetsValid c ActionDeny t op r hr
  | addTargets x ts y _ hy ih => exact (AddTargetSubjects_subject [] 0 ts x y ih hy).1
  | filterBy x fs y _ hy ih =>
    unfold Rule.FilterBy at hy
    cases hf : filterMessages fs with
    | error e => rw [hf] at hy; cases hy
    | ok mfs =>
      rw [hf] at hy
      cases hy
      exact ih

/-- Go `AddTargetSubjects` with targets from the public constructors returns. -/
theorem AddTargetSubjects_total (ts : List RuleTarget) (hts : ∀ t ∈ ts, t.FromConstructors) :
    ∀ x : Rule, ∃ y, x.AddTargetSubjects ts = .ok y := by
  induction ts with
  | nil =>
    intro x
    exact ⟨x, by rw [Rule.AddTargetSubjects]⟩
  | cons t ts ih =>
    intro x
    have ih2 := ih (fun q hq => hts q (List.mem_cons_of_mem _ hq))
    rcases fromConstructors_cases (hts t (List.mem_cons_self _ _)) with
      ⟨hr, ⟨r2, hr2⟩, _⟩ | ⟨hr, hk⟩
    · rw [AddTargetSubjects_cons_role x t ts r2 hr hr2]
      exact ih2 _
    · cases ha : appendKeys t.keys x.m.targets with
      | none =>
        rw [AddTargetSubjects_cons_keys_none x t ts hr hk ha]
        exact ih2 _
      | some mts =>
        rw [AddTargetSubjects_cons_keys_some x t ts mts hr hk ha]
        exact ih2 _

/-- What `subjectBeforeAfter` computes for supported roles. -/
theorem subjectBeforeAfter_eq (c : Casts) (first added : Role) (v1 v2 : Nat)
    (h1 : roleZero < first ∧ first < roleLast) (h2 : roleZero < added ∧ added < roleLast)
    (hv1 : roleSwitch first = some v1) (hv2 : roleSwitch added = some v2)
    (key : PublicKey) (role : Role) :
    subjectBeforeAfter c first added key role =
      .ok (decide (v1 = c.castRole role),
        decide (v1 = c.castRole role) || decide (v2 = c.castRole role)) := by
  have hadd : added ≠ 0 := Nat.pos_iff_ne_zero.mp h2.1
  have hstep := AddTargetSubjects_cons_role
    ⟨⟨c.castOp OpObjectGet, ActionAllow, [], [⟨v1, []⟩]⟩⟩ ⟨added, []⟩ [] v2 hadd hv2
  rw [Rule.AddTargetSubjects] at hstep
  unfold subjectBeforeAfter
  rw [SubjectsWithRole_supported h1, SubjectsWithRole_supported h2]
  simp only [bind, Except.bind, Allow, newRule_role c ActionAllow OpObjectGet h1 hv1 (by decide),
    hstep, pure, Except.pure]
  simp only [List.nil_append, List.singleton_append, List.cons_append, targetsLoop,
    List.length_nil, if_true]
  by_cases e1 : v1 = c.castRole role
  · simp [e1]
  · by_cases e2 : v2 = c.castRole role
    · simp [e1, e2]
    · simp [e1, e2]

/-- C16 (as stated) fails. With "same role" read literally, the claim says for a
requester of role InnerRing: adding `SubjectsWithRole(RoleInnerRing)` to
`Allow(Get, Owner)` and to `Allow(Get, Others)` makes the requester match, and adding
`SubjectsWithRole(RoleContainer)` to `Allow(Get, Owner)` leaves the match as it was
before. No conversion helper `castRole` satisfies the three. With `castRole` converting
roles as `AddTargetSubjects` does, the InnerRing requester does not match
`Allow(Get, Owner)`, is not a requester of the added role Container, and matches after
the call. -/
theorem C16_counterexample :
    (¬ ∃ c : Casts,
      (∃ b, subjectBeforeAfter c RoleOwner RoleInnerRing keyA RoleInnerRing = .ok (b, true)) ∧
      (∃ b, subjectBeforeAfter c RoleOthers RoleInnerRing keyA RoleInnerRing
        = .ok (b, true)) ∧
      (∃ b, subjectBeforeAfter c RoleOwner RoleContainer keyA RoleInnerRing = .ok (b, b))) ∧
    subjectBeforeAfter protocolCasts RoleOwner RoleContainer keyA RoleInnerRing
      = .ok (false, true) ∧
    ¬ containerTarget.SameSubject (SerializePublicKey keyA) RoleInnerRing := by
  refine ⟨?_, rfl, ?_⟩
  · rintro ⟨c, ⟨b1, h1⟩, ⟨b2, h2⟩, ⟨b3, h3⟩⟩
    rw [subjectBeforeAfter_eq c RoleOwner RoleInnerRing RoleUser RoleSystem (by decide)
      (by decide) rfl rfl, Except.ok.injEq, Prod.mk.injEq] at h1
    rw [subjectBeforeAfter_eq c RoleOthers RoleInnerRing V2RoleOthers RoleSystem (by decide)
      (by decide) rfl rfl, Except.ok.injEq, Prod.mk.injEq] at h2
    rw [subjectBeforeAfter_eq c RoleOwner RoleContainer RoleUser RoleSystem (by decide)
      (by decide) rfl rfl, Except.ok.injEq, Prod.mk.injEq] at h3
    have hsys : RoleSystem = c.castRole RoleInnerRing := by
      have a1 := h1.2
      have a2 := h2.2
      simp only [Bool.or_eq_true, decide_eq_true_eq] at a1 a2
      rcases a1 with a1 | a1
      · rcases a2 with a2 | a2
        · rw [← a1] at a2
          exact absurd a2 (by decide)
        · exact a2
      · exact a1
    have huser : ¬ RoleUser = c.castRole RoleInnerRing := by
      rw [← hsys]
      decide
    have e := h3.1.trans h3.2.symm
    simp [huser, hsys] at e
  · rintro (⟨_, h⟩ | h)
    · exact absurd h (by decide)
    · simp [containerTarget] at h

/-- C16 (amended). Adding targets only widens the subject set: for every rule `x` built
through the public constructors and every list of targets `ts`, `AddTargetSubjects`
returns when all of `ts` come from the public constructors, and after it the requester
`(key, role)` matches the subject in `CheckAccess` iff it matched before the call or one
of `ts` covers it: a role target covers the requesters whose role `castRole` converts to
the protocol role stored for the target's role (Container and InnerRing are both stored
as System), a key target covers the requesters whose serialized key is in its list.
Operation, action and filters of the rule are unchanged. -/
theorem C16_adding_targets_widens (c : Casts) (x : Rule) (hx : Rule.Built c x)
    (ts : List RuleTarget) (key : PublicKey) (role : Role) :
    ((∀ t ∈ ts, t.FromConstructors) → ∃ y, x.AddTargetSubjects ts = .ok y) ∧
    ∀ y, x.AddTargetSubjects ts = .ok y →
      (targetsLoop (SerializePublicKey key) (c.castRole role) y.m.targets = true ↔
        targetsLoop (SerializePublicKey key) (c.castRole role) x.m.targets = true ∨
        ∃ t ∈ ts, t.Covers (SerializePublicKey key) (c.castRole role)) ∧
      y.m.op = x.m.op ∧ y.m.action = x.m.action ∧ y.m.filters = x.m.filters := by
  refine ⟨fun hts => AddTargetSubjects_total ts hts x, ?_⟩
  intro y hy
  obtain ⟨_, h2, h3, h4, h5⟩ := AddTargetSubjects_subject (SerializePublicKey key)
    (c.castRole role) ts x y (built_targetsValid c x hx) hy
  rw [subjectMatches_iff, subjectMatches_iff]
  exact ⟨h5, h2, h3, h4⟩

theorem C16_adding_targets_widens_witness :
    Rule.Built protocolCasts ⟨⟨OpObjectGet, ActionAllow, [], [⟨RoleUser, []⟩]⟩⟩ ∧
    targetsLoop (SerializePublicKey keyA) (protocolCasts.castRole RoleInnerRing)
      [⟨RoleUser, []⟩, ⟨RoleSystem, []⟩] = true :=
  have hb : Rule.Built protocolCasts ⟨⟨OpObjectGet, ActionAllow, [], [⟨RoleUser, []⟩]⟩⟩ :=
    Rule.Built.allow OpObjectGet ownerTarget _ rfl
  ⟨hb, ((C16_adding_targets_widens protocolCasts _ hb [containerTarget] keyA
    RoleInnerRing).2 ⟨⟨OpObjectGet, ActionAllow, [], [⟨RoleUser, []⟩, ⟨RoleSystem, []⟩]⟩⟩
    rfl).1.mpr (Or.inr ⟨containerTarget, by simp, Or.inl ⟨by decide, rfl⟩⟩)⟩

/-! ## FilterBy, Allow and Deny -/

theorem filterMessages_ok (fs : List Filter) (h : ∀ f ∈ fs, f ≠ zeroFilter) :
    filterMessages fs = .ok (fs.map (fun f => f.m)) := by
  induction fs with
  | nil => rfl
  | cons f fs ih =>
    have hf : ¬ f = ⟨⟨0, 0, "", ""⟩⟩ := h f (List.mem_cons_self _ _)
    rw [filterMessages, if_neg hf, ih (fun g hg => h g (List.mem_cons_of_mem _ hg))]
    rfl

theorem filterMessages_error (fs : List Filter) (h : ∃ f ∈ fs, f = zeroFilter) :
    filterMessages fs = .error "uninitialized filter" := by
  induction fs with
  | nil =>
    obtain ⟨f, hf, _⟩ := h
    simp at hf
  | cons f fs ih =>
    rw [filterMessages]
    by_cases hf : f = ⟨⟨0, 0, "", ""⟩⟩
    · rw [if_pos hf]
    · rw [if_neg hf]
      obtain ⟨g, hg, hg0⟩ := h
      rcases List.mem_cons.mp hg with e | hg2
      · subst e
        exact absurd hg0 hf
      · rw [ih ⟨g, hg2, hg0⟩]

/-- Go `FilterBy` with initialized filters stores their messages in the given order. -/
theorem FilterBy_ok (x : Rule) (fs : List Filter) (h : ∀ f ∈ fs, f ≠ zeroFilter) :
    x.FilterBy fs = .ok ⟨⟨x.m.op, x.m.action, fs.map (fun f => f.m), x.m.targets⟩⟩ := by
  unfold Rule.FilterBy
  rw [filterMessages_ok fs h]

/-- C17. `FilterBy` replaces, it does not append: after `x.FilterBy(fs...)` with every
`fs[i]` initialized (not the zero `Filter`), the call returns and the rule's filter list
is exactly the messages of `fs` in the given order, whatever filters the rule had before;
action, operation and targets are unchanged; a second `FilterBy` call discards the
filters of the first. -/
theorem C17_filterBy_replaces (x : Rule) (fs : List Filter) (hfs : ∀ f ∈ fs, f ≠ zeroFilter) :
    (∃ y, x.FilterBy fs = .ok y ∧ y.m.filters = fs.map (fun f => f.m) ∧
      y.m.action = x.m.action ∧ y.m.op = x.m.op ∧ y.m.targets = x.m.targets) ∧
    (∀ old : List HeaderFilter,
      Rule.FilterBy ⟨{ x.m with filters := old }⟩ fs = x.FilterBy fs) ∧
    (∀ gs : List Filter, (∀ g ∈ gs, g ≠ zeroFilter) →
      (do
        let y ← x.FilterBy gs
        y.FilterBy fs) = x.FilterBy fs) := by
  refine ⟨⟨_, FilterBy_ok x fs hfs, rfl, rfl, rfl, rfl⟩, ?_, ?_⟩
  · intro old
    rw [FilterBy_ok _ fs hfs, FilterBy_ok x fs hfs]
  · intro gs hgs
    rw [FilterBy_ok x gs hgs]
    simp only [bind, Except.bind]
    rw [FilterBy_ok _ fs hfs, FilterBy_ok x fs hfs]

theorem C17_filterBy_replaces_witness :
    (∀ f ∈ [(⟨⟨HeaderTypeRequest, MatchTypeStringEqual, "req_key", "req_val"⟩⟩ : Filter)],
      f ≠ zeroFilter) ∧
    ∃ y, oneFilterRule.FilterBy [⟨⟨HeaderTypeRequest, MatchTypeStringEqual, "req_key",
        "req_val"⟩⟩] = .ok y ∧
      y.m.filters = [⟨HeaderTypeRequest, MatchTypeStringEqual, "req_key", "req_val"⟩] ∧
      y.m.action = oneFilterRule.m.action ∧ y.m.op = oneFilterRule.m.op ∧
      y.m.targets = oneFilterRule.m.targets :=
  have h : ∀ f ∈ [(⟨⟨HeaderTypeRequest, MatchTypeStringEqual, "req_key", "req_val"⟩⟩ : Filter)],
      f ≠ zeroFilter := by
    intro f hf
    rw [List.mem_singleton] at hf
    subst hf
    decide
  ⟨h, (C17_filterBy_replaces oneFilterRule _ h).1⟩

theorem filterByLoop_spec (x : Rule) (fs : List Filter) :
    ∀ (i : Nat) (mfs : List HeaderFilter),
      ((∃ f ∈ fs, f = zeroFilter) →
        filterByLoop x i fs mfs = (x, some "uninitialized filter")) ∧
      ((∀ f ∈ fs, f ≠ zeroFilter) →
        filterByLoop x i fs mfs =
          (⟨{ x.m with filters := mfs ++ fs.map (fun f => f.m) }⟩, none)) := by
  induction fs with
  | nil =>
    intro i mfs
    refine ⟨fun ⟨f, hf, _⟩ => by simp at hf, fun _ => ?_⟩
    simp [filterByLoop]
  | cons f fs ih =>
    intro i mfs
    rw [filterByLoop]
    by_cases hf : f = ⟨⟨0, 0, "", ""⟩⟩
    · rw [if_pos hf]
      exact ⟨fun _ => rfl, fun h => absurd hf (h f (List.mem_cons_self _ _))⟩
    · rw [if_neg hf]
      refine ⟨fun ⟨g, hg, hg0⟩ => ?_, fun h => ?_⟩
      · rcases List.mem_cons.mp hg with e | hg2
        · subst e
          exact absurd hg0 hf
        · exact (ih (i + 1) (mfs ++ [f.m])).1 ⟨g, hg2, hg0⟩
      · rw [(ih (i + 1) (mfs ++ [f.m])).2 (fun g hg => h g (List.mem_cons_of_mem _ hg))]
        simp

/-- C18 (as stated) fails: `FilterBy` returns, and stores the filter, for a filter built by
`MatchRequestHeader` that lacks a key, and for one whose matcher function sets no
matcher. -/
theorem C18_counterexample :
    (do
      let f ← MatchRequestHeader (some MatchEquals) (NewHeader "" "value")
      oneFilterRule.FilterBy [f]) =
      .ok ⟨⟨OpObjectGet, ActionDeny, [⟨HeaderTypeRequest, MatchTypeStringEqual, "", "value"⟩],
        [⟨RoleUser, []⟩]⟩⟩ ∧
    (do
      let f ← MatchRequestHeader (some (fun f => f)) (NewHeader "key" "value")
      oneFilterRule.FilterBy [f]) =
      .ok ⟨⟨OpObjectGet, ActionDeny, [⟨HeaderTypeRequest, 0, "key", "value"⟩],
        [⟨RoleUser, []⟩]⟩⟩ :=
  ⟨rfl, rfl⟩

/-- C18 (amended). `FilterBy` fails fast on an uninitialized filter: it faults, leaving
the rule unchanged, iff some passed filter is the zero `Filter`, which lacks scope,
matcher, key and value all at once; a filter that lacks only some of them is accepted.
Otherwise it succeeds and stores the messages of the passed filters. -/
theorem C18_filterBy_faults_iff (x : Rule) (fs : List Filter) :
    ((x.FilterByState fs).2 ≠ none ↔ ∃ f ∈ fs, f = zeroFilter) ∧
    ((x.FilterByState fs).2 ≠ none → (x.FilterByState fs).1 = x) ∧
    ((x.FilterByState fs).2 = none →
      (x.FilterByState fs).1 = ⟨{ x.m with filters := fs.map (fun f => f.m) }⟩) ∧
    x.FilterBy fs =
      (match (x.FilterByState fs).2 with
       | some msg => .error msg
       | none => .ok (x.FilterByState fs).1) := by
  unfold Rule.FilterByState
  by_cases h : ∃ f ∈ fs, f = zeroFilter
  · rw [(filterByLoop_spec x fs 0 []).1 h]
    refine ⟨by simp [h], fun _ => rfl, by simp, ?_⟩
    unfold Rule.FilterBy
    rw [filterMessages_error fs h]
  · have hall : ∀ f ∈ fs, f ≠ zeroFilter := fun f hf e => h ⟨f, hf, e⟩
    rw [(filterByLoop_spec x fs 0 []).2 hall]
    refine ⟨by simp [h], by simp, fun _ => rfl, ?_⟩
    rw [FilterBy_ok x fs hall]
    rfl

/-- The rule `newRule` builds for a target with a supported role. -/
theorem newRule_role_ok (c : Casts) (action : Nat) (t : RuleTarget) (op : Op) (r2 : Nat)
    (hop : op ≠ 0) (hr : t.role ≠ 0) (hs : roleSwitch t.role = some r2) :
    newRule c action t op = .ok ⟨⟨c.castOp op, action, [], [⟨r2, []⟩]⟩⟩ := by
  rw [newRule_eq c action t op hop (fun h => hr h.1),
    AddTargetSubjects_cons_role _ t [] r2 hr hs, Rule.AddTargetSubjects]
  rfl

theorem checkTarget_ok (t : RuleTarget) (h : ¬ (t.role = 0 ∧ t.keys = [])) :
    checkTarget t = .ok () := by
  unfold checkTarget
  rw [if_neg]
  intro hz
  exact h ⟨hz.1, List.length_eq_zero.mp hz.2⟩

/-- What `newRule` returns for a target a caller can hold: the zero `RuleTarget` or one
from the public constructors. -/
theorem newRule_spec (c : Casts) (action : Nat) (op : Op) (t : RuleTarget)
    (ht : t = ⟨0, []⟩ ∨ t.FromConstructors) :
    ((∃ msg, newRule c action t op = .error msg) ↔ op = 0 ∨ (t.role = 0 ∧ t.keys = [])) ∧
    (∀ r, newRule c action t op = .ok r →
      r.m.op = c.castOp op ∧ r.m.action = action ∧ r.m.filters = [] ∧
      ∃ e, r.m.targets = [e] ∧
        (t.role ≠ 0 → roleSwitch t.role = some e.role ∧ e.keys = []) ∧
        (t.role = 0 → e = ⟨0, t.keys⟩)) := by
  rcases ht with hz | hc
  · subst hz
    have herr : newRule c action ⟨0, []⟩ op = .error "uninitialized rule target" := rfl
    rw [herr]
    refine ⟨by simp, ?_⟩
    intro r hr
    cases hr
  · have hinit : ¬ (t.role = 0 ∧ t.keys = []) := by
      rcases fromConstructors_cases hc with ⟨hr, _, _⟩ | ⟨_, hk⟩
      · exact fun h => hr h.1
      · exact fun h => hk h.2
    by_cases hop : op = 0
    · have herr : newRule c action t op = .error "uninitialized operation" := by
        unfold newRule
        rw [checkTarget_ok t hinit]
        simp only [if_pos hop]
      rw [herr]
      refine ⟨by simp [hop], ?_⟩
      intro r hr
      cases hr
    · rcases fromConstructors_cases hc with ⟨hr, ⟨r2, hs⟩, _⟩ | ⟨hr, hk⟩
      · rw [newRule_role_ok c action t op r2 hop hr hs]
        refine ⟨by simp [hop, hr], ?_⟩
        intro r hrr
        rw [Except.ok.injEq] at hrr
        subst hrr
        exact ⟨rfl, rfl, rfl, ⟨r2, []⟩, rfl, fun _ => ⟨hs, rfl⟩, fun h => absurd h hr⟩
      · have hok : newRule c action t op = .ok ⟨⟨c.castOp op, action, [], [⟨0, t.keys⟩]⟩⟩ := by
          cases t with
          | mk role keys =>
            simp only at hr
            subst hr
            exact newRule_keys c action op keys hk hop
        rw [hok]
        refine ⟨by simp [hop, hk], ?_⟩
        intro r hrr
        rw [Except.ok.injEq] at hrr
        subst hrr
        exact ⟨rfl, rfl, rfl, ⟨0, t.keys⟩, rfl, fun h => absurd hr h, fun _ => rfl⟩

/-- C19. `Allow(op, t)` and `Deny(op, t)`, for a target `t` a caller can hold (the zero
`RuleTarget` or one returned by `SubjectsWithRole` / `SubjectsWithKeys`), fault iff `op`
is zero or `t` is uninitialized (no role and no keys); when they return, the rule has
action Allow resp. Deny, the given operation as converted by `castOp`, no filters and
exactly one target entry, the entry of `t`: the protocol role stored for the role of `t`
and no keys, or no role and the keys of `t`. -/
theorem C19_allow_deny (c : Casts) (op : Op) (t : RuleTarget)
    (ht : t = ⟨0, []⟩ ∨ t.FromConstructors) :
    (((∃ msg, Allow c op t = .error msg) ↔ op = 0 ∨ (t.role = 0 ∧ t.keys = [])) ∧
     (∀ r, Allow c op t = .ok r →
        r.m.op = c.castOp op ∧ r.m.action = ActionAllow ∧ r.m.filters = [] ∧
        ∃ e, r.m.targets = [e] ∧
          (t.role ≠ 0 → roleSwitch t.role = some e.role ∧ e.keys = []) ∧
          (t.role = 0 → e = ⟨0, t.keys⟩))) ∧
    (((∃ msg, Deny c op t = .error msg) ↔ op = 0 ∨ (t.role = 0 ∧ t.keys = [])) ∧
     (∀ r, Deny c op t = .ok r →
        r.m.op = c.castOp op ∧ r.m.action = ActionDeny ∧ r.m.filters = [] ∧
        ∃ e, r.m.targets = [e] ∧
          (t.role ≠ 0 → roleSwitch t.role = some e.role ∧ e.keys = []) ∧
          (t.role = 0 → e = ⟨0, t.keys⟩))) :=
  ⟨newRule_spec c ActionAllow op t ht, newRule_spec c ActionDeny op t ht⟩

theorem C19_allow_deny_witness :
    (containerTarget = ⟨0, []⟩ ∨ containerTarget.FromConstructors) ∧
    Allow protocolCasts OpObjectGet containerTarget
      = .ok ⟨⟨OpObjectGet, ActionAllow, [], [⟨RoleSystem, []⟩]⟩⟩ ∧
    ∀ r, Allow protocolCasts OpObjectGet containerTarget = .ok r →
      r.m.op = protocolCasts.castOp OpObjectGet ∧ r.m.action = ActionAllow ∧
      r.m.filters = [] ∧
      ∃ e, r.m.targets = [e] ∧
        (containerTarget.role ≠ 0 →
          roleSwitch containerTarget.role = some e.role ∧ e.keys = []) ∧
        (containerTarget.role = 0 → e = ⟨0, containerTarget.keys⟩) :=
  ⟨Or.inr containerTarget_fromConstructors, rfl,
    (C19_allow_deny protocolCasts OpObjectGet containerTarget
      (Or.inr containerTarget_fromConstructors)).1.2⟩

/-! ## Object-ID filters -/

/-- What `checkObjectID` computes for a filter constructor that returns an initialized
Object-scoped filter on the object identifier header. -/
theorem checkObjectID_eq {ID : Type} (EncodeToString : ID → String)
    (mk : (ID → String) → ID → Except String Filter) (matchType : Nat) (c : Casts)
    (role : Role) (v : Nat) (op : Op) (hrole : roleZero < role ∧ role < roleLast)
    (hv : roleSwitch role = some v) (hop : op ≠ 0) (key : PublicKey) (reqs : List Header)
    (id id2 : ID)
    (hmk : mk EncodeToString id =
      .ok ⟨⟨HeaderTypeObject, matchType, FilterObjectID, EncodeToString id⟩⟩) :
    checkObjectID EncodeToString mk c role op key reqs id id2 =
      (NewExtended ⟨⟨c.castOp op, ActionAllow,
        [⟨HeaderTypeObject, matchType, FilterObjectID, EncodeToString id⟩],
        [⟨v, []⟩]⟩⟩).CheckAccess c (some key) role op
        ⟨reqs, [ObjectIDHeader EncodeToString id2]⟩ := by
  have hne : ∀ f ∈ [(⟨⟨HeaderTypeObject, matchType, FilterObjectID, EncodeToString id⟩⟩ :
      Filter)], f ≠ zeroFilter := by
    intro f hf
    rw [List.mem_singleton] at hf
    subst hf
    intro e
    have e2 : HeaderTypeObject = 0 := congrArg (fun f : Filter => f.m.hdrType) e
    exact absurd e2 (by decide)
  unfold checkObjectID
  rw [SubjectsWithRole_supported hrole, hmk]
  simp only [bind, Except.bind, Allow, newRule_role c ActionAllow op hrole hv hop,
    FilterBy_ok _ _ hne]
  rfl

/-- The Equal filter on the object identifier header is satisfied by the object headers
`[ObjectIDHeader(id2)]` iff the two identifiers encode to the same string. -/
theorem objectID_equal_satisfied {ID : Type} (EncodeToString : ID → String)
    (reqs : List Header) (id id2 : ID) :
    (⟨HeaderTypeObject, MatchTypeStringEqual, FilterObjectID, EncodeToString id⟩ :
      HeaderFilter).Satisfied ⟨reqs, [ObjectIDHeader EncodeToString id2]⟩ ↔
      EncodeToString id2 = EncodeToString id := by
  rw [satisfied_object _ _ rfl]
  simp [ObjectIDHeader, NewHeader, MatchTypeStringEqual, MatchTypeStringNotEqual]

/-- The NotEqual filter on the object identifier header is satisfied by the object
headers `[ObjectIDHeader(id2)]` iff the two identifiers encode to different strings. -/
theorem objectID_notEqual_satisfied {ID : Type} (EncodeToString : ID → String)
    (reqs : List Header) (id id2 : ID) :
    (⟨HeaderTypeObject, MatchTypeStringNotEqual, FilterObjectID, EncodeToString id⟩ :
      HeaderFilter).Satisfied ⟨reqs, [ObjectIDHeader EncodeToString id2]⟩ ↔
      EncodeToString id2 ≠ EncodeToString id := by
  rw [satisfied_object _ _ rfl]
  simp [ObjectIDHeader, NewHeader, MatchTypeStringEqual, MatchTypeStringNotEqual]

/-- The single-rule table of an allowing role rule with one supported filter, checked for
a requester of that role. -/
theorem check_filtered_role_rule (c : Casts) (op : Op) (v : Nat) (f : HeaderFilter)
    (hf : f.Supported) (key : PublicKey) (role : Role) (hcast : c.castRole role = v)
    (md : RequestMetadata) :
    (f.Satisfied md →
      (NewExtended ⟨⟨c.castOp op, ActionAllow, [f], [⟨v, []⟩]⟩⟩).CheckAccess c (some key) role
        op md = .ok none) ∧
    (¬ f.Satisfied md →
      (NewExtended ⟨⟨c.castOp op, ActionAllow, [f], [⟨v, []⟩]⟩⟩).CheckAccess c (some key) role
        op md = .ok (some .ErrRuleNotFound)) := by
  have hwf : (⟨c.castOp op, ActionAllow, [f], [⟨v, []⟩]⟩ : Record).WellFormed :=
    ⟨Or.inl rfl, by intro g hg; rw [List.mem_singleton] at hg; subst hg; exact hf⟩
  have hout := single_rule_outcome c ⟨⟨c.castOp op, ActionAllow, [f], [⟨v, []⟩]⟩⟩ key role op
    md hwf
  have happ : (⟨c.castOp op, ActionAllow, [f], [⟨v, []⟩]⟩ : Record).Applies
      (SerializePublicKey key) (c.castRole role) (c.castOp op) md ↔ f.Satisfied md := by
    constructor
    · intro h
      exact h.2.2 f (List.mem_singleton.mpr rfl)
    · intro h
      refine ⟨rfl, ⟨⟨v, []⟩, List.mem_singleton.mpr rfl, Or.inl ⟨rfl, hcast.symm⟩⟩, ?_⟩
      intro g hg
      rw [List.mem_singleton] at hg
      subst hg
      exact h
  exact ⟨fun h => hout.1 (happ.mpr h), fun h => hout.2 (fun ha => h (happ.mp ha))⟩

/-- C20. Object-ID filters: for all object IDs `id`, `id2` (with an injective string
encoding), every supported role, non-zero operation and present key, the rule
`Allow(op, SubjectsWithRole(role))` filtered by `ByObjectID(id)` allows a request whose
object headers are `[ObjectIDHeader(id2)]` iff `id2 = id` and gives `ErrRuleNotFound`
otherwise; with `ExcludeObjectID(id)` the request is allowed iff `id2` differs from `id`
and gets `ErrRuleNotFound` otherwise. On such a request exactly one of the two filters is
satisfied. The absent helper `castRole` is assumed to convert a supported role to the
protocol role that `AddTargetSubjects` stores for it. -/
theorem C20_object_id_filters {ID : Type} (EncodeToString : ID → String)
    (hinj : Function.Injective EncodeToString) (c : Casts) (hc : c.ProjectsRoles)
    (role : Role) (hrole : roleZero < role ∧ role < roleLast) (op : Op) (hop : op ≠ 0)
    (key : PublicKey) (reqs : List Header) (id id2 : ID) :
    (id2 = id →
      checkObjectID EncodeToString ByObjectID c role op key reqs id id2 = .ok none ∧
      checkObjectID EncodeToString ExcludeObjectID c role op key reqs id id2
        = .ok (some .ErrRuleNotFound)) ∧
    (id2 ≠ id →
      checkObjectID EncodeToString ByObjectID c role op key reqs id id2
        = .ok (some .ErrRuleNotFound) ∧
      checkObjectID EncodeToString ExcludeObjectID c role op key reqs id id2 = .ok none) ∧
    (∀ fb fe, ByObjectID EncodeToString id = .ok fb →
      ExcludeObjectID EncodeToString id = .ok fe →
      (fb.m.Satisfied ⟨reqs, [ObjectIDHeader EncodeToString id2]⟩ ↔
        ¬ fe.m.Satisfied ⟨reqs, [ObjectIDHeader EncodeToString id2]⟩)) := by
  obtain ⟨v, hv⟩ := roleSwitch_supported hrole
  have hcast : c.castRole role = v := hc role v hv
  have hby := checkObjectID_eq EncodeToString ByObjectID MatchTypeStringEqual c role v op
    hrole hv hop key reqs id id2 rfl
  have hex := checkObjectID_eq EncodeToString ExcludeObjectID MatchTypeStringNotEqual c role v
    op hrole hv hop key reqs id id2 rfl
  have hb := check_filtered_role_rule c op v
    ⟨HeaderTypeObject, MatchTypeStringEqual, FilterObjectID, EncodeToString id⟩
    ⟨Or.inr rfl, Or.inl rfl⟩ key role hcast ⟨reqs, [ObjectIDHeader EncodeToString id2]⟩
  have he := check_filtered_role_rule c op v
    ⟨HeaderTypeObject, MatchTypeStringNotEqual, FilterObjectID, EncodeToString id⟩
    ⟨Or.inr rfl, Or.inr rfl⟩ key role hcast ⟨reqs, [ObjectIDHeader EncodeToString id2]⟩
  rw [objectID_equal_satisfied] at hb
  rw [objectID_notEqual_satisfied] at he
  refine ⟨fun h => ?_, fun h => ?_, ?_⟩
  · have henc : EncodeToString id2 = EncodeToString id := by rw [h]
    exact ⟨hby.trans (hb.1 henc), hex.trans (he.2 (fun hne => hne henc))⟩
  · have henc : EncodeToString id2 ≠ EncodeToString id := fun e => h (hinj e)
    exact ⟨hby.trans (hb.2 henc), hex.trans (he.1 henc)⟩
  · intro fb fe hfb hfe
    have e1 : fb = ⟨⟨HeaderTypeObject, MatchTypeStringEqual, FilterObjectID,
        EncodeToString id⟩⟩ := by
      have : ByObjectID EncodeToString id = .ok ⟨⟨HeaderTypeObject, MatchTypeStringEqual,
        FilterObjectID, EncodeToString id⟩⟩ := rfl
      rw [this, Except.ok.injEq] at hfb
      exact hfb.symm
    have e2 : fe = ⟨⟨HeaderTypeObject, MatchTypeStringNotEqual, FilterObjectID,
        EncodeToString id⟩⟩ := by
      have : ExcludeObjectID EncodeToString id = .ok ⟨⟨HeaderTypeObject,
        MatchTypeStringNotEqual, FilterObjectID, EncodeToString id⟩⟩ := rfl
      rw [this, Except.ok.injEq] at hfe
      exact hfe.symm
    subst e1
    subst e2
    rw [objectID_equal_satisfied, objectID_notEqual_satisfied]
    simp

theorem C20_object_id_filters_witness :
    Function.Injective (fun s : String => s) ∧ protocolCasts.ProjectsRoles ∧
    (roleZero < RoleOwner ∧ RoleOwner < roleLast) ∧ OpObjectGet ≠ 0 ∧
    checkObjectID (fun s : String => s) ByObjectID protocolCasts RoleOwner OpObjectGet keyA []
      "id-1" "id-2" = .ok (some .ErrRuleNotFound) ∧
    checkObjectID (fun s : String => s) ExcludeObjectID protocolCasts RoleOwner OpObjectGet
      keyA [] "id-1" "id-2" = .ok none :=
  ⟨fun _ _ h => h, protocolCasts_projectsRoles, by decide, by decide,
    (C20_object_id_filters (fun s : String => s) (fun _ _ h => h) protocolCasts
      protocolCasts_projectsRoles RoleOwner (by decide) OpObjectGet (by decide) keyA []
      "id-1" "id-2").2.1 (by decide)⟩

/-! ## Absent headers -/

theorem headerAbsent_not_satisfied {md : RequestMetadata} {f : HeaderFilter}
    (h : f.HeaderAbsent md) : ¬ f.Satisfied md := by
  rintro ⟨hs, hhs, hsat⟩
  rcases hsat with ⟨_, x, hx, hk, _⟩ | ⟨_, x, hx, hk, _⟩
  · exact h hs hhs x hx hk
  · exact h hs hhs x hx hk

theorem headerAbsent_noMeta (f : HeaderFilter) : f.HeaderAbsent noMeta := by
  intro hs hhs h hh
  unfold scopeHeaders at hhs
  split_ifs at hhs <;> cases hhs <;> simp [noMeta] at hh

/-- A filter pass that returns a count has not counted a supported filter that is not
satisfied: the count stays below the number of filters. -/
theorem filterLoop_unsat_lt (i : Nat) (md : RequestMetadata) (fs : List HeaderFilter) :
    ∀ (j n m : Nat), (∃ f ∈ fs, f.Supported ∧ ¬ f.Satisfied md) →
      filterLoop i md j fs n = .ok m → m < n + fs.length := by
  induction fs with
  | nil => intro j n m ⟨f, hf, _⟩; simp at hf
  | cons g fs ih =>
    intro j n m hex hm
    by_cases hsvc : g.hdrType = HeaderTypeService
    · rw [filterLoop_cons_service i md j g fs n hsvc] at hm
      cases hm
      simp
    · by_cases ht : g.hdrType = HeaderTypeRequest ∨ g.hdrType = HeaderTypeObject
      · by_cases hm1 : g.matchType = MatchTypeStringEqual ∨
            g.matchType = MatchTypeStringNotEqual
        · have hsup : g.Supported := ⟨ht, hm1⟩
          by_cases hsat : g.Satisfied md
          · rw [filterLoop_cons_sat i md j g fs n hsat] at hm
            obtain ⟨f, hf, hfs, hfn⟩ := hex
            have hf2 : f ∈ fs := by
              rcases List.mem_cons.mp hf with rfl | h
              · exact absurd hsat hfn
              · exact h
            have := ih (j + 1) (n + 1) m ⟨f, hf2, hfs, hfn⟩ hm
            simp only [List.length_cons]
            omega
          · rw [filterLoop_cons_unsat i md j g fs n hsup hsat] at hm
            have := (filterLoop_bounds i md fs (j + 1) n m hm).2
            simp only [List.length_cons]
            omega
        · push_neg at hm1
          rw [filterLoop_cons_badMatcher i md j g fs n ht hm1.1 hm1.2] at hm
          cases hm
      · rw [filterLoop_cons_badType i md j g fs n hsvc ht] at hm
        cases hm

/-- An error of the filter pass is the error of an unsupported filter of the list. -/
theorem filterLoop_error_unsupported (i : Nat) (md : RequestMetadata)
    (fs : List HeaderFilter) :
    ∀ (j n : Nat) (e : Error), filterLoop i md j fs n = .error e →
      ∃ g ∈ fs, g.Unsupported ∧ ∃ k,
        (e = .unsupportedHeaderType g.hdrType i k ∨ e = .unsupportedMatcher g.matchType i k) := by
  induction fs with
  | nil => intro j n e h; simp [filterLoop] at h
  | cons g fs ih =>
    intro j n e h
    by_cases hsvc : g.hdrType = HeaderTypeService
    · rw [filterLoop_cons_service i md j g fs n hsvc] at h
      cases h
    · by_cases ht : g.hdrType = HeaderTypeRequest ∨ g.hdrType = HeaderTypeObject
      · by_cases hm1 : g.matchType = MatchTypeStringEqual ∨
            g.matchType = MatchTypeStringNotEqual
        · have hsup : g.Supported := ⟨ht, hm1⟩
          have hrec : ∃ n2, filterLoop i md j (g :: fs) n = filterLoop i md (j + 1) fs n2 := by
            by_cases hsat : g.Satisfied md
            · exact ⟨_, filterLoop_cons_sat i md j g fs n hsat⟩
            · exact ⟨_, filterLoop_cons_unsat i md j g fs n hsup hsat⟩
          obtain ⟨n2, hn2⟩ := hrec
          rw [hn2] at h
          obtain ⟨q, hq, hu, k, hk⟩ := ih (j + 1) n2 e h
          exact ⟨q, List.mem_cons_of_mem _ hq, hu, k, hk⟩
        · push_neg at hm1
          rw [filterLoop_cons_badMatcher i md j g fs n ht hm1.1 hm1.2] at h
          refine ⟨g, List.mem_cons_self _ _, Or.inr ⟨ht, hm1.1, hm1.2⟩, j, Or.inr ?_⟩
          cases h; rfl
      · rw [filterLoop_cons_badType i md j g fs n hsvc ht] at h
        push_neg at ht
        refine ⟨g, List.mem_cons_self _ _, Or.inl ⟨ht.1, ht.2, hsvc⟩, j, Or.inl ?_⟩
        cases h; rfl

/-- A filter pass over filters none of which is unsupported returns a count. -/
theorem filterLoop_ok_of_not_unsupported (i : Nat) (md : RequestMetadata)
    (fs : List HeaderFilter) (h : ∀ g ∈ fs, ¬ g.Unsupported) (j n : Nat) :
    ∃ m, filterLoop i md j fs n = .ok m := by
  cases hr : filterLoop i md j fs n with
  | ok m => exact ⟨m, rfl⟩
  | error e =>
    obtain ⟨g, hg, hu, _⟩ := filterLoop_error_unsupported i md fs j n e hr
    exact absurd hu (h g hg)

/-- The scan of a rule that matches operation and subject and has a supported filter that
is not satisfied: the rule is passed over, unless the filter pass fails. -/
theorem rulesLoop_cons_unsat (bKey : List Nat) (roleV2 opV2 : Nat) (md : RequestMetadata)
    (i : Nat) (r : Record) (rs : List Record) (hop : r.op = opV2)
    (hsub : r.SubjectMatches bKey roleV2)
    (hex : ∃ f ∈ r.filters, f.Supported ∧ ¬ f.Satisfied md) :
    rulesLoop bKey roleV2 opV2 md i (r :: rs) =
      match filterLoop i md 0 r.filters 0 with
      | .error e => some e
      | .ok _ => rulesLoop bKey roleV2 opV2 md (i + 1) rs := by
  rw [rulesLoop_cons_filters bKey roleV2 opV2 md i r rs hop hsub]
  cases hr : filterLoop i md 0 r.filters 0 with
  | error e => rfl
  | ok m =>
    have := filterLoop_unsat_lt i md r.filters 0 0 m hex hr
    simp only
    rw [if_neg (by omega)]

/-- C21 (counterexample): the rule `absentHeaderRule` matches operation and subject of the
owner's Get request and its first filter is an Object-scoped NotEqual filter on the
object-ID header, which the request without headers does not carry; `CheckAccess` on the
single-rule table returns the evaluation error of the second filter, not
`ErrRuleNotFound`. -/
theorem C21_counterexample :
    absentHeaderRule.m.op = protocolCasts.castOp OpObjectGet ∧
    absentHeaderRule.m.SubjectMatches (SerializePublicKey keyA)
      (protocolCasts.castRole RoleOwner) ∧
    (∃ f ∈ absentHeaderRule.m.filters, f.Supported ∧ f.HeaderAbsent noMeta) ∧
    (NewExtended absentHeaderRule).CheckAccess protocolCasts (some keyA) RoleOwner
      OpObjectGet noMeta = .ok (some (.unsupportedHeaderType 0 0 1)) ∧
    (NewExtended absentHeaderRule).CheckAccess protocolCasts (some keyA) RoleOwner
      OpObjectGet noMeta ≠ .ok (some .ErrRuleNotFound) := by
  refine ⟨rfl, ownerTarget_matches _ _ rfl, ?_, rfl, ?_⟩
  · refine ⟨⟨HeaderTypeObject, MatchTypeStringNotEqual, FilterObjectID, "id"⟩, ?_, ?_, ?_⟩
    · simp [absentHeaderRule]
    · exact ⟨Or.inr rfl, Or.inr rfl⟩
    · exact headerAbsent_noMeta _
  · intro h
    have h2 : (NewExtended absentHeaderRule).CheckAccess protocolCasts (some keyA) RoleOwner
      OpObjectGet noMeta = .ok (some (.unsupportedHeaderType 0 0 1)) := rfl
    rw [h2] at h
    cases h

/-- C21 (amended): a filter with Request or Object scope and Equal or NotEqual matcher
whose metadata list has no header with the filter key is not satisfied, whatever its
matcher. For a rule that matches operation and subject and has such a filter,
`CheckAccess` on the single-rule table never returns the rule's action: it returns
`ErrRuleNotFound`, or the evaluation error of a filter of the rule with unsupported scope
or matcher; it returns `ErrRuleNotFound` whenever no filter of the rule is unsupported. -/
theorem C21_absent_header (c : Casts) (r : Rule) (key : PublicKey) (role : Role) (op : Op)
    (md : RequestMetadata) (f : HeaderFilter) (hop : r.m.op = c.castOp op)
    (hsub : r.m.SubjectMatches (SerializePublicKey key) (c.castRole role))
    (hf : f ∈ r.m.filters) (hsup : f.Supported) (habs : f.HeaderAbsent md) :
    ¬ f.Satisfied md ∧
    ((NewExtended r).CheckAccess c (some key) role op md = .ok (some .ErrRuleNotFound) ∨
      ∃ g ∈ r.m.filters, g.Unsupported ∧ ∃ k,
        ((NewExtended r).CheckAccess c (some key) role op md
            = .ok (some (.unsupportedHeaderType g.hdrType 0 k)) ∨
         (NewExtended r).CheckAccess c (some key) role op md
            = .ok (some (.unsupportedMatcher g.matchType 0 k)))) ∧
    ((∀ g ∈ r.m.filters, ¬ g.Unsupported) →
      (NewExtended r).CheckAccess c (some key) role op md = .ok (some .ErrRuleNotFound)) := by
  have hns := headerAbsent_not_satisfied habs
  have hscan := rulesLoop_cons_unsat (SerializePublicKey key) (c.castRole role) (c.castOp op)
    md 0 r.m [] hop hsub ⟨f, hf, hsup, hns⟩
  have hcheck : (NewExtended r).CheckAccess c (some key) role op md =
      .ok (rulesLoop (SerializePublicKey key) (c.castRole role) (c.castOp op) md 0 [r.m]) :=
    rfl
  refine ⟨hns, ?_, ?_⟩
  · cases hr : filterLoop 0 md 0 r.m.filters 0 with
    | ok m =>
      left
      rw [hcheck, hscan, hr]
      rfl
    | error e =>
      right
      obtain ⟨g, hg, hu, k, hk⟩ := filterLoop_error_unsupported 0 md r.m.filters 0 0 e hr
      refine ⟨g, hg, hu, k, ?_⟩
      rw [hcheck, hscan, hr]
      rcases hk with hk | hk
      · left; rw [hk]
      · right; rw [hk]
  · intro hall
    obtain ⟨m, hm⟩ := filterLoop_ok_of_not_unsupported 0 md r.m.filters hall 0 0
    rw [hcheck, hscan, hm]
    rfl

/-- C21 (witness): the rule `Allow(Get, Owner)` with an object-ID exclusion filter does not
apply to the owner's request that carries no object-ID header. -/
theorem C21_absent_header_witness :
    excludeIDRule.m.op = protocolCasts.castOp OpObjectGet ∧
    excludeIDRule.m.SubjectMatches (SerializePublicKey keyA)
      (protocolCasts.castRole RoleOwner) ∧
    (NewExtended excludeIDRule).CheckAccess protocolCasts (some keyA) RoleOwner OpObjectGet
      noMeta = .ok (some .ErrRuleNotFound) := by
  have hf : (⟨HeaderTypeObject, MatchTypeStringNotEqual, FilterObjectID, "id"⟩ : HeaderFilter)
      ∈ excludeIDRule.m.filters := by simp [excludeIDRule]
  have hsup : (⟨HeaderTypeObject, MatchTypeStringNotEqual, FilterObjectID, "id"⟩ :
      HeaderFilter).Supported := ⟨Or.inr rfl, Or.inr rfl⟩
  have habs : (⟨HeaderTypeObject, MatchTypeStringNotEqual, FilterObjectID, "id"⟩ :
      HeaderFilter).HeaderAbsent noMeta := headerAbsent_noMeta _
  have hall : ∀ g ∈ excludeIDRule.m.filters, ¬ g.Unsupported := by
    intro g hg
    simp [excludeIDRule] at hg
    subst hg
    simp [HeaderFilter.Unsupported, HeaderTypeObject, HeaderTypeRequest, HeaderTypeService,
      MatchTypeStringNotEqual, MatchTypeStringEqual]
  exact ⟨rfl, ownerTarget_matches _ _ rfl,
    (C21_absent_header protocolCasts excludeIDRule keyA RoleOwner OpObjectGet noMeta _ rfl
      (ownerTarget_matches _ _ rfl) hf hsup habs).2.2 hall⟩

/-! ## Totality and cost of CheckAccess -/

theorem keysLoopCounted_fst (bKey : List Nat) (ks : List (List Nat)) :
    (keysLoopCounted bKey ks).1 = keysLoop bKey ks := by
  induction ks with
  | nil => rfl
  | cons k ks ih =>
    simp only [keysLoopCounted, keysLoop]
    split_ifs <;> simp [ih]

theorem keysLoopCounted_le (bKey : List Nat) (ks : List (List Nat)) :
    (keysLoopCounted bKey ks).2 ≤ ks.length := by
  induction ks with
  | nil => simp [keysLoopCounted]
  | cons k ks ih =>
    simp only [keysLoopCounted, List.length_cons]
    split_ifs
    · simp
    · simp only; omega

theorem targetsLoopCounted_fst (bKey : List Nat) (role : Nat) (ts : List Target) :
    (targetsLoopCounted bKey role ts).1 = targetsLoop bKey role ts := by
  induction ts with
  | nil => rfl
  | cons t ts ih =>
    simp only [targetsLoopCounted, targetsLoop, keysLoopCounted_fst]
    split_ifs <;> simp [ih]

theorem targetsLoopCounted_le (bKey : List Nat) (role : Nat) (ts : List Target) :
    (targetsLoopCounted bKey role ts).2.1 ≤ ts.length ∧
    (targetsLoopCounted bKey role ts).2.2 ≤ (ts.map (fun t => t.keys.length)).sum := by
  induction ts with
  | nil => simp [targetsLoopCounted]
  | cons t ts ih =>
    have hk := keysLoopCounted_le bKey t.keys
    simp only [targetsLoopCounted, List.length_cons, List.map_cons, List.sum_cons]
    split_ifs
    · simp
    · simp only; omega
    · simp only; omega
    · simp only; omega

theorem headersLoopCounted_fst (matcher : String → String → Bool) (k v : String)
    (hs : List Header) :
    (headersLoopCounted matcher k v hs).1 = headersLoop matcher k v hs := by
  induction hs with
  | nil => rfl
  | cons h hs ih =>
    simp only [headersLoopCounted, headersLoop]
    split_ifs <;> simp [ih]

theorem headersLoopCounted_le (matcher : String → String → Bool) (k v : String)
    (hs : List Header) : (headersLoopCounted matcher k v hs).2 ≤ hs.length := by
  induction hs with
  | nil => simp [headersLoopCounted]
  | cons h hs ih =>
    simp only [headersLoopCounted, List.length_cons]
    split_ifs
    · simp only; omega
    · simp
    · simp only; omega

theorem filterLoopCounted_fst (i : Nat) (md : RequestMetadata) (fs : List HeaderFilter) :
    ∀ (j n : Nat), (filterLoopCounted i md j fs n).1 = filterLoop i md j fs n := by
  induction fs with
  | nil => intro j n; rfl
  | cons f fs ih =>
    intro j n
    simp only [filterLoopCounted, filterLoop, headersLoopCounted_fst]
    split_ifs <;> simp [ih]

theorem filterLoopCounted_le (i : Nat) (md : RequestMetadata) (fs : List HeaderFilter) :
    ∀ (j n : Nat), (filterLoopCounted i md j fs n).2.1 ≤ fs.length ∧
      (filterLoopCounted i md j fs n).2.2 ≤
        (fs.map (fun f => ((scopeHeaders md f.hdrType).getD []).length)).sum := by
  induction fs with
  | nil => intro j n; simp [filterLoopCounted]
  | cons f fs ih =>
    intro j n
    simp only [filterLoopCounted, List.length_cons, List.map_cons, List.sum_cons]
    by_cases hsvc : f.hdrType = HeaderTypeService
    · rw [if_pos hsvc]; simp
    · rw [if_neg hsvc]
      by_cases ht : f.hdrType = HeaderTypeRequest ∨ f.hdrType = HeaderTypeObject
      · rw [if_pos ht, scopeHeaders_supported ht]
        simp only [Option.getD_some]
        by_cases h1 : f.matchType = MatchTypeStringEqual
        · rw [if_pos h1]
          have hh := headersLoopCounted_le
            (fun ruleHeader requestHeader => decide (ruleHeader = requestHeader)) f.key f.value
            (if f.hdrType = HeaderTypeRequest then md.requestHeaders else md.objectHeaders)
          have := ih (j + 1) (if (headersLoopCounted
            (fun ruleHeader requestHeader => decide (ruleHeader = requestHeader)) f.key f.value
            (if f.hdrType = HeaderTypeRequest then md.requestHeaders
              else md.objectHeaders)).1 = true then n + 1 else n)
          simp only
          omega
        · rw [if_neg h1]
          by_cases h2 : f.matchType = MatchTypeStringNotEqual
          · rw [if_pos h2]
            have hh := headersLoopCounted_le
              (fun ruleHeader requestHeader => decide (ruleHeader ≠ requestHeader)) f.key f.value
              (if f.hdrType = HeaderTypeRequest then md.requestHeaders else md.objectHeaders)
            have := ih (j + 1) (if (headersLoopCounted
              (fun ruleHeader requestHeader => decide (ruleHeader ≠ requestHeader)) f.key f.value
              (if f.hdrType = HeaderTypeRequest then md.requestHeaders
                else md.objectHeaders)).1 = true then n + 1 else n)
            simp only
            omega
          · rw [if_neg h2]; simp
      · rw [if_neg ht]; simp

theorem rulesLoopCounted_fst (bKey : List Nat) (roleV2 opV2 : Nat) (md : RequestMetadata)
    (rs : List Record) :
    ∀ (i : Nat), (rulesLoopCounted bKey roleV2 opV2 md i rs).1 =
      rulesLoop bKey roleV2 opV2 md i rs := by
  induction rs with
  | nil => intro i; rfl
  | cons r rs ih =>
    intro i
    simp only [rulesLoopCounted, rulesLoop, targetsLoopCounted_fst, filterLoopCounted_fst]
    by_cases hop : r.op ≠ opV2
    · rw [if_pos hop, if_pos hop]; exact ih (i + 1)
    · rw [if_neg hop, if_neg hop]
      by_cases ht : targetsLoop bKey roleV2 r.targets = false
      · rw [if_pos ht, if_pos ht]; exact ih (i + 1)
      · rw [if_neg ht, if_neg ht]
        cases hf : filterLoop i md 0 r.filters 0 with
        | error e => rfl
        | ok m =>
          simp only
          by_cases hm : m ≥ r.filters.length
          · rw [if_pos hm, if_pos hm]
          · rw [if_neg hm, if_neg hm]; exact ih (i + 1)

theorem rulesLoopCounted_le (bKey : List Nat) (roleV2 opV2 : Nat) (md : RequestMetadata)
    (rs : List Record) :
    ∀ (i : Nat),
      (rulesLoopCounted bKey roleV2 opV2 md i rs).2.rules ≤ rs.length ∧
      (rulesLoopCounted bKey roleV2 opV2 md i rs).2.targets ≤
        (rs.map (fun r => r.targets.length)).sum ∧
      (rulesLoopCounted bKey roleV2 opV2 md i rs).2.keys ≤ (rs.map Record.keyCount).sum ∧
      (rulesLoopCounted bKey roleV2 opV2 md i rs).2.filters ≤
        (rs.map (fun r => r.filters.length)).sum ∧
      (rulesLoopCounted bKey roleV2 opV2 md i rs).2.headers ≤
        (rs.map (Record.headerCount md)).sum := by
  induction rs with
  | nil => intro i; simp [rulesLoopCounted]
  | cons r rs ih =>
    intro i
    obtain ⟨h1, h2, h3, h4, h5⟩ := ih (i + 1)
    have ht := targetsLoopCounted_le bKey roleV2 r.targets
    have hf := filterLoopCounted_le i md r.filters 0 0
    simp only [rulesLoopCounted, List.length_cons, List.map_cons, List.sum_cons,
      Record.keyCount, Record.headerCount] at *
    by_cases hop : r.op ≠ opV2
    · rw [if_pos hop]
      simp only [Visits.step]
      refine ⟨?_, ?_, ?_, ?_, ?_⟩ <;> omega
    · rw [if_neg hop]
      by_cases hs : (targetsLoopCounted bKey roleV2 r.targets).1 = false
      · rw [if_pos hs]
        simp only [Visits.step]
        refine ⟨?_, ?_, ?_, ?_, ?_⟩ <;> omega
      · rw [if_neg hs]
        cases hfl : (filterLoopCounted i md 0 r.filters 0).1 with
        | error e =>
          simp only
          refine ⟨?_, ?_, ?_, ?_, ?_⟩ <;> omega
        | ok m =>
          simp only
          by_cases hm : m ≥ r.filters.length
          · rw [if_pos hm]
            simp only
            refine ⟨?_, ?_, ?_, ?_, ?_⟩ <;> omega
          · rw [if_neg hm]
            simp only [Visits.step]
            refine ⟨?_, ?_, ?_, ?_, ?_⟩ <;> omega

/-- The scan returns the access decision, the no-match sentinel or an evaluation error. -/
theorem rulesLoop_outcome (bKey : List Nat) (roleV2 opV2 : Nat) (md : RequestMetadata)
    (rs : List Record) (i : Nat) :
    rulesLoop bKey roleV2 opV2 md i rs = none ∨
    rulesLoop bKey roleV2 opV2 md i rs = some .ErrAccessDenied ∨
    rulesLoop bKey roleV2 opV2 md i rs = some .ErrRuleNotFound ∨
    ∃ e, rulesLoop bKey roleV2 opV2 md i rs = some e ∧ e.IsEvaluationError := by
  cases h : rulesLoop bKey roleV2 opV2 md i rs with
  | none => exact Or.inl rfl
  | some e =>
    by_cases h1 : e = .ErrAccessDenied
    · subst h1; exact Or.inr (Or.inl rfl)
    · by_cases h2 : e = .ErrRuleNotFound
      · subst h2; exact Or.inr (Or.inr (Or.inl rfl))
      · exact Or.inr (Or.inr (Or.inr ⟨e, rfl, h1, h2⟩))

/-- C30: for every table, present requester key, role, operation and metadata,
`CheckAccess` returns (it does not panic), and what it returns is exactly one of `nil`
(the request is allowed), `ErrAccessDenied`, `ErrRuleNotFound` and an evaluation error.
The scan that produces this result, with its loop iterations counted, runs the loop over
the rules at most once per rule, the loop over the targets at most once per target of
the table, the loop over keys at most once per key, the loop over filters at most once
per filter, and the loop over headers at most once per filter and header of the
metadata list of the filter's scope. -/
theorem C30_total_and_bounded (c : Casts) (x : Extended) (key : PublicKey) (role : Role)
    (op : Op) (md : RequestMetadata) :
    ∃ e : Option Error,
      x.CheckAccess c (some key) role op md = .ok e ∧
      (e = none ∨ e = some .ErrAccessDenied ∨ e = some .ErrRuleNotFound ∨
        ∃ err, e = some err ∧ err.IsEvaluationError) ∧
      (∀ err, e = some err → err.IsEvaluationError →
        e ≠ none ∧ e ≠ some .ErrAccessDenied ∧ e ≠ some .ErrRuleNotFound) ∧
      (rulesLoopCounted (SerializePublicKey key) (c.castRole role) (c.castOp op) md 0
        x.m.records).1 = e ∧
      (rulesLoopCounted (SerializePublicKey key) (c.castRole role) (c.castOp op) md 0
        x.m.records).2.rules ≤ (x.size md).rules ∧
      (rulesLoopCounted (SerializePublicKey key) (c.castRole role) (c.castOp op) md 0
        x.m.records).2.targets ≤ (x.size md).targets ∧
      (rulesLoopCounted (SerializePublicKey key) (c.castRole role) (c.castOp op) md 0
        x.m.records).2.keys ≤ (x.size md).keys ∧
      (rulesLoopCounted (SerializePublicKey key) (c.castRole role) (c.castOp op) md 0
        x.m.records).2.filters ≤ (x.size md).filters ∧
      (rulesLoopCounted (SerializePublicKey key) (c.castRole role) (c.castOp op) md 0
        x.m.records).2.headers ≤ (x.size md).headers := by
  refine ⟨rulesLoop (SerializePublicKey key) (c.castRole role) (c.castOp op) md 0
    x.m.records, rfl, rulesLoop_outcome _ _ _ _ _ _, ?_, rulesLoopCounted_fst _ _ _ _ _ _,
    rulesLoopCounted_le _ _ _ _ _ _⟩
  intro err he herr
  rw [he]
  refine ⟨by simp, ?_, ?_⟩
  · intro h; cases h; exact herr.1 rfl
  · intro h; cases h; exact herr.2 rfl

/-! ## Tables built through the public API -/

theorem sampleCIDCodec_roundTrips : sampleCIDCodec.RoundTrips := by
  intro cnr
  obtain ⟨l, hl⟩ := cnr
  simp [sampleCIDCodec, hl]

theorem stringOfCode_stringCode (s : String) : stringOfCode (stringCode s) = s := by
  cases s with
  | mk l =>
    simp only [stringCode, stringOfCode, List.map_map]
    congr 1
    conv_rhs => rw [← List.map_id l]
    apply List.map_congr_left
    intro ch _
    simp [Char.ofNat_toNat]

theorem headerFilter_ofCode_code (f : HeaderFilter) : HeaderFilter.ofCode f.code = f := by
  cases f
  simp [HeaderFilter.code, HeaderFilter.ofCode, stringOfCode_stringCode]

theorem record_ofCode_code (r : Record) : Record.ofCode r.code = r := by
  cases r with
  | mk op action filters targets =>
    simp only [Record.code, Record.ofCode, List.map_map, Record.mk.injEq, true_and]
    constructor
    · conv_rhs => rw [← List.map_id filters]
      apply List.map_congr_left
      intro f _
      simp [headerFilter_ofCode_code]
    · conv_rhs => rw [← List.map_id targets]
      apply List.map_congr_left
      intro t _
      rfl

theorem table_ofCode_code (m : Table) : Table.ofCode m.code = m := by
  cases m with
  | mk version cid records =>
    simp only [Table.code, Table.ofCode, List.map_map, Option.map_map, Table.mk.injEq]
    refine ⟨?_, ?_, ?_⟩
    · cases version <;> rfl
    · cases cid <;> rfl
    · conv_rhs => rw [← List.map_id records]
      apply List.map_congr_left
      intro r _
      simp [record_ofCode_code]

/-- The sample binary codec converts back what it has written. -/
theorem sampleDecode_sampleEncode (m : Table) : sampleDecode (sampleEncode m) = some m := by
  simp only [sampleDecode, sampleEncode, Nat.ofDigits_digits, Encodable.encodek,
    Option.map_some', table_ofCode_code]

/-- The keys of the entries of a target list after `appendKeys` are keys of the list or
appended keys. -/
theorem appendKeys_keys (ks : List (List Nat)) :
    ∀ (ts mts : List Target), appendKeys ks ts = some mts →
      mts ≠ [] ∧ ∀ q ∈ mts, ∀ k ∈ q.keys, (∃ t ∈ ts, k ∈ t.keys) ∨ k ∈ ks := by
  intro ts
  induction ts with
  | nil => intro mts h; simp [appendKeys] at h
  | cons t ts ih =>
    intro mts h
    rw [appendKeys] at h
    by_cases h0 : t.role = 0
    · rw [if_pos h0] at h
      cases h
      refine ⟨by simp, ?_⟩
      intro q hq k hk
      rcases List.mem_cons.mp hq with rfl | hq
      · rcases List.mem_append.mp hk with hk | hk
        · exact Or.inl ⟨t, List.mem_cons_self _ _, hk⟩
        · exact Or.inr hk
      · exact Or.inl ⟨q, List.mem_cons_of_mem _ hq, hk⟩
    · rw [if_neg h0] at h
      cases ha : appendKeys ks ts with
      | none => rw [ha] at h; cases h
      | some mts2 =>
        rw [ha] at h
        cases h
        obtain ⟨_, h2⟩ := ih mts2 ha
        refine ⟨by simp, ?_⟩
        intro q hq k hk
        rcases List.mem_cons.mp hq with rfl | hq
        · exact Or.inl ⟨q, List.mem_cons_self _ _, hk⟩
        · rcases h2 q hq k hk with ⟨t2, ht2, hk2⟩ | hk2
          · exact Or.inl ⟨t2, List.mem_cons_of_mem _ ht2, hk2⟩
          · exact Or.inr hk2

/-- Go `AddTargetSubjects` keeps the target list non-empty and adds no empty key when the
added targets have none. -/
theorem AddTargetSubjects_keys (ts : List RuleTarget)
    (hts : ∀ t ∈ ts, ∀ k ∈ t.keys, k ≠ []) :
    ∀ (x y : Rule), x.AddTargetSubjects ts = .ok y →
      (∀ q ∈ x.m.targets, ∀ k ∈ q.keys, k ≠ []) →
      (∀ q ∈ y.m.targets, ∀ k ∈ q.keys, k ≠ []) ∧
      (x.m.targets ≠ [] ∨ ts ≠ [] → y.m.targets ≠ []) := by
  induction ts with
  | nil =>
    intro x y h hx
    rw [Rule.AddTargetSubjects, Except.ok.injEq] at h
    subst h
    exact ⟨hx, fun h => h.elim id (fun h => absurd rfl h)⟩
  | cons t ts ih =>
    intro x y h hx
    have hts2 : ∀ t ∈ ts, ∀ k ∈ t.keys, k ≠ [] :=
      fun q hq => hts q (List.mem_cons_of_mem _ hq)
    have htk : ∀ k ∈ t.keys, k ≠ [] := hts t (List.mem_cons_self _ _)
    by_cases h0 : t.role = 0
    · by_cases hk : t.keys = []
      · rw [AddTargetSubjects_cons_uninit x t ts h0 hk] at h
        cases h
      · cases ha : appendKeys t.keys x.m.targets with
        | none =>
          rw [AddTargetSubjects_cons_keys_none x t ts h0 hk ha] at h
          have hx2 : ∀ q ∈ x.m.targets ++ [(⟨0, t.keys⟩ : Target)], ∀ k ∈ q.keys, k ≠ [] := by
            intro q hq
            rcases List.mem_append.mp hq with hq | hq
            · exact hx q hq
            · rw [List.mem_singleton] at hq
              subst hq
              exact htk
          obtain ⟨h1, h2⟩ := ih hts2 _ y h hx2
          exact ⟨h1, fun _ => h2 (Or.inl (by simp))⟩
        | some mts =>
          rw [AddTargetSubjects_cons_keys_some x t ts mts h0 hk ha] at h
          obtain ⟨hne, hkeys⟩ := appendKeys_keys t.keys x.m.targets mts ha
          have hx2 : ∀ q ∈ mts, ∀ k ∈ q.keys, k ≠ [] := by
            intro q hq k hkq
            rcases hkeys q hq k hkq with ⟨t2, ht2, hk2⟩ | hk2
            · exact hx t2 ht2 k hk2
            · exact htk k hk2
          obtain ⟨h1, h2⟩ := ih hts2 _ y h hx2
          exact ⟨h1, fun _ => h2 (Or.inl hne)⟩
    · cases hs : roleSwitch t.role with
      | none =>
        rw [AddTargetSubjects_cons_unsupported x t ts h0 hs] at h
        cases h
      | some r2 =>
        rw [AddTargetSubjects_cons_role x t ts r2 h0 hs] at h
        have hx2 : ∀ q ∈ x.m.targets ++ [(⟨r2, []⟩ : Target)], ∀ k ∈ q.keys, k ≠ [] := by
          intro q hq
          rcases List.mem_append.mp hq with hq | hq
          · exact hx q hq
          · rw [List.mem_singleton] at hq
            subst hq
            intro k hk
            simp at hk
        obtain ⟨h1, h2⟩ := ih hts2 _ y h hx2
        exact ⟨h1, fun _ => h2 (Or.inl (by simp))⟩

/-- Valid entries without empty keys are the targets of a protocol-complete rule. -/
theorem targets_strictValid (ts : List Target) (hv : TargetsValid ts)
    (hk : ∀ q ∈ ts, ∀ k ∈ q.keys, k ≠ []) : ∀ q ∈ ts, q.StrictValid := by
  intro q hq
  refine ⟨?_, ?_, hk q hq⟩
  · rcases hv q hq with ⟨h1, _⟩ | ⟨_, h2⟩
    · exact Or.inl h1
    · exact Or.inr h2
  · rintro ⟨h1, h2⟩
    rcases hv q hq with ⟨_, h3⟩ | ⟨h3, _⟩
    · exact h2 h3
    · exact h1 h3

/-- The target list of a rule returned by `newRule` for a public target. -/
theorem newRule_public (c : Casts) (action : Nat) (t : RuleTarget) (op : Op) (r : Rule)
    (ht : t.Public) (h : newRule c action t op = .ok r) :
    r.m.filters = [] ∧ r.m.targets ≠ [] ∧ ∀ q ∈ r.m.targets, ∀ k ∈ q.keys, k ≠ [] := by
  unfold newRule at h
  cases hc : checkTarget t with
  | error e => rw [hc] at h; cases h
  | ok u =>
    rw [hc] at h
    simp only at h
    split_ifs at h with hop
    have hf := (AddTargetSubjects_subject [] 0 [t] _ r (by intro q hq; simp at hq) h).2.2.2.1
    obtain ⟨h1, h2⟩ := AddTargetSubjects_keys [t]
      (by intro q hq; rw [List.mem_singleton] at hq; subst hq; exact ht.2) _ r h
      (by intro q hq; simp at hq)
    exact ⟨hf, h2 (Or.inr (by simp)), h1⟩

theorem public_filter_fields {f : Filter} (h : f.Public) :
    f ≠ zeroFilter ∧ f.m.key ≠ "" ∧ f.m.value ≠ "" := by
  obtain ⟨m, hd, hm, hk, hv, hf⟩ := h
  have hcases : f.m.key = hd.key ∧ f.m.value = hd.val := by
    rcases hm with rfl | rfl <;> rcases hf with hf | hf <;>
      · simp only [MatchRequestHeader, MatchObjectHeader, newFilter, Except.ok.injEq] at hf
        subst hf
        exact ⟨rfl, rfl⟩
  refine ⟨?_, by rw [hcases.1]; exact hk, by rw [hcases.2]; exact hv⟩
  intro hz
  rw [hz] at hcases
  exact hk hcases.1.symm

/-- A rule built through the public API is protocol-complete. -/
theorem publicBuilt_rule_strictValid (c : Casts) (r : Rule) (h : Rule.PublicBuilt c r) :
    TargetsValid r.m.targets ∧ r.m.targets ≠ [] ∧
    (∀ q ∈ r.m.targets, ∀ k ∈ q.keys, k ≠ []) ∧
    ∀ f ∈ r.m.filters, f.key ≠ "" ∧ f.value ≠ "" := by
  induction h with
  | allow op t r ht hr =>
    obtain ⟨h1, h2, h3⟩ := newRule_public c ActionAllow t op r ht hr
    refine ⟨newRule_targetsValid c ActionAllow t op r hr, h2, h3, ?_⟩
    rw [h1]; intro f hf; simp at hf
  | deny op t r ht hr =>
    obtain ⟨h1, h2, h3⟩ := newRule_public c ActionDeny t op r ht hr
    refine ⟨newRule_targetsValid c ActionDeny t op r hr, h2, h3, ?_⟩
    rw [h1]; intro f hf; simp at hf
  | addTargets x ts y _ hts hy ih =>
    obtain ⟨i1, i2, i3, i4⟩ := ih
    obtain ⟨s1, _, _, s4, _⟩ := AddTargetSubjects_subject [] 0 ts x y i1 hy
    obtain ⟨k1, k2⟩ := AddTargetSubjects_keys ts (fun t ht => (hts t ht).2) x y hy i3
    refine ⟨s1, k2 (Or.inl i2), k1, ?_⟩
    rw [s4]; exact i4
  | filterBy x fs y _ hfs hy ih =>
    obtain ⟨i1, i2, i3, _⟩ := ih
    rw [FilterBy_ok x fs (fun f hf => (public_filter_fields (hfs f hf)).1),
      Except.ok.injEq] at hy
    subst hy
    refine ⟨i1, i2, i3, ?_⟩
    intro f hf
    simp only [List.mem_map] at hf
    obtain ⟨g, hg, rfl⟩ := hf
    exact (public_filter_fields (hfs g hg)).2

theorem publicBuilt_record_strictValid (c : Casts) (r : Rule) (h : Rule.PublicBuilt c r) :
    r.m.StrictValid := by
  obtain ⟨h1, h2, h3, h4⟩ := publicBuilt_rule_strictValid c r h
  exact ⟨h2, targets_strictValid _ h1 h3, h4⟩

/-- A table built through the public API is a protocol-complete message. -/
theorem publicBuilt_strictValid {CID : Type} (c : Casts) (k : CIDCodec CID)
    (hk : k.RoundTrips) (x : Extended) (h : Extended.PublicBuilt c k x) :
    x.m.StrictValid k.valid := by
  induction h with
  | new r hr =>
    refine ⟨by simp [NewExtended], ?_, by simp [NewExtended], ?_⟩
    · intro mCnr h; simp [NewExtended] at h
    · intro q hq
      simp only [NewExtended, List.mem_singleton] at hq
      subst hq
      exact publicBuilt_record_strictValid c r hr
  | addRule x r _ hr ih =>
    obtain ⟨i1, i2, i3, i4⟩ := ih
    refine ⟨i1, i2, by simp [Extended.AddRule], ?_⟩
    intro q hq
    simp only [Extended.AddRule, List.mem_append, List.mem_singleton] at hq
    rcases hq with hq | hq
    · exact i4 q hq
    · subst hq; exact publicBuilt_record_strictValid c r hr
  | setFirstRule x r _ hr ih =>
    obtain ⟨i1, i2, i3, i4⟩ := ih
    refine ⟨i1, i2, by simp [Extended.SetFirstRule], ?_⟩
    intro q hq
    simp only [Extended.SetFirstRule, List.mem_append, List.mem_singleton] at hq
    rcases hq with hq | hq
    · subst hq; exact publicBuilt_record_strictValid c r hr
    · exact i4 q hq
  | restrict x cnr _ ih =>
    obtain ⟨i1, _, i3, i4⟩ := ih
    refine ⟨i1, ?_, i3, i4⟩
    intro mCnr h
    simp only [Extended.RestrictToContainer, Option.some.injEq] at h
    subst h
    simp [CIDCodec.valid, hk cnr]

theorem strictValid_formatValid (validCID : ContainerID → Bool) (m : Table)
    (h : m.StrictValid validCID) : m.FormatValid validCID :=
  ⟨h.2.1, fun r hr t ht => ((h.2.2.2 r hr).2.1 t ht).2⟩

/-- A successful `readFromV2` makes the receiver the table of the message. -/
theorem readFromV2_accepts (validCID : ContainerID → Bool) (x0 x : Extended) (check : Bool)
    (h : (x0.readFromV2 validCID x.WriteToV2 check).2 = none) :
    x0.readFromV2 validCID x.WriteToV2 check = (x, none) := by
  have h1 := (readFromV2_spec validCID x0 x.WriteToV2 check).2.1 h
  exact Prod.ext h1 h


theorem twoKeyTarget_public : (⟨0, [[2, 11, 7], [3, 5]]⟩ : RuleTarget).Public := by
  refine ⟨Or.inr ⟨[some keyA, some keyB], rfl⟩, ?_⟩
  intro k hk
  simp only [List.mem_cons, List.mem_singleton, List.not_mem_nil, or_false] at hk
  rcases hk with rfl | rfl <;> simp

theorem roleTarget_public {role : Role} (h : roleZero < role ∧ role < roleLast) :
    (⟨role, []⟩ : RuleTarget).Public := by
  refine ⟨Or.inl ⟨role, SubjectsWithRole_supported h⟩, ?_⟩
  intro k hk
  simp at hk

theorem generatedRule_publicBuilt : Rule.PublicBuilt protocolCasts generatedRule := by
  have h0 : Rule.PublicBuilt protocolCasts ⟨⟨OpObjectGet, ActionAllow, [], [⟨RoleUser, []⟩]⟩⟩ :=
    Rule.PublicBuilt.allow OpObjectGet ⟨RoleOwner, []⟩ _
      (roleTarget_public (by decide)) rfl
  have h1 : Rule.PublicBuilt protocolCasts
      ⟨⟨OpObjectGet, ActionAllow, [],
        [⟨RoleUser, []⟩, ⟨RoleSystem, []⟩, ⟨0, [[2, 11, 7], [3, 5]]⟩]⟩⟩ := by
    refine Rule.PublicBuilt.addTargets _ [⟨RoleContainer, []⟩, ⟨0, [[2, 11, 7], [3, 5]]⟩] _
      h0 ?_ rfl
    intro t ht
    simp only [List.mem_cons, List.mem_singleton, List.not_mem_nil, or_false] at ht
    rcases ht with rfl | rfl
    · exact roleTarget_public (by decide)
    · exact twoKeyTarget_public
  refine Rule.PublicBuilt.filterBy _
    [⟨⟨HeaderTypeObject, MatchTypeStringEqual, "obj_key", "obj_value"⟩⟩,
     ⟨⟨HeaderTypeRequest, MatchTypeStringNotEqual, "req_key", "req_value"⟩⟩] _ h1 ?_ rfl
  intro f hf
  simp only [List.mem_cons, List.mem_singleton, List.not_mem_nil, or_false] at hf
  rcases hf with rfl | rfl
  · exact ⟨MatchEquals, NewHeader "obj_key" "obj_value", Or.inl rfl, by decide, by decide,
      Or.inr rfl⟩
  · exact ⟨MatchNotEquals, NewHeader "req_key" "req_value", Or.inr rfl, by decide, by decide,
      Or.inl rfl⟩

theorem generatedTable_publicBuilt :
    Extended.PublicBuilt protocolCasts sampleCIDCodec generatedTable := by
  have hd : Rule.PublicBuilt protocolCasts ⟨⟨2, ActionDeny, [], [⟨V2RoleOthers, []⟩]⟩⟩ :=
    Rule.PublicBuilt.deny 2 ⟨RoleOthers, []⟩ _ (roleTarget_public (by decide)) rfl
  exact Extended.PublicBuilt.addRule _ _
    (Extended.PublicBuilt.restrict _ cnrA (Extended.PublicBuilt.new _ generatedRule_publicBuilt))
    hd

/-- C22: a table obtained from `NewExtended(rule)` by any sequence of `AddRule`,
`SetFirstRule` and `RestrictToContainer`, whose rules are built by `Allow` or `Deny`,
`AddTargetSubjects` with targets from `SubjectsWithRole` and `SubjectsWithKeys`, and
`FilterBy` with filters from `MatchRequestHeader` and `MatchObjectHeader` over headers
with non-empty key and value, writes a protocol-complete message; strict `ReadFromV2` of
this message returns no error, and the receiver is then equal to the table. The container
identifier codec is assumed to read back what it has written, and public keys to
serialize to non-empty byte strings. -/
theorem C22_public_tables_valid {CID : Type} (c : Casts) (k : CIDCodec CID)
    (hk : k.RoundTrips) (x : Extended) (hx : Extended.PublicBuilt c k x) (x0 : Extended) :
    x.WriteToV2.StrictValid k.valid ∧
    x0.ReadFromV2 k.valid x.WriteToV2 = (x, none) := by
  have hv := publicBuilt_strictValid c k hk x hx
  exact ⟨hv, readFromV2_accepts k.valid x0 x true
    ((readFromV2_strict_iff k.valid x0 x.WriteToV2).mpr hv)⟩

/-- C22 (witness): the table of the test generator `ExtendedACL` is read back from its own
message. -/
theorem C22_public_tables_valid_witness :
    sampleCIDCodec.RoundTrips ∧
    Extended.PublicBuilt protocolCasts sampleCIDCodec generatedTable ∧
    zeroExtended.ReadFromV2 sampleCIDCodec.valid generatedTable.WriteToV2
      = (generatedTable, none) :=
  ⟨sampleCIDCodec_roundTrips, generatedTable_publicBuilt,
    (C22_public_tables_valid protocolCasts sampleCIDCodec sampleCIDCodec_roundTrips
      generatedTable generatedTable_publicBuilt zeroExtended).2⟩

/-- C23: `NewExtended(rule).Container()` reports no restriction; after
`RestrictToContainer(a)`, `Container()` returns `(a, true)`; after a second call
`RestrictToContainer(b)` it returns `(b, true)`; `RestrictToContainer` changes neither
the rule list nor the version. The container identifier codec is assumed to read back
what it has written. -/
theorem C23_container_get_after_set {CID : Type} (k : CIDCodec CID) (hk : k.RoundTrips)
    (rule : Rule) (x : Extended) (a b : CID) :
    (NewExtended rule).Container k = .ok (k.zero, false) ∧
    (x.RestrictToContainer k a).Container k = .ok (a, true) ∧
    ((x.RestrictToContainer k a).RestrictToContainer k b).Container k = .ok (b, true) ∧
    (x.RestrictToContainer k a).m.records = x.m.records ∧
    (x.RestrictToContainer k a).m.version = x.m.version := by
  refine ⟨rfl, ?_, ?_, rfl, rfl⟩
  · simp [Extended.Container, Extended.RestrictToContainer, hk a]
  · simp [Extended.Container, Extended.RestrictToContainer, hk b]

/-- C23 (witness): the container of a table restricted to `cnrA`, then to `cnrB`. -/
theorem C23_container_get_after_set_witness :
    sampleCIDCodec.RoundTrips ∧
    (((⟨allowOwnerTable⟩ : Extended).RestrictToContainer sampleCIDCodec cnrA).RestrictToContainer
      sampleCIDCodec cnrB).Container sampleCIDCodec = .ok (cnrB, true) :=
  ⟨sampleCIDCodec_roundTrips,
    (C23_container_get_after_set sampleCIDCodec sampleCIDCodec_roundTrips
      ⟨⟨OpObjectGet, ActionAllow, [], [⟨RoleUser, []⟩]⟩⟩ ⟨allowOwnerTable⟩ cnrA cnrB).2.2.1⟩

/-- C24: for a table built through the public API, `Unmarshal(Marshal(T))` returns no
error and makes the receiver equal to `T`, and so does `UnmarshalJSON` on the result of
`MarshalJSON`, which returns no error; the lenient read of the message of `T` succeeds
and stores exactly that message. The protocol codecs and the container identifier codec
are assumed to read back what they have written. -/
theorem C24_encoding_round_trip {CID : Type} (c : Casts) (k : CIDCodec CID)
    (hk : k.RoundTrips) (encode : Table → List Nat) (decode : List Nat → Option Table)
    (hbin : ∀ m, decode (encode m) = some m)
    (encodeJSON : Table → Option (List Nat)) (decodeJSON : List Nat → Option Table)
    (hjson : ∀ m, ∃ data, encodeJSON m = some data ∧ decodeJSON data = some m)
    (x : Extended) (hx : Extended.PublicBuilt c k x) (x0 : Extended) :
    x0.Unmarshal decode k.valid (x.Marshal encode) = (x, none) ∧
    (∃ data, x.MarshalJSON encodeJSON = some data ∧
      x0.UnmarshalJSON decodeJSON k.valid data = (x, none)) ∧
    x0.readFromV2 k.valid x.WriteToV2 false = (⟨x.WriteToV2⟩, none) := by
  have hv := strictValid_formatValid k.valid x.m (publicBuilt_strictValid c k hk x hx)
  have hread := readFromV2_accepts k.valid x0 x false
    ((readFromV2_lenient_iff k.valid x0 x.WriteToV2).mpr hv)
  refine ⟨?_, ?_, hread⟩
  · simp only [Extended.Unmarshal, Extended.Marshal, hbin, hread, Option.map_none']
  · obtain ⟨data, h1, h2⟩ := hjson x.WriteToV2
    refine ⟨data, h1, ?_⟩
    simp only [Extended.UnmarshalJSON, h2, hread, Option.map_none']

/-- C24 (witness): the table of the test generator `ExtendedACL` under the sample
codecs. -/
theorem C24_encoding_round_trip_witness :
    sampleCIDCodec.RoundTrips ∧ (∀ m, sampleDecode (sampleEncode m) = some m) ∧
    Extended.PublicBuilt protocolCasts sampleCIDCodec generatedTable ∧
    zeroExtended.Unmarshal sampleDecode sampleCIDCodec.valid
      (generatedTable.Marshal sampleEncode) = (generatedTable, none) :=
  ⟨sampleCIDCodec_roundTrips, sampleDecode_sampleEncode, generatedTable_publicBuilt,
    (C24_encoding_round_trip protocolCasts sampleCIDCodec sampleCIDCodec_roundTrips
      sampleEncode sampleDecode sampleDecode_sampleEncode
      (fun m => some (sampleEncode m)) sampleDecode
      (fun m => ⟨sampleEncode m, rfl, sampleDecode_sampleEncode m⟩)
      generatedTable generatedTable_publicBuilt zeroExtended).1⟩

/-! ## Delegated authorization token -/

/-- C25: for every token and epoch `e`, `InvalidAt(e)` is true iff `exp = 0` or `e < nbf`
or `e > exp` or `e < iat`; the default token is invalid at every epoch, and the token with
`iat = 1`, `nbf = 2`, `exp = 4` is valid exactly at the epochs 2, 3 and 4. -/
theorem C25_token_validity_window {User : Type} (t : Token User) (e : Nat) :
    (t.InvalidAt e = true ↔ t.exp = 0 ∨ e < t.nbf ∨ e > t.exp ∨ e < t.iat) ∧
    (Token.zero : Token User).InvalidAt e = true ∧
    (((((Token.zero : Token User).SetIat 1).SetNbf 2).SetExp 4).InvalidAt e = false ↔
      e = 2 ∨ e = 3 ∨ e = 4) := by
  refine ⟨?_, ?_, ?_⟩
  · simp only [Token.InvalidAt, Bool.or_eq_true, decide_eq_true_eq]
    tauto
  · simp [Token.InvalidAt, Token.zero]
  · simp only [Token.InvalidAt, Token.zero, Token.SetIat, Token.SetNbf, Token.SetExp,
      Bool.or_eq_false_iff, decide_eq_false_iff_not]
    omega

/-- C26: a token without policy table, or whose policy table has no container
restriction, asserts every container; a token without delegate user asserts every user;
a token whose policy table has been restricted to the container `c` asserts exactly `c`;
a token restricted by `ForUser(u0)` asserts exactly `u0`. The container identifier codec
is assumed to read back what it has written. -/
theorem C26_token_scope_predicates {User CID : Type} [DecidableEq User] [DecidableEq CID]
    (k : CIDCodec CID) (hk : k.RoundTrips) (t : Token User) (x : Extended) (c id : CID)
    (u0 u : User) :
    (t.policyTable = none → t.AssertContainer k id = .ok true) ∧
    (x.m.cid = none → (t.SetExtendedACL x).AssertContainer k id = .ok true) ∧
    (t.delegateUser = none → t.AssertUser u = true) ∧
    (t.SetExtendedACL (x.RestrictToContainer k c)).AssertContainer k id
      = .ok (decide (id = c)) ∧
    ((t.SetExtendedACL (x.RestrictToContainer k c)).AssertContainer k id = .ok true ↔
      id = c) ∧
    ((t.ForUser u0).AssertUser u = true ↔ u = u0) := by
  have hrestr : (t.SetExtendedACL (x.RestrictToContainer k c)).AssertContainer k id
      = .ok (decide (id = c)) := by
    simp only [Token.AssertContainer, Token.SetExtendedACL, Extended.Container,
      Extended.RestrictToContainer, hk c, Bool.not_true, Bool.false_or]
    congr 1
    by_cases h : c = id
    · subst h; simp
    · have h2 : ¬ id = c := fun e => h e.symm
      simp [h, h2]
  refine ⟨?_, ?_, ?_, hrestr, ?_, ?_⟩
  · intro h
    simp [Token.AssertContainer, h]
  · intro h
    simp [Token.AssertContainer, Token.SetExtendedACL, Extended.Container, h]
  · intro h
    simp [Token.AssertUser, h]
  · rw [hrestr]
    simp
  · simp only [Token.AssertUser, Token.ForUser, decide_eq_true_eq]
    exact eq_comm

/-- C26 (witness): the default token restricted to the container `cnrA` asserts `cnrA`
and not `cnrB`. -/
theorem C26_token_scope_predicates_witness :
    sampleCIDCodec.RoundTrips ∧
    ((Token.zero : Token Nat).SetExtendedACL
      (generatedTable.RestrictToContainer sampleCIDCodec cnrA)).AssertContainer
        sampleCIDCodec cnrB = .ok (decide (cnrB = cnrA)) :=
  ⟨sampleCIDCodec_roundTrips,
    (C26_token_scope_predicates sampleCIDCodec sampleCIDCodec_roundTrips
      (Token.zero : Token Nat) generatedTable cnrA cnrB 0 0).2.2.2.1⟩

/-! ## Object attributes -/

theorem ObjectHeader.fields_setFields (g : HeaderFields → HeaderFields) (h : ObjectHeader) :
    (h.setFields g).fields = g h.fields := by
  cases h <;> rfl

theorem overwriteAttribute_none_iff (key value : String) (attrs : List ObjectAttribute) :
    overwriteAttribute key value attrs = none ↔ ∀ a ∈ attrs, a.key ≠ key := by
  induction attrs with
  | nil => simp [overwriteAttribute]
  | cons a attrs ih =>
    rw [overwriteAttribute]
    by_cases h : a.key = key
    · simp [h]
    · simp [h, ih]

/-- The list returned by the overwriting loop: same keys in the same order, the value of
the key replaced, the values of the other keys kept. -/
theorem overwriteAttribute_some (key value : String) :
    ∀ (attrs attrs2 : List ObjectAttribute), overwriteAttribute key value attrs = some attrs2 →
      attrs2.map (fun a => a.key) = attrs.map (fun a => a.key) ∧
      attributeLoop key attrs2 = value ∧
      ∀ k2, k2 ≠ key → attributeLoop k2 attrs2 = attributeLoop k2 attrs := by
  intro attrs
  induction attrs with
  | nil => intro attrs2 h; simp [overwriteAttribute] at h
  | cons a attrs ih =>
    intro attrs2 h
    rw [overwriteAttribute] at h
    by_cases hk : a.key = key
    · rw [if_pos hk] at h
      cases h
      refine ⟨rfl, by simp [attributeLoop, hk], ?_⟩
      intro k2 hk2
      have : ¬ a.key = k2 := fun e => hk2 (e.symm.trans hk)
      simp [attributeLoop, this]
    · rw [if_neg hk] at h
      cases ho : overwriteAttribute key value attrs with
      | none => rw [ho] at h; cases h
      | some attrs3 =>
        rw [ho] at h
        cases h
        obtain ⟨h1, h2, h3⟩ := ih attrs3 ho
        refine ⟨by simp [h1], by simp [attributeLoop, hk, h2], ?_⟩
        intro k2 hk2
        simp only [attributeLoop]
        rw [h3 k2 hk2]

theorem attributeLoop_append_new (key value : String) (attrs : List ObjectAttribute)
    (h : ∀ a ∈ attrs, a.key ≠ key) :
    attributeLoop key (attrs ++ [⟨key, value⟩]) = value := by
  induction attrs with
  | nil => simp [attributeLoop]
  | cons a attrs ih =>
    have hk : ¬ a.key = key := h a (List.mem_cons_self _ _)
    simp only [List.cons_append, attributeLoop, if_neg hk]
    exact ih (fun b hb => h b (List.mem_cons_of_mem _ hb))

theorem attributeLoop_append_other (key value k2 : String) (attrs : List ObjectAttribute)
    (h : k2 ≠ key) :
    attributeLoop k2 (attrs ++ [⟨key, value⟩]) = attributeLoop k2 attrs := by
  induction attrs with
  | nil =>
    have : ¬ key = k2 := fun e => h e.symm
    simp [attributeLoop, this]
  | cons a attrs ih =>
    rw [List.cons_append, attributeLoop, attributeLoop, ih]

/-- The attribute list after `SetAttribute` with a non-empty key and value. -/
theorem SetAttribute_ok {ID Sig : Type} (x : Object ID Sig) (key value : String)
    (hk : key ≠ "") (hv : value ≠ "") :
    ∃ attrs, x.SetAttribute key value
        = .ok { x with hdr := x.hdr.setFields (fun f => { f with attr := attrs }) } ∧
      ((∃ a ∈ x.hdr.fields.attr, a.key = key) →
        overwriteAttribute key value x.hdr.fields.attr = some attrs) ∧
      ((∀ a ∈ x.hdr.fields.attr, a.key ≠ key) →
        attrs = x.hdr.fields.attr ++ [⟨key, value⟩]) := by
  unfold Object.SetAttribute
  rw [if_neg hk, if_neg hv]
  cases ho : overwriteAttribute key value x.hdr.fields.attr with
  | some attrs =>
    refine ⟨attrs, rfl, fun _ => rfl, ?_⟩
    intro hno
    rw [(overwriteAttribute_none_iff key value _).mpr hno] at ho
    cases ho
  | none =>
    refine ⟨x.hdr.fields.attr ++ [⟨key, value⟩], ?_, ?_, fun _ => rfl⟩
    · simp only
      congr 2
      cases x.hdr <;> rfl
    · rintro ⟨a, ha, hak⟩
      exact absurd hak ((overwriteAttribute_none_iff key value _).mp ho a ha)

/-- C27: for every object, non-empty key `k` and non-empty value `v`, `SetAttribute(k, v)`
returns; afterwards `Attribute(k) = v` and `Attribute(k2)` is as before for every other
key `k2`; when `k` was present the keys of the attribute list are the same as before, in
the same order (so the number of attributes does not grow and no second entry for `k` is
created), and otherwise one attribute is appended; identifier, signature and payload are
unchanged. `SetAttribute` panics on an empty key or an empty value. -/
theorem C27_set_attribute_overwrites {ID Sig : Type} (x : Object ID Sig) (k v : String)
    (hk : k ≠ "") (hv : v ≠ "") :
    (∃ y, x.SetAttribute k v = .ok y ∧
      y.Attribute k = v ∧
      (∀ k2, k2 ≠ k → y.Attribute k2 = x.Attribute k2) ∧
      ((∃ a ∈ x.hdr.fields.attr, a.key = k) →
        y.hdr.fields.attr.map (fun a => a.key) = x.hdr.fields.attr.map (fun a => a.key) ∧
        y.hdr.fields.attr.length = x.hdr.fields.attr.length) ∧
      ((∀ a ∈ x.hdr.fields.attr, a.key ≠ k) →
        y.hdr.fields.attr = x.hdr.fields.attr ++ [⟨k, v⟩]) ∧
      y.id = x.id ∧ y.sig = x.sig ∧ y.payload = x.payload) ∧
    (∀ v2, ∃ msg, x.SetAttribute "" v2 = .error msg) ∧
    (∃ msg, x.SetAttribute k "" = .error msg) := by
  refine ⟨?_, ?_, ?_⟩
  · obtain ⟨attrs, hy, hpresent, habsent⟩ := SetAttribute_ok x k v hk hv
    refine ⟨_, hy, ?_, ?_, ?_, ?_, rfl, rfl, rfl⟩
    · simp only [Object.Attribute, ObjectHeader.fields_setFields]
      by_cases hex : ∃ a ∈ x.hdr.fields.attr, a.key = k
      · exact (overwriteAttribute_some k v _ attrs (hpresent hex)).2.1
      · push_neg at hex
        rw [habsent hex]
        exact attributeLoop_append_new k v _ hex
    · intro k2 hk2
      simp only [Object.Attribute, ObjectHeader.fields_setFields]
      by_cases hex : ∃ a ∈ x.hdr.fields.attr, a.key = k
      · exact (overwriteAttribute_some k v _ attrs (hpresent hex)).2.2 k2 hk2
      · push_neg at hex
        rw [habsent hex]
        exact attributeLoop_append_other k v k2 _ hk2
    · intro hex
      simp only [ObjectHeader.fields_setFields]
      have hkeys := (overwriteAttribute_some k v _ attrs (hpresent hex)).1
      refine ⟨hkeys, ?_⟩
      have := congrArg List.length hkeys
      simpa using this
    · intro hno
      simp only [ObjectHeader.fields_setFields]
      exact habsent hno
  · intro v2
    exact ⟨"empty attribute key", by simp [Object.SetAttribute]⟩
  · exact ⟨"empty attribute value", by simp [Object.SetAttribute, hk]⟩

/-- C27 (witness): setting the attribute `FileName` twice on the zero object leaves one
attribute with the later value. -/
theorem C27_set_attribute_overwrites_witness :
    "FileName" ≠ "" ∧ "b.txt" ≠ "" ∧
    ∃ y, (⟨0, .plain { zeroHeaderFields with attr := [⟨"FileName", "a.txt"⟩] }, 0, []⟩ :
        Object Nat Nat).SetAttribute "FileName" "b.txt" = .ok y ∧
      y.Attribute "FileName" = "b.txt" := by
  refine ⟨by decide, by decide, ?_⟩
  obtain ⟨y, h1, h2, _⟩ := (C27_set_attribute_overwrites
    (⟨0, .plain { zeroHeaderFields with attr := [⟨"FileName", "a.txt"⟩] }, 0, []⟩ :
      Object Nat Nat) "FileName" "b.txt" (by decide) (by decide)).1
  exact ⟨y, h1, h2⟩

/-! ## Lock objects -/

theorem sampleOIDCodec_roundTrips : sampleOIDCodec.RoundTrips := by
  intro id
  obtain ⟨l, hl⟩ := id
  simp [sampleOIDCodec, hl]

theorem sampleSigCodec_roundTrips : sampleSigCodec.RoundTrips := fun _ => rfl

theorem sampleLockDecode_sampleLockEncode (m : LockMsg) :
    sampleLockDecode (sampleLockEncode m) = some m := by
  cases m with
  | mk members =>
    simp only [sampleLockDecode, sampleLockEncode, Nat.ofDigits_digits, Encodable.encodek,
      Option.map_some', List.map_map, Option.some.injEq, LockMsg.mk.injEq]
    conv_rhs => rw [← List.map_id members]
    apply List.map_congr_left
    intro i _
    rfl

/-- The member check of `Lock.Unmarshal` accepts the message written for pairwise
distinct members. -/
theorem lockMembersLoop_written {ID : Type} [DecidableEq ID] (k : OIDCodec ID)
    (hk : k.RoundTrips) :
    ∀ (members seen : List ID), members.Nodup → (∀ i ∈ members, i ∉ seen) →
      lockMembersLoop k (members.map k.write) seen = none := by
  intro members
  induction members with
  | nil => intro seen _ _; rfl
  | cons i members ih =>
    intro seen hnd hseen
    simp only [List.map_cons, lockMembersLoop, hk i]
    rw [if_neg (hseen i (List.mem_cons_self _ _))]
    apply ih _ (List.nodup_cons.mp hnd).2
    intro j hj
    rw [List.mem_cons]
    rintro (h | h)
    · subst h
      exact (List.nodup_cons.mp hnd).1 hj
    · exact hseen j (List.mem_cons_of_mem _ hj) h

/-- C28 (what the code does): for every lock `l` with a non-empty list of pairwise
distinct members, `obj.WriteLock(l)` returns and makes the object a lock object, and
`obj.ReadLock(&l2)` returns no error, but `l2.Members()` is then empty, hence different
from `l.Members()`: `Lock.Unmarshal` checks the decoded members and never stores them.
The codecs are assumed to read back what they have written. -/
theorem C28_read_lock_loses_members {ID Sig : Type} [DecidableEq ID] (env : ObjectEnv ID Sig)
    (hoid : env.oid.RoundTrips) (encode : LockMsg → List Nat)
    (decode : List Nat → Option LockMsg) (hcodec : ∀ m, decode (encode m) = some m)
    (x : Object ID Sig) (l l2 : Lock ID) (hne : l.Members ≠ []) (hnd : l.Members.Nodup) :
    ∃ y, x.WriteLock env encode l = .ok y ∧ y.IsLock = true ∧
      y.PayloadSize = y.payload.length ∧
      (y.ReadLock env decode l2).2 = none ∧
      (y.ReadLock env decode l2).1.Members = [] ∧
      (y.ReadLock env decode l2).1.Members ≠ l.Members := by
  have hlen : ¬ l.Members.length = 0 := fun h => hne (List.length_eq_zero.mp h)
  have hlen2 : ¬ (l.members.map env.oid.write).length = 0 := by
    rw [List.length_map]; exact hlen
  have hread : ∀ y : Object ID Sig, y.payload = l.Marshal env.oid encode →
      y.ReadLock env decode l2 = (⟨[]⟩, none) := by
    intro y hy
    simp only [Object.ReadLock, Lock.Unmarshal, hy, Lock.Marshal, hcodec]
    rw [if_neg hlen2, lockMembersLoop_written env.oid hoid l.members [] hnd (by simp)]
  have hw : x.WriteLock env encode l = .ok { x with
      hdr := x.hdr.setFields (fun f =>
        { f with typ := TypeLock, payloadLen := (l.Marshal env.oid encode).length })
      payload := l.Marshal env.oid encode } := by
    rw [Object.WriteLock, if_neg hlen]
  refine ⟨_, hw, ?_, ?_, ?_, ?_, ?_⟩
  · simp [Object.IsLock, ObjectHeader.fields_setFields]
  · simp [Object.PayloadSize, ObjectHeader.fields_setFields]
  · rw [hread _ rfl]
  · rw [hread _ rfl]; rfl
  · rw [hread _ rfl]
    exact fun h => hne h.symm

/-- C28 (witness): the lock with the single member `oidA`, written to the zero object. -/
theorem C28_read_lock_loses_members_witness :
    sampleEnv.oid.RoundTrips ∧ (∀ m, sampleLockDecode (sampleLockEncode m) = some m) ∧
    (⟨[oidA]⟩ : Lock _).Members ≠ [] ∧ (⟨[oidA]⟩ : Lock _).Members.Nodup ∧
    ∃ y, (Object.zero sampleEnv).WriteLock sampleEnv sampleLockEncode ⟨[oidA]⟩ = .ok y ∧
      (y.ReadLock sampleEnv sampleLockDecode ⟨[]⟩).2 = none ∧
      (y.ReadLock sampleEnv sampleLockDecode ⟨[]⟩).1.Members = [] := by
  refine ⟨sampleOIDCodec_roundTrips, sampleLockDecode_sampleLockEncode, by simp [Lock.Members],
    by simp [Lock.Members], ?_⟩
  obtain ⟨y, h1, _, _, h4, h5, _⟩ := C28_read_lock_loses_members sampleEnv
    sampleOIDCodec_roundTrips sampleLockEncode sampleLockDecode
    sampleLockDecode_sampleLockEncode (Object.zero sampleEnv) ⟨[oidA]⟩ ⟨[]⟩
    (by simp [Lock.Members]) (by simp [Lock.Members])
  exact ⟨y, h1, h4, h5⟩

/-! ## Object decoding -/

theorem checkOptional_ok {α : Type} (valid : α → Bool) (e : ObjectError) (o : Option α)
    (h : ∀ m, o = some m → valid m = true) : checkOptional valid e o = .ok () := by
  cases o with
  | none => rfl
  | some m => simp [checkOptional, h m rfl]

theorem checkRequired_ok {α : Type} (valid : α → Bool) (e1 e2 : ObjectError) (check : Bool)
    (o : Option α) (hsome : o ≠ none) (h : ∀ m, o = some m → valid m = true) :
    checkRequired valid e1 e2 check o = .ok () := by
  cases o with
  | none => exact absurd rfl hsome
  | some m => simp [checkRequired, h m rfl]

/-- On well-formed attributes whose values pass the checks the attribute loop returns,
with the flags telling whether the epoch resp. the topic attribute of notifications has
been seen. -/
theorem attributesLoop_ok {ID Sig : Type} (env : ObjectEnv ID Sig) :
    ∀ (attrs : List ObjectAttribute) (seen : List String) (e t : Bool),
      (∀ a ∈ attrs, a.key ≠ "" ∧ a.value ≠ "") →
      (attrs.map (fun a => a.key)).Nodup →
      (∀ a ∈ attrs, a.key ∉ seen) →
      (∀ a ∈ attrs,
        (a.key = SysAttributeExpEpoch → env.parseUint a.value = true) ∧
        (a.key = SysAttributeTickEpoch → env.parseUint a.value = true) ∧
        (a.key = attributeTimestamp → env.parseInt a.value = true)) →
      attributesLoop env attrs seen e t =
        .ok (e || attrs.any (fun a => decide (a.key = SysAttributeTickEpoch)),
             t || attrs.any (fun a => decide (a.key = SysAttributeTickTopic))) := by
  intro attrs
  induction attrs with
  | nil => intro seen e t _ _ _ _; simp [attributesLoop]
  | cons a attrs ih =>
    intro seen e t hne hnd hseen hparse
    have hne2 : ∀ b ∈ attrs, b.key ≠ "" ∧ b.value ≠ "" :=
      fun b hb => hne b (List.mem_cons_of_mem _ hb)
    have hparse2 := fun b (hb : b ∈ attrs) => hparse b (List.mem_cons_of_mem _ hb)
    rw [List.map_cons, List.nodup_cons] at hnd
    have hseen2 : ∀ b ∈ attrs, b.key ∉ a.key :: seen := by
      intro b hb hmem
      rcases List.mem_cons.mp hmem with h | h
      · exact hnd.1 (List.mem_map.mpr ⟨b, hb, h⟩)
      · exact hseen b (List.mem_cons_of_mem _ hb) h
    have ha := hne a (List.mem_cons_self _ _)
    have hpa := hparse a (List.mem_cons_self _ _)
    have hsa := hseen a (List.mem_cons_self _ _)
    have hrec := fun e2 t2 => ih (a.key :: seen) e2 t2 hne2 hnd.2 hseen2 hparse2
    rw [attributesLoop, if_neg ha.1, if_neg hsa, if_neg ha.2, List.any_cons, List.any_cons]
    by_cases h1 : a.key = SysAttributeExpEpoch
    · have n2 : ¬ a.key = SysAttributeTickEpoch := by rw [h1]; decide
      have n3 : ¬ a.key = SysAttributeTickTopic := by rw [h1]; decide
      rw [if_pos h1, if_pos (hpa.1 h1), hrec, decide_eq_false n2, decide_eq_false n3]
      simp
    · rw [if_neg h1]
      by_cases h2 : a.key = SysAttributeTickEpoch
      · have n3 : ¬ a.key = SysAttributeTickTopic := by rw [h2]; decide
        rw [if_pos h2, if_pos (hpa.2.1 h2), hrec, decide_eq_true h2, decide_eq_false n3]
        simp
      · rw [if_neg h2]
        by_cases h3 : a.key = SysAttributeTickTopic
        · rw [if_pos h3, hrec, decide_eq_false h2, decide_eq_true h3]
          simp
        · rw [if_neg h3]
          by_cases h4 : a.key = attributeTimestamp
          · rw [if_pos h4, if_pos (hpa.2.2 h4), hrec, decide_eq_false h2,
              decide_eq_false h3]
            simp
          · rw [if_neg h4, hrec, decide_eq_false h2, decide_eq_false h3]
            simp

/-- The header fields of a complete object pass the field checks of strict decoding. -/
theorem checkFields_ok {ID Sig : Type} (env : ObjectEnv ID Sig) (f : HeaderFields)
    (hv : f.PresentValid env) (hcid : f.cid ≠ none) (hown : f.ownerID ≠ none)
    (hattr : AttributesAccepted env f.attr) : checkFields env true f = .ok () := by
  obtain ⟨v1, v2, v3, v4, v5, v6, v7, v8, v9⟩ := hv
  have hloop := attributesLoop_ok env f.attr [] false false v8 v9 (by simp) hattr.1
  have hflags : ¬ ((false || f.attr.any (fun a => decide (a.key = SysAttributeTickTopic)))
      = true ∧ (false || f.attr.any (fun a => decide (a.key = SysAttributeTickEpoch)))
      = false) := by
    rintro ⟨ht, he⟩
    simp only [Bool.false_or, List.any_eq_true, decide_eq_true_eq] at ht
    obtain ⟨b, hb, hbk⟩ := hattr.2 ht
    have : f.attr.any (fun a => decide (a.key = SysAttributeTickEpoch)) = true := by
      simp only [List.any_eq_true, decide_eq_true_eq]
      exact ⟨b, hb, hbk⟩
    simp [this] at he
  unfold checkFields
  rw [checkOptional_ok _ _ _ v1, checkRequired_ok _ _ _ _ _ hcid v2,
    checkRequired_ok _ _ _ _ _ hown v3, checkOptional_ok _ _ _ v4,
    checkOptional_ok _ _ _ v6, checkOptional_ok _ _ _ v7, hloop]
  simp only [bind, Except.bind, not_not.mpr v5, if_false, hflags, pure, Except.pure]


theorem childrenLoop_written {ID : Type} [DecidableEq ID] (k : OIDCodec ID)
    (hk : k.RoundTrips) :
    ∀ (ids seen : List ID), ids.Nodup → (∀ i ∈ ids, i ∉ seen) →
      childrenLoop k (ids.map k.write) seen = .ok () := by
  intro ids
  induction ids with
  | nil => intro seen _ _; rfl
  | cons i ids ih =>
    intro seen hnd hseen
    simp only [List.map_cons, childrenLoop, hk i]
    rw [if_neg (hseen i (List.mem_cons_self _ _))]
    apply ih _ (List.nodup_cons.mp hnd).2
    intro j hj
    rw [List.mem_cons]
    rintro (h | h)
    · subst h
      exact (List.nodup_cons.mp hnd).1 hj
    · exact hseen j (List.mem_cons_of_mem _ hj) h

theorem checkSplit_ok {ID Sig : Type} [DecidableEq ID] (env : ObjectEnv ID Sig)
    (hoid : env.oid.RoundTrips) (s : SplitFields) (hs : s.Valid env) :
    checkSplit env s = .ok () := by
  obtain ⟨_, h2, _, ids, hnd, hch⟩ := hs
  unfold checkSplit
  rw [checkOptional_ok _ _ _ h2, hch]
  simp only [bind, Except.bind]
  exact childrenLoop_written env.oid hoid ids [] hnd (by simp)

/-- Strict decoding accepts the header of a complete object with valid fields. -/
theorem checkHeader_ok {ID Sig : Type} [DecidableEq ID] (env : ObjectEnv ID Sig)
    (hoid : env.oid.RoundTrips) :
    ∀ h : ObjectHeader, h.FieldsValid env → h.Complete env →
      checkHeader env true h = .ok () := by
  intro h
  induction h with
  | plain f =>
    intro hv hc
    exact checkFields_ok env f hv hc.1 hc.2.1 hc.2.2
  | split f s =>
    intro _ hc
    exact absurd hc (by simp [ObjectHeader.Complete])
  | splitParent f s p ih =>
    intro hv hc
    obtain ⟨hf, hs, hp⟩ := hv
    obtain ⟨⟨c1, c2, c3⟩, cp⟩ := hc
    rw [checkHeader, checkFields_ok env f hf c1 c2 c3, checkSplit_ok env hoid s hs]
    simp only [bind, Except.bind, checkOptional_ok _ _ _ hs.1, ih hp cp,
      checkOptional_ok _ _ _ hs.2.2.1, pure, Except.pure]

/-- Strict decoding of the message written by an object whose header passes the checks
returns the object. -/
theorem ReadFromV2_written {ID Sig : Type} [DecidableEq ID] (env : ObjectEnv ID Sig)
    (hoid : env.oid.RoundTrips) (hsig : env.sig.RoundTrips) (x0 val : Object ID Sig)
    (h : checkHeader env true val.hdr = .ok ()) :
    x0.ReadFromV2 env (val.WriteToV2 env) = .ok (val, none) := by
  simp only [Object.ReadFromV2, Object.readFromV2, Object.WriteToV2, Option.map_some',
    hoid val.id, hsig val.sig, h]

theorem fieldsValid_setFields {ID Sig : Type} (env : ObjectEnv ID Sig)
    (g : HeaderFields → HeaderFields) (h : ObjectHeader) (hv : h.FieldsValid env)
    (hg : h.fields.PresentValid env → (g h.fields).PresentValid env) :
    (h.setFields g).FieldsValid env := by
  cases h with
  | plain f => exact hg hv
  | split f s => exact ⟨hg hv.1, hv.2⟩
  | splitParent f s p => exact ⟨hg hv.1, hv.2.1, hv.2.2⟩

theorem fieldsValid_fields {ID Sig : Type} (env : ObjectEnv ID Sig) (h : ObjectHeader)
    (hv : h.FieldsValid env) : h.fields.PresentValid env := by
  cases h with
  | plain f => exact hv
  | split f s => exact hv.1
  | splitParent f s p => exact hv.1

/-- The overwriting loop keeps the attribute list well-formed. -/
theorem overwriteAttribute_wellFormed (key value : String) (hv : value ≠ "") :
    ∀ (attrs attrs2 : List ObjectAttribute), overwriteAttribute key value attrs = some attrs2 →
      (∀ a ∈ attrs, a.key ≠ "" ∧ a.value ≠ "") → ∀ a ∈ attrs2, a.key ≠ "" ∧ a.value ≠ "" := by
  intro attrs
  induction attrs with
  | nil => intro attrs2 h; simp [overwriteAttribute] at h
  | cons b attrs ih =>
    intro attrs2 h hne
    rw [overwriteAttribute] at h
    by_cases hk : b.key = key
    · rw [if_pos hk] at h
      cases h
      intro a ha
      rcases List.mem_cons.mp ha with rfl | ha
      · exact ⟨(hne b (List.mem_cons_self _ _)).1, hv⟩
      · exact hne a (List.mem_cons_of_mem _ ha)
    · rw [if_neg hk] at h
      cases ho : overwriteAttribute key value attrs with
      | none => rw [ho] at h; cases h
      | some attrs3 =>
        rw [ho] at h
        cases h
        intro a ha
        rcases List.mem_cons.mp ha with rfl | ha
        · exact hne a (List.mem_cons_self _ _)
        · exact ih attrs3 ho (fun c hc => hne c (List.mem_cons_of_mem _ hc)) a ha

/-- Go `SetAttribute` keeps the attribute list well-formed. -/
theorem SetAttribute_wellFormed {ID Sig : Type} (x y : Object ID Sig) (key value : String)
    (h : x.SetAttribute key value = .ok y) (hw : AttributesWellFormed x.hdr.fields.attr) :
    ∃ attrs, y = { x with hdr := x.hdr.setFields (fun f => { f with attr := attrs }) } ∧
      AttributesWellFormed attrs := by
  have hk : key ≠ "" := by
    intro hk
    simp [Object.SetAttribute, hk] at h
  have hv : value ≠ "" := by
    intro hv
    simp [Object.SetAttribute, hk, hv] at h
  obtain ⟨attrs, hy, hpresent, habsent⟩ := SetAttribute_ok x key value hk hv
  rw [hy, Except.ok.injEq] at h
  refine ⟨attrs, h.symm, ?_⟩
  by_cases hex : ∃ a ∈ x.hdr.fields.attr, a.key = key
  · have ho := hpresent hex
    refine ⟨overwriteAttribute_wellFormed key value hv _ attrs ho hw.1, ?_⟩
    rw [(overwriteAttribute_some key value _ attrs ho).1]
    exact hw.2
  · push_neg at hex
    rw [habsent hex]
    refine ⟨?_, ?_⟩
    · intro a ha
      rcases List.mem_append.mp ha with ha | ha
      · exact hw.1 a ha
      · rw [List.mem_singleton] at ha
        subst ha
        exact ⟨hk, hv⟩
    · rw [List.map_append, List.map_singleton]
      refine List.Nodup.append hw.2 (List.nodup_singleton _) ?_
      intro k hk1 hk2
      rw [List.mem_singleton] at hk2
      subst hk2
      obtain ⟨a, ha, hak⟩ := List.mem_map.mp hk1
      exact hex a ha hak

theorem zeroHeaderFields_presentValid {ID Sig : Type} (env : ObjectEnv ID Sig) :
    zeroHeaderFields.PresentValid env := by
  refine ⟨?_, ?_, ?_, ?_, Or.inl rfl, ?_, ?_, ?_, ?_⟩ <;>
    simp [zeroHeaderFields]

/-- An object changed only through the public setters has valid present fields, and so
have the parent headers it carries. -/
theorem built_fieldsValid {ID Sig : Type} (env : ObjectEnv ID Sig)
    (hoid : env.oid.RoundTrips) (hsig : env.sig.RoundTrips) (x : Object ID Sig)
    (h : Object.Built env x) : x.hdr.FieldsValid env := by
  induction h with
  | zero => exact zeroHeaderFields_presentValid env
  | init x _ hver ih =>
    refine fieldsValid_setFields env _ _ ih ?_
    rintro ⟨v1, v2, v3, v4, v5, v6, v7, v8⟩
    refine ⟨?_, v2, v3, v4, v5, v6, v7, v8⟩
    intro v hv
    simp only [Option.some.injEq] at hv
    subst hv
    exact hver
  | setContainer x cnr _ hc ih =>
    refine fieldsValid_setFields env _ _ ih ?_
    rintro ⟨v1, v2, v3, v4, v5, v6, v7, v8⟩
    refine ⟨v1, ?_, v3, v4, v5, v6, v7, v8⟩
    intro c hc2
    simp only [Option.some.injEq] at hc2
    subst hc2
    exact hc
  | setOwner x owner _ ho ih =>
    refine fieldsValid_setFields env _ _ ih ?_
    rintro ⟨v1, v2, v3, v4, v5, v6, v7, v8⟩
    refine ⟨v1, v2, ?_, v4, v5, v6, v7, v8⟩
    intro o ho2
    simp only [Option.some.injEq] at ho2
    subst ho2
    exact ho
  | setPayloadSize x sz _ ih =>
    exact fieldsValid_setFields env _ _ ih (fun hv => hv)
  | setCreationEpoch x epoch _ ih =>
    exact fieldsValid_setFields env _ _ ih (fun hv => hv)
  | makeSession x obj _ hs ih =>
    refine fieldsValid_setFields env _ _ ih ?_
    rintro ⟨v1, v2, v3, v4, v5, v6, v7, v8⟩
    refine ⟨v1, v2, v3, v4, v5, v6, ?_, v8⟩
    intro s hs2
    simp only [Option.some.injEq] at hs2
    subst hs2
    exact hs
  | setPayloadChecksum x typ sum _ hc ih =>
    refine fieldsValid_setFields env _ _ ih ?_
    rintro ⟨v1, v2, v3, v4, v5, v6, v7, v8⟩
    refine ⟨v1, v2, v3, ?_, v5, v6, v7, v8⟩
    intro c hc2
    simp only [Option.some.injEq] at hc2
    subst hc2
    exact hc
  | setPayloadHomomorphicChecksum x sum _ hc ih =>
    refine fieldsValid_setFields env _ _ ih ?_
    rintro ⟨v1, v2, v3, v4, v5, v6, v7, v8⟩
    refine ⟨v1, v2, v3, ?_, v5, v6, v7, v8⟩
    intro c hc2
    simp only [Option.some.injEq] at hc2
    subst hc2
    exact hc
  | setType x t _ ht ih =>
    refine fieldsValid_setFields env _ _ ih ?_
    rintro ⟨v1, v2, v3, v4, v5, v6, v7, v8⟩
    exact ⟨v1, v2, v3, v4, ht, v6, v7, v8⟩
  | setPayload x payload _ ih => exact ih
  | setAttribute x key value y _ hy ih =>
    obtain ⟨attrs, rfl, hw⟩ := SetAttribute_wellFormed x y key value hy
      (fieldsValid_fields env _ ih).2.2.2.2.2.2.2
    refine fieldsValid_setFields env _ _ ih ?_
    rintro ⟨v1, v2, v3, v4, v5, v6, v7, v8⟩
    exact ⟨v1, v2, v3, v4, v5, v6, v7, hw⟩
  | writeLock x encode l y _ hy ih =>
    unfold Object.WriteLock at hy
    split_ifs at hy
    rw [Except.ok.injEq] at hy
    subst hy
    refine fieldsValid_setFields env _ _ ih ?_
    rintro ⟨v1, v2, v3, v4, v5, v6, v7, v8⟩
    exact ⟨v1, v2, v3, v4, Or.inr (Or.inr (Or.inr rfl)), v6, v7, v8⟩
  | writeSplitTree x s _ hroot hfin ih ihroot =>
    have hf := fieldsValid_fields env _ ih
    have hs : SplitFields.Valid env
        { par := s.root.map (fun root => env.oid.write root.id)
          prev := if s.fin then none else s.children.getLast?.map env.oid.write
          parSig := s.root.map (fun root => env.sig.write root.sig)
          children := if s.fin then s.children.map env.oid.write else []
          splitID := s.id } := by
      refine ⟨?_, ?_, ?_, ?_⟩
      · intro m hm
        simp only [Option.map_eq_some'] at hm
        obtain ⟨r, _, rfl⟩ := hm
        simp [hoid r.id]
      · intro m hm
        by_cases hfn : s.fin = true
        · simp [hfn] at hm
        · simp only [hfn, Bool.false_eq_true, if_false, Option.map_eq_some'] at hm
          obtain ⟨i, _, rfl⟩ := hm
          simp [hoid i]
      · intro m hm
        simp only [Option.map_eq_some'] at hm
        obtain ⟨r, _, rfl⟩ := hm
        simp [hsig r.sig]
      · by_cases hfn : s.fin = true
        · exact ⟨s.children, hfin hfn, by simp [hfn]⟩
        · exact ⟨[], List.nodup_nil, by simp [hfn]⟩
    unfold Object.WriteSplitTree
    cases hr : s.root with
    | none => exact ⟨hf, by simpa [hr] using hs⟩
    | some r => exact ⟨hf, by simpa [hr] using hs, ihroot r hr⟩
  | withID x id _ ih => exact ih
  | withSignature x sig _ ih => exact ih


theorem namedObject_built : Object.Built sampleEnv namedObject := by
  have h0 := Object.Built.setPayloadSize _ 5 (Object.Built.setOwner _ ownerMsg
    (Object.Built.setContainer _ cnrMsg
      (Object.Built.init _ (Object.Built.zero : Object.Built sampleEnv _) rfl) rfl) rfl)
  exact Object.Built.setAttribute _ "FileName" "a.txt" _ h0 rfl

theorem namedObject_accepted :
    AttributesAccepted sampleEnv [(⟨"FileName", "a.txt"⟩ : ObjectAttribute)] := by
  refine ⟨?_, ?_⟩
  · intro a ha
    rw [List.mem_singleton] at ha
    subst ha
    exact ⟨fun h => absurd h (by decide), fun h => absurd h (by decide),
      fun h => absurd h (by decide)⟩
  · rintro ⟨a, ha, hk⟩
    rw [List.mem_singleton] at ha
    subst ha
    exact absurd hk (by decide)

theorem namedObject_complete : namedObject.hdr.Complete sampleEnv :=
  ⟨by simp [createdFields], by simp [createdFields], namedObject_accepted⟩

theorem lastPartObject_built : Object.Built sampleEnv lastPartObject :=
  Object.Built.writeSplitTree namedObject ⟨false, [1, 2, 3], some namedObject, [oidA]⟩
    namedObject_built
    (fun root hroot => by
      simp only [Option.some.injEq] at hroot
      subst hroot
      exact namedObject_built)
    (fun h => by simp at h)

theorem lastPartObject_complete : lastPartObject.hdr.Complete sampleEnv :=
  ⟨⟨by decide, by decide, namedObject_accepted⟩, namedObject_complete⟩

/-- C29 (counterexample): the object made by `Init`, `SetContainer`, `SetOwner` and
`SetAttribute("__NEOFS__TICK_TOPIC", "events")` has container and owner set and was
changed only through public setters, but `ReadFromV2` of the message it writes returns
the error "notification topic without epoch attribute" and leaves the receiver as it
was. -/
theorem C29_counterexample :
    (((Object.zero sampleEnv).Init.SetContainer cnrMsg).SetOwner ownerMsg).SetAttribute
      SysAttributeTickTopic "events" = .ok topicObject ∧
    topicObject.hdr.fields.cid = some cnrMsg ∧
    topicObject.hdr.fields.ownerID = some ownerMsg ∧
    (Object.zero sampleEnv).ReadFromV2 sampleEnv (topicObject.WriteToV2 sampleEnv)
      = .ok (Object.zero sampleEnv, some .topicWithoutEpoch) :=
  ⟨rfl, rfl, rfl, rfl⟩

/-- C29 (amended): let an object be changed only through the public setters (`Init`,
`SetContainer`, `SetOwner`, `SetPayloadSize`, `SetCreationEpoch`, `MakeSession`, the
checksum setters, `SetType`, `SetPayload`, `SetAttribute`, `WriteLock`,
`WriteSplitTree`), with a split tree, if any, that has a root and pairwise distinct
children. If the object, and the roots of its split trees, have container and owner set
and attributes that pass the checks of the decoder (numeric values for the keys
`__NEOFS__EXPIRATION_EPOCH`, `__NEOFS__TICK_EPOCH` and `Timestamp`, no
`__NEOFS__TICK_TOPIC` without `__NEOFS__TICK_EPOCH`), then `ReadFromV2` of the message
written by `WriteToV2` returns no error and makes the receiver equal to the object. The
codecs of identifiers and signatures are assumed to read back what they have written. -/
theorem C29_object_round_trip {ID Sig : Type} [DecidableEq ID] (env : ObjectEnv ID Sig)
    (hoid : env.oid.RoundTrips) (hsig : env.sig.RoundTrips) (val : Object ID Sig)
    (hb : Object.Built env val) (hc : val.hdr.Complete env) (x0 : Object ID Sig) :
    x0.ReadFromV2 env (val.WriteToV2 env) = .ok (val, none) :=
  ReadFromV2_written env hoid hsig x0 val
    (checkHeader_ok env hoid val.hdr (built_fieldsValid env hoid hsig val hb) hc)

/-- C29 (witness): the last part of a split object, whose root is an object with
container, owner, payload size and file name set, is read back from its own message. -/
theorem C29_object_round_trip_witness :
    sampleEnv.oid.RoundTrips ∧ sampleEnv.sig.RoundTrips ∧
    Object.Built sampleEnv lastPartObject ∧ lastPartObject.hdr.Complete sampleEnv ∧
    (Object.zero sampleEnv).ReadFromV2 sampleEnv (lastPartObject.WriteToV2 sampleEnv)
      = .ok (lastPartObject, none) :=
  ⟨sampleOIDCodec_roundTrips, sampleSigCodec_roundTrips, lastPartObject_built,
    lastPartObject_complete,
    C29_object_round_trip sampleEnv sampleOIDCodec_roundTrips sampleSigCodec_roundTrips
      lastPartObject lastPartObject_built lastPartObject_complete (Object.zero sampleEnv)⟩

/-! ## Rules that do not take part in the decision -/

theorem withRule_withRule (e : Error) (k n : Nat) : (e.withRule k).withRule n = e.withRule n := by
  cases e <;> rfl

theorem eraseRule_map_withRule (d : Option Error) (k : Nat) :
    eraseRule (d.map (Error.withRule k)) = eraseRule d := by
  cases d with
  | none => rfl
  | some e => simp [eraseRule, withRule_withRule]

theorem eraseRule_eq_none_iff (d : Option Error) : eraseRule d = none ↔ d = none := by
  cases d <;> simp [eraseRule]

theorem eraseRule_eq_denied_iff (d : Option Error) :
    eraseRule d = some .ErrAccessDenied ↔ d = some .ErrAccessDenied := by
  cases d with
  | none => simp [eraseRule]
  | some e => cases e <;> simp [eraseRule, Error.withRule]

theorem eraseRule_eq_notFound_iff (d : Option Error) :
    eraseRule d = some .ErrRuleNotFound ↔ d = some .ErrRuleNotFound := by
  cases d with
  | none => simp [eraseRule]
  | some e => cases e <;> simp [eraseRule, Error.withRule]

theorem withRule_isEvaluationError (e : Error) (k : Nat) :
    (e.withRule k).IsEvaluationError ↔ e.IsEvaluationError := by
  cases e <;> simp [Error.withRule, Error.IsEvaluationError]

/-- The scan of a table and the scan of the table without the rules for other operations
return the same, up to the rule index of an evaluation error. -/
theorem rulesLoop_filter_op (bKey : List Nat) (roleV2 opV2 : Nat) (md : RequestMetadata)
    (rs : List Record) :
    ∀ (i k : Nat), eraseRule (rulesLoop bKey roleV2 opV2 md i rs) =
      eraseRule (rulesLoop bKey roleV2 opV2 md k
        (rs.filter (fun r => decide (r.op = opV2)))) := by
  induction rs with
  | nil => intro i k; rfl
  | cons r rs ih =>
    intro i k
    by_cases hop : r.op = opV2
    · rw [List.filter_cons_of_pos (by simpa using hop)]
      by_cases hsub : r.SubjectMatches bKey roleV2
      · rw [rulesLoop_cons_filters bKey roleV2 opV2 md i r _ hop hsub,
          rulesLoop_cons_filters bKey roleV2 opV2 md k r _ hop hsub,
          filterLoop_reindex i k md r.filters 0 0]
        cases hf : filterLoop i md 0 r.filters 0 with
        | error e =>
          simp only [Except.mapError]
          exact (eraseRule_map_withRule (some e) k).symm
        | ok m =>
          by_cases hge : m ≥ r.filters.length
          · simp only [Except.mapError, if_pos hge]
            rw [actionSwitch_reindex i k r.action, eraseRule_map_withRule]
          · simp only [Except.mapError, if_neg hge]
            exact ih (i + 1) (k + 1)
      · rw [rulesLoop_cons_other_subject bKey roleV2 opV2 md i r _ hsub,
          rulesLoop_cons_other_subject bKey roleV2 opV2 md k r _ hsub]
        exact ih (i + 1) (k + 1)
    · rw [List.filter_cons_of_neg (by simpa using hop),
        rulesLoop_cons_other_op bKey roleV2 opV2 md i r rs hop]
      exact ih (i + 1) k

theorem isEvaluationError_not_decision {e : Error} (h : e.IsEvaluationError) :
    ¬ IsDecision (some e) := by
  rintro (h1 | h1 | h1)
  · cases h1
  · cases h1; exact h.1 rfl
  · cases h1; exact h.2 rfl

theorem eraseRule_evaluationError (d : Option Error) :
    (∃ e, eraseRule d = some e ∧ e.IsEvaluationError) ↔
      ∃ e, d = some e ∧ e.IsEvaluationError := by
  cases d with
  | none => simp [eraseRule]
  | some e =>
    simp only [eraseRule, Option.map_some', Option.some.injEq]
    constructor
    · rintro ⟨e2, rfl, h⟩
      exact ⟨e, rfl, (withRule_isEvaluationError e 0).mp h⟩
    · rintro ⟨e2, rfl, h⟩
      exact ⟨_, rfl, (withRule_isEvaluationError e 0).mpr h⟩

/-- C31: for every table and request (requester key present or absent), `CheckAccess` on
the table and on the table without the rules whose operation differs from the requested
one return the same up to the rule index quoted by an evaluation error: `nil` in both
cases, `ErrAccessDenied` in both, `ErrRuleNotFound` in both, or an evaluation error in
both. Nothing is assumed about the deleted rules: their actions, targets and filters may
be malformed. -/
theorem C31_other_operations_invisible (c : Casts) (x : Extended)
    (senderKey : Option PublicKey) (role : Role) (op : Op) (md : RequestMetadata) :
    (x.CheckAccess c senderKey role op md).map eraseRule =
      ((x.onlyOperation c op).CheckAccess c senderKey role op md).map eraseRule ∧
    (x.CheckAccess c senderKey role op md = .ok none ↔
      (x.onlyOperation c op).CheckAccess c senderKey role op md = .ok none) ∧
    (x.CheckAccess c senderKey role op md = .ok (some .ErrAccessDenied) ↔
      (x.onlyOperation c op).CheckAccess c senderKey role op md
        = .ok (some .ErrAccessDenied)) ∧
    (x.CheckAccess c senderKey role op md = .ok (some .ErrRuleNotFound) ↔
      (x.onlyOperation c op).CheckAccess c senderKey role op md
        = .ok (some .ErrRuleNotFound)) ∧
    ((∃ e, x.CheckAccess c senderKey role op md = .ok (some e) ∧ e.IsEvaluationError) ↔
      ∃ e, (x.onlyOperation c op).CheckAccess c senderKey role op md = .ok (some e) ∧
        e.IsEvaluationError) := by
  cases senderKey with
  | none =>
    refine ⟨rfl, ?_, ?_, ?_, ?_⟩ <;> simp [Extended.CheckAccess]
  | some key =>
    have h := rulesLoop_filter_op (SerializePublicKey key) (c.castRole role) (c.castOp op) md
      x.m.records 0 0
    simp only [Extended.CheckAccess, Extended.onlyOperation, Except.map, Except.ok.injEq]
    refine ⟨h, ?_, ?_, ?_, ?_⟩
    · rw [← eraseRule_eq_none_iff, h, eraseRule_eq_none_iff]
    · rw [← eraseRule_eq_denied_iff, h, eraseRule_eq_denied_iff]
    · rw [← eraseRule_eq_notFound_iff, h, eraseRule_eq_notFound_iff]
    · rw [← eraseRule_evaluationError, h, eraseRule_evaluationError]

/-- A filter pass over a list with a Service-scoped filter that returns a count returns
one below the number of filters. -/
theorem filterLoop_service_lt (i : Nat) (md : RequestMetadata) (fs : List HeaderFilter) :
    ∀ (j n m : Nat), (∃ f ∈ fs, f.hdrType = HeaderTypeService) →
      filterLoop i md j fs n = .ok m → m < n + fs.length := by
  induction fs with
  | nil => intro j n m ⟨f, hf, _⟩; simp at hf
  | cons g fs ih =>
    intro j n m hex hm
    by_cases hsvc : g.hdrType = HeaderTypeService
    · rw [filterLoop_cons_service i md j g fs n hsvc] at hm
      cases hm
      simp
    · have hex2 : ∃ f ∈ fs, f.hdrType = HeaderTypeService := by
        obtain ⟨f, hf, hfs⟩ := hex
        rcases List.mem_cons.mp hf with rfl | h
        · exact absurd hfs hsvc
        · exact ⟨f, h, hfs⟩
      by_cases ht : g.hdrType = HeaderTypeRequest ∨ g.hdrType = HeaderTypeObject
      · by_cases hm1 : g.matchType = MatchTypeStringEqual ∨
            g.matchType = MatchTypeStringNotEqual
        · have hsup : g.Supported := ⟨ht, hm1⟩
          by_cases hsat : g.Satisfied md
          · rw [filterLoop_cons_sat i md j g fs n hsat] at hm
            have := ih (j + 1) (n + 1) m hex2 hm
            simp only [List.length_cons]
            omega
          · rw [filterLoop_cons_unsat i md j g fs n hsup hsat] at hm
            have := ih (j + 1) n m hex2 hm
            simp only [List.length_cons]
            omega
        · push_neg at hm1
          rw [filterLoop_cons_badMatcher i md j g fs n ht hm1.1 hm1.2] at hm
          cases hm
      · rw [filterLoop_cons_badType i md j g fs n hsvc ht] at hm
        cases hm

/-- The scan passes over a rule with a Service-scoped filter, or returns the evaluation
error of one of its filters. -/
theorem rulesLoop_cons_service (bKey : List Nat) (roleV2 opV2 : Nat) (md : RequestMetadata)
    (i : Nat) (r : Record) (rs : List Record) (h : r.HasServiceFilter) :
    rulesLoop bKey roleV2 opV2 md i (r :: rs) = rulesLoop bKey roleV2 opV2 md (i + 1) rs ∨
    ∃ e, e.IsEvaluationError ∧ rulesLoop bKey roleV2 opV2 md i (r :: rs) = some e := by
  by_cases hop : r.op = opV2
  · by_cases hsub : r.SubjectMatches bKey roleV2
    · rw [rulesLoop_cons_filters bKey roleV2 opV2 md i r rs hop hsub]
      cases hf : filterLoop i md 0 r.filters 0 with
      | error e => exact Or.inr ⟨e, (filterLoop_error i md r.filters 0 0 e hf).1, rfl⟩
      | ok m =>
        have := filterLoop_service_lt i md r.filters 0 0 m h hf
        left
        simp only
        rw [if_neg (by omega)]
    · exact Or.inl (rulesLoop_cons_other_subject bKey roleV2 opV2 md i r rs hsub)
  · exact Or.inl (rulesLoop_cons_other_op bKey roleV2 opV2 md i r rs hop)

theorem noServiceFilter_iff (r : Record) :
    r.noServiceFilter = true ↔ ¬ r.HasServiceFilter := by
  simp [Record.HasServiceFilter, Record.noServiceFilter]

theorem actionSwitch_decision (i k a : Nat) (h : IsDecision (actionSwitch i a)) :
    actionSwitch k a = actionSwitch i a := by
  unfold actionSwitch at h ⊢
  by_cases h1 : a = ActionAllow
  · simp [h1]
  · by_cases h2 : a = ActionDeny
    · simp [h1, h2]
    · rw [if_neg h1, if_neg h2] at h
      rcases h with h | h | h <;> cases h

/-- A scan that ends in a decision ends in the same decision on the table without the
rules that have a Service-scoped filter. -/
theorem rulesLoop_without_service (bKey : List Nat) (roleV2 opV2 : Nat) (md : RequestMetadata)
    (rs : List Record) :
    ∀ (i k : Nat), IsDecision (rulesLoop bKey roleV2 opV2 md i rs) →
      rulesLoop bKey roleV2 opV2 md k (rs.filter Record.noServiceFilter)
        = rulesLoop bKey roleV2 opV2 md i rs := by
  induction rs with
  | nil => intro i k _; rfl
  | cons r rs ih =>
    intro i k hd
    by_cases hsvc : r.HasServiceFilter
    · rw [List.filter_cons_of_neg (by rw [noServiceFilter_iff]; exact not_not.mpr hsvc)]
      rcases rulesLoop_cons_service bKey roleV2 opV2 md i r rs hsvc with h | ⟨e, he, h⟩
      · rw [h] at hd ⊢
        exact ih (i + 1) k hd
      · rw [h] at hd
        exact absurd hd (isEvaluationError_not_decision he)
    · rw [List.filter_cons_of_pos ((noServiceFilter_iff r).mpr hsvc)]
      by_cases hop : r.op = opV2
      · by_cases hsub : r.SubjectMatches bKey roleV2
        · rw [rulesLoop_cons_filters bKey roleV2 opV2 md i r _ hop hsub] at hd ⊢
          rw [rulesLoop_cons_filters bKey roleV2 opV2 md k r _ hop hsub,
            filterLoop_reindex i k md r.filters 0 0]
          cases hf : filterLoop i md 0 r.filters 0 with
          | error e =>
            rw [hf] at hd
            exact absurd hd
              (isEvaluationError_not_decision (filterLoop_error i md r.filters 0 0 e hf).1)
          | ok m =>
            rw [hf] at hd
            by_cases hge : m ≥ r.filters.length
            · simp only [if_pos hge] at hd
              simp only [Except.mapError, if_pos hge]
              exact actionSwitch_decision i k r.action hd
            · simp only [if_neg hge] at hd
              simp only [Except.mapError, if_neg hge]
              exact ih (i + 1) (k + 1) hd
        · rw [rulesLoop_cons_other_subject bKey roleV2 opV2 md i r _ hsub] at hd ⊢
          rw [rulesLoop_cons_other_subject bKey roleV2 opV2 md k r _ hsub]
          exact ih (i + 1) (k + 1) hd
      · rw [rulesLoop_cons_other_op bKey roleV2 opV2 md i r _ hop] at hd ⊢
        rw [rulesLoop_cons_other_op bKey roleV2 opV2 md k r _ hop]
        exact ih (i + 1) (k + 1) hd

/-- C32: for every rule with at least one Service-scoped filter and every request,
`CheckAccess` on the single-rule table returns `ErrRuleNotFound` or an evaluation error,
never `nil` and never `ErrAccessDenied`; and whenever `CheckAccess` on a table returns
`nil`, `ErrAccessDenied` or `ErrRuleNotFound`, it returns the same on the table without
the rules that have a Service-scoped filter. -/
theorem C32_service_rule_never_decides (c : Casts) (key : PublicKey) (role : Role) (op : Op)
    (md : RequestMetadata) :
    (∀ r : Rule, r.m.HasServiceFilter →
      ((NewExtended r).CheckAccess c (some key) role op md = .ok (some .ErrRuleNotFound) ∨
        ∃ e, e.IsEvaluationError ∧
          (NewExtended r).CheckAccess c (some key) role op md = .ok (some e)) ∧
      (NewExtended r).CheckAccess c (some key) role op md ≠ .ok none ∧
      (NewExtended r).CheckAccess c (some key) role op md ≠ .ok (some .ErrAccessDenied)) ∧
    (∀ (x : Extended) (d : Option Error), IsDecision d →
      x.CheckAccess c (some key) role op md = .ok d →
      x.withoutServiceRules.CheckAccess c (some key) role op md = .ok d) := by
  refine ⟨?_, ?_⟩
  · intro r hr
    have hcheck : (NewExtended r).CheckAccess c (some key) role op md =
        .ok (rulesLoop (SerializePublicKey key) (c.castRole role) (c.castOp op) md 0 [r.m]) :=
      rfl
    have hor : (NewExtended r).CheckAccess c (some key) role op md
          = .ok (some .ErrRuleNotFound) ∨
        ∃ e, e.IsEvaluationError ∧
          (NewExtended r).CheckAccess c (some key) role op md = .ok (some e) := by
      rcases rulesLoop_cons_service (SerializePublicKey key) (c.castRole role) (c.castOp op)
        md 0 r.m [] hr with h | ⟨e, he, h⟩
      · left; rw [hcheck, h]; rfl
      · right; exact ⟨e, he, by rw [hcheck, h]⟩
    refine ⟨hor, ?_, ?_⟩
    · rcases hor with h | ⟨e, _, h⟩ <;> rw [h] <;> simp
    · rcases hor with h | ⟨e, he, h⟩
      · rw [h]; simp
      · rw [h]
        intro h2
        simp only [Except.ok.injEq, Option.some.injEq] at h2
        exact he.1 h2
  · intro x d hd hx
    simp only [Extended.CheckAccess, Except.ok.injEq] at hx
    simp only [Extended.CheckAccess, Extended.withoutServiceRules, Except.ok.injEq]
    rw [← hx] at hd ⊢
    exact rulesLoop_without_service _ _ _ _ _ 0 0 hd

/-- C32 (witness): the table `[serviceFilterRule, Deny(Get, Owner)]` denies the owner, and
so does the table without its first rule. -/
theorem C32_service_rule_never_decides_witness :
    serviceFilterRule.m.HasServiceFilter ∧
    (NewExtended serviceFilterRule).CheckAccess protocolCasts (some keyA) RoleOwner
      OpObjectGet keyValueMeta ≠ .ok none ∧
    serviceThenDeny.CheckAccess protocolCasts (some keyA) RoleOwner OpObjectGet keyValueMeta
      = .ok (some .ErrAccessDenied) ∧
    serviceThenDeny.withoutServiceRules.CheckAccess protocolCasts (some keyA) RoleOwner
      OpObjectGet keyValueMeta = .ok (some .ErrAccessDenied) := by
  have hsvc : serviceFilterRule.m.HasServiceFilter :=
    ⟨⟨HeaderTypeService, MatchTypeStringEqual, "key", "value"⟩, by simp [serviceFilterRule],
      rfl⟩
  have h := C32_service_rule_never_decides protocolCasts keyA RoleOwner OpObjectGet
    keyValueMeta
  exact ⟨hsvc, (h.1 serviceFilterRule hsvc).2.1, rfl,
    h.2 serviceThenDeny (some .ErrAccessDenied) (Or.inr (Or.inl rfl)) rfl⟩


/-! ## Unsupported actions, atomic decoding, system roles -/

/-- An action error of the scan quotes a rule index at or after the index the scan was
entered at. -/
theorem rulesLoop_action_index (bKey : List Nat) (roleV2 opV2 : Nat) (md : RequestMetadata)
    (rs : List Record) :
    ∀ (i n a : Nat), rulesLoop bKey roleV2 opV2 md i rs = some (.unsupportedAction n a) →
      i ≤ n := by
  induction rs with
  | nil => intro i n a h; simp [rulesLoop] at h
  | cons r rs ih =>
    intro i n a h
    by_cases hop : r.op = opV2
    · by_cases hsub : r.SubjectMatches bKey roleV2
      · rw [rulesLoop_cons_filters bKey roleV2 opV2 md i r rs hop hsub] at h
        cases hf : filterLoop i md 0 r.filters 0 with
        | error e =>
          rw [hf] at h
          simp only [Option.some.injEq] at h
          have := (filterLoop_error i md r.filters 0 0 e hf).2
          rw [h] at this
          simp only [Error.withRule, Error.unsupportedAction.injEq, and_true] at this
          omega
        | ok m =>
          rw [hf] at h
          by_cases hge : m ≥ r.filters.length
          · simp only [if_pos hge] at h
            by_cases h1 : r.action = ActionAllow
            · simp [actionSwitch, h1] at h
            · by_cases h2 : r.action = ActionDeny
              · simp [actionSwitch, h1, h2] at h
              · simp only [actionSwitch, if_neg h1, if_neg h2, Option.some.injEq,
                  Error.unsupportedAction.injEq] at h
                omega
          · simp only [if_neg hge] at h
            have := ih (i + 1) n a h
            omega
      · rw [rulesLoop_cons_other_subject bKey roleV2 opV2 md i r rs hsub] at h
        have := ih (i + 1) n a h
        omega
    · rw [rulesLoop_cons_other_op bKey roleV2 opV2 md i r rs hop] at h
      have := ih (i + 1) n a h
      omega

/-- C33 (counterexample): the rule `badActionFilterRule` matches operation and subject of
the owner's Get request, its action is neither Allow nor Deny and its Object-scoped
NotEqual filter is not satisfied by the request without headers; `CheckAccess` on the
single-rule table reports an error for the rule, the evaluation error of its second
filter, and does not return `ErrRuleNotFound`. -/
theorem C33_counterexample :
    badActionFilterRule.m.op = protocolCasts.castOp OpObjectGet ∧
    badActionFilterRule.m.SubjectMatches (SerializePublicKey keyA)
      (protocolCasts.castRole RoleOwner) ∧
    (badActionFilterRule.m.action ≠ ActionAllow ∧
      badActionFilterRule.m.action ≠ ActionDeny) ∧
    (∃ f ∈ badActionFilterRule.m.filters, f.Supported ∧ ¬ f.Satisfied noMeta) ∧
    (NewExtended badActionFilterRule).CheckAccess protocolCasts (some keyA) RoleOwner
      OpObjectGet noMeta = .ok (some (.unsupportedHeaderType 0 0 1)) ∧
    (NewExtended badActionFilterRule).CheckAccess protocolCasts (some keyA) RoleOwner
      OpObjectGet noMeta ≠ .ok (some .ErrRuleNotFound) := by
  refine ⟨rfl, ownerTarget_matches _ _ rfl, ⟨by decide, by decide⟩, ?_, rfl, ?_⟩
  · exact ⟨⟨HeaderTypeObject, MatchTypeStringNotEqual, FilterObjectID, "id"⟩,
      by simp [badActionFilterRule], ⟨Or.inr rfl, Or.inr rfl⟩,
      headerAbsent_not_satisfied (headerAbsent_noMeta _)⟩
  · intro h
    have h2 : (NewExtended badActionFilterRule).CheckAccess protocolCasts (some keyA)
      RoleOwner OpObjectGet noMeta = .ok (some (.unsupportedHeaderType 0 0 1)) := rfl
    rw [h2] at h
    cases h

/-- C33 (amended): let rule `i` match operation and subject, have an action that is
neither Allow nor Deny (so that its action switch is the error "action is not
supported"), and have a filter of Request or Object scope with Equal or NotEqual matcher
that is not satisfied. Then the scan never returns the action error of rule `i`: it
continues with rule `i + 1`, or returns the evaluation error of a filter of the rule with
unsupported scope or matcher. When no filter of the rule is unsupported it continues with
rule `i + 1`, and `CheckAccess` on the single-rule table returns `ErrRuleNotFound`. -/
theorem C33_unsupported_action_guarded (c : Casts) (r : Rule) (key : PublicKey) (role : Role)
    (op : Op) (md : RequestMetadata) (hop : r.m.op = c.castOp op)
    (hsub : r.m.SubjectMatches (SerializePublicKey key) (c.castRole role))
    (hact : r.m.action ≠ ActionAllow ∧ r.m.action ≠ ActionDeny)
    (hex : ∃ f ∈ r.m.filters, f.Supported ∧ ¬ f.Satisfied md) :
    (∀ (i : Nat) (rest : List Record),
      actionSwitch i r.m.action = some (.unsupportedAction i r.m.action) ∧
      rulesLoop (SerializePublicKey key) (c.castRole role) (c.castOp op) md i (r.m :: rest)
        ≠ some (.unsupportedAction i r.m.action) ∧
      (rulesLoop (SerializePublicKey key) (c.castRole role) (c.castOp op) md i (r.m :: rest)
          = rulesLoop (SerializePublicKey key) (c.castRole role) (c.castOp op) md (i + 1) rest ∨
        ∃ g ∈ r.m.filters, g.Unsupported ∧ ∃ k,
          (rulesLoop (SerializePublicKey key) (c.castRole role) (c.castOp op) md i
              (r.m :: rest) = some (.unsupportedHeaderType g.hdrType i k) ∨
           rulesLoop (SerializePublicKey key) (c.castRole role) (c.castOp op) md i
              (r.m :: rest) = some (.unsupportedMatcher g.matchType i k)))) ∧
    ((∀ g ∈ r.m.filters, ¬ g.Unsupported) →
      (∀ (i : Nat) (rest : List Record),
        rulesLoop (SerializePublicKey key) (c.castRole role) (c.castOp op) md i (r.m :: rest)
          = rulesLoop (SerializePublicKey key) (c.castRole role) (c.castOp op) md (i + 1)
              rest) ∧
      (NewExtended r).CheckAccess c (some key) role op md
        = .ok (some .ErrRuleNotFound)) := by
  have hscan := fun (i : Nat) (rest : List Record) =>
    rulesLoop_cons_unsat (SerializePublicKey key) (c.castRole role) (c.castOp op) md i r.m
      rest hop hsub hex
  refine ⟨?_, ?_⟩
  · intro i rest
    refine ⟨by simp [actionSwitch, hact.1, hact.2], ?_, ?_⟩
    · rw [hscan i rest]
      cases hf : filterLoop i md 0 r.m.filters 0 with
      | error e =>
        obtain ⟨g, _, _, k, hk⟩ := filterLoop_error_unsupported i md r.m.filters 0 0 e hf
        rcases hk with hk | hk <;> rw [hk] <;> simp
      | ok m =>
        intro h
        have := rulesLoop_action_index _ _ _ _ _ _ _ _ h
        omega
    · rw [hscan i rest]
      cases hf : filterLoop i md 0 r.m.filters 0 with
      | error e =>
        right
        obtain ⟨g, hg, hu, k, hk⟩ := filterLoop_error_unsupported i md r.m.filters 0 0 e hf
        refine ⟨g, hg, hu, k, ?_⟩
        rcases hk with hk | hk
        · left; rw [hk]
        · right; rw [hk]
      | ok m => left; rfl
  · intro hall
    have hcont : ∀ (i : Nat) (rest : List Record),
        rulesLoop (SerializePublicKey key) (c.castRole role) (c.castOp op) md i (r.m :: rest)
          = rulesLoop (SerializePublicKey key) (c.castRole role) (c.castOp op) md (i + 1)
              rest := by
      intro i rest
      obtain ⟨m, hm⟩ := filterLoop_ok_of_not_unsupported i md r.m.filters hall 0 0
      rw [hscan i rest, hm]
    refine ⟨hcont, ?_⟩
    have hcheck : (NewExtended r).CheckAccess c (some key) role op md =
        .ok (rulesLoop (SerializePublicKey key) (c.castRole role) (c.castOp op) md 0 [r.m]) :=
      rfl
    rw [hcheck, hcont 0 []]
    rfl

/-- C33 (witness): the rule `badActionRule`, with an unsupported action and an unsatisfied
object-ID exclusion filter, gives `ErrRuleNotFound` on the single-rule table. -/
theorem C33_unsupported_action_guarded_witness :
    badActionRule.m.op = protocolCasts.castOp OpObjectGet ∧
    (badActionRule.m.action ≠ ActionAllow ∧ badActionRule.m.action ≠ ActionDeny) ∧
    (∃ f ∈ badActionRule.m.filters, f.Supported ∧ ¬ f.Satisfied noMeta) ∧
    (NewExtended badActionRule).CheckAccess protocolCasts (some keyA) RoleOwner OpObjectGet
      noMeta = .ok (some .ErrRuleNotFound) := by
  have hex : ∃ f ∈ badActionRule.m.filters, f.Supported ∧ ¬ f.Satisfied noMeta :=
    ⟨⟨HeaderTypeObject, MatchTypeStringNotEqual, FilterObjectID, "id"⟩,
      by simp [badActionRule], ⟨Or.inr rfl, Or.inr rfl⟩,
      headerAbsent_not_satisfied (headerAbsent_noMeta _)⟩
  have hall : ∀ g ∈ badActionRule.m.filters, ¬ g.Unsupported := by
    intro g hg
    simp [badActionRule] at hg
    subst hg
    simp [HeaderFilter.Unsupported, HeaderTypeObject, HeaderTypeRequest, HeaderTypeService,
      MatchTypeStringNotEqual, MatchTypeStringEqual]
  exact ⟨rfl, ⟨by decide, by decide⟩, hex,
    ((C33_unsupported_action_guarded protocolCasts badActionRule keyA RoleOwner OpObjectGet
      noMeta rfl (ownerTarget_matches _ _ rfl) ⟨by decide, by decide⟩ hex).2 hall).2⟩

/-- C34: whenever `readFromV2`, strict or lenient, returns an error, the receiver is
exactly as before the call, so `CheckAccess` and `Container` on it return what they
returned before; when it returns no error the receiver holds exactly the message read. -/
theorem C34_decoding_atomic (validCID : ContainerID → Bool) (x : Extended) (m : Table)
    (check : Bool) :
    ((x.readFromV2 validCID m check).2 ≠ none →
      (x.readFromV2 validCID m check).1 = x ∧
      (∀ (c : Casts) (senderKey : Option PublicKey) (role : Role) (op : Op)
        (md : RequestMetadata),
        (x.readFromV2 validCID m check).1.CheckAccess c senderKey role op md
          = x.CheckAccess c senderKey role op md) ∧
      (∀ (CID : Type) (k : CIDCodec CID),
        (x.readFromV2 validCID m check).1.Container k = x.Container k)) ∧
    ((x.readFromV2 validCID m check).2 = none →
      (x.readFromV2 validCID m check).1 = ⟨m⟩ ∧
      (x.readFromV2 validCID m check).1.WriteToV2 = m) := by
  obtain ⟨_, hok, herr⟩ := readFromV2_spec validCID x m check
  refine ⟨?_, ?_⟩
  · intro h
    have hx := herr h
    refine ⟨hx, ?_, ?_⟩
    · intro c senderKey role op md; rw [hx]
    · intro CID k; rw [hx]
  · intro h
    have hx := hok h
    exact ⟨hx, by rw [hx]; rfl⟩

/-- C34 (witness): strict decoding of a message without rules fails and leaves the
receiver `denyThenAllow` as it was. -/
theorem C34_decoding_atomic_witness :
    (denyThenAllow.readFromV2 (fun _ => true) ⟨some versionCurrent, none, []⟩ true).2 ≠ none ∧
    (denyThenAllow.readFromV2 (fun _ => true) ⟨some versionCurrent, none, []⟩ true).1
      = denyThenAllow :=
  ⟨by decide,
    ((C34_decoding_atomic (fun _ => true) denyThenAllow ⟨some versionCurrent, none, []⟩
      true).1 (by decide)).1⟩

theorem AddTargetSubjects_system_role (pre post : List RuleTarget) :
    ∀ x : Rule, x.AddTargetSubjects (pre ++ ⟨RoleContainer, []⟩ :: post) =
      x.AddTargetSubjects (pre ++ ⟨RoleInnerRing, []⟩ :: post) := by
  intro x
  rw [AddTargetSubjects_append, AddTargetSubjects_append]
  cases x.AddTargetSubjects pre with
  | error e => rfl
  | ok y =>
    simp only
    rw [AddTargetSubjects_cons_role y ⟨RoleContainer, []⟩ post RoleSystem (by decide) rfl,
      AddTargetSubjects_cons_role y ⟨RoleInnerRing, []⟩ post RoleSystem (by decide) rfl]

/-- C35: for every operation, `Allow(op, SubjectsWithRole(RoleContainer))` and
`Allow(op, SubjectsWithRole(RoleInnerRing))` are the same rule, whose only target is the
protocol's system role (both calls panic when the operation is zero), and likewise for
`Deny`; `AddTargetSubjects` gives the same rule whichever of the two targets stands at a
place of its argument list; hence `CheckAccess` on the tables of the two rules returns
the same for every request. -/
theorem C35_container_innerRing_same (c : Casts) (op : Op) :
    (do let t ← SubjectsWithRole RoleContainer; Allow c op t) =
      (do let t ← SubjectsWithRole RoleInnerRing; Allow c op t) ∧
    (do let t ← SubjectsWithRole RoleContainer; Deny c op t) =
      (do let t ← SubjectsWithRole RoleInnerRing; Deny c op t) ∧
    (op ≠ 0 →
      (do let t ← SubjectsWithRole RoleContainer; Allow c op t) =
        .ok ⟨⟨c.castOp op, ActionAllow, [], [⟨RoleSystem, []⟩]⟩⟩ ∧
      (do let t ← SubjectsWithRole RoleInnerRing; Deny c op t) =
        .ok ⟨⟨c.castOp op, ActionDeny, [], [⟨RoleSystem, []⟩]⟩⟩) ∧
    (∀ (x : Rule) (pre post : List RuleTarget),
      (do let t ← SubjectsWithRole RoleContainer; x.AddTargetSubjects (pre ++ t :: post)) =
        (do let t ← SubjectsWithRole RoleInnerRing; x.AddTargetSubjects (pre ++ t :: post))) ∧
    (∀ (senderKey : Option PublicKey) (role : Role) (op2 : Op) (md : RequestMetadata),
      (do
        let t ← SubjectsWithRole RoleContainer
        let r ← Allow c op t
        (NewExtended r).CheckAccess c senderKey role op2 md) =
      (do
        let t ← SubjectsWithRole RoleInnerRing
        let r ← Allow c op t
        (NewExtended r).CheckAccess c senderKey role op2 md)) := by
  have hc : SubjectsWithRole RoleContainer = .ok ⟨RoleContainer, []⟩ := rfl
  have hi : SubjectsWithRole RoleInnerRing = .ok ⟨RoleInnerRing, []⟩ := rfl
  have hnew : ∀ action, newRule c action ⟨RoleContainer, []⟩ op =
      newRule c action ⟨RoleInnerRing, []⟩ op := by
    intro action
    by_cases hop : op = 0
    · simp [newRule, checkTarget, hop, RoleContainer, RoleInnerRing]
    · rw [newRule_role c action op (by decide) (by rfl : roleSwitch RoleContainer = some RoleSystem) hop,
        newRule_role c action op (by decide) (by rfl : roleSwitch RoleInnerRing = some RoleSystem) hop]
  simp only [hc, hi, bind, Except.bind, Allow, Deny]
  refine ⟨hnew _, hnew _, ?_, ?_, ?_⟩
  · intro hop
    exact ⟨newRule_role c ActionAllow op (by decide) rfl hop,
      newRule_role c ActionDeny op (by decide) rfl hop⟩
  · intro x pre post
    exact AddTargetSubjects_system_role pre post x
  · intro senderKey role op2 md
    rw [hnew]

/-! ## Tombstones, storage groups, split information, search filters -/

/-- The member loop of `Tombstone.Unmarshal` returns no error iff every member is
well-formed and the identifiers read are pairwise distinct and not among those seen
before; it then leaves the identifiers read, in order. -/
theorem tombstoneMembersLoop_spec {ID : Type} [DecidableEq ID] (k : OIDCodec ID) :
    ∀ (msgs : List ObjectIDMsg) (seen : List ID),
      ((tombstoneMembersLoop k msgs seen).2 = none ↔
        ∃ ids : List ID, msgs.map k.read = ids.map some ∧ ids.Nodup ∧ ∀ i ∈ ids, i ∉ seen) ∧
      (∀ ids : List ID, msgs.map k.read = ids.map some →
        (tombstoneMembersLoop k msgs seen).2 = none →
        (tombstoneMembersLoop k msgs seen).1 = ids) := by
  intro msgs
  induction msgs with
  | nil =>
    intro seen
    refine ⟨⟨fun _ => ⟨[], rfl, List.nodup_nil, by simp⟩, fun _ => rfl⟩, ?_⟩
    intro ids h _
    cases ids with
    | nil => rfl
    | cons a ids => simp at h
  | cons m msgs ih =>
    intro seen
    cases hr : k.read m with
    | none =>
      simp only [tombstoneMembersLoop, hr, List.map_cons]
      refine ⟨⟨fun h => (by cases h), ?_⟩, ?_⟩
      · rintro ⟨ids, h, _⟩
        cases ids with
        | nil => simp at h
        | cons a ids => simp at h
      · intro ids _ h
        cases h
    | some id =>
      by_cases hseen : id ∈ seen
      · simp only [tombstoneMembersLoop, hr, List.map_cons, if_pos hseen]
        refine ⟨⟨fun h => (by cases h), ?_⟩, ?_⟩
        · rintro ⟨ids, h, _, hns⟩
          cases ids with
          | nil => simp at h
          | cons a ids =>
            simp only [List.map_cons, List.cons.injEq, Option.some.injEq] at h
            exact absurd hseen (by rw [h.1]; exact hns a (List.mem_cons_self _ _))
        · intro ids _ h
          cases h
      · obtain ⟨ih1, ih2⟩ := ih (id :: seen)
        simp only [tombstoneMembersLoop, hr, List.map_cons, if_neg hseen]
        refine ⟨?_, ?_⟩
        · rw [ih1]
          constructor
          · rintro ⟨ids, h, hnd, hns⟩
            refine ⟨id :: ids, by simp [h], ?_, ?_⟩
            · rw [List.nodup_cons]
              exact ⟨fun hmem => hns id hmem (List.mem_cons_self _ _), hnd⟩
            · intro i hi
              rcases List.mem_cons.mp hi with rfl | hi
              · exact hseen
              · exact fun h2 => hns i hi (List.mem_cons_of_mem _ h2)
          · rintro ⟨ids, h, hnd, hns⟩
            cases ids with
            | nil => simp at h
            | cons a ids =>
              simp only [List.map_cons, List.cons.injEq, Option.some.injEq] at h
              obtain ⟨rfl, h⟩ := h
              rw [List.nodup_cons] at hnd
              refine ⟨ids, h, hnd.2, ?_⟩
              intro i hi hmem
              rcases List.mem_cons.mp hmem with rfl | hmem
              · exact hnd.1 hi
              · exact hns i (List.mem_cons_of_mem _ hi) hmem
        · intro ids h hnone
          cases ids with
          | nil => simp at h
          | cons a ids =>
            simp only [List.map_cons, List.cons.injEq, Option.some.injEq] at h
            obtain ⟨rfl, h⟩ := h
            rw [ih2 ids h hnone]

/-- C36: `Tombstone.Unmarshal` returns no error iff the data decodes, the member list of
the message is not empty, every member identifier is well-formed and the identifiers are
pairwise distinct; the receiver then holds the identifiers read from the members, in the
same order and of the same number. When the data does not decode or the member list is
empty the receiver is unchanged. -/
theorem C36_tombstone_unmarshal {ID : Type} [DecidableEq ID] (k : OIDCodec ID)
    (decode : List Nat → Option TombstoneMsg) (x : Tombstone ID) (data : List Nat) :
    ((x.Unmarshal k decode data).2 = none ↔
      ∃ m, decode data = some m ∧ m.members ≠ [] ∧
        ∃ ids : List ID, m.members.map k.read = ids.map some ∧ ids.Nodup) ∧
    (∀ (m : TombstoneMsg) (ids : List ID), decode data = some m →
      m.members.map k.read = ids.map some → (x.Unmarshal k decode data).2 = none →
      (x.Unmarshal k decode data).1.Members = ids ∧
      (x.Unmarshal k decode data).1.Members.length = m.members.length) ∧
    (decode data = none → x.Unmarshal k decode data = (x, some .decodeBinary)) ∧
    (∀ m, decode data = some m → m.members = [] →
      x.Unmarshal k decode data = (x, some .missingMembers)) := by
  refine ⟨?_, ?_, ?_, ?_⟩
  · cases hd : decode data with
    | none => simp [Tombstone.Unmarshal, hd]
    | some m =>
      by_cases hm : m.members.length = 0
      · have : m.members = [] := List.length_eq_zero.mp hm
        simp [Tombstone.Unmarshal, hd, this]
      · have hne : m.members ≠ [] := fun h => hm (by rw [h]; rfl)
        simp only [Tombstone.Unmarshal, hd, if_neg hm, Option.some.injEq, exists_eq_left',
          (tombstoneMembersLoop_spec k m.members []).1]
        constructor
        · rintro ⟨ids, h, hnd, _⟩
          exact ⟨hne, ids, h, hnd⟩
        · rintro ⟨_, ids, h, hnd⟩
          exact ⟨ids, h, hnd, by simp⟩
  · intro m ids hd hids hnone
    by_cases hm : m.members.length = 0
    · simp [Tombstone.Unmarshal, hd, hm] at hnone
    · have hres : x.Unmarshal k decode data = (⟨(tombstoneMembersLoop k m.members []).1⟩,
          (tombstoneMembersLoop k m.members []).2) := by
        simp only [Tombstone.Unmarshal, hd, if_neg hm]
      rw [hres] at hnone ⊢
      have hl := congrArg List.length hids
      simp only [List.length_map] at hl
      have := (tombstoneMembersLoop_spec k m.members []).2 ids hids hnone
      simp only [Tombstone.Members]
      rw [this]
      exact ⟨rfl, hl.symm⟩
  · intro hd
    simp [Tombstone.Unmarshal, hd]
  · intro m hd hm
    simp [Tombstone.Unmarshal, hd, hm]


/-- C37 (what the code does): for every storage group with at least one member,
`obj.WriteStorageGroup(sg)` returns and sets the payload length header to the length of
the written payload, but the object then reports `IsStorageGroup() = false` and
`IsTombstone() = true`: the function stores the tombstone type. `WriteTombstone` makes
`IsTombstone()` true and `WriteLock` makes `IsLock()` true. -/
theorem C37_write_storage_group_type {ID Sig : Type} (env : ObjectEnv ID Sig)
    (encode : StorageGroupMsg → List Nat) (x : Object ID Sig) (sg : StorageGroup ID)
    (hne : sg.Members ≠ []) :
    (∃ y, x.WriteStorageGroup env encode sg = .ok y ∧
      y.IsStorageGroup = false ∧ y.IsTombstone = true ∧
      y.PayloadSize = y.payload.length) ∧
    (∀ (encodeT : TombstoneMsg → List Nat) (t : Tombstone ID), t.Members ≠ [] →
      ∃ y, x.WriteTombstone env encodeT t = .ok y ∧ y.IsTombstone = true ∧
        y.PayloadSize = y.payload.length) ∧
    (∀ (encodeL : LockMsg → List Nat) (l : Lock ID), l.Members ≠ [] →
      ∃ y, x.WriteLock env encodeL l = .ok y ∧ y.IsLock = true ∧
        y.PayloadSize = y.payload.length) := by
  refine ⟨?_, ?_, ?_⟩
  · have hlen : ¬ sg.Members.length = 0 := fun h => hne (List.length_eq_zero.mp h)
    have hw : x.WriteStorageGroup env encode sg = .ok { x with
        hdr := x.hdr.setFields (fun f =>
          { f with typ := TypeTombstone, payloadLen := (sg.Marshal env.oid encode).length })
        payload := sg.Marshal env.oid encode } := by
      rw [Object.WriteStorageGroup, if_neg hlen]
    refine ⟨_, hw, ?_, ?_, ?_⟩
    · simp [Object.IsStorageGroup, ObjectHeader.fields_setFields, TypeTombstone,
        TypeStorageGroup]
    · simp [Object.IsTombstone, ObjectHeader.fields_setFields]
    · simp [Object.PayloadSize, ObjectHeader.fields_setFields]
  · intro encodeT t ht
    have hlen : ¬ t.Members.length = 0 := fun h => ht (List.length_eq_zero.mp h)
    have hw : x.WriteTombstone env encodeT t = .ok { x with
        hdr := x.hdr.setFields (fun f =>
          { f with typ := TypeTombstone, payloadLen := (t.Marshal env.oid encodeT).length })
        payload := t.Marshal env.oid encodeT } := by
      rw [Object.WriteTombstone, if_neg hlen]
    refine ⟨_, hw, ?_, ?_⟩
    · simp [Object.IsTombstone, ObjectHeader.fields_setFields]
    · simp [Object.PayloadSize, ObjectHeader.fields_setFields]
  · intro encodeL l hl
    have hlen : ¬ l.Members.length = 0 := fun h => hl (List.length_eq_zero.mp h)
    have hw : x.WriteLock env encodeL l = .ok { x with
        hdr := x.hdr.setFields (fun f =>
          { f with typ := TypeLock, payloadLen := (l.Marshal env.oid encodeL).length })
        payload := l.Marshal env.oid encodeL } := by
      rw [Object.WriteLock, if_neg hlen]
    refine ⟨_, hw, ?_, ?_⟩
    · simp [Object.IsLock, ObjectHeader.fields_setFields]
    · simp [Object.PayloadSize, ObjectHeader.fields_setFields]

/-- C37 (witness): the storage group with the single member `oidA`, written to the zero
object. -/
theorem C37_write_storage_group_type_witness :
    (⟨0, [], [oidA]⟩ : StorageGroup _).Members ≠ [] ∧
    ∃ y, (Object.zero sampleEnv).WriteStorageGroup sampleEnv sampleStorageGroupEncode
        ⟨0, [], [oidA]⟩ = .ok y ∧
      y.IsStorageGroup = false ∧ y.IsTombstone = true := by
  refine ⟨by simp [StorageGroup.Members], ?_⟩
  obtain ⟨y, h1, h2, h3, _⟩ := (C37_write_storage_group_type sampleEnv
    sampleStorageGroupEncode (Object.zero sampleEnv) ⟨0, [], [oidA]⟩
    (by simp [StorageGroup.Members])).1
  exact ⟨y, h1, h2, h3⟩

/-- C38 (what the code does): for every split information and object identifier `id`,
after `SetLinker(id)` the call `Linker()` panics and returns nothing, whatever the
identifier codec does; `LastChild()` returns `id` after `SetLastChild(id)` when the codec
reads back what it has written; on a split information without linker `Linker()`
returns the zero identifier. -/
theorem C38_linker_panics {ID : Type} (k : OIDCodec ID) (x : SplitInfo) (id : ID) :
    (∃ msg, (x.SetLinker k id).Linker k = .error msg) ∧
    (∀ res, (x.SetLinker k id).Linker k ≠ .ok res) ∧
    (k.RoundTrips → (x.SetLinker k id).Linker k
      = .error "unexpected error in linker resolving: <nil>") ∧
    (k.RoundTrips → (x.SetLastChild k id).LastChild k = .ok id) ∧
    (x.m.link = none → x.Linker k = .ok k.zero) := by
  have hcases : (x.SetLinker k id).Linker k = .error "unexpected error in linker resolving" ∨
      (x.SetLinker k id).Linker k = .error "unexpected error in linker resolving: <nil>" := by
    simp only [SplitInfo.Linker, SplitInfo.SetLinker]
    cases k.read (k.write id) with
    | none => exact Or.inl rfl
    | some r => exact Or.inr rfl
  refine ⟨?_, ?_, ?_, ?_, ?_⟩
  · rcases hcases with h | h
    · exact ⟨_, h⟩
    · exact ⟨_, h⟩
  · intro res
    rcases hcases with h | h <;> rw [h] <;> simp
  · intro hk
    simp [SplitInfo.Linker, SplitInfo.SetLinker, hk id]
  · intro hk
    simp [SplitInfo.LastChild, SplitInfo.SetLastChild, hk id]
  · intro h
    simp [SplitInfo.Linker, h]

/-- C38 (witness): `Linker()` after `SetLinker(oidA)` on the zero split information. -/
theorem C38_linker_panics_witness :
    ((⟨⟨[], none, none⟩⟩ : SplitInfo).SetLinker sampleOIDCodec oidA).Linker sampleOIDCodec
      = .error "unexpected error in linker resolving: <nil>" :=
  (C38_linker_panics sampleOIDCodec ⟨⟨[], none, none⟩⟩ oidA).2.2.1 sampleOIDCodec_roundTrips

/-- C39 (what the code does): `AssertOwner` switches on the state of the ID condition.
On the zero filter restricted by `ByOwner(u)` it returns `true` for every user `v`,
also one different from `u`; on the zero filter restricted by `ByID(i)` only, without
owner condition, it returns `true` only for a user whose encoding is the empty string,
the owner string of the filter; only after both `ByID` and `ByOwner(u)` does it
compare the encoding of `v` with that of `u`. -/
theorem C39_assert_owner_reads_id_state {ID User : Type} (encID : ID → String)
    (encUser : User → String) (x : SearchFilter) (i : ID) (u v : User) :
    x.AssertOwner encUser v = assertSwitch x.idState x.owner (encUser v) ∧
    (SearchFilter.zero.ByOwner encUser u).AssertOwner encUser v = .ok true ∧
    (SearchFilter.zero.ByID encID i).CustomOwner = false ∧
    (SearchFilter.zero.ByID encID i).AssertOwner encUser v
      = .ok (decide ("" = encUser v)) ∧
    ((SearchFilter.zero.ByID encID i).ByOwner encUser u).AssertOwner encUser v
      = .ok (decide (encUser u = encUser v)) ∧
    (SearchFilter.zero.ByOwner encUser u).AssertID encID i = .ok true :=
  ⟨rfl, rfl, rfl, rfl, rfl, rfl⟩

/-- C39 (witness): with users encoded as themselves, the filter of `ByOwner("alice")`
asserts the owner `"bob"`, and the filter of `ByID` without owner condition refuses
him. -/
theorem C39_assert_owner_reads_id_state_witness :
    (SearchFilter.zero.ByOwner (fun s : String => s) "alice").AssertOwner
      (fun s : String => s) "bob" = .ok true ∧
    (SearchFilter.zero.ByID (fun s : String => s) "id").AssertOwner
      (fun s : String => s) "bob" = .ok false := by
  have h := C39_assert_owner_reads_id_state (fun s : String => s) (fun s : String => s)
    SearchFilter.zero "id" "alice" "bob"
  refine ⟨h.2.1, ?_⟩
  rw [h.2.2.2.1]
  rfl

/-- Lenient `readFromV2` panics exactly on the messages without header whose identifier
and signature, if present, are well-formed. -/
theorem readFromV2_lenient_panics_iff {ID Sig : Type} [DecidableEq ID]
    (env : ObjectEnv ID Sig) (x : Object ID Sig) (m : ObjectMsg) :
    x.readFromV2 env m false = .error "invalid memory address or nil pointer dereference" ↔
      m.header = none ∧ (∀ i, m.objectID = some i → (env.oid.read i).isSome = true) ∧
        (∀ s, m.signature = some s → (env.sig.read s).isSome = true) := by
  obtain ⟨objectID, header, signature, payload⟩ := m
  cases objectID with
  | none =>
    cases header with
    | none =>
      cases signature with
      | none => simp [Object.readFromV2]
      | some s =>
        cases hs : env.sig.read s <;> simp [Object.readFromV2, hs]
    | some h =>
      cases hc : checkHeader env false h with
      | error e => simp [Object.readFromV2, hc]
      | ok u =>
        cases signature with
        | none => simp [Object.readFromV2, hc]
        | some s =>
          cases hs : env.sig.read s <;> simp [Object.readFromV2, hc, hs]
  | some i =>
    cases hi : env.oid.read i with
    | none => simp [Object.readFromV2, hi]
    | some id =>
      cases header with
      | none =>
        cases signature with
        | none => simp [Object.readFromV2, hi]
        | some s =>
          cases hs : env.sig.read s <;> simp [Object.readFromV2, hi, hs]
      | some h =>
        cases hc : checkHeader env false h with
        | error e => simp [Object.readFromV2, hi, hc]
        | ok u =>
          cases signature with
          | none => simp [Object.readFromV2, hi, hc]
          | some s =>
            cases hs : env.sig.read s <;> simp [Object.readFromV2, hi, hc, hs]

/-- C40 (what the code does): lenient `readFromV2` dereferences the missing header. On a
message without header whose identifier and signature, if present, are well-formed, it
panics, and so does `Object.Unmarshal` on data that decodes to such a message; on every
other message it returns. Strict `ReadFromV2` returns the error "missing header"
instead. -/
theorem C40_lenient_decoding_panics {ID Sig : Type} [DecidableEq ID] (env : ObjectEnv ID Sig)
    (x : Object ID Sig) (m : ObjectMsg) :
    ((∃ msg, x.readFromV2 env m false = .error msg) ↔
      m.header = none ∧ (∀ i, m.objectID = some i → (env.oid.read i).isSome = true) ∧
        (∀ s, m.signature = some s → (env.sig.read s).isSome = true)) ∧
    (∀ (decode : List Nat → Option ObjectMsg) (data : List Nat), decode data = some m →
      m.header = none → (∀ i, m.objectID = some i → (env.oid.read i).isSome = true) →
      (∀ s, m.signature = some s → (env.sig.read s).isSome = true) →
      x.Unmarshal env decode data
        = .error "invalid memory address or nil pointer dereference") ∧
    (m.header = none → (∀ i, m.objectID = some i → (env.oid.read i).isSome = true) →
      ∃ y, x.ReadFromV2 env m = .ok (y, some .missingHeader)) := by
  have hiff := readFromV2_lenient_panics_iff env x m
  refine ⟨?_, ?_, ?_⟩
  · constructor
    · rintro ⟨msg, h⟩
      apply hiff.mp
      rw [h]
      congr 1
      revert h
      obtain ⟨objectID, header, signature, payload⟩ := m
      simp only [Object.readFromV2]
      intro h
      split at h
      · cases h
      · split at h
        · cases h
        · split at h
          · cases h
          · split at h
            · cases h; rfl
            · cases h
    · intro h
      exact ⟨_, hiff.mpr h⟩
  · intro decode data hd hh hid hsig
    simp only [Object.Unmarshal, hd, hiff.mpr ⟨hh, hid, hsig⟩]
  · intro hh hid
    obtain ⟨objectID, header, signature, payload⟩ := m
    simp only at hh hid
    subst hh
    cases objectID with
    | none => exact ⟨x, by simp [Object.ReadFromV2, Object.readFromV2]⟩
    | some i =>
      cases hi : env.oid.read i with
      | none => simp [hi] at hid
      | some id =>
        exact ⟨{ x with id := id }, by simp [Object.ReadFromV2, Object.readFromV2, hi]⟩

/-- C40 (witness): `Unmarshal` of the empty data, which decodes to the empty object
message, panics. -/
theorem C40_lenient_decoding_panics_witness :
    sampleObjectDecode [] = some ⟨none, none, none, []⟩ ∧
    (Object.zero sampleEnv).Unmarshal sampleEnv sampleObjectDecode []
      = .error "invalid memory address or nil pointer dereference" :=
  ⟨rfl, (C40_lenient_decoding_panics sampleEnv (Object.zero sampleEnv)
    ⟨none, none, none, []⟩).2.1 sampleObjectDecode [] rfl rfl (by simp) (by simp)⟩

end Eacl
